import Mathlib

/-!
# GraphJin query compiler: QCode to SQL

A shallow embedding of `core/internal/psql/query.go` (the SQL emitter).

* The output buffer `bytes.Buffer` is a `List Char` that is only ever appended to.
* `Metadata` is passed explicitly together with the buffer in a `Ctx`.
* `map[string]T` is an association list read with `List.lookup`.
* `int32` values are `Int`; `ID + closeBlock` wraps at 32 bits.
* Loops that Go writes as `for { ... }` over a stack take a fuel argument, and an
  index out of range (a Go panic) or exhausted fuel is `none`.
* Functions of the package that live in other files of the repository
  (`renderRel`, `renderColumns`, `renderBaseColumns`, `renderJSONFields`,
  `renderVar`, `colWithTableID`, `compileMutation`) are fields of `Env`.
-/

namespace GraphJin

/-! ## sdata: schema types -/

/-- Relationship kinds, `sdata.RelType`. -/
inductive RelType where
  | RelNone
  | RelOneToOne
  | RelOneToMany
  | RelOneToManyThrough
  | RelRecursive
  | RelEmbedded
  | RelRemote
deriving DecidableEq, Repr

/-- Column descriptor, `sdata.DBColumn` (the fields the emitter reads). -/
structure DBColumn where
  Name : String
  Typ : String
  Table : String
  Array : Bool
deriving DecidableEq, Repr

/-- Table descriptor, `sdata.DBTableInfo`; `DBVersion` stands for `ti.Schema.DBVersion()`. -/
structure DBTableInfo where
  Name : String
  Typ : String
  Columns : List DBColumn
  PrimaryCol : DBColumn
  TSVCol : DBColumn
  DBVersion : Int
deriving DecidableEq, Repr

/-- Left end of a relationship, `rel.Left`. -/
structure DBRelLeft where
  Col : DBColumn
  Ti : DBTableInfo
deriving DecidableEq, Repr

/-- Right end of a relationship, `rel.Right`. -/
structure DBRelRight where
  Col : DBColumn
  VTable : String
deriving DecidableEq, Repr

/-- Junction table of a many-to-many relationship, `rel.Through`. -/
structure DBRelThrough where
  ColL : DBColumn
deriving DecidableEq, Repr

/-- Relationship descriptor, `sdata.DBRel`. -/
structure DBRel where
  Typ : RelType
  Left : DBRelLeft
  Right : DBRelRight
  Through : DBRelThrough
deriving DecidableEq, Repr

/-! ## qcode: the intermediate representation -/

/-- Operation type, `qcode.QType`. -/
inductive QType where
  | QTQuery
  | QTSubscription
  | QTMutation
  | QTInsert
  | QTUpdate
  | QTUpsert
  | QTDelete
deriving DecidableEq, Repr

/-- Selection type, `qcode.SelType`. -/
inductive SelType where
  | SelTypeTable
  | SelTypeUnion
  | SelTypeMember
deriving DecidableEq, Repr

/-- Skip kinds, `qcode.SkipType`; `SkipTypeOther` is any kind besides the two the emitter names. -/
inductive SkipType where
  | SkipTypeNone
  | SkipTypeUserNeeded
  | SkipTypeOther
deriving DecidableEq, Repr

/-- Sort direction, `qcode.Order`. -/
inductive Order where
  | OrderAsc
  | OrderDesc
  | OrderAscNullsFirst
  | OrderDescNullsFirst
  | OrderAscNullsLast
  | OrderDescNullsLast
deriving DecidableEq, Repr

/-- Predicate operators, `qcode.ExpOp`. -/
inductive ExpOp where
  | OpNop
  | OpAnd
  | OpOr
  | OpNot
  | OpFalse
  | OpEquals
  | OpNotEquals
  | OpNotDistinct
  | OpDistinct
  | OpGreaterOrEquals
  | OpLesserOrEquals
  | OpGreaterThan
  | OpLesserThan
  | OpIn
  | OpNotIn
  | OpLike
  | OpNotLike
  | OpILike
  | OpNotILike
  | OpSimilar
  | OpNotSimilar
  | OpRegex
  | OpNotRegex
  | OpIRegex
  | OpNotIRegex
  | OpContains
  | OpContainedIn
  | OpHasKey
  | OpHasKeyAny
  | OpHasKeyAll
  | OpEqualsTrue
  | OpNotEqualsTrue
  | OpIsNull
  | OpTsQuery
deriving DecidableEq, Repr

/-- Value kinds, `qcode.ValType`. -/
inductive ValType where
  | ValStr
  | ValNum
  | ValBool
  | ValList
  | ValVar
  | ValRef
deriving DecidableEq, Repr

/-- Predicate node, `qcode.Exp`. -/
inductive Exp where
  | mk (Op : ExpOp) (Col : DBColumn) (Table : String) (Typ : ValType) (Val : String)
      (ListType : ValType) (ListVal : List String) (Rels : List DBRel) (Children : List Exp)

namespace Exp

/-- Field `Op`. -/
def Op : Exp → ExpOp
  | mk op _ _ _ _ _ _ _ _ => op

/-- Field `Col`. -/
def Col : Exp → DBColumn
  | mk _ col _ _ _ _ _ _ _ => col

/-- Field `Table`. -/
def Table : Exp → String
  | mk _ _ t _ _ _ _ _ _ => t

/-- Field `Type`. -/
def Typ : Exp → ValType
  | mk _ _ _ ty _ _ _ _ _ => ty

/-- Field `Val`. -/
def Val : Exp → String
  | mk _ _ _ _ v _ _ _ _ => v

/-- Field `ListType`. -/
def ListType : Exp → ValType
  | mk _ _ _ _ _ lt _ _ _ => lt

/-- Field `ListVal`. -/
def ListVal : Exp → List String
  | mk _ _ _ _ _ _ lv _ _ => lv

/-- Field `Rels`. -/
def Rels : Exp → List DBRel
  | mk _ _ _ _ _ _ _ rels _ => rels

/-- Field `Children`. -/
def Children : Exp → List Exp
  | mk _ _ _ _ _ _ _ _ cs => cs

end Exp

/-- Entry of `sel.OrderBy`. -/
structure OrderBy where
  Col : DBColumn
  Order : Order
deriving DecidableEq, Repr

/-- Entry of `sel.Cols`. -/
structure Column where
  Col : DBColumn
deriving DecidableEq, Repr

/-- Pagination settings, `qcode.Paging`. -/
structure Paging where
  Limit : Int
  Offset : Int
  LimitVar : String
  OffsetVar : String
  NoLimit : Bool
  Cursor : Bool
deriving DecidableEq, Repr

/-- Named arguments of a selection; the emitter only hands them to `renderRel`. -/
structure ArgMap where
  entries : List (String × String)
deriving DecidableEq, Repr

/-- One selection, `qcode.Select`; `Where` is `sel.Where.Exp`, `none` for a nil pointer. -/
structure Select where
  ID : Int
  ParentID : Int
  UParentID : Int
  Typ : SelType
  FieldName : String
  Table : String
  Ti : DBTableInfo
  Rel : DBRel
  Singular : Bool
  Cols : List Column
  OrderBy : List OrderBy
  DistinctOn : List DBColumn
  GroupCols : Bool
  Where : Option Exp
  Paging : Paging
  Children : List Int
  ArgMap : ArgMap
  SkipRender : SkipType

/-- Compiled query, `qcode.QCode`; `SchemaType` stands for `qc.Schema.Type()`. -/
structure QCode where
  Typ : QType
  SType : QType
  SchemaType : String
  Roots : List Int
  Selects : List Select

/-! ## psql: metadata, buffer and context -/

/-- Bind parameter, `psql.Param`. -/
structure Param where
  Name : String
  Typ : String
  IsArray : Bool
deriving DecidableEq, Repr

/-- Compile metadata, `psql.Metadata`. -/
structure Metadata where
  ct : String
  poll : Bool
  params : List Param
  pindex : List (String × Nat)
deriving DecidableEq, Repr

/-- The zero value `var md Metadata`. -/
def Metadata.zero : Metadata :=
  { ct := "", poll := false, params := [], pindex := [] }

/-- The mutable part of `compilerContext`: the buffer `w` and the metadata `md`. -/
structure Ctx where
  w : List Char
  md : Metadata
deriving DecidableEq, Repr

/-- Method `c.w.WriteString(s)`. -/
def Ctx.WriteString (c : Ctx) (s : String) : Ctx :=
  { c with w := c.w ++ s.toList }

/-- The compiler, `psql.Compiler`: the compile-time variable map. -/
structure Compiler where
  vars : List (String × String)

/-- What a helper defined elsewhere in the package does to the context: it appends
text to the buffer and may update the metadata. -/
abbrev Helper := Metadata → String × Metadata

/-- Runs a helper on a context. -/
def Ctx.run (c : Ctx) (h : Helper) : Ctx :=
  { w := c.w ++ (h c.md).1.toList, md := (h c.md).2 }

/-- Functions of the package whose bodies are in other files. -/
structure Env where
  renderRel : DBTableInfo → DBRel → Int → Option ArgMap → Helper
  renderColumns : Select → Helper
  renderBaseColumns : Select → Helper
  renderJSONFields : Select → Helper
  renderVar : String → Helper
  colWithTableID : String → Int → String → String
  compileMutation : QCode → Helper

/-- The constant `closeBlock`. -/
def closeBlock : Int := 500

/-- Wraps an integer into the `int32` range. -/
def wrap32 (x : Int) : Int :=
  (x + 2147483648) % 4294967296 - 2147483648

/-- Modelled from the spec: `int32String` is not in the source files; the spec shows ids
written in decimal (`__sj_0`, `LIMIT <n>`). -/
def int32String (val : Int) (c : Ctx) : Ctx :=
  c.WriteString (toString val)

/-- Modelled from the spec: `colWithTable` is not in the source files; the spec writes a
column reference as `<table>.<col>`. -/
def colWithTable (table col : String) (c : Ctx) : Ctx :=
  ((c.WriteString table).WriteString ".").WriteString col

/-- Modelled from the spec: `quoted` is not in the source files; the spec shows quoted
identifiers in double quotes (`WITH RECURSIVE "replies"`, `JOIN "user_tags"`). -/
def quoted (identifier : String) (c : Ctx) : Ctx :=
  ((c.WriteString "\"").WriteString identifier).WriteString "\""

/-- Modelled from the spec: `squoted` is not in the source files; the spec says literals are
single-quoted. -/
def squoted (identifier : String) (c : Ctx) : Ctx :=
  ((c.WriteString "'").WriteString identifier).WriteString "'"

/-- Modelled from the spec: `aliasWithID` is not in the source files; the spec names the
aliases `__sj_<id>` and `__sr_<id>` and introduces an alias with ` AS `. -/
def aliasWithID (name : String) (id : Int) (c : Ctx) : Ctx :=
  int32String id (((c.WriteString " AS ").WriteString name).WriteString "_")

/-- Modelled from the spec: `renderParam` is not in the source files. The spec (4.4): it
appends a positional marker (PostgreSQL `$N`, MySQL `?`) and ensures `p.Name` is present in
`md.params`; a first sighting appends to `params` and sets `pindex[name] = len(params)`, a
later sighting reuses the position. -/
def renderParam (p : Param) (c : Ctx) : Ctx :=
  let r : Metadata × Nat :=
    match c.md.pindex.lookup p.Name with
    | some id => (c.md, id)
    | none =>
      let params := c.md.params ++ [p]
      ({ c.md with params := params, pindex := c.md.pindex ++ [(p.Name, params.length)] },
        params.length)
  let c : Ctx := { c with md := r.1 }
  if c.md.ct = "mysql" then c.WriteString "?"
  else (c.WriteString "$").WriteString (toString r.2)

/-! ## Clauses of the base select -/

/-- Method `renderLimit`: the LIMIT switch followed by the OFFSET switch. -/
def renderLimit (sel : Select) (c : Ctx) : Ctx :=
  let c : Ctx :=
    if sel.Paging.NoLimit then c
    else if sel.Singular then c.WriteString " LIMIT 1"
    else if sel.Paging.LimitVar ≠ "" then
      let c := c.WriteString " LIMIT LEAST("
      let c := renderParam { Name := sel.Paging.LimitVar, Typ := "integer", IsArray := false } c
      let c := c.WriteString ", "
      let c := int32String sel.Paging.Limit c
      c.WriteString ")"
    else
      let c := c.WriteString " LIMIT "
      int32String sel.Paging.Limit c
  if sel.Paging.OffsetVar ≠ "" then
    let c := c.WriteString " OFFSET "
    renderParam { Name := sel.Paging.OffsetVar, Typ := "integer", IsArray := false } c
  else if sel.Paging.Offset ≠ 0 then
    let c := c.WriteString " OFFSET "
    int32String sel.Paging.Offset c
  else c

/-- Method `renderGroupBy`. -/
def renderGroupBy (sel : Select) (c : Ctx) : Ctx :=
  if !sel.GroupCols then c
  else
    sel.Cols.enum.foldl (fun c p =>
      let c := if p.1 ≠ 0 then c.WriteString ", " else c
      colWithTable sel.Table p.2.Col.Name c) (c.WriteString " GROUP BY ")

/-- Method `renderOrderBy`. -/
def renderOrderBy (sel : Select) (c : Ctx) : Ctx :=
  if sel.OrderBy.length = 0 then c
  else
    sel.OrderBy.enum.foldl (fun c p =>
      let c := if p.1 ≠ 0 then c.WriteString ", " else c
      let c := colWithTable sel.Table p.2.Col.Name c
      match p.2.Order with
      | .OrderAsc => c.WriteString " ASC"
      | .OrderDesc => c.WriteString " DESC"
      | .OrderAscNullsFirst => c.WriteString " ASC NULLS FIRST"
      | .OrderDescNullsFirst => c.WriteString " DESC NULLLS FIRST"
      | .OrderAscNullsLast => c.WriteString " ASC NULLS LAST"
      | .OrderDescNullsLast => c.WriteString " DESC NULLS LAST") (c.WriteString " ORDER BY ")

/-- Method `renderDistinctOn`. -/
def renderDistinctOn (sel : Select) (c : Ctx) : Ctx :=
  if sel.DistinctOn.length = 0 then c
  else
    let c := sel.DistinctOn.enum.foldl (fun c p =>
      let c := if p.1 ≠ 0 then c.WriteString ", " else c
      colWithTable sel.Table p.2.Name c) (c.WriteString "DISTINCT ON (")
    c.WriteString ") "

/-- Method `renderJoin`. -/
def renderJoin (rel : DBRel) (c : Ctx) : Ctx :=
  let c := c.WriteString " LEFT OUTER JOIN \""
  let c := c.WriteString rel.Through.ColL.Table
  let c := c.WriteString "\" ON (("
  let c : Ctx :=
    if !rel.Left.Col.Array && rel.Through.ColL.Array then
      let c := colWithTable rel.Left.Col.Table rel.Left.Col.Name c
      let c := c.WriteString ") = any ("
      colWithTable rel.Through.ColL.Table rel.Through.ColL.Name c
    else if rel.Left.Col.Array && !rel.Through.ColL.Array then
      let c := colWithTable rel.Through.ColL.Table rel.Through.ColL.Name c
      let c := c.WriteString ") = any ("
      colWithTable rel.Left.Col.Table rel.Left.Col.Name c
    else
      let c := colWithTable rel.Through.ColL.Table rel.Through.ColL.Name c
      let c := c.WriteString ") = ("
      colWithTable rel.Left.Col.Table rel.Left.Col.Name c
  c.WriteString "))"

/-- Method `renderJoinTables`. -/
def renderJoinTables (rel : DBRel) (c : Ctx) : Ctx :=
  if rel.Typ = .RelOneToManyThrough then renderJoin rel c else c

/-- Method `renderFrom`. -/
def renderFrom (sel : Select) (c : Ctx) : Ctx :=
  let c := c.WriteString " FROM "
  let c : Ctx :=
    match sel.Rel.Typ with
    | .RelEmbedded =>
      let c := c.WriteString "\""
      let c := c.WriteString sel.Rel.Left.Col.Table
      let c := c.WriteString "\", "
      let c := c.WriteString sel.Ti.Typ
      let c := c.WriteString "_to_recordset("
      let c := colWithTable sel.Rel.Left.Col.Table sel.Rel.Right.Col.Name c
      let c := c.WriteString ") AS "
      let c := quoted sel.Table c
      let c := c.WriteString "("
      let c := sel.Ti.Columns.enum.foldl (fun c p =>
        let c := if p.1 ≠ 0 then c.WriteString ", " else c
        let c := c.WriteString p.2.Name
        let c := c.WriteString " "
        c.WriteString p.2.Typ) c
      c.WriteString ")"
    | .RelRecursive =>
      let c := c.WriteString "(SELECT * FROM "
      let c := quoted sel.Rel.Right.VTable c
      let c := c.WriteString " OFFSET 1) "
      quoted sel.Table c
    | _ => quoted sel.Table c
  if sel.Paging.Cursor then c.WriteString ", __cur" else c

/-- Method `renderCursorCTE`. -/
def renderCursorCTE (sel : Select) (c : Ctx) : Ctx :=
  if !sel.Paging.Cursor then c
  else
    let c := c.WriteString "WITH __cur AS (SELECT "
    if c.md.ct = "mysql" then
      let c := sel.OrderBy.enum.foldl (fun c p =>
        let c := if p.1 ≠ 0 then c.WriteString ", " else c
        let c := c.WriteString "SUBSTRING_INDEX(SUBSTRING_INDEX(a.column_0, ',', "
        let c := int32String (p.1 + 1 : Nat) c
        let c := c.WriteString "), ',', -1) AS "
        quoted p.2.Col.Name c) c
      let c := c.WriteString " FROM (VALUES ROW("
      let c := renderParam { Name := "cursor", Typ := "text", IsArray := false } c
      c.WriteString ")) as a) "
    else
      let c := sel.OrderBy.enum.foldl (fun c p =>
        let c := if p.1 ≠ 0 then c.WriteString ", " else c
        let c := c.WriteString "a["
        let c := int32String (p.1 + 1 : Nat) c
        let c := c.WriteString "] :: "
        let c := c.WriteString p.2.Col.Typ
        let c := c.WriteString " as "
        quoted p.2.Col.Name c) c
      let c := c.WriteString " FROM string_to_array("
      let c := renderParam { Name := "cursor", Typ := "text", IsArray := false } c
      c.WriteString ", ',') as a) "

/-! ## Predicates -/

/-- Method `renderList`. -/
def renderList (ex : Exp) (c : Ctx) : Ctx :=
  let c := c.WriteString " (ARRAY["
  let c := ex.ListVal.enum.foldl (fun c p =>
    let c := if p.1 ≠ 0 then c.WriteString ", " else c
    match ex.ListType with
    | .ValBool => c.WriteString p.2
    | .ValNum => c.WriteString p.2
    | .ValStr => ((c.WriteString "'").WriteString p.2).WriteString "'"
    | _ => c) c
  c.WriteString "])"

/-- Method `renderVal`; `vars[ex.Val]` is `vars.lookup`, `val[4:]` is `val.drop 4`. -/
def renderVal (env : Env) (ex : Exp) (vars : List (String × String)) (c : Ctx) : Ctx :=
  let c := c.WriteString " "
  let cast (c : Ctx) : Ctx :=
    if c.md.ct ≠ "mysql" then (c.WriteString " :: ").WriteString ex.Col.Typ else c
  match ex.Typ with
  | .ValVar =>
    match vars.lookup ex.Val with
    | some val =>
      if val.startsWith "sql:" then
        let c := c.WriteString "("
        let c := c.run (env.renderVar (val.drop 4))
        let c := c.WriteString ")"
        if ex.Op = .OpIn ∨ ex.Op = .OpNotIn then c else cast c
      else cast (squoted val c)
    | none =>
      if ex.Op = .OpIn ∨ ex.Op = .OpNotIn then
        let c := c.WriteString "(ARRAY(SELECT json_array_elements_text("
        let c := renderParam { Name := ex.Val, Typ := ex.Col.Typ, IsArray := true } c
        let c := c.WriteString "))"
        let c := c.WriteString " :: "
        let c := c.WriteString ex.Col.Typ
        c.WriteString "[])"
      else cast (renderParam { Name := ex.Val, Typ := ex.Col.Typ, IsArray := false } c)
  | .ValRef => cast (colWithTable ex.Table ex.Col.Name c)
  | _ => cast (squoted ex.Val c)

/-- Method `renderOp`, the opening block: `((<table>.<col>) ` when `ex.Col.Name` is set. -/
def renderOpColumn (ti : DBTableInfo) (ex : Exp) (c : Ctx) : Ctx :=
  if ex.Col.Name ≠ "" then
    let c := c.WriteString "(("
    let c :=
      if ex.Typ = .ValRef ∧ ex.Op = .OpIsNull then colWithTable ex.Table ex.Col.Name c
      else colWithTable ti.Name ex.Col.Name c
    c.WriteString ") "
  else c

/-- Method `renderOp`, the closing block: the value switch and the final `)`. -/
def renderOpValue (env : Env) (co : Compiler) (ex : Exp) (c : Ctx) : Ctx :=
  let c :=
    match ex.Typ with
    | .ValList => renderList ex c
    | _ => renderVal env ex co.vars c
  c.WriteString ")"

/-- Method `renderOp`; `strings.EqualFold(ex.Val, "true")` is a comparison after lower-casing,
and the `schema` argument, which the body never reads, is left out. An operator with no case
in the switch writes no keyword and goes on to the value. -/
def renderOp (env : Env) (co : Compiler) (ti : DBTableInfo) (ex : Exp) (c : Ctx) : Ctx :=
  if ex.Op = .OpNop then c
  else
    let c := renderOpColumn ti ex c
    match ex.Op with
    | .OpEquals => renderOpValue env co ex (c.WriteString "=")
    | .OpNotEquals => renderOpValue env co ex (c.WriteString "!=")
    | .OpNotDistinct => renderOpValue env co ex (c.WriteString "IS NOT DISTINCT FROM")
    | .OpDistinct => renderOpValue env co ex (c.WriteString "IS DISTINCT FROM")
    | .OpGreaterOrEquals => renderOpValue env co ex (c.WriteString ">=")
    | .OpLesserOrEquals => renderOpValue env co ex (c.WriteString "<=")
    | .OpGreaterThan => renderOpValue env co ex (c.WriteString ">")
    | .OpLesserThan => renderOpValue env co ex (c.WriteString "<")
    | .OpIn => renderOpValue env co ex (c.WriteString "= ANY")
    | .OpNotIn => renderOpValue env co ex (c.WriteString "!= ALL")
    | .OpLike => renderOpValue env co ex (c.WriteString "LIKE")
    | .OpNotLike => renderOpValue env co ex (c.WriteString "NOT LIKE")
    | .OpILike => renderOpValue env co ex (c.WriteString "ILIKE")
    | .OpNotILike => renderOpValue env co ex (c.WriteString "NOT ILIKE")
    | .OpSimilar => renderOpValue env co ex (c.WriteString "SIMILAR TO")
    | .OpNotSimilar => renderOpValue env co ex (c.WriteString "NOT SIMILAR TO")
    | .OpRegex => renderOpValue env co ex (c.WriteString "~")
    | .OpNotRegex => renderOpValue env co ex (c.WriteString "!~")
    | .OpIRegex => renderOpValue env co ex (c.WriteString "~*")
    | .OpNotIRegex => renderOpValue env co ex (c.WriteString "!~*")
    | .OpContains => renderOpValue env co ex (c.WriteString "@>")
    | .OpContainedIn => renderOpValue env co ex (c.WriteString "<@")
    | .OpHasKey => renderOpValue env co ex (c.WriteString "?")
    | .OpHasKeyAny => renderOpValue env co ex (c.WriteString "?|")
    | .OpHasKeyAll => renderOpValue env co ex (c.WriteString "?&")
    | .OpEqualsTrue =>
      let c := c.WriteString "((VALUES(true)) = "
      let c := renderParam { Name := ex.Val, Typ := "boolean", IsArray := false } c
      c.WriteString ")"
    | .OpNotEqualsTrue =>
      let c := c.WriteString "((VALUES(true)) != "
      let c := renderParam { Name := ex.Val, Typ := "boolean", IsArray := false } c
      c.WriteString ")"
    | .OpIsNull =>
      if ex.Val.toLower = "true" then c.WriteString "IS NULL)"
      else c.WriteString "IS NOT NULL)"
    | .OpTsQuery =>
      if c.md.ct = "mysql" then c
      else
        let c := c.WriteString "(("
        let c := colWithTable ti.Name ti.TSVCol.Name c
        let c :=
          if ti.DBVersion ≥ 110000 then c.WriteString ") @@ websearch_to_tsquery("
          else c.WriteString ") @@ to_tsquery("
        let c := renderParam { Name := ex.Val, Typ := "text", IsArray := false } c
        c.WriteString "))"
    | _ => renderOpValue env co ex c

/-- What the stack of `renderExp` holds: a rune (`int32`), an operator tag, or a node. -/
inductive StackItem where
  | rune (val : Char)
  | op (val : ExpOp)
  | exp (val : Exp)

/-- The push loop of `renderExp` for `OpAnd`/`OpOr`: `for i := len-1; i >= 0; i--`, called
with `n = len(val.Children)`; the head of the list is the top of the stack. -/
def pushChildren (op : ExpOp) (children : List Exp) : Nat → List StackItem → List StackItem
  | 0, st => st
  | i + 1, st =>
    match children[i]? with
    | some child =>
      let st := StackItem.exp child :: st
      let st := if i > 0 then StackItem.op op :: st else st
      pushChildren op children i st
    | none => pushChildren op children i st

/-- One iteration of the first loop of `renderNestedWhere`: the hop `rel` at index `i`;
`rexp` is the call back into `renderExp`. -/
def renderNestedHop (env : Env) (rexp : DBTableInfo → Exp → Bool → Ctx → Option Ctx)
    (ti : DBTableInfo) (ex : Exp) (i : Nat) (rel : DBRel) (c : Ctx) : Option Ctx :=
  let c := if i ≠ 0 then c.WriteString " AND " else c
  let c := c.WriteString "EXISTS (SELECT 1 FROM "
  let c := c.WriteString rel.Left.Col.Table
  let c := renderJoinTables rel c
  let c := c.WriteString " WHERE "
  let c := c.run (env.renderRel ti rel (-1) none)
  if i = ex.Rels.length - 1 then
    let c := c.WriteString " AND ("
    (rexp rel.Left.Ti ex true c).map fun c => c.WriteString ")"
  else some c

/-- Method `renderNestedWhere`; `rexp` is the call back into `renderExp`. -/
def renderNestedWhere (env : Env) (rexp : DBTableInfo → Exp → Bool → Ctx → Option Ctx)
    (ti : DBTableInfo) (ex : Exp) (c : Ctx) : Option Ctx :=
  let r := ex.Rels.enum.foldl (fun (oc : Option Ctx) p =>
    oc.bind fun c => renderNestedHop env rexp ti ex p.1 p.2 c) (some c)
  r.map fun c => (List.range ex.Rels.length).foldl (fun c _ => c.WriteString ")") c

/-- The loop of `renderExp` on the stack `st`, one iteration per unit of fuel. -/
def renderExpLoop (env : Env) (co : Compiler) :
    Nat → DBTableInfo → Bool → List StackItem → Ctx → Option Ctx
  | _, _, _, [], c => some c
  | 0, _, _, _ :: _, _ => none
  | fuel + 1, ti, skipNested, intf :: st, c =>
    match intf with
    | .rune val =>
      let c := if val = '(' then c.WriteString "(" else if val = ')' then c.WriteString ")" else c
      renderExpLoop env co fuel ti skipNested st c
    | .op val =>
      let c :=
        match val with
        | .OpAnd => c.WriteString " AND "
        | .OpOr => c.WriteString " OR "
        | .OpNot => c.WriteString "NOT "
        | .OpFalse => c.WriteString "false"
        | _ => c
      renderExpLoop env co fuel ti skipNested st c
    | .exp val =>
      match val.Op with
      | .OpFalse => renderExpLoop env co fuel ti skipNested (.op val.Op :: st) c
      | .OpAnd | .OpOr =>
        let st := StackItem.rune ')' :: st
        let st := pushChildren val.Op val.Children val.Children.length st
        renderExpLoop env co fuel ti skipNested (.rune '(' :: st) c
      | .OpNot =>
        match val.Children with
        | [] => none
        | child :: _ => renderExpLoop env co fuel ti skipNested (.op .OpNot :: .exp child :: st) c
      | _ =>
        if !skipNested && val.Rels.length ≠ 0 then
          (renderNestedWhere env
            (fun ti ex skipNested c => renderExpLoop env co fuel ti skipNested [.exp ex] c)
            ti val c).bind fun c => renderExpLoop env co fuel ti skipNested st c
        else renderExpLoop env co fuel ti skipNested st (renderOp env co ti val c)

/-- Method `renderExp`. -/
def renderExp (env : Env) (co : Compiler) (fuel : Nat) (ti : DBTableInfo) (ex : Exp)
    (skipNested : Bool) (c : Ctx) : Option Ctx :=
  renderExpLoop env co fuel ti skipNested [.exp ex] c

/-- Method `renderWhere`. -/
def renderWhere (env : Env) (co : Compiler) (fuel : Nat) (sel : Select) (c : Ctx) :
    Option Ctx :=
  if sel.Rel.Typ = .RelNone ∧ sel.Where.isNone then some c
  else
    let c := c.WriteString " WHERE ("
    let pid := if sel.Typ = .SelTypeMember then sel.UParentID else sel.ParentID
    let c := c.run (env.renderRel sel.Ti sel.Rel pid (some sel.ArgMap))
    let r : Option Ctx :=
      match sel.Where with
      | some ex =>
        let c := if sel.Rel.Typ ≠ .RelNone then c.WriteString " AND " else c
        renderExp env co fuel sel.Ti ex false c
      | none => some c
    r.map fun c => c.WriteString ")"

/-! ## Selections -/

/-- Indexing `qc.Selects[id]`; `none` when the index is out of range. -/
def QCode.selectAt (qc : QCode) (id : Int) : Option Select :=
  if id < 0 then none else qc.Selects[id.toNat]?

/-- Method `renderBaseSelect`. -/
def renderBaseSelect (env : Env) (co : Compiler) (fuel : Nat) (sel : Select) (c : Ctx) :
    Option Ctx :=
  let c := renderCursorCTE sel c
  let c := c.WriteString "SELECT "
  let c := renderDistinctOn sel c
  let c := c.run (env.renderBaseColumns sel)
  let c := renderFrom sel c
  let c := renderJoinTables sel.Rel c
  let r : Option Ctx :=
    if sel.Rel.Typ ≠ .RelRecursive then renderWhere env co fuel sel c else some c
  r.map fun c =>
    let c := renderGroupBy sel c
    let c := renderOrderBy sel c
    renderLimit sel c

/-- Method `renderRecursiveBaseSelect`. -/
def renderRecursiveBaseSelect (env : Env) (qc : QCode) (sel : Select) (c : Ctx) : Option Ctx :=
  (qc.selectAt sel.ParentID).map fun psel =>
    let c := c.WriteString "(SELECT "
    let c := c.run (env.renderBaseColumns sel)
    let c := renderFrom psel c
    let c := c.WriteString " WHERE ("
    let c := colWithTable sel.Table sel.Ti.PrimaryCol.Name c
    let c := c.WriteString ") = ("
    let c := c.WriteString (env.colWithTableID psel.Table psel.ID sel.Ti.PrimaryCol.Name)
    let c := c.WriteString ") LIMIT 1) UNION ALL "
    let c := c.WriteString "SELECT "
    let c := c.run (env.renderBaseColumns sel)
    let c := renderFrom psel c
    let c := c.WriteString ", "
    let c := quoted sel.Rel.Right.VTable c
    let c := c.WriteString " WHERE "
    c.run (env.renderRel sel.Ti sel.Rel sel.ParentID (some sel.ArgMap))

/-- Method `renderRecursiveCTE`. -/
def renderRecursiveCTE (env : Env) (qc : QCode) (sel : Select) (c : Ctx) : Option Ctx :=
  let c := c.WriteString "WITH RECURSIVE "
  let c := quoted sel.Rel.Right.VTable c
  let c := c.WriteString " AS ("
  (renderRecursiveBaseSelect env qc sel c).map fun c => c.WriteString ") "

/-- Method `renderPluralSelect`. -/
def renderPluralSelect (sel : Select) (c : Ctx) : Ctx :=
  if sel.Singular then c
  else
    let c :=
      if c.md.ct = "mysql" then c.WriteString "SELECT coalesce(json_arrayagg(__sj_"
      else c.WriteString "SELECT coalesce(jsonb_agg(__sj_"
    let c := int32String sel.ID c
    let c := c.WriteString ".json), '[]') as json"
    let c :=
      if sel.Paging.Cursor then
        let c := c.WriteString ", CONCAT_WS(','"
        let c := (List.range sel.OrderBy.length).foldl (fun c i =>
          let c := c.WriteString ", max(__cur_"
          let c := int32String (i : Nat) c
          c.WriteString ")") c
        c.WriteString ") as __cursor"
      else c
    c.WriteString " FROM ("

/-- Method `renderSelect`. -/
def renderSelect (env : Env) (co : Compiler) (fuel : Nat) (sel : Select) (c : Ctx) :
    Option Ctx :=
  let c : Ctx :=
    if c.md.ct = "mysql" then
      let c := c.WriteString "SELECT json_object("
      let c := c.run (env.renderJSONFields sel)
      c.WriteString ") "
    else
      let c := c.WriteString "SELECT to_jsonb(__sr_"
      let c := int32String sel.ID c
      let c := c.WriteString ".*) "
      if sel.Paging.Cursor then
        (List.range sel.OrderBy.length).foldl (fun c i =>
          let c := c.WriteString "- '__cur_"
          let c := int32String (i : Nat) c
          c.WriteString "' ") c
      else c
  let c := c.WriteString "AS json "
  let c : Ctx :=
    if sel.Paging.Cursor then
      (List.range sel.OrderBy.length).foldl (fun c i =>
        let c := c.WriteString ", __cur_"
        let c := int32String (i : Nat) c
        c.WriteString " ") c
    else c
  let c := c.WriteString "FROM (SELECT "
  let c := c.run (env.renderColumns sel)
  let c : Ctx :=
    if sel.Paging.Cursor then
      sel.OrderBy.enum.foldl (fun c p =>
        let c := c.WriteString ", LAST_VALUE("
        let c := c.WriteString (env.colWithTableID sel.Table sel.ID p.2.Col.Name)
        let c := c.WriteString ") OVER() AS __cur_"
        int32String (p.1 : Nat) c) c
    else c
  let c := c.WriteString " FROM ("
  (renderBaseSelect env co fuel sel c).map fun c =>
    let c := c.WriteString ")"
    aliasWithID sel.Table sel.ID c

/-- Method `renderSelectClose`. -/
def renderSelectClose (sel : Select) (c : Ctx) : Ctx :=
  let c := c.WriteString ")"
  let c := aliasWithID "__sr" sel.ID c
  if !sel.Singular then
    let c := c.WriteString ")"
    aliasWithID "__sj" sel.ID c
  else c

/-- Method `renderLateralJoin`. -/
def renderLateralJoin (c : Ctx) : Ctx :=
  c.WriteString " LEFT OUTER JOIN LATERAL ("

/-- Method `renderLateralJoinClose`. -/
def renderLateralJoinClose (sel : Select) (c : Ctx) : Ctx :=
  let c := c.WriteString ")"
  let c := aliasWithID "__sj" sel.ID c
  c.WriteString " ON true"

/-! ## Tree walk and entry points -/

/-- The loop over `sel.Children` in `renderQuery`; the head of the list is the top of the
stack. -/
def pushChildSelects (qc : QCode) : List Int → List Int → Option (List Int)
  | [], st => some st
  | cid :: rest, st =>
    match qc.selectAt cid with
    | none => none
    | some child =>
      if child.SkipRender ≠ .SkipTypeNone then pushChildSelects qc rest st
      else pushChildSelects qc rest (child.ID :: wrap32 (child.ID + closeBlock) :: st)

/-- Method `renderQuery`: the loop on the stack `st`, one iteration per unit of fuel. -/
def renderQuery (env : Env) (co : Compiler) (qc : QCode) (multi : Bool) :
    Nat → List Int → Ctx → Option Ctx
  | _, [], c => some c
  | 0, _ :: _, _ => none
  | fuel + 1, id :: st, c =>
    if id < closeBlock then
      match qc.selectAt id with
      | none => none
      | some sel =>
        let r : Option Ctx :=
          if sel.Typ ≠ .SelTypeUnion then
            let c := if sel.Rel.Typ ≠ .RelNone ∨ multi then renderLateralJoin c else c
            let r : Option Ctx :=
              if sel.Rel.Typ = .RelRecursive then renderRecursiveCTE env qc sel c else some c
            r.bind fun c => renderSelect env co fuel sel (renderPluralSelect sel c)
          else some c
        r.bind fun c =>
          (pushChildSelects qc sel.Children st).bind fun st =>
            renderQuery env co qc multi fuel st c
    else
      match qc.selectAt (id - closeBlock) with
      | none => none
      | some sel =>
        let c : Ctx :=
          if sel.Typ ≠ .SelTypeUnion then
            let c := renderSelectClose sel c
            if sel.Rel.Typ ≠ .RelNone ∨ multi then renderLateralJoinClose sel c else c
          else c
        renderQuery env co qc multi fuel st c

/-- One iteration of the loop over `qc.Roots` in `CompileQuery`: the root `id` at index `i`,
on the buffer and the stack. -/
def renderRoot (qc : QCode) (i : Nat) (id : Int) (c : Ctx) (st : List Int) :
    Option (Ctx × List Int) :=
  let c := if i ≠ 0 then c.WriteString ", " else c
  (qc.selectAt id).map fun sel =>
    if sel.SkipRender = .SkipTypeUserNeeded then
      let c := c.WriteString "'"
      let c := c.WriteString sel.FieldName
      let c := c.WriteString "', NULL"
      let c :=
        if sel.Paging.Cursor then
          let c := c.WriteString ", '"
          let c := c.WriteString sel.FieldName
          c.WriteString "_cursor', NULL"
        else c
      (c, st)
    else
      let c := c.WriteString "'"
      let c := c.WriteString sel.FieldName
      let c := c.WriteString "', __sj_"
      let c := int32String sel.ID c
      let c := c.WriteString ".json"
      let c :=
        if sel.Paging.Cursor then
          let c := c.WriteString ", '"
          let c := c.WriteString sel.FieldName
          let c := c.WriteString "_cursor', "
          let c := c.WriteString "__sj_"
          let c := int32String sel.ID c
          c.WriteString ".__cursor"
        else c
      (c, sel.ID :: wrap32 (sel.ID + closeBlock) :: st)

/-- The loop over `qc.Roots` in `CompileQuery`. -/
def renderRoots (qc : QCode) (c : Ctx) (st : List Int) : Option (Ctx × List Int) :=
  qc.Roots.enum.foldl (fun (acc : Option (Ctx × List Int)) p =>
    acc.bind fun r => renderRoot qc p.1 p.2 r.1 r.2) (some (c, st))

/-- Method `CompileQuery`. -/
def CompileQuery (env : Env) (co : Compiler) (fuel : Nat) (qc : QCode) (c : Ctx) :
    Option Ctx :=
  let md := if qc.Typ = .QTSubscription then { c.md with poll := true } else c.md
  let md := { md with ct := qc.SchemaType }
  let c : Ctx := { c with md := md }
  let c :=
    if c.md.ct = "mysql" then c.WriteString "SELECT json_object("
    else c.WriteString "SELECT jsonb_build_object("
  (renderRoots qc c []).bind fun (c, st) =>
    let c :=
      if c.md.ct = "mysql" then c.WriteString ") AS __root FROM (VALUES ROW(true)) AS __root_x"
      else c.WriteString ") AS __root FROM (VALUES(true)) AS __root_x"
    renderQuery env co qc true fuel st c

/-- The errors `Compile` builds with `fmt.Errorf`. -/
inductive CompileError where
  | qcodeIsNil
  | unknownOperationType (t : QType)
deriving DecidableEq, Repr

/-- Method `Compile`: the buffer after the call, the returned `Metadata` and the error; the
whole result is `none` when the compile does not return. -/
def Compile (env : Env) (co : Compiler) (fuel : Nat) (w : List Char) (qc : Option QCode) :
    Option (List Char × Metadata × Option CompileError) :=
  let md := Metadata.zero
  match qc with
  | none => some (w, md, some .qcodeIsNil)
  | some qc =>
    match qc.Typ with
    | .QTQuery =>
      (CompileQuery env co fuel qc { w := w, md := md }).map fun c => (c.w, c.md, none)
    | .QTSubscription =>
      (CompileQuery env co fuel qc { w := w, md := md }).map fun c => (c.w, c.md, none)
    | .QTMutation =>
      let c := Ctx.run { w := w, md := md } (env.compileMutation qc)
      some (c.w, c.md, none)
    | t => some (w, md, some (.unknownOperationType t))

/-- Method `CompileEx`: the metadata, the SQL bytes (`none` for a nil slice) and the error.
Without an error the SQL is `w.Bytes()` of the fresh buffer, which is a nil slice as long as
nothing has been written to it. -/
def CompileEx (env : Env) (co : Compiler) (fuel : Nat) (qc : Option QCode) :
    Option (Metadata × Option (List Char) × Option CompileError) :=
  (Compile env co fuel [] qc).map fun r =>
    match r.2.2 with
    | some err => (r.2.1, none, some err)
    | none => (r.2.1, if r.1 = [] then none else some r.1, none)

/-! ## qcode: role configuration -/

namespace qcode

/-- Query settings of a role, `qcode.QueryConfig`. -/
structure QueryConfig where
  Limit : Int
  Filters : List String
  Columns : List String
  DisableFunctions : Bool
  Block : Bool
deriving DecidableEq, Repr

/-- Insert settings of a role, `qcode.InsertConfig`. -/
structure InsertConfig where
  Columns : List String
  Presets : List (String × String)
  Block : Bool
deriving DecidableEq, Repr

/-- Update settings of a role, `qcode.UpdateConfig`. -/
structure UpdateConfig where
  Filters : List String
  Columns : List String
  Presets : List (String × String)
  Block : Bool
deriving DecidableEq, Repr

/-- Upsert settings of a role, `qcode.UpsertConfig`. -/
structure UpsertConfig where
  Filters : List String
  Columns : List String
  Presets : List (String × String)
  Block : Bool
deriving DecidableEq, Repr

/-- Delete settings of a role, `qcode.DeleteConfig`. -/
structure DeleteConfig where
  Filters : List String
  Columns : List String
  Block : Bool
deriving DecidableEq, Repr

/-- Settings of one role on one table, `qcode.TRConfig`. -/
structure TRConfig where
  Query : QueryConfig
  Insert : InsertConfig
  Update : UpdateConfig
  Upsert : UpsertConfig
  Delete : DeleteConfig
deriving DecidableEq, Repr

/-- The anonymous struct `trval.query`; `cols` is the key set of the Go map, without
repetition. -/
structure trval.Query where
  limit : Int
  fil : Option Exp
  filNU : Bool
  cols : List String
  disableFuncs : Bool
  block : Bool

/-- The anonymous struct `trval.insert`. -/
structure trval.Insert where
  cols : List String
  presets : List (String × String)
  block : Bool

/-- The anonymous struct `trval.update`. -/
structure trval.Update where
  fil : Option Exp
  filNU : Bool
  cols : List String
  presets : List (String × String)
  block : Bool

/-- The anonymous struct `trval.upsert`. -/
structure trval.Upsert where
  fil : Option Exp
  filNU : Bool
  cols : List String
  presets : List (String × String)
  block : Bool

/-- The anonymous struct `trval.delete`. -/
structure trval.Delete where
  fil : Option Exp
  filNU : Bool
  cols : List String
  block : Bool

/-- The access record of one role on one table, `qcode.trval`. -/
structure trval where
  role : String
  query : trval.Query
  insert : trval.Insert
  update : trval.Update
  upsert : trval.Upsert
  delete : trval.Delete

/-- The zero value `var tr trval`. -/
def trval.zero : trval :=
  { role := ""
    query := ⟨0, none, false, [], false, false⟩
    insert := ⟨[], [], false⟩
    update := ⟨none, false, [], [], false⟩
    upsert := ⟨none, false, [], [], false⟩
    delete := ⟨none, false, [], false⟩ }

/-- The fields of `qcode.Config` that the role code reads. -/
structure Config where
  DefaultBlock : Bool
  DefaultLimit : Int
  defTrv : trval

/-- The fields of `qcode.Compiler` that the role code uses: the configuration `c` and the role
table `tr`, a Go map from `role + table` to trval, here an association list read with
`List.lookup`. The schema `s` is in `Env`. -/
structure Compiler where
  c : Config
  tr : List (String × trval)

/-- What `config.go` calls outside the source files: the schema lookup `co.s.GetTableInfo`, the
filter compiler `compileFilter`, `flect.Singularize`, `flect.Pluralize` and
`strings.ToLower`. -/
structure Env where
  GetTableInfo : String → String → Except String DBTableInfo
  compileFilter : DBTableInfo → List String → Except String (Option Exp × Bool)
  Singularize : String → String
  Pluralize : String → String
  ToLower : String → String

/-- The Go map assignment `m[k] = v` on an association list. -/
def mapSet {α : Type} (m : List (String × α)) (k : String) (v : α) : List (String × α) :=
  (k, v) :: m.filter fun e => e.1 != k

/-- Function `makeSet`. -/
def makeSet (env : Env) (list : List String) : List String :=
  list.foldl (fun m s => if env.ToLower s ∈ m then m else m ++ [env.ToLower s]) []

/-- Method `AddRole`: the compiler after the call and the returned error. The fields of `trv`
are collected per sub-struct; a field that the code never assigns keeps its zero value. -/
def AddRole (env : Env) (co : Compiler) (role table : String) (trc : TRConfig) :
    Compiler × Option String :=
  match env.GetTableInfo table "" with
  | .error err => (co, some err)
  | .ok ti =>
    match env.compileFilter ti trc.Query.Filters with
    | .error err => (co, some err)
    | .ok rq =>
      let query : trval.Query :=
        { fil := rq.1
          filNU := rq.2
          limit := if trc.Query.Limit > 0 then wrap32 trc.Query.Limit else 0
          cols := makeSet env trc.Query.Columns
          disableFuncs := trc.Query.DisableFunctions
          block := trc.Query.Block }
      let insert : trval.Insert :=
        { cols := makeSet env trc.Insert.Columns
          presets := trc.Insert.Presets
          block := trc.Insert.Block }
      match env.compileFilter ti trc.Update.Filters with
      | .error err => (co, some err)
      | .ok ru =>
        let update : trval.Update :=
          { fil := ru.1
            filNU := ru.2
            cols := makeSet env trc.Update.Columns
            presets := trc.Update.Presets
            block := trc.Update.Block }
        match env.compileFilter ti trc.Upsert.Filters with
        | .error err => (co, some err)
        | .ok rp =>
          let update : trval.Update := { update with filNU := rp.2 }
          let upsert : trval.Upsert :=
            { fil := rp.1
              filNU := false
              cols := makeSet env trc.Upsert.Columns
              presets := trc.Upsert.Presets
              block := trc.Upsert.Block }
          match env.compileFilter ti trc.Delete.Filters with
          | .error err => (co, some err)
          | .ok rd =>
            let delete : trval.Delete :=
              { fil := rd.1
                filNU := rd.2
                cols := makeSet env trc.Delete.Columns
                block := trc.Delete.Block }
            let trv : trval :=
              { role := role, query := query, insert := insert, update := update,
                upsert := upsert, delete := delete }
            let singular := env.Singularize table
            let plural := env.Pluralize table
            let co := { co with tr := mapSet co.tr (role ++ singular) trv }
            let co := { co with tr := mapSet co.tr (role ++ plural) trv }
            (co, none)

/-- Method `getRole`. -/
def getRole (co : Compiler) (role field : String) : trval :=
  let r : trval × Bool :=
    match co.tr.lookup (role ++ field) with
    | some tr => (tr, true)
    | none => (trval.zero, false)
  if !r.2 && role ≠ "anon" then { r.1 with role := role }
  else if !r.2 then { co.c.defTrv with role := role }
  else r.1

/-- Method `filter`. -/
def trval.filter (trv : trval) (qt : QType) : Option Exp × Bool :=
  match qt with
  | .QTQuery => (trv.query.fil, trv.query.filNU)
  | .QTInsert => (none, false)
  | .QTUpdate => (trv.update.fil, trv.update.filNU)
  | .QTUpsert => (trv.upsert.fil, trv.upsert.filNU)
  | .QTDelete => (trv.delete.fil, trv.delete.filNU)
  | _ => (none, false)

/-- Method `columnAllowed`. -/
def trval.columnAllowed (trv : trval) (qt : QCode) (name : String) : Bool :=
  match qt.SType with
  | .QTQuery => decide (name ∈ trv.query.cols) || trv.query.cols.length == 0
  | .QTInsert => decide (name ∈ trv.insert.cols) || trv.insert.cols.length == 0
  | .QTUpdate => decide (name ∈ trv.update.cols) || trv.update.cols.length == 0
  | .QTUpsert => decide (name ∈ trv.upsert.cols) || trv.upsert.cols.length == 0
  | .QTDelete => decide (name ∈ trv.delete.cols) || trv.delete.cols.length == 0
  | _ => false

/-- Method `limit`. -/
def trval.limit (trv : trval) (qt : QType) : Int :=
  if qt = .QTQuery ∧ trv.query.limit ≠ 0 then trv.query.limit else 0

/-- Method `isSkipped`. -/
def trval.isSkipped (trv : trval) (qt : QType) : Bool :=
  decide (qt = .QTQuery) && trv.query.block

/-- Method `isFuncsBlocked`. -/
def trval.isFuncsBlocked (trv : trval) : Bool :=
  trv.query.disableFuncs

end qcode

/-! ## Specification-side definitions -/

/-- The buffer of `c` is `w0` followed by further text. -/
def Grows (w0 : List Char) (c : Ctx) : Prop :=
  ∃ t, c.w = w0 ++ t

/-- Whenever the computation returns, its buffer is `w0` followed by further text. -/
def OGrows (w0 : List Char) (o : Option Ctx) : Prop :=
  ∀ c, o = some c → Grows w0 c


/-- The entry of the outer SELECT for one root: key and value, then the cursor key and value
when the root is cursored. -/
def rootEntry (sel : Select) : String :=
  if sel.SkipRender = .SkipTypeUserNeeded then
    "'" ++ sel.FieldName ++ "', NULL" ++
      (if sel.Paging.Cursor then ", '" ++ sel.FieldName ++ "_cursor', NULL" else "")
  else
    "'" ++ sel.FieldName ++ "', __sj_" ++ toString sel.ID ++ ".json" ++
      (if sel.Paging.Cursor then
        ", '" ++ sel.FieldName ++ "_cursor', __sj_" ++ toString sel.ID ++ ".__cursor"
      else "")

/-- The walker's stack after the roots loop, top first: for each root that is not
`UserNeeded` its open token `ID` above its close token `ID + closeBlock`, the last root on
top. -/
def rootStack (sels : List Select) : List Int :=
  (sels.filter fun s => s.SkipRender ≠ .SkipTypeUserNeeded).reverse.flatMap
    fun s => [s.ID, wrap32 (s.ID + closeBlock)]

/-- The opening of the outer SELECT for a dialect. -/
def outerSelectOpen (ct : String) : String :=
  if ct = "mysql" then "SELECT json_object(" else "SELECT jsonb_build_object("

/-- The text that follows the argument list of the outer SELECT for a dialect. -/
def outerSelectClose (ct : String) : String :=
  if ct = "mysql" then ") AS __root FROM (VALUES ROW(true)) AS __root_x"
  else ") AS __root FROM (VALUES(true)) AS __root_x"

/-- The metadata `CompileQuery` hands to the tree walker. -/
def queryMetadata (qc : QCode) (md : Metadata) : Metadata :=
  { ct := qc.SchemaType
    poll := if qc.Typ = .QTSubscription then true else md.poll
    params := md.params
    pindex := md.pindex }

/-- A small environment: the helpers of the other files write fixed text. -/
def sampleEnv : Env :=
  { renderRel := fun _ _ _ _ md => ("((posts.user_id) = (users_0.id))", md)
    renderColumns := fun _ md => ("id", md)
    renderBaseColumns := fun _ md => ("id", md)
    renderJSONFields := fun _ md => ("'id', id", md)
    renderVar := fun s md => (s, md)
    colWithTableID := fun t id col => t ++ "_" ++ toString id ++ "." ++ col
    compileMutation := fun _ md => ("", md) }

/-- Column `users.id`. -/
def sampleCol : DBColumn :=
  { Name := "id", Typ := "int", Table := "users", Array := false }

/-- Table `users(id int)`. -/
def sampleTi : DBTableInfo :=
  { Name := "users", Typ := "jsonb", Columns := [sampleCol], PrimaryCol := sampleCol,
    TSVCol := sampleCol, DBVersion := 110000 }

/-- The relationship of a root selection: none. -/
def sampleRel : DBRel :=
  { Typ := .RelNone, Left := ⟨sampleCol, sampleTi⟩, Right := ⟨sampleCol, ""⟩,
    Through := ⟨sampleCol⟩ }

/-- Default paging with a literal limit. -/
def samplePaging : Paging :=
  { Limit := 20, Offset := 0, LimitVar := "", OffsetVar := "", NoLimit := false,
    Cursor := false }

/-- A plural root selection `users` with id `0`. -/
def sampleSel : Select :=
  { ID := 0, ParentID := -1, UParentID := -1, Typ := .SelTypeTable, FieldName := "users",
    Table := "users", Ti := sampleTi, Rel := sampleRel, Singular := false, Cols := [⟨sampleCol⟩],
    OrderBy := [], DistinctOn := [], GroupCols := false, Where := none, Paging := samplePaging,
    Children := [], ArgMap := ⟨[]⟩, SkipRender := .SkipTypeNone }

/-- A root `me` with id `1` that the role may not read: `SkipRender = UserNeeded`. -/
def sampleSkipped : Select :=
  { sampleSel with ID := 1, FieldName := "me", SkipRender := .SkipTypeUserNeeded }

/-- The query `{ users, me }` with the second root skipped. -/
def sampleQCode : QCode :=
  { Typ := .QTQuery, SType := .QTQuery, SchemaType := "postgres", Roots := [0, 1],
    Selects := [sampleSel, sampleSkipped] }

/-- The zero-valued context a compile starts from. -/
def emptyCtx : Ctx :=
  { w := [], md := Metadata.zero }

/-- The inputs on which `Compile` reports an error: a nil QCode, or a type that is none of
Query, Subscription, Mutation. -/
def compileRejects (qc : Option QCode) : Prop :=
  qc = none ∨ ∃ q, qc = some q ∧ q.Typ ≠ .QTQuery ∧ q.Typ ≠ .QTSubscription ∧ q.Typ ≠ .QTMutation

/-- An insert QCode handed to `Compile` directly. -/
def sampleInsert : QCode :=
  { sampleQCode with Typ := .QTInsert }

/-- The context in which `renderBaseSelect` reaches its WHERE step: the cursor CTE, `SELECT `,
the DISTINCT ON list, the base columns, the FROM clause and the join tables are written. -/
def beforeWhere (env : Env) (sel : Select) (c : Ctx) : Ctx :=
  renderJoinTables sel.Rel (renderFrom sel (Ctx.run (renderDistinctOn sel
    ((renderCursorCTE sel c).WriteString "SELECT ")) (env.renderBaseColumns sel)))

/-- The parent id `renderWhere` hands to `renderRel`. -/
def whereParent (sel : Select) : Int :=
  if sel.Typ = .SelTypeMember then sel.UParentID else sel.ParentID

/-- The text of the relationship predicate of `sel`, as `renderRel` writes it under `md`. -/
def relText (env : Env) (sel : Select) (md : Metadata) : String :=
  (env.renderRel sel.Ti sel.Rel (whereParent sel) (some sel.ArgMap) md).1

/-- The context in which `renderWhere` calls `renderExp`: ` WHERE (`, the relationship
predicate and, when the selection is joined to a parent, ` AND ` are written. -/
def whereOpen (env : Env) (sel : Select) (c : Ctx) : Ctx :=
  { w := (beforeWhere env sel c).w ++ " WHERE (".toList ++
      (relText env sel (beforeWhere env sel c).md).toList ++
      (if sel.Rel.Typ ≠ .RelNone then " AND ".toList else []),
    md := (env.renderRel sel.Ti sel.Rel (whereParent sel) (some sel.ArgMap)
      (beforeWhere env sel c).md).2 }

/-- The predicate `id = '5'` on `users`. -/
def sampleExp : Exp :=
  .mk .OpEquals sampleCol "users" .ValStr "5" .ValStr [] [] []

/-- A context for the PostgreSQL dialect with an empty buffer. -/
def sampleCtx : Ctx :=
  { w := [], md := { Metadata.zero with ct := "postgres" } }

/-- A selection `posts` joined one-to-many to its parent, filtered by `sampleExp`. -/
def sampleChild : Select :=
  { sampleSel with
    ID := 1, ParentID := 0, FieldName := "posts", Table := "posts",
    Rel := { sampleRel with Typ := .RelOneToMany }, Where := some sampleExp }

/-- A recursive selection `replies` over `comments`, filtered by `sampleExp`. -/
def sampleRecursive : Select :=
  { sampleSel with
    ID := 1, ParentID := 0, FieldName := "replies", Table := "comments",
    Rel := { sampleRel with Typ := .RelRecursive, Right := ⟨sampleCol, "__rcte_comments"⟩ },
    Where := some sampleExp }

/-- Nesting depth after reading `t` from depth `k`; `none` when some `)` closes nothing. -/
def parenDepth : Nat → List Char → Option Nat
  | k, [] => some k
  | k, ch :: t =>
    if ch = '(' then parenDepth (k + 1) t
    else if ch = ')' then
      match k with
      | 0 => none
      | k + 1 => parenDepth k t
    else parenDepth k t

/-- Parenthesis balance of a text: as many `(` as `)`, and no prefix with more `)` than `(`. -/
def Balanced (t : List Char) : Prop :=
  t.count '(' = t.count ')' ∧ ∀ n, (t.take n).count ')' ≤ (t.take n).count '('

/-- The string contains no parenthesis character. -/
def NoParen (s : String) : Prop :=
  '(' ∉ s.toList ∧ ')' ∉ s.toList

/-- The text appended between `c` and `c1` takes the nesting depth from `a` to `b`. -/
def Emits (a b : Nat) (c c1 : Ctx) : Prop :=
  ∃ t, c1.w = c.w ++ t ∧ parenDepth a t = some b


/-- A helper of another file writes balanced text, whatever the metadata. -/
def HelperBalanced (f : Helper) : Prop :=
  ∀ md, Balanced (f md).1.toList

/-- A relationship whose table and column names contain no parenthesis. -/
def RelNoParen (rel : DBRel) : Prop :=
  NoParen rel.Left.Col.Table ∧ NoParen rel.Left.Col.Name ∧ NoParen rel.Through.ColL.Table ∧
    NoParen rel.Through.ColL.Name ∧ NoParen rel.Left.Ti.Name ∧ NoParen rel.Left.Ti.TSVCol.Name

/-- The names and values a predicate node carries contain no parenthesis. -/
def Exp.NoParens (e : Exp) : Prop :=
  NoParen e.Col.Name ∧ NoParen e.Col.Typ ∧ NoParen e.Table ∧ NoParen e.Val ∧
    (∀ v ∈ e.ListVal, NoParen v) ∧ ∀ rel ∈ e.Rels, RelNoParen rel

/-- The values of the variable map that are emitted as literals (those that do not start
with `sql:`) contain no parenthesis. -/
def VarsNoParen (vars : List (String × String)) : Prop :=
  ∀ name val, vars.lookup name = some val → val.startsWith "sql:" = false → NoParen val

/-- How a leaf uses its column: the operators that write their own opening parentheses
(`OpEqualsTrue`, `OpNotEqualsTrue`, `OpTsQuery`) carry no column name, every other operator
but `OpNop` carries one. -/
def Exp.ColumnOK (e : Exp) : Prop :=
  match e.Op with
  | .OpNop => True
  | .OpEqualsTrue => e.Col.Name = ""
  | .OpNotEqualsTrue => e.Col.Name = ""
  | .OpTsQuery => e.Col.Name = ""
  | _ => e.Col.Name ≠ ""

/-- A bound on the loop iterations `renderExp` spends on a node and its descendants. -/
def Exp.cost : Exp → Nat
  | .mk _ _ _ _ _ _ _ _ cs => 3 + costList cs
where
  /-- The bound summed over a list of children, one more per child. -/
  costList : List Exp → Nat
    | [] => 0
    | c :: cs => c.cost + 1 + costList cs

/-- The property `P` holds at a node and at all its descendants. -/
def Exp.All (P : Exp → Prop) : Exp → Prop
  | .mk op col t ty v lt lv rels cs => P (.mk op col t ty v lt lv rels cs) ∧ allList cs
where
  /-- The property holds throughout every tree of the list. -/
  allList : List Exp → Prop
    | [] => True
    | c :: cs => c.All P ∧ allList cs

/-- What balance needs of one node: a `Not` has a child; a leaf has names and values without
parentheses and uses its column as `ColumnOK` says. -/
def Exp.NodeOK (e : Exp) : Prop :=
  match e.Op with
  | .OpAnd => True
  | .OpOr => True
  | .OpFalse => True
  | .OpNot => e.Children ≠ []
  | _ => e.NoParens ∧ e.ColumnOK

/-- The stack entries `renderExp` pushes for the children of an `And`/`Or` node, top first:
the children in source order with the operator tag between neighbours. -/
def interleaved (op : ExpOp) : List Exp → List StackItem
  | [] => []
  | [c] => [.exp c]
  | c :: c1 :: cs => .exp c :: .op op :: interleaved op (c1 :: cs)

/-- The iterations bound of one stack entry. -/
def itemCost : StackItem → Nat
  | .exp e => e.cost
  | _ => 1

/-- The iterations bound of a stack. -/
def stackCost (st : List StackItem) : Nat :=
  (st.map itemCost).sum

/-- The nesting depth the runes of a stack lead to from depth `k`, nodes and operator tags
counting as balanced text. -/
def stackDepth : Nat → List StackItem → Option Nat
  | k, [] => some k
  | k, .rune ch :: st =>
    if ch = '(' then stackDepth (k + 1) st
    else if ch = ')' then
      match k with
      | 0 => none
      | k + 1 => stackDepth k st
    else stackDepth k st
  | k, .op _ :: st => stackDepth k st
  | k, .exp _ :: st => stackDepth k st

/-- Every node on the stack satisfies `NodeOK` throughout. -/
def StackOK (st : List StackItem) : Prop :=
  ∀ e, StackItem.exp e ∈ st → e.All Exp.NodeOK

/-- The values of the variable map that are trusted SQL (they start with `sql:`) are rendered
by `renderVar` as balanced text. -/
def VarsBalanced (env : Env) (vars : List (String × String)) : Prop :=
  ∀ name val, vars.lookup name = some val → val.startsWith "sql:" = true →
    HelperBalanced (env.renderVar (val.drop 4))

/-- The predicate `id = $id AND NOT (id IN $ids)`. -/
def sampleAnd : Exp :=
  .mk .OpAnd sampleCol "" .ValStr "" .ValStr [] []
    [.mk .OpEquals sampleCol "users" .ValVar "id" .ValStr [] [] [],
     .mk .OpNot sampleCol "" .ValStr "" .ValStr [] []
       [.mk .OpIn sampleCol "users" .ValVar "ids" .ValStr [] [] []]]

/-- A leaf `= '5'` that carries no column name. -/
def sampleBareLeaf : Exp :=
  .mk .OpEquals { sampleCol with Name := "" } "users" .ValStr "5" .ValStr [] [] []

/-- The OFFSET switch that closes `renderLimit`, as a function of the context the LIMIT switch
leaves: ` OFFSET <param>` when `OffsetVar` is set, else ` OFFSET <n>` when `Offset` is not
zero, else nothing. -/
def offsetClause (sel : Select) (c : Ctx) : Ctx :=
  if sel.Paging.OffsetVar ≠ "" then
    renderParam { Name := sel.Paging.OffsetVar, Typ := "integer", IsArray := false }
      (c.WriteString " OFFSET ")
  else if sel.Paging.Offset ≠ 0 then int32String sel.Paging.Offset (c.WriteString " OFFSET ")
  else c

/-- The singular root selection `users` with id `0`. -/
def sampleSingular : Select :=
  { sampleSel with Singular := true }

/-- The query `{ user }` with a singular root. -/
def sampleSingularQCode : QCode :=
  { Typ := .QTQuery, SType := .QTQuery, SchemaType := "postgres", Roots := [0], Selects := [sampleSingular] }

/-- A singular selection whose paging also sets `NoLimit`. -/
def sampleSingularNoLimit : Select :=
  { sampleSel with Singular := true, Paging := { samplePaging with NoLimit := true } }

/-- A plural selection limited by the variable `lim`, capped at the literal 20. -/
def sampleLimitVar : Select :=
  { sampleSel with Paging := { samplePaging with LimitVar := "lim" } }

/-- A selection ordered by `id` descending, nulls first. -/
def sampleOrdered : Select :=
  { sampleSel with OrderBy := [⟨sampleCol, .OrderDescNullsFirst⟩] }

/-- The predicate `id = posts.author_id`, whose right-hand side is a column reference. -/
def sampleRef : Exp :=
  .mk .OpEquals { sampleCol with Name := "author_id" } "posts" .ValRef "" .ValStr [] [] []

/-- How much of the cast ` :: ` has just been read: nothing, ` `, ` :`, ` ::`, or all of it. -/
inductive CastState where
  | s0
  | s1
  | s2
  | s3
  | found
deriving DecidableEq, Repr

/-- One character of the scan for ` :: `. -/
def castStep (q : CastState) (ch : Char) : CastState :=
  match q with
  | .found => .found
  | .s0 => if ch = ' ' then .s1 else .s0
  | .s1 => if ch = ' ' then .s1 else if ch = ':' then .s2 else .s0
  | .s2 => if ch = ' ' then .s1 else if ch = ':' then .s3 else .s0
  | .s3 => if ch = ' ' then .found else .s0

/-- The scan for ` :: ` over a text, from the state `q`. -/
def castScan (q : CastState) (t : List Char) : CastState :=
  t.foldl castStep q

/-- The part of ` :: ` a scan state has read. -/
def CastState.read : CastState → List Char
  | .s0 => []
  | .s1 => [' ']
  | .s2 => [' ', ':']
  | .s3 => [' ', ':', ':']
  | .found => [' ', ':', ':', ' ']

/-- The text has no cast ` :: `, not even when it follows a blank. -/
def NoCast (s : String) : Prop :=
  ¬ (" :: ".toList <:+: ' ' :: s.toList)


/-- The text appended between `c` and `c1` takes the scan for ` :: ` from `q` to `q1`, and the
dialect tag is unchanged. -/
def Lands (q q1 : CastState) (c c1 : Ctx) : Prop :=
  ∃ t, c1.w = c.w ++ t ∧ castScan q t = q1 ∧ c1.md.ct = c.md.ct

/-- The text appended between `c` and `c1`, scanned from `q`, does not complete ` :: `, and
the dialect tag is unchanged. -/
def Alive (q : CastState) (c c1 : Ctx) : Prop :=
  ∃ t, c1.w = c.w ++ t ∧ castScan q t ≠ .found ∧ c1.md.ct = c.md.ct

/-- After the text `t` the scan is in state `r`, whatever unfinished state it started from. -/
abbrev Resets (t : List Char) (r : CastState) : Prop :=
  castScan .s0 t = r ∧ castScan .s1 t = r ∧ castScan .s2 t = r ∧ castScan .s3 t = r

/-- The names and values a predicate node writes in the MySQL dialect have no cast. -/
def Exp.NoCasts (e : Exp) : Prop :=
  NoCast e.Col.Name ∧ NoCast e.Table ∧ NoCast e.Val ∧ ∀ v ∈ e.ListVal, NoCast v

/-- The variable map brings no cast: a literal value has none, and a trusted `sql:` value is
rendered by `renderVar` as text without one, the dialect tag left alone. -/
def VarsNoCast (env : Env) (vars : List (String × String)) : Prop :=
  ∀ name val, vars.lookup name = some val →
    (val.startsWith "sql:" = false → NoCast val) ∧
    (val.startsWith "sql:" = true → ∀ md,
      ¬ (" :: ".toList <:+: (env.renderVar (val.drop 4) md).1.toList) ∧
        (env.renderVar (val.drop 4) md).2.ct = md.ct)

/-- The case the MySQL dialect still casts: `In`/`NotIn` on a variable that is not in the
variable map, rendered through `renderVal`. -/
def Exp.IsArrayParam (vars : List (String × String)) (e : Exp) : Prop :=
  e.Typ = .ValVar ∧ vars.lookup e.Val = none ∧ (e.Op = .OpIn ∨ e.Op = .OpNotIn)

/-- A context for the MySQL dialect with an empty buffer. -/
def sampleMysqlCtx : Ctx :=
  { w := [], md := { Metadata.zero with ct := "mysql" } }

/-- The predicate `id IN $ids` with `ids` not in the variable map. -/
def sampleIn : Exp :=
  .mk .OpIn sampleCol "users" .ValVar "ids" .ValStr [] [] []

/-- Whether `renderVal` registers the variable of `ex` as an array: the operator is `In` or
`NotIn`. -/
def Exp.isArrayOp (e : Exp) : Bool :=
  decide (e.Op = .OpIn ∨ e.Op = .OpNotIn)

/-- The metadata after the first sighting of the parameter `p`: `p` is appended and indexed
at its 1-based position. -/
def Metadata.register (md : Metadata) (p : Param) : Metadata :=
  { md with
    params := md.params ++ [p]
    pindex := md.pindex ++ [(p.Name, md.params.length + 1)] }

/-- A variable map that gives `id` the literal value `42`. -/
def sampleVars : List (String × String) :=
  [("id", "42")]

/-- The predicate `id = $id`. -/
def sampleVarExp : Exp :=
  .mk .OpEquals sampleCol "users" .ValVar "id" .ValStr [] [] []


/-- The texts `f 0`, .., `f (n - 1)` one after the other. -/
def indexedText (n : Nat) (f : Nat → String) : List Char :=
  ((List.range n).map fun i => (f i).toList).flatten

/-- The source `renderFrom` writes after ` FROM `: the record set of an embedded JSON column,
the recursive virtual table without its seed row, or the quoted table. -/
def fromText (sel : Select) : List Char :=
  match sel.Rel.Typ with
  | .RelEmbedded =>
    ("\"" ++ sel.Rel.Left.Col.Table ++ "\", " ++ sel.Ti.Typ ++ "_to_recordset(" ++
      sel.Rel.Left.Col.Table ++ "." ++ sel.Rel.Right.Col.Name ++ ") AS \"" ++ sel.Table ++
      "\"(").toList ++
    ", ".toList.intercalate (sel.Ti.Columns.map fun col => (col.Name ++ " " ++ col.Typ).toList) ++
    ")".toList
  | .RelRecursive =>
    ("(SELECT * FROM \"" ++ sel.Rel.Right.VTable ++ "\" OFFSET 1) \"" ++ sel.Table ++
      "\"").toList
  | _ => ("\"" ++ sel.Table ++ "\"").toList

/-- The context in which `renderSelect` calls `renderBaseSelect` in PostgreSQL for a cursored
selection with `n` order-by entries: the per-row JSON minus the keys `__cur_i`, the columns
`__cur_i` handed upwards, the projection, and `__cur_i` defined as `LAST_VALUE` of the i-th
order-by column. -/
def cursorSelectOpen (env : Env) (sel : Select) (c : Ctx) : Ctx :=
  let c1 : Ctx :=
    { w := c.w ++ ("SELECT to_jsonb(__sr_" ++ toString sel.ID ++ ".*) ").toList ++
        indexedText sel.OrderBy.length (fun i => "- '__cur_" ++ toString i ++ "' ") ++
        "AS json ".toList ++
        indexedText sel.OrderBy.length (fun i => ", __cur_" ++ toString i ++ " ") ++
        "FROM (SELECT ".toList,
      md := c.md }
  let c2 := c1.run (env.renderColumns sel)
  { w := c2.w ++
      (sel.OrderBy.enum.map fun p =>
        (", LAST_VALUE(" ++ env.colWithTableID sel.Table sel.ID p.2.Col.Name ++
          ") OVER() AS __cur_" ++ toString p.1).toList).flatten ++
      " FROM (".toList,
    md := c2.md }

/-- The context in which `renderSelect` calls `renderBaseSelect` in PostgreSQL for a selection
without a cursor. -/
def plainSelectOpen (env : Env) (sel : Select) (c : Ctx) : Ctx :=
  let c1 : Ctx :=
    { w := c.w ++ ("SELECT to_jsonb(__sr_" ++ toString sel.ID ++ ".*) AS json " ++
        "FROM (SELECT ").toList,
      md := c.md }
  (c1.run (env.renderColumns sel)).WriteString " FROM ("

/-- The alias `renderSelect` gives the base select. -/
def selectAlias (sel : Select) (c : Ctx) : Ctx :=
  { w := c.w ++ (") AS " ++ sel.Table ++ "_" ++ toString sel.ID).toList, md := c.md }

/-- A cursored plural selection `users` ordered by `id`. -/
def sampleCursored : Select :=
  { sampleSel with
    OrderBy := [⟨sampleCol, .OrderAsc⟩], Paging := { samplePaging with Cursor := true } }

/-- A sequence of `renderParam` calls, in order, as one compile makes them. -/
def renderParams (ps : List Param) (c : Ctx) : Ctx :=
  ps.foldl (fun c p => renderParam p c) c

/-- The names registered in `md.params`, in order. -/
def Metadata.names (md : Metadata) : List String :=
  md.params.map fun p => p.Name

/-- The registry invariant: no name twice in `params`, and `pindex` maps exactly the names of
`params`, each to the 1-based position of its entry. -/
def Metadata.RegistryOK (md : Metadata) : Prop :=
  md.names.Nodup ∧
    (∀ name, name ∉ md.names → md.pindex.lookup name = none) ∧
    ∀ i p, md.params[i]? = some p → md.pindex.lookup p.Name = some (i + 1)

/-- The first entry of each name, in the order of first appearance. -/
def firstSightings : List Param → List Param
  | [] => []
  | p :: ps => p :: (firstSightings ps).filter fun q => decide (q.Name ≠ p.Name)

/-- Three sightings of two names: `ids` comes back with another type. -/
def sampleParams : List Param :=
  [{ Name := "ids", Typ := "int", IsArray := true },
    { Name := "limit", Typ := "integer", IsArray := false },
    { Name := "ids", Typ := "text", IsArray := false }]

/-- ASCII lower-casing, letter by letter. -/
def asciiLower (s : String) : String :=
  String.mk (s.toList.map fun ch =>
    if 'A' ≤ ch ∧ ch ≤ 'Z' then Char.ofNat (ch.toNat + 32) else ch)

/-- A schema with the tables `users` and `user`, a filter compiler that rejects the filter
`?`, reads the filter `tags` as non-unique and yields no expression for an empty list, the
plural of `user`, and ASCII lower-casing. -/
def sampleQEnv : qcode.Env :=
  { GetTableInfo := fun table _ =>
      if table = "users" ∨ table = "user" then .ok sampleTi else .error "table not found"
    compileFilter := fun _ filters =>
      match filters with
      | [] => .ok (none, false)
      | f :: _ =>
        if f = "?" then .error "bad filter"
        else .ok (some (.mk .OpEqualsTrue sampleCol "users" .ValStr f .ValStr [] [] []),
          decide (f = "tags"))
    Singularize := fun s => if s = "users" then "user" else s
    Pluralize := fun s => if s = "user" then "users" else s
    ToLower := asciiLower }

/-- A role configuration whose upsert filter is non-unique and whose update filter is not. -/
def sampleTrc : qcode.TRConfig :=
  { Query := ⟨10, ["q"], ["ID", "name"], false, false⟩
    Insert := ⟨[], [], false⟩
    Update := ⟨["u"], ["name"], [], false⟩
    Upsert := ⟨["tags"], ["name"], [], false⟩
    Delete := ⟨["d"], [], true⟩ }

/-- The same role configuration with a delete filter that does not compile. -/
def sampleBadTrc : qcode.TRConfig :=
  { sampleTrc with Delete := ⟨["?"], [], true⟩ }

/-- The default trval of the sample configuration: a limit of 20 and nothing else. -/
def sampleDefTrv : qcode.trval :=
  { qcode.trval.zero with query := ⟨20, none, false, [], false, false⟩ }

/-- A compiler with an empty role table. -/
def sampleCo : qcode.Compiler :=
  { c := { DefaultBlock := false, DefaultLimit := 20, defTrv := sampleDefTrv }, tr := [] }

/-- The sample compiler after `AddRole("user", "users", sampleTrc)`. -/
def sampleCoUser : qcode.Compiler :=
  (qcode.AddRole sampleQEnv sampleCo "user" "users" sampleTrc).1

/-- A trval that lists two query columns and leaves the insert columns open. -/
def sampleTrv : qcode.trval :=
  { qcode.trval.zero with role := "user", query := ⟨0, none, false, ["id", "name"], false, false⟩ }

/-- What `renderExp` needs of a node to return: a `Not` node has a child (the code reads
`val.Children[0]`). -/
def Exp.HasOperand (e : Exp) : Prop :=
  e.Op = .OpNot → e.Children ≠ []

/-- Every node on the stack has its operand, throughout. -/
def StackRenders (st : List StackItem) : Prop :=
  ∀ e, StackItem.exp e ∈ st → e.All Exp.HasOperand
/-- What the walk needs of a selection to render it with the fuel `F`: the parent of a
Recursive selection is a selection of the QCode (the code reads `c.qc.Selects[sel.ParentID]`),
and the filter expression has an operand under every `Not` and a cost within `F`. -/
def SelectRenders (qc : QCode) (F : Nat) (sel : Select) : Prop :=
  (sel.Rel.Typ = .RelRecursive → (qc.selectAt sel.ParentID).isSome = true) ∧
    ∀ ex, sel.Where = some ex → ex.All Exp.HasOperand ∧ ex.cost ≤ F

/-- The text `renderQuery` writes when it pops the open token of `sel`: for a selection that
is not a union the lateral-join opener, the WITH RECURSIVE preface of a Recursive selection,
the plural wrapper and the row-shaping SELECT; nothing for a union. -/
def openSel (env : Env) (co : Compiler) (qc : QCode) (multi : Bool) (fuel : Nat) (sel : Select)
    (c : Ctx) : Option Ctx :=
  if sel.Typ ≠ .SelTypeUnion then
    let c := if sel.Rel.Typ ≠ .RelNone ∨ multi then renderLateralJoin c else c
    let r : Option Ctx :=
      if sel.Rel.Typ = .RelRecursive then renderRecursiveCTE env qc sel c else some c
    r.bind fun c => renderSelect env co fuel sel (renderPluralSelect sel c)
  else some c

/-- The text `renderQuery` writes when it pops the close token of `sel`: the SELECT closers
and the lateral-join closer; nothing for a union. -/
def closeSel (multi : Bool) (sel : Select) (c : Ctx) : Ctx :=
  if sel.Typ ≠ .SelTypeUnion then
    let c := renderSelectClose sel c
    if sel.Rel.Typ ≠ .RelNone ∨ multi then renderLateralJoinClose sel c else c
  else c

/-- The ids of the children with `SkipRender = None`, in the order of the Children list;
`none` when a child id is not a selection of the QCode. -/
def renderedChildren (qc : QCode) : List Int → Option (List Int)
  | [] => some []
  | cid :: rest =>
    match qc.selectAt cid with
    | none => none
    | some child =>
      (renderedChildren qc rest).map fun ids =>
        if child.SkipRender ≠ .SkipTypeNone then ids else child.ID :: ids

/-- The recursive definition `block(s) = open(s) ++ blocks of the rendered children ++
close(s)` as a transformation of the context, with the children taken in the order
`ord children`; `d` bounds the depth of the recursion and `fuel` is the fuel of `renderExp`. -/
def blockWith (ord : List Int → List Int) (env : Env) (co : Compiler) (qc : QCode)
    (multi : Bool) (fuel : Nat) : Nat → Int → Ctx → Option Ctx
  | 0, _, _ => none
  | d + 1, id, c =>
    match qc.selectAt id with
    | none => none
    | some sel =>
      (openSel env co qc multi fuel sel c).bind fun c =>
        (renderedChildren qc sel.Children).bind fun ids =>
          ((ord ids).foldl (fun (oc : Option Ctx) cid =>
            oc.bind fun c => blockWith ord env co qc multi fuel d cid c) (some c)).map
            (closeSel multi sel)

/-- The recursive definition in the words of the specification: the blocks of the children
follow `open(s)` in the order of the Children list. -/
def specBlock (env : Env) (co : Compiler) (qc : QCode) (multi : Bool) (fuel : Nat) :
    Nat → Int → Ctx → Option Ctx :=
  blockWith (fun ids => ids) env co qc multi fuel

/-- The recursive definition with the blocks of the children in the reverse of the order of
the Children list. -/
def block (env : Env) (co : Compiler) (qc : QCode) (multi : Bool) (fuel : Nat) :
    Nat → Int → Ctx → Option Ctx :=
  blockWith List.reverse env co qc multi fuel

/-- The blocks of the selections `ids`, one after the other. -/
def blocks (env : Env) (co : Compiler) (qc : QCode) (multi : Bool) (fuel d : Nat)
    (ids : List Int) (c : Ctx) : Option Ctx :=
  ids.foldl (fun (oc : Option Ctx) cid =>
    oc.bind fun c => block env co qc multi fuel d cid c) (some c)

/-- The stack tokens of the selections `ids`, top first: for each the open token `id` and the
close token `id + closeBlock` in `int32`. -/
def tokens (ids : List Int) : List Int :=
  ids.flatMap fun i => [i, wrap32 (i + closeBlock)]

/-- The ids of the QCode are as the specification takes them: `Selects[i].ID = i` and every id is
below `closeBlock`. -/
def QCode.IdsOK (qc : QCode) : Prop :=
  ∀ id sel, qc.selectAt id = some sel → sel.ID = id ∧ id < closeBlock

/-- The Children lists are well founded: every child is a selection of the QCode and has a
smaller rank than its parent. In a forest the height of the subtree is such a rank. -/
def QCode.ChildrenDescend (qc : QCode) (rank : Int → Nat) : Prop :=
  ∀ id sel, qc.selectAt id = some sel →
    ∀ cid ∈ sel.Children, (qc.selectAt cid).isSome = true ∧ rank cid < rank id

/-- A child `posts` with id `1`, limited by the variable `l1`. -/
def samplePosts : Select :=
  { sampleSel with
    ID := 1, ParentID := 0, FieldName := "posts", Table := "posts",
    Rel := { sampleRel with Typ := .RelOneToMany },
    Paging := { samplePaging with LimitVar := "l1" } }

/-- A child `tags` with id `2`, limited by the variable `l2`. -/
def sampleTags : Select :=
  { sampleSel with
    ID := 2, ParentID := 0, FieldName := "tags", Table := "tags",
    Rel := { sampleRel with Typ := .RelOneToMany },
    Paging := { samplePaging with LimitVar := "l2" } }

/-- The root `users` with the children `posts` and `tags`, declared in that order. -/
def sampleTree : QCode :=
  { Typ := .QTQuery, SType := .QTQuery, SchemaType := "postgres", Roots := [0],
    Selects := [{ sampleSel with Children := [1, 2] }, samplePosts, sampleTags] }

/-- The rank of the sample tree: the root above its children. -/
def sampleRank (id : Int) : Nat :=
  if id = 0 then 1 else 0

/-- The recursive renderer `R` of the specification, as a transformation of the context: an
`And`/`Or` node is `(`, its children in source order with the operator text between
neighbours, `)`; a `Not` node is `NOT ` and its first child; `False` is `false`; any other
node is rendered by `renderNestedWhere` when it has relationship hops and nesting is allowed
(the call back into the renderer, on the same node with nesting suppressed, is `renderOp`),
else by `renderOp`. The result is `none` for a `Not` node without a child. -/
def renderExpRec (env : Env) (co : Compiler) (ti : DBTableInfo) (skipNested : Bool) :
    Exp → Ctx → Option Ctx
  | .mk op col t ty v lt lv rels cs, c =>
    match op with
    | .OpFalse => some (c.WriteString "false")
    | .OpAnd => (recList " AND " true cs (c.WriteString "(")).map fun c => c.WriteString ")"
    | .OpOr => (recList " OR " true cs (c.WriteString "(")).map fun c => c.WriteString ")"
    | .OpNot => recFirst cs (c.WriteString "NOT ")
    | _ =>
      if !skipNested && rels.length ≠ 0 then
        renderNestedWhere env (fun ti2 ex2 _ c2 => some (renderOp env co ti2 ex2 c2)) ti
          (.mk op col t ty v lt lv rels cs) c
      else some (renderOp env co ti (.mk op col t ty v lt lv rels cs) c)
where
  /-- The children of an `And`/`Or` node in source order, the operator text `sep` before
  every child but the first. -/
  recList (sep : String) : Bool → List Exp → Ctx → Option Ctx
    | _, [], c => some c
    | first, e :: es, c =>
      (renderExpRec env co ti skipNested e (if first then c else c.WriteString sep)).bind
        (recList sep false es)
  /-- The first child of a `Not` node. -/
  recFirst : List Exp → Ctx → Option Ctx
    | [], _ => none
    | e :: _, c => renderExpRec env co ti skipNested e c

/-- The text of an operator tag on the stack of `renderExp`. -/
def opText : ExpOp → String
  | .OpAnd => " AND "
  | .OpOr => " OR "
  | .OpNot => "NOT "
  | .OpFalse => "false"
  | _ => ""

/-- The recursive renderer on a stack of `renderExp`, top first: a rune and an operator tag
write their text, a node is rendered by `renderExpRec`. -/
def recStack (env : Env) (co : Compiler) (ti : DBTableInfo) (skipNested : Bool) :
    List StackItem → Ctx → Option Ctx
  | [], c => some c
  | .rune ch :: st, c =>
    recStack env co ti skipNested st
      (if ch = '(' then c.WriteString "(" else if ch = ')' then c.WriteString ")" else c)
  | .op o :: st, c => recStack env co ti skipNested st (c.WriteString (opText o))
  | .exp e :: st, c =>
    (renderExpRec env co ti skipNested e c).bind (recStack env co ti skipNested st)

/-- An environment whose `renderRel` writes nothing for a relationship of kind None, as the
specification says of `renderRel`, and the join predicate otherwise. -/
def sampleRelEnv : Env :=
  { sampleEnv with
    renderRel := fun _ rel _ _ md =>
      if rel.Typ = .RelNone then ("", md) else ("((posts.user_id) = (users_0.id))", md) }

/-- A root selection `users` filtered by `sampleExp`: no relationship, a filter. -/
def sampleFiltered : Select :=
  { sampleSel with Where := some sampleExp }

/-- A child selection `posts` joined to its parent, without a filter. -/
def sampleJoined : Select :=
  { sampleChild with Where := none }

/-- What `renderNestedWhere` writes for the hop `rel` at index `i` before it looks at the
index of the last hop: ` AND ` between hops, the opener `EXISTS (SELECT 1 FROM <hop table>`,
the join tables of the hop, ` WHERE ` and the relationship predicate of the hop. -/
def hopOpen (env : Env) (ti : DBTableInfo) (i : Nat) (rel : DBRel) (c : Ctx) : Ctx :=
  let c := if i ≠ 0 then c.WriteString " AND " else c
  let c := c.WriteString "EXISTS (SELECT 1 FROM "
  let c := c.WriteString rel.Left.Col.Table
  let c := renderJoinTables rel c
  let c := c.WriteString " WHERE "
  c.run (env.renderRel ti rel (-1) none)

/-- The openers of the hops `rels`, first hop first, each inside the WHERE of the one
before. -/
def hopsOpen (env : Env) (ti : DBTableInfo) (rels : List DBRel) (c : Ctx) : Ctx :=
  rels.enum.foldl (fun c p => hopOpen env ti p.1 p.2 c) c

/-- A hop through the table `posts`. -/
def sampleHop : DBRel :=
  { sampleRel with
    Typ := .RelOneToMany
    Left := ⟨{ sampleCol with Table := "posts" }, { sampleTi with Name := "posts" }⟩ }

/-- A hop through the table `comments`. -/
def sampleHop2 : DBRel :=
  { sampleRel with
    Typ := .RelOneToMany
    Left := ⟨{ sampleCol with Table := "comments" }, { sampleTi with Name := "comments" }⟩ }

/-- The predicate `id = '5'` reached over the hops `posts`, `comments`. -/
def sampleNested : Exp :=
  .mk .OpEquals sampleCol "users" .ValStr "5" .ValStr [] [sampleHop, sampleHop2] []

/-- A sequence of `AddRole` calls `(role, table, trc)`, made in order; a call that returns an
error leaves the compiler as it was. -/
def addRoles (env : qcode.Env) (co : qcode.Compiler)
    (calls : List (String × String × qcode.TRConfig)) : qcode.Compiler :=
  calls.foldl (fun co call => (qcode.AddRole env co call.1 call.2.1 call.2.2).1) co

/-- Every entry of the role table was written by one of the calls `calls`: its trval carries
the role of that call and its key is that role followed by the singular or the plural of the
table of that call. -/
def RoleTableFrom (env : qcode.Env) (calls : List (String × String × qcode.TRConfig))
    (co : qcode.Compiler) : Prop :=
  ∀ k trv, co.tr.lookup k = some trv →
    ∃ call ∈ calls, trv.role = call.1 ∧
      (k = call.1 ++ env.Singularize call.2.1 ∨ k = call.1 ++ env.Pluralize call.2.1)

/-- How much of `__cur` has just been read: nothing, `_`, `__`, `__c`, `__cu`, or all of it. -/
inductive CurState where
  | c0
  | c1
  | c2
  | c3
  | c4
  | found
deriving DecidableEq, Repr

/-- One character of the scan for `__cur`. -/
def curStep (q : CurState) (ch : Char) : CurState :=
  match q with
  | .found => .found
  | .c0 => if ch = '_' then .c1 else .c0
  | .c1 => if ch = '_' then .c2 else .c0
  | .c2 => if ch = '_' then .c2 else if ch = 'c' then .c3 else .c0
  | .c3 => if ch = '_' then .c1 else if ch = 'u' then .c4 else .c0
  | .c4 => if ch = '_' then .c1 else if ch = 'r' then .found else .c0

/-- The scan for `__cur` over a text, from the state `q`. -/
def curScan (q : CurState) (t : List Char) : CurState :=
  t.foldl curStep q

/-- The part of `__cur` a scan state has read. -/
def CurState.read : CurState → List Char
  | .c0 => []
  | .c1 => ['_']
  | .c2 => ['_', '_']
  | .c3 => ['_', '_', 'c']
  | .c4 => ['_', '_', 'c', 'u']
  | .found => ['_', '_', 'c', 'u', 'r']

/-- The text does not contain `__cur`. -/
def NoCur (s : String) : Prop :=
  ¬ ("__cur".toList <:+: s.toList)

/-- The text appended between `c` and `c1` does not complete `__cur`: scanned from any state
short of `found` (from the start state `c0` only, when `a` is set) the scan stays short of
`found`, and it ends in `c0` when `b` is set. -/
def Goes (a b : Bool) (c c1 : Ctx) : Prop :=
  ∃ t, c1.w = c.w ++ t ∧
    ∀ q, q ≠ .found → (a = true → q = .c0) →
      curScan q t ≠ .found ∧ (b = true → curScan q t = .c0)

/-- Whenever the computation returns, the text it appended does not complete `__cur`. -/
def OGoes (a b : Bool) (c : Ctx) (o : Option Ctx) : Prop :=
  ∀ c1, o = some c1 → Goes a b c c1

/-- After the text `t` the scan is in the start state, whatever unfinished state it started
from. -/
abbrev CurResets (t : List Char) : Prop :=
  curScan .c0 t = .c0 ∧ curScan .c1 t = .c0 ∧ curScan .c2 t = .c0 ∧ curScan .c3 t = .c0 ∧
    curScan .c4 t = .c0

/-- The text `t` completes `__cur` from no unfinished state. -/
abbrev CurKeeps (t : List Char) : Prop :=
  curScan .c0 t ≠ .found ∧ curScan .c1 t ≠ .found ∧ curScan .c2 t ≠ .found ∧
    curScan .c3 t ≠ .found ∧ curScan .c4 t ≠ .found

/-- A relationship whose table and column names contain no `__cur`. -/
def RelNoCur (rel : DBRel) : Prop :=
  NoCur rel.Left.Col.Table ∧ NoCur rel.Left.Col.Name ∧ NoCur rel.Through.ColL.Table ∧
    NoCur rel.Through.ColL.Name ∧ NoCur rel.Right.VTable ∧ NoCur rel.Right.Col.Name ∧
    NoCur rel.Left.Ti.Name ∧ NoCur rel.Left.Ti.TSVCol.Name

/-- The names and values a predicate node carries contain no `__cur`. -/
def Exp.NoCurs (e : Exp) : Prop :=
  NoCur e.Col.Name ∧ NoCur e.Col.Typ ∧ NoCur e.Table ∧ NoCur e.Val ∧
    (∀ v ∈ e.ListVal, NoCur v) ∧ ∀ rel ∈ e.Rels, RelNoCur rel

/-- The variable map brings no `__cur`: a literal value has none, and a trusted `sql:` value
is rendered by `renderVar` as text without it. -/
def VarsNoCur (env : Env) (vars : List (String × String)) : Prop :=
  ∀ name val, vars.lookup name = some val →
    (val.startsWith "sql:" = false → NoCur val) ∧
    (val.startsWith "sql:" = true → ∀ md, NoCur (env.renderVar (val.drop 4) md).1)

/-- The names, types and filter values of the selection itself contain no `__cur`. -/
def Select.NoCurs (sel : Select) : Prop :=
  NoCur sel.Table ∧ RelNoCur sel.Rel ∧ NoCur sel.Ti.Name ∧ NoCur sel.Ti.Typ ∧
    NoCur sel.Ti.TSVCol.Name ∧ (∀ col ∈ sel.Ti.Columns, NoCur col.Name ∧ NoCur col.Typ) ∧
    (∀ col ∈ sel.Cols, NoCur col.Col.Name) ∧ (∀ ob ∈ sel.OrderBy, NoCur ob.Col.Name) ∧
    (∀ col ∈ sel.DistinctOn, NoCur col.Name) ∧
    ∀ ex, sel.Where = some ex → ex.All Exp.NoCurs

/-- The helpers of the other files write no `__cur`, whatever they are called with. -/
def Env.NoCurs (env : Env) : Prop :=
  (∀ ti rel id args md, NoCur (env.renderRel ti rel id args md).1) ∧
    (∀ sel md, NoCur (env.renderColumns sel md).1) ∧
    (∀ sel md, NoCur (env.renderBaseColumns sel md).1) ∧
    ∀ sel md, NoCur (env.renderJSONFields sel md).1

/-- The parameters registered under `name`, in order of registration. -/
def Metadata.registered (md : Metadata) (name : String) : List Param :=
  md.params.filter fun p => decide (p.Name = name)

/-- Between `c` and `c1` the parameters registered under `name` stay as they are: none is
added. -/
def Spares (name : String) (c c1 : Ctx) : Prop :=
  c1.md.registered name = c.md.registered name

/-- The node hands its value to `renderParam` as the parameter name `name`: a variable that
the variable map does not resolve (`renderVal`), or the operand of `OpEqualsTrue`,
`OpNotEqualsTrue` or `OpTsQuery` (`renderOp`). -/
def Exp.NamesParam (vars : List (String × String)) (name : String) (e : Exp) : Prop :=
  e.Val = name ∧
    ((e.Typ = .ValVar ∧ vars.lookup e.Val = none) ∨ e.Op = .OpEqualsTrue ∨
      e.Op = .OpNotEqualsTrue ∨ e.Op = .OpTsQuery)

/-- The helpers of the other files register no parameter called `name`, whatever they are
called with. -/
def Env.Spares (env : Env) (name : String) : Prop :=
  (∀ ti rel id args md, (env.renderRel ti rel id args md).2.registered name =
      md.registered name) ∧
    (∀ sel md, (env.renderColumns sel md).2.registered name = md.registered name) ∧
    (∀ sel md, (env.renderBaseColumns sel md).2.registered name = md.registered name) ∧
    (∀ sel md, (env.renderJSONFields sel md).2.registered name = md.registered name) ∧
    ∀ s md, (env.renderVar s md).2.registered name = md.registered name

/-- Neither the limit variable, nor the offset variable, nor a node of the filter of the
selection is called `name`. -/
def Select.NamesNoParam (vars : List (String × String)) (name : String) (sel : Select) :
    Prop :=
  sel.Paging.LimitVar ≠ name ∧ sel.Paging.OffsetVar ≠ name ∧
    ∀ ex, sel.Where = some ex → ex.All fun e => ¬ e.NamesParam vars name

/-- The text appended between `c` and `c1` does not contain `__cur`. -/
def EmitsNoCur (c c1 : Ctx) : Prop :=
  ∃ t, c1.w = c.w ++ t ∧ ¬ ("__cur".toList <:+: t)

/-- A cursored Singular selection `users` ordered by `id`. -/
def sampleSingularCursored : Select :=
  { sampleCursored with Singular := true }

/-- The query whose only root is the cursored Singular selection. -/
def sampleSingularCursoredQCode : QCode :=
  { sampleQCode with Roots := [0], Selects := [sampleSingularCursored] }

/-- The predicate `id > $cursor`: a filter on a variable called `cursor`. -/
def sampleCursorVar : Exp :=
  .mk .OpGreaterThan sampleCol "users" .ValVar "cursor" .ValStr [] [] []

/-- A root selection `users` without a cursor, filtered by `id > $cursor`. -/
def sampleCursorFiltered : Select :=
  { sampleSel with Where := some sampleCursorVar }

/-- The predicate `id = '__cur_0'`: a literal that contains `__cur`. -/
def sampleCurLiteral : Exp :=
  .mk .OpEquals sampleCol "users" .ValStr "__cur_0" .ValStr [] [] []

/-- A root selection `users` without a cursor, filtered by `id = '__cur_0'`. -/
def sampleCurValued : Select :=
  { sampleSel with Where := some sampleCurLiteral }

/-! ## Lemmas and theorems -/

theorem grows_self (c : Ctx) : Grows c.w c :=
  ⟨[], by simp⟩

theorem grows_WriteString {w0 : List Char} {c : Ctx} (s : String) (h : Grows w0 c) :
    Grows w0 (c.WriteString s) := by
  obtain ⟨t, ht⟩ := h
  exact ⟨t ++ s.toList, by simp [Ctx.WriteString, ht]⟩

theorem grows_run {w0 : List Char} {c : Ctx} (f : Helper) (h : Grows w0 c) :
    Grows w0 (c.run f) := by
  obtain ⟨t, ht⟩ := h
  exact ⟨t ++ (f c.md).1.toList, by simp [Ctx.run, ht]⟩

theorem grows_setMd {w0 : List Char} {c : Ctx} (md : Metadata) (h : Grows w0 c) :
    Grows w0 { c with md := md } := h

theorem grows_foldl {α : Type} {w0 : List Char} (f : Ctx → α → Ctx) (xs : List α) (c : Ctx)
    (hf : ∀ c x, Grows w0 c → Grows w0 (f c x)) (h : Grows w0 c) :
    Grows w0 (xs.foldl f c) := by
  induction xs generalizing c with
  | nil => exact h
  | cons x xs ih => exact ih _ (hf c x h)

theorem ogrows_some {w0 : List Char} {c : Ctx} (h : Grows w0 c) : OGrows w0 (some c) := by
  intro c1 h1
  cases h1
  exact h

theorem ogrows_none (w0 : List Char) : OGrows w0 none := by
  intro c1 h1
  cases h1

theorem ogrows_map {w0 : List Char} (f : Ctx → Ctx) (o : Option Ctx)
    (hf : ∀ c, Grows w0 c → Grows w0 (f c)) (ho : OGrows w0 o) : OGrows w0 (o.map f) := by
  intro c1 h1
  cases o with
  | none => cases h1
  | some c => cases h1; exact hf c (ho c rfl)

theorem ogrows_bind {w0 : List Char} (f : Ctx → Option Ctx) (o : Option Ctx)
    (hf : ∀ c, Grows w0 c → OGrows w0 (f c)) (ho : OGrows w0 o) : OGrows w0 (o.bind f) := by
  intro c1 h1
  cases o with
  | none => cases h1
  | some c => exact hf c (ho c rfl) c1 h1

theorem ogrows_foldl {α : Type} {w0 : List Char} (f : Option Ctx → α → Option Ctx)
    (xs : List α) (o : Option Ctx) (hf : ∀ o x, OGrows w0 o → OGrows w0 (f o x))
    (h : OGrows w0 o) : OGrows w0 (xs.foldl f o) := by
  induction xs generalizing o with
  | nil => exact h
  | cons x xs ih => exact ih _ (hf o x h)

theorem grows_int32String {w0 : List Char} {c : Ctx} (v : Int) (h : Grows w0 c) :
    Grows w0 (int32String v c) := by
  unfold int32String
  exact grows_WriteString _ h

theorem grows_colWithTable {w0 : List Char} {c : Ctx} (t col : String) (h : Grows w0 c) :
    Grows w0 (colWithTable t col c) := by
  unfold colWithTable
  exact grows_WriteString _ (grows_WriteString _ (grows_WriteString _ h))

theorem grows_quoted {w0 : List Char} {c : Ctx} (s : String) (h : Grows w0 c) :
    Grows w0 (quoted s c) := by
  unfold quoted
  exact grows_WriteString _ (grows_WriteString _ (grows_WriteString _ h))

theorem grows_squoted {w0 : List Char} {c : Ctx} (s : String) (h : Grows w0 c) :
    Grows w0 (squoted s c) := by
  unfold squoted
  exact grows_WriteString _ (grows_WriteString _ (grows_WriteString _ h))

theorem grows_aliasWithID {w0 : List Char} {c : Ctx} (s : String) (id : Int)
    (h : Grows w0 c) : Grows w0 (aliasWithID s id c) := by
  unfold aliasWithID
  exact grows_int32String _ (grows_WriteString _ (grows_WriteString _ (grows_WriteString _ h)))

theorem grows_renderParam {w0 : List Char} {c : Ctx} (p : Param) (h : Grows w0 c) :
    Grows w0 (renderParam p c) := by
  unfold renderParam
  dsimp only
  split
  · exact grows_WriteString _ h
  · exact grows_WriteString _ (grows_WriteString _ h)

theorem grows_renderLimit {w0 : List Char} {c : Ctx} (sel : Select) (h : Grows w0 c) :
    Grows w0 (renderLimit sel c) := by
  unfold renderLimit
  try dsimp only
  repeat (first
    | with_reducible assumption
    | with_reducible apply grows_WriteString
    | with_reducible apply grows_run
    | with_reducible apply grows_int32String
    | with_reducible apply grows_colWithTable
    | with_reducible apply grows_quoted
    | with_reducible apply grows_squoted
    | with_reducible apply grows_aliasWithID
    | with_reducible apply grows_renderParam
    | with_reducible refine grows_foldl _ _ _ (fun _ _ _ => ?_) ?_
    | split)

theorem grows_renderGroupBy {w0 : List Char} {c : Ctx} (sel : Select) (h : Grows w0 c) :
    Grows w0 (renderGroupBy sel c) := by
  unfold renderGroupBy
  try dsimp only
  repeat (first
    | with_reducible assumption
    | with_reducible apply grows_WriteString
    | with_reducible apply grows_run
    | with_reducible apply grows_int32String
    | with_reducible apply grows_colWithTable
    | with_reducible apply grows_quoted
    | with_reducible apply grows_squoted
    | with_reducible apply grows_aliasWithID
    | with_reducible apply grows_renderParam
    | with_reducible refine grows_foldl _ _ _ (fun _ _ _ => ?_) ?_
    | split)

theorem grows_renderOrderBy {w0 : List Char} {c : Ctx} (sel : Select) (h : Grows w0 c) :
    Grows w0 (renderOrderBy sel c) := by
  unfold renderOrderBy
  try dsimp only
  repeat (first
    | with_reducible assumption
    | with_reducible apply grows_WriteString
    | with_reducible apply grows_run
    | with_reducible apply grows_int32String
    | with_reducible apply grows_colWithTable
    | with_reducible apply grows_quoted
    | with_reducible apply grows_squoted
    | with_reducible apply grows_aliasWithID
    | with_reducible apply grows_renderParam
    | with_reducible refine grows_foldl _ _ _ (fun _ _ _ => ?_) ?_
    | split)

theorem grows_renderDistinctOn {w0 : List Char} {c : Ctx} (sel : Select) (h : Grows w0 c) :
    Grows w0 (renderDistinctOn sel c) := by
  unfold renderDistinctOn
  try dsimp only
  repeat (first
    | with_reducible assumption
    | with_reducible apply grows_WriteString
    | with_reducible apply grows_run
    | with_reducible apply grows_int32String
    | with_reducible apply grows_colWithTable
    | with_reducible apply grows_quoted
    | with_reducible apply grows_squoted
    | with_reducible apply grows_aliasWithID
    | with_reducible apply grows_renderParam
    | with_reducible refine grows_foldl _ _ _ (fun _ _ _ => ?_) ?_
    | split)

theorem grows_renderJoin {w0 : List Char} {c : Ctx} (rel : DBRel) (h : Grows w0 c) :
    Grows w0 (renderJoin rel c) := by
  unfold renderJoin
  try dsimp only
  repeat (first
    | with_reducible assumption
    | with_reducible apply grows_WriteString
    | with_reducible apply grows_run
    | with_reducible apply grows_int32String
    | with_reducible apply grows_colWithTable
    | with_reducible apply grows_quoted
    | with_reducible apply grows_squoted
    | with_reducible apply grows_aliasWithID
    | with_reducible apply grows_renderParam
    | with_reducible refine grows_foldl _ _ _ (fun _ _ _ => ?_) ?_
    | split)

theorem grows_renderJoinTables {w0 : List Char} {c : Ctx} (rel : DBRel) (h : Grows w0 c) :
    Grows w0 (renderJoinTables rel c) := by
  unfold renderJoinTables
  try dsimp only
  repeat (first
    | with_reducible assumption
    | with_reducible apply grows_WriteString
    | with_reducible apply grows_run
    | with_reducible apply grows_int32String
    | with_reducible apply grows_colWithTable
    | with_reducible apply grows_quoted
    | with_reducible apply grows_squoted
    | with_reducible apply grows_aliasWithID
    | with_reducible apply grows_renderParam
    | with_reducible apply grows_renderJoin
    | with_reducible refine grows_foldl _ _ _ (fun _ _ _ => ?_) ?_
    | split)

theorem grows_renderFrom {w0 : List Char} {c : Ctx} (sel : Select) (h : Grows w0 c) :
    Grows w0 (renderFrom sel c) := by
  unfold renderFrom
  try dsimp only
  repeat (first
    | with_reducible assumption
    | with_reducible apply grows_WriteString
    | with_reducible apply grows_run
    | with_reducible apply grows_int32String
    | with_reducible apply grows_colWithTable
    | with_reducible apply grows_quoted
    | with_reducible apply grows_squoted
    | with_reducible apply grows_aliasWithID
    | with_reducible apply grows_renderParam
    | with_reducible refine grows_foldl _ _ _ (fun _ _ _ => ?_) ?_
    | split)

theorem grows_renderCursorCTE {w0 : List Char} {c : Ctx} (sel : Select) (h : Grows w0 c) :
    Grows w0 (renderCursorCTE sel c) := by
  unfold renderCursorCTE
  try dsimp only
  repeat (first
    | with_reducible assumption
    | with_reducible apply grows_WriteString
    | with_reducible apply grows_run
    | with_reducible apply grows_int32String
    | with_reducible apply grows_colWithTable
    | with_reducible apply grows_quoted
    | with_reducible apply grows_squoted
    | with_reducible apply grows_aliasWithID
    | with_reducible apply grows_renderParam
    | with_reducible refine grows_foldl _ _ _ (fun _ _ _ => ?_) ?_
    | split)

theorem grows_renderList {w0 : List Char} {c : Ctx} (ex : Exp) (h : Grows w0 c) :
    Grows w0 (renderList ex c) := by
  unfold renderList
  try dsimp only
  repeat (first
    | with_reducible assumption
    | with_reducible apply grows_WriteString
    | with_reducible apply grows_run
    | with_reducible apply grows_int32String
    | with_reducible apply grows_colWithTable
    | with_reducible apply grows_quoted
    | with_reducible apply grows_squoted
    | with_reducible apply grows_aliasWithID
    | with_reducible apply grows_renderParam
    | with_reducible refine grows_foldl _ _ _ (fun _ _ _ => ?_) ?_
    | split)

theorem grows_renderVal {w0 : List Char} {c : Ctx} (env : Env) (ex : Exp) (vars : List (String × String)) (h : Grows w0 c) :
    Grows w0 (renderVal env ex vars c) := by
  unfold renderVal
  try dsimp only
  repeat (first
    | with_reducible assumption
    | with_reducible apply grows_WriteString
    | with_reducible apply grows_run
    | with_reducible apply grows_int32String
    | with_reducible apply grows_colWithTable
    | with_reducible apply grows_quoted
    | with_reducible apply grows_squoted
    | with_reducible apply grows_aliasWithID
    | with_reducible apply grows_renderParam
    | with_reducible refine grows_foldl _ _ _ (fun _ _ _ => ?_) ?_
    | split)

theorem grows_renderOpColumn {w0 : List Char} {c : Ctx} (ti : DBTableInfo) (ex : Exp)
    (h : Grows w0 c) : Grows w0 (renderOpColumn ti ex c) := by
  unfold renderOpColumn
  try dsimp only
  repeat (first
    | with_reducible assumption
    | with_reducible apply grows_WriteString
    | with_reducible apply grows_colWithTable
    | split)

theorem grows_renderOpValue {w0 : List Char} {c : Ctx} (env : Env) (co : Compiler) (ex : Exp)
    (h : Grows w0 c) : Grows w0 (renderOpValue env co ex c) := by
  unfold renderOpValue
  try dsimp only
  repeat (first
    | with_reducible assumption
    | with_reducible apply grows_WriteString
    | with_reducible apply grows_renderList
    | with_reducible apply grows_renderVal
    | split)

theorem grows_renderOp {w0 : List Char} {c : Ctx} (env : Env) (co : Compiler)
    (ti : DBTableInfo) (ex : Exp) (h : Grows w0 c) : Grows w0 (renderOp env co ti ex c) := by
  unfold renderOp
  split
  · exact h
  · have h1 := grows_renderOpColumn ti ex h
    generalize renderOpColumn ti ex c = c1 at h1
    dsimp only
    cases ex.Op <;> dsimp only <;>
      repeat (first
        | with_reducible assumption
        | with_reducible apply grows_WriteString
        | with_reducible apply grows_renderOpValue
        | with_reducible apply grows_renderParam
        | with_reducible apply grows_colWithTable
        | split)

theorem grows_renderPluralSelect {w0 : List Char} {c : Ctx} (sel : Select) (h : Grows w0 c) :
    Grows w0 (renderPluralSelect sel c) := by
  unfold renderPluralSelect
  try dsimp only
  repeat (first
    | with_reducible assumption
    | with_reducible apply grows_WriteString
    | with_reducible apply grows_run
    | with_reducible apply grows_int32String
    | with_reducible apply grows_colWithTable
    | with_reducible apply grows_quoted
    | with_reducible apply grows_squoted
    | with_reducible apply grows_aliasWithID
    | with_reducible apply grows_renderParam
    | with_reducible refine grows_foldl _ _ _ (fun _ _ _ => ?_) ?_
    | split)

theorem grows_renderSelectClose {w0 : List Char} {c : Ctx} (sel : Select) (h : Grows w0 c) :
    Grows w0 (renderSelectClose sel c) := by
  unfold renderSelectClose
  try dsimp only
  repeat (first
    | with_reducible assumption
    | with_reducible apply grows_WriteString
    | with_reducible apply grows_run
    | with_reducible apply grows_int32String
    | with_reducible apply grows_colWithTable
    | with_reducible apply grows_quoted
    | with_reducible apply grows_squoted
    | with_reducible apply grows_aliasWithID
    | with_reducible apply grows_renderParam
    | with_reducible refine grows_foldl _ _ _ (fun _ _ _ => ?_) ?_
    | split)

theorem grows_renderLateralJoin {w0 : List Char} {c : Ctx}  (h : Grows w0 c) :
    Grows w0 (renderLateralJoin c) := by
  unfold renderLateralJoin
  try dsimp only
  repeat (first
    | with_reducible assumption
    | with_reducible apply grows_WriteString
    | with_reducible apply grows_run
    | with_reducible apply grows_int32String
    | with_reducible apply grows_colWithTable
    | with_reducible apply grows_quoted
    | with_reducible apply grows_squoted
    | with_reducible apply grows_aliasWithID
    | with_reducible apply grows_renderParam
    | with_reducible refine grows_foldl _ _ _ (fun _ _ _ => ?_) ?_
    | split)

theorem grows_renderLateralJoinClose {w0 : List Char} {c : Ctx} (sel : Select) (h : Grows w0 c) :
    Grows w0 (renderLateralJoinClose sel c) := by
  unfold renderLateralJoinClose
  try dsimp only
  repeat (first
    | with_reducible assumption
    | with_reducible apply grows_WriteString
    | with_reducible apply grows_run
    | with_reducible apply grows_int32String
    | with_reducible apply grows_colWithTable
    | with_reducible apply grows_quoted
    | with_reducible apply grows_squoted
    | with_reducible apply grows_aliasWithID
    | with_reducible apply grows_renderParam
    | with_reducible refine grows_foldl _ _ _ (fun _ _ _ => ?_) ?_
    | split)

theorem ogrows_renderNestedHop {w0 : List Char} {c : Ctx} (env : Env)
    (rexp : DBTableInfo → Exp → Bool → Ctx → Option Ctx) (ti : DBTableInfo) (ex : Exp)
    (i : Nat) (rel : DBRel)
    (hr : ∀ ti ex b c, Grows w0 c → OGrows w0 (rexp ti ex b c)) (h : Grows w0 c) :
    OGrows w0 (renderNestedHop env rexp ti ex i rel c) := by
  unfold renderNestedHop
  dsimp only
  have h1 : Grows w0 (Ctx.run (Ctx.WriteString (renderJoinTables rel (Ctx.WriteString
      (Ctx.WriteString (if i ≠ 0 then c.WriteString " AND " else c) "EXISTS (SELECT 1 FROM ")
      rel.Left.Col.Table)) " WHERE ") (env.renderRel ti rel (-1) none)) := by
    repeat (first
      | with_reducible assumption
      | with_reducible apply grows_WriteString
      | with_reducible apply grows_run
      | with_reducible apply grows_renderJoinTables
      | split)
  split
  · exact ogrows_map _ _ (fun c hc => grows_WriteString _ hc) (hr _ _ _ _ (grows_WriteString _ h1))
  · exact ogrows_some h1

theorem ogrows_renderNestedWhere {w0 : List Char} {c : Ctx} (env : Env)
    (rexp : DBTableInfo → Exp → Bool → Ctx → Option Ctx) (ti : DBTableInfo) (ex : Exp)
    (hr : ∀ ti ex b c, Grows w0 c → OGrows w0 (rexp ti ex b c)) (h : Grows w0 c) :
    OGrows w0 (renderNestedWhere env rexp ti ex c) := by
  unfold renderNestedWhere
  dsimp only
  refine ogrows_map _ _ (fun c hc => grows_foldl _ _ _ (fun _ _ h1 => grows_WriteString _ h1) hc) ?_
  refine ogrows_foldl _ _ _ (fun o p ho => ?_) (ogrows_some h)
  exact ogrows_bind _ _ (fun c hc => ogrows_renderNestedHop env rexp ti ex _ _ hr hc) ho

theorem ogrows_renderExpLoop {w0 : List Char} (env : Env) (co : Compiler) (fuel : Nat) :
    ∀ (ti : DBTableInfo) (skipNested : Bool) (st : List StackItem) (c : Ctx),
      Grows w0 c → OGrows w0 (renderExpLoop env co fuel ti skipNested st c) := by
  induction fuel with
  | zero =>
    intro ti sk st c h
    cases st with
    | nil => simp only [renderExpLoop]; exact ogrows_some h
    | cons x st => simp only [renderExpLoop]; exact ogrows_none _
  | succ fuel ih =>
    intro ti sk st c h
    cases st with
    | nil => simp only [renderExpLoop]; exact ogrows_some h
    | cons x st =>
      simp only [renderExpLoop]
      split
      · apply ih
        repeat (first
          | with_reducible assumption
          | with_reducible apply grows_WriteString
          | split)
      · apply ih
        repeat (first
          | with_reducible assumption
          | with_reducible apply grows_WriteString
          | split)
      · split
        · exact ih _ _ _ _ h
        · exact ih _ _ _ _ h
        · exact ih _ _ _ _ h
        · split
          · exact ogrows_none _
          · exact ih _ _ _ _ h
        · split
          · exact ogrows_bind _ _ (fun c hc => ih _ _ _ _ hc)
              (ogrows_renderNestedWhere env _ _ _ (fun ti ex b c hc => ih _ _ _ _ hc) h)
          · exact ih _ _ _ _ (grows_renderOp env co _ _ h)

theorem ogrows_renderWhere {w0 : List Char} {c : Ctx} (env : Env) (co : Compiler)
    (fuel : Nat) (sel : Select) (h : Grows w0 c) :
    OGrows w0 (renderWhere env co fuel sel c) := by
  unfold renderWhere
  split
  · exact ogrows_some h
  · dsimp only
    refine ogrows_map _ _ (fun c hc => grows_WriteString _ hc) ?_
    split
    · unfold renderExp
      apply ogrows_renderExpLoop
      repeat (first
        | with_reducible assumption
        | with_reducible apply grows_WriteString
        | with_reducible apply grows_run
        | split)
    · exact ogrows_some (grows_run _ (grows_WriteString _ h))

theorem ogrows_renderBaseSelect {w0 : List Char} {c : Ctx} (env : Env) (co : Compiler)
    (fuel : Nat) (sel : Select) (h : Grows w0 c) :
    OGrows w0 (renderBaseSelect env co fuel sel c) := by
  unfold renderBaseSelect
  dsimp only
  have h1 : Grows w0 (renderJoinTables sel.Rel (renderFrom sel (Ctx.run (renderDistinctOn sel
      (Ctx.WriteString (renderCursorCTE sel c) "SELECT ")) (env.renderBaseColumns sel)))) :=
    grows_renderJoinTables _ (grows_renderFrom _ (grows_run _ (grows_renderDistinctOn _
      (grows_WriteString _ (grows_renderCursorCTE _ h)))))
  refine ogrows_map _ _
    (fun c hc => grows_renderLimit _ (grows_renderOrderBy _ (grows_renderGroupBy _ hc))) ?_
  split
  · exact ogrows_renderWhere env co fuel sel h1
  · exact ogrows_some h1

theorem ogrows_renderRecursiveCTE {w0 : List Char} {c : Ctx} (env : Env) (qc : QCode)
    (sel : Select) (h : Grows w0 c) : OGrows w0 (renderRecursiveCTE env qc sel c) := by
  unfold renderRecursiveCTE renderRecursiveBaseSelect
  dsimp only
  refine ogrows_map _ _ (fun c hc => grows_WriteString _ hc) ?_
  intro c1 h1
  cases hs : qc.selectAt sel.ParentID with
  | none => rw [hs] at h1; cases h1
  | some psel =>
    rw [hs] at h1
    cases h1
    repeat (first
      | with_reducible assumption
      | with_reducible apply grows_WriteString
      | with_reducible apply grows_run
      | with_reducible apply grows_quoted
      | with_reducible apply grows_colWithTable
      | with_reducible apply grows_renderFrom)

theorem ogrows_renderSelect {w0 : List Char} {c : Ctx} (env : Env) (co : Compiler)
    (fuel : Nat) (sel : Select) (h : Grows w0 c) :
    OGrows w0 (renderSelect env co fuel sel c) := by
  unfold renderSelect
  dsimp only
  refine ogrows_map _ _ (fun c hc => grows_aliasWithID _ _ (grows_WriteString _ hc)) ?_
  apply ogrows_renderBaseSelect
  repeat (first
    | with_reducible assumption
    | with_reducible apply grows_WriteString
    | with_reducible apply grows_run
    | with_reducible apply grows_int32String
    | with_reducible refine grows_foldl _ _ _ (fun _ _ _ => ?_) ?_
    | split)

theorem ogrows_renderQuery {w0 : List Char} (env : Env) (co : Compiler) (qc : QCode)
    (multi : Bool) (fuel : Nat) :
    ∀ (st : List Int) (c : Ctx), Grows w0 c →
      OGrows w0 (renderQuery env co qc multi fuel st c) := by
  induction fuel with
  | zero =>
    intro st c h
    cases st with
    | nil => simp only [renderQuery]; exact ogrows_some h
    | cons x st => simp only [renderQuery]; exact ogrows_none _
  | succ fuel ih =>
    intro st c h
    cases st with
    | nil => simp only [renderQuery]; exact ogrows_some h
    | cons id st =>
      simp only [renderQuery]
      split
      · split
        · exact ogrows_none _
        · refine ogrows_bind _ _ (fun c hc => ?_) ?_
          · intro c1 h1
            cases hp : pushChildSelects qc _ st with
            | none => rw [hp] at h1; cases h1
            | some st1 => rw [hp] at h1; exact ih _ _ hc c1 h1
          · split
            · refine ogrows_bind _ _
                (fun c hc => ogrows_renderSelect env co fuel _ (grows_renderPluralSelect _ hc)) ?_
              split
              · apply ogrows_renderRecursiveCTE
                split
                · exact grows_renderLateralJoin h
                · exact h
              · apply ogrows_some
                split
                · exact grows_renderLateralJoin h
                · exact h
            · exact ogrows_some h
      · split
        · exact ogrows_none _
        · apply ih
          repeat (first
            | with_reducible assumption
            | with_reducible apply grows_renderLateralJoinClose
            | with_reducible apply grows_renderSelectClose
            | split)

theorem intercalate_cons_eq (sep x : List Char) (xs : List (List Char)) :
    sep.intercalate (x :: xs) = x ++ (xs.map fun y => sep ++ y).flatten := by
  induction xs generalizing x with
  | nil => simp [List.intercalate]
  | cons y ys ih =>
    have h := ih y
    simp only [List.intercalate, List.intersperse, List.flatten_cons, List.map_cons] at h ⊢
    rw [h]
    simp [List.append_assoc]

theorem renderRoot_eq (qc : QCode) (i : Nat) (id : Int) (sel : Select) (c : Ctx)
    (st : List Int) (h : qc.selectAt id = some sel) :
    renderRoot qc i id c st =
      some ({ w := c.w ++ (if i ≠ 0 then ", ".toList else []) ++ (rootEntry sel).toList,
              md := c.md }, rootStack [sel] ++ st) := by
  unfold renderRoot
  rw [h]
  by_cases hi : i = 0 <;> by_cases hs : sel.SkipRender = .SkipTypeUserNeeded <;>
    by_cases hcur : sel.Paging.Cursor = true <;>
    simp [Ctx.WriteString, int32String, rootEntry, rootStack, hi, hs, hcur, List.filter_cons]

theorem rootStack_cons (sel : Select) (sels : List Select) :
    rootStack (sel :: sels) = rootStack sels ++ rootStack [sel] := by
  by_cases hs : sel.SkipRender = .SkipTypeUserNeeded <;>
    simp [rootStack, List.filter_cons, hs]

theorem renderRoots_loop (qc : QCode) (ids : List Int) (sels : List Select)
    (h : List.Forall₂ (fun id sel => qc.selectAt id = some sel) ids sels) :
    ∀ (k : Nat) (c : Ctx) (st : List Int), 0 < k →
      (ids.enumFrom k).foldl (fun (acc : Option (Ctx × List Int)) p =>
        acc.bind fun r => renderRoot qc p.1 p.2 r.1 r.2) (some (c, st))
      = some ({ w := c.w ++ (sels.map fun s => ", ".toList ++ (rootEntry s).toList).flatten,
                md := c.md }, rootStack sels ++ st) := by
  induction h with
  | nil => intro k c st _; simp [rootStack]
  | @cons id sel ids sels hd _ ih =>
    intro k c st hk
    have hk0 : k ≠ 0 := Nat.pos_iff_ne_zero.mp hk
    rw [List.enumFrom_cons, List.foldl_cons, Option.some_bind]
    dsimp only
    rw [rootStack_cons sel sels, renderRoot_eq qc k id sel c st hd,
      ih (k + 1) _ _ (Nat.succ_pos k)]
    simp [hk0, List.append_assoc]

theorem renderRoots_eq (qc : QCode) (sels : List Select) (c : Ctx)
    (h : List.Forall₂ (fun id sel => qc.selectAt id = some sel) qc.Roots sels) :
    renderRoots qc c [] =
      some ({ w := c.w ++ ", ".toList.intercalate (sels.map fun s => (rootEntry s).toList),
              md := c.md }, rootStack sels) := by
  unfold renderRoots
  generalize qc.Roots = ids at h
  cases h with
  | nil => simp [List.enum, rootStack, List.intercalate]
  | @cons id sel ids sels hd htl =>
    rw [List.enum, List.enumFrom_cons, List.foldl_cons, Option.some_bind]
    dsimp only
    rw [rootStack_cons sel sels, renderRoot_eq qc 0 id sel c [] hd,
      renderRoots_loop qc ids sels htl (0 + 1) _ _ (Nat.succ_pos 0), List.map_cons,
      intercalate_cons_eq]
    simp [List.append_assoc, Function.comp_def]

/-- C1: when every root id addresses a selection, `CompileQuery` hands the tree walker a buffer
that holds the opening of the outer SELECT, one entry per root in `Roots` order separated by
`, ` (`'<FieldName>', NULL` for a `UserNeeded` root, `'<FieldName>', __sj_<ID>.json` otherwise,
each with its cursor pair when cursored), and the closing `) AS __root FROM (VALUES(true)) AS
__root_x` (MySQL: `VALUES ROW(true)`); the walker's stack holds tokens for the roots that are
not `UserNeeded` only; and everything the walker emits comes after that text. -/
theorem CompileQuery_outer_select (env : Env) (co : Compiler) (fuel : Nat) (qc : QCode)
    (c : Ctx) (sels : List Select)
    (hroots : List.Forall₂ (fun id sel => qc.selectAt id = some sel) qc.Roots sels) :
    CompileQuery env co fuel qc c =
        renderQuery env co qc true fuel (rootStack sels)
          { w := c.w ++ (outerSelectOpen qc.SchemaType).toList ++
              ", ".toList.intercalate (sels.map fun s => (rootEntry s).toList) ++
              (outerSelectClose qc.SchemaType).toList,
            md := queryMetadata qc c.md } ∧
      ∀ c1, CompileQuery env co fuel qc c = some c1 →
        ∃ rest, c1.w = c.w ++ (outerSelectOpen qc.SchemaType).toList ++
          ", ".toList.intercalate (sels.map fun s => (rootEntry s).toList) ++
          (outerSelectClose qc.SchemaType).toList ++ rest := by
  have key : CompileQuery env co fuel qc c =
      renderQuery env co qc true fuel (rootStack sels)
        { w := c.w ++ (outerSelectOpen qc.SchemaType).toList ++
            ", ".toList.intercalate (sels.map fun s => (rootEntry s).toList) ++
            (outerSelectClose qc.SchemaType).toList,
          md := queryMetadata qc c.md } := by
    unfold CompileQuery
    dsimp only
    rw [renderRoots_eq qc sels _ hroots, Option.some_bind]
    by_cases hct : qc.SchemaType = "mysql" <;> by_cases hq : qc.Typ = .QTSubscription <;>
      simp [Ctx.WriteString, outerSelectOpen, outerSelectClose, queryMetadata, hct, hq]
  refine ⟨key, fun c1 h1 => ?_⟩
  rw [key] at h1
  exact ogrows_renderQuery env co qc true fuel _ _ (grows_self _) c1 h1

/-- C1 at the query `{ users, me }` whose second root is `UserNeeded`: the compile returns, and
the outer SELECT is `'users', __sj_0.json, 'me', NULL`. -/
theorem CompileQuery_outer_select_witness :
    List.Forall₂ (fun id sel => sampleQCode.selectAt id = some sel) sampleQCode.Roots
        [sampleSel, sampleSkipped] ∧
      (CompileQuery sampleEnv ⟨[]⟩ 10 sampleQCode emptyCtx).isSome = true ∧
      ∀ c1, CompileQuery sampleEnv ⟨[]⟩ 10 sampleQCode emptyCtx = some c1 →
        ∃ rest, c1.w = emptyCtx.w ++ (outerSelectOpen sampleQCode.SchemaType).toList ++
          ", ".toList.intercalate
            ([sampleSel, sampleSkipped].map fun s => (rootEntry s).toList) ++
          (outerSelectClose sampleQCode.SchemaType).toList ++ rest :=
  ⟨List.Forall₂.cons rfl (List.Forall₂.cons rfl List.Forall₂.nil), by decide,
    (CompileQuery_outer_select sampleEnv ⟨[]⟩ 10 sampleQCode emptyCtx
      [sampleSel, sampleSkipped]
      (List.Forall₂.cons rfl (List.Forall₂.cons rfl List.Forall₂.nil))).2⟩

/-- C2: on a nil QCode or a type other than Query, Subscription, Mutation, `Compile` returns at
once with an error, the buffer untouched and the zero `Metadata`, and `CompileEx` returns the
same error with nil SQL; whenever `Compile` returns, it returns an error exactly on those
inputs; and whenever `CompileEx` returns an error its SQL is nil. -/
theorem Compile_error_iff (env : Env) (co : Compiler) (fuel : Nat) (w : List Char)
    (qc : Option QCode) :
    (compileRejects qc →
      ∃ err, Compile env co fuel w qc = some (w, Metadata.zero, some err) ∧
        CompileEx env co fuel qc = some (Metadata.zero, none, some err)) ∧
    (∀ r, Compile env co fuel w qc = some r → (r.2.2 ≠ none ↔ compileRejects qc)) ∧
    (∀ r, CompileEx env co fuel qc = some r → r.2.2 ≠ none → r.2.1 = none) := by
  refine ⟨?_, ?_, ?_⟩
  · rintro (h | ⟨q, hq, h1, h2, h3⟩)
    · subst h
      exact ⟨.qcodeIsNil, rfl, rfl⟩
    · subst hq
      refine ⟨.unknownOperationType q.Typ, ?_, ?_⟩
      · unfold Compile
        cases ht : q.Typ <;> simp_all
      · unfold CompileEx Compile
        cases ht : q.Typ <;> simp_all
  · intro r hr
    cases qc with
    | none =>
      unfold Compile at hr
      cases hr
      simp [compileRejects]
    | some q =>
      unfold Compile at hr
      cases ht : q.Typ <;> simp only [ht] at hr
      case QTQuery =>
        cases hc : CompileQuery env co fuel q { w := w, md := Metadata.zero } with
        | none => simp [hc] at hr
        | some c1 => simp [hc] at hr; subst hr; simp [compileRejects, ht]
      case QTSubscription =>
        cases hc : CompileQuery env co fuel q { w := w, md := Metadata.zero } with
        | none => simp [hc] at hr
        | some c1 => simp [hc] at hr; subst hr; simp [compileRejects, ht]
      case QTMutation =>
        cases hr
        simp [compileRejects, ht]
      all_goals
        cases hr
        simp [compileRejects, ht]
  · intro r hr he
    unfold CompileEx at hr
    cases hc : Compile env co fuel [] qc with
    | none => simp [hc] at hr
    | some r1 =>
      simp only [hc, Option.map_some', Option.some.injEq] at hr
      subst hr
      cases h2 : r1.2.2 with
      | none => simp [h2] at he
      | some e => simp

/-- C2 at a nil QCode and at an insert QCode: both are rejected without output, and the sample
query compiles without an error. -/
theorem Compile_error_iff_witness :
    (∃ err, Compile sampleEnv ⟨[]⟩ 10 [] none = some ([], Metadata.zero, some err) ∧
      CompileEx sampleEnv ⟨[]⟩ 10 none = some (Metadata.zero, none, some err)) ∧
    (∃ err, Compile sampleEnv ⟨[]⟩ 10 [] (some sampleInsert) =
        some ([], Metadata.zero, some err) ∧
      CompileEx sampleEnv ⟨[]⟩ 10 (some sampleInsert) = some (Metadata.zero, none, some err)) ∧
    ((Compile sampleEnv ⟨[]⟩ 10 [] (some sampleQCode)).map (fun r => r.2.2) = some none) :=
  ⟨(Compile_error_iff sampleEnv ⟨[]⟩ 10 [] none).1 (Or.inl rfl),
    (Compile_error_iff sampleEnv ⟨[]⟩ 10 [] (some sampleInsert)).1
      (Or.inr ⟨sampleInsert, rfl, by decide, by decide, by decide⟩),
    by decide⟩

theorem renderWhere_some (env : Env) (co : Compiler) (fuel : Nat) (sel : Select) (ex : Exp)
    (c : Ctx) (hw : sel.Where = some ex) :
    renderWhere env co fuel sel c =
      (renderExp env co fuel sel.Ti ex false
        { w := c.w ++ " WHERE (".toList ++
            (env.renderRel sel.Ti sel.Rel (whereParent sel) (some sel.ArgMap) c.md).1.toList ++
            (if sel.Rel.Typ ≠ .RelNone then " AND ".toList else []),
          md := (env.renderRel sel.Ti sel.Rel (whereParent sel) (some sel.ArgMap) c.md).2 }).map
        fun c2 => c2.WriteString ")" := by
  unfold renderWhere
  simp only [hw, Option.isNone_some, Bool.false_eq_true, and_false, if_false]
  by_cases hr : sel.Rel.Typ = .RelNone <;>
    simp [Ctx.WriteString, Ctx.run, whereParent, hr]

/-- C3 (amended): for a selection with a `Where.Exp` whose relationship kind is not Recursive,
`renderBaseSelect` is the text up to the join tables, then ` WHERE (`, the relationship
predicate, ` AND ` when the kind is not None, the rendering of the expression by `renderExp`,
`)`, and then GROUP BY, ORDER BY and LIMIT; whenever it returns, the rendering of the
expression lies between that opening and the `)`. -/
theorem renderBaseSelect_where (env : Env) (co : Compiler) (fuel : Nat) (sel : Select)
    (ex : Exp) (c : Ctx) (hw : sel.Where = some ex) (hr : sel.Rel.Typ ≠ .RelRecursive) :
    renderBaseSelect env co fuel sel c =
        (renderExp env co fuel sel.Ti ex false (whereOpen env sel c)).map
          (fun c2 => renderLimit sel (renderOrderBy sel (renderGroupBy sel
            (c2.WriteString ")")))) ∧
      (∃ pre, (whereOpen env sel c).w = c.w ++ pre ++ " WHERE (".toList ++
        (relText env sel (beforeWhere env sel c).md).toList ++
        (if sel.Rel.Typ ≠ .RelNone then " AND ".toList else [])) ∧
      ∀ c1, renderBaseSelect env co fuel sel c = some c1 →
        ∃ c2 t post, renderExp env co fuel sel.Ti ex false (whereOpen env sel c) = some c2 ∧
          c2.w = (whereOpen env sel c).w ++ t ∧ c1.w = c2.w ++ ")".toList ++ post := by
  have key : renderBaseSelect env co fuel sel c =
      (renderExp env co fuel sel.Ti ex false (whereOpen env sel c)).map
        (fun c2 => renderLimit sel (renderOrderBy sel (renderGroupBy sel
          (c2.WriteString ")")))) := by
    unfold renderBaseSelect
    simp only [hr, ne_eq, not_false_eq_true, if_true]
    rw [renderWhere_some env co fuel sel ex _ hw, Option.map_map]
    rfl
  refine ⟨key, ?_, ?_⟩
  · have hg : Grows c.w (beforeWhere env sel c) :=
      grows_renderJoinTables _ (grows_renderFrom _ (grows_run _ (grows_renderDistinctOn _
        (grows_WriteString _ (grows_renderCursorCTE _ (grows_self c))))))
    obtain ⟨pre, hpre⟩ := hg
    exact ⟨pre, by simp [whereOpen, hpre]⟩
  · intro c1 h1
    rw [key] at h1
    cases h2 : renderExp env co fuel sel.Ti ex false (whereOpen env sel c) with
    | none => simp [h2] at h1
    | some c2 =>
      simp only [h2, Option.map_some', Option.some.injEq] at h1
      obtain ⟨t, ht⟩ :=
        ogrows_renderExpLoop env co fuel sel.Ti false _ _ (grows_self (whereOpen env sel c)) c2 h2
      have hg : Grows (c2.w ++ ")".toList) c1 := by
        rw [← h1]
        exact grows_renderLimit _ (grows_renderOrderBy _ (grows_renderGroupBy _
          (grows_self (c2.WriteString ")"))))
      obtain ⟨post, hpost⟩ := hg
      exact ⟨c2, t, post, rfl, ht, hpost⟩

/-- C3 (amended) at the one-to-many selection `posts` filtered by `id = '5'`: the base select
returns and reads `... WHERE (<relationship> AND ((users.id) = '5' :: int)) LIMIT 20`. -/
theorem renderBaseSelect_where_witness :
    (renderBaseSelect sampleEnv ⟨[]⟩ 10 sampleChild sampleCtx).map (fun c => String.mk c.w) =
        some ("SELECT id FROM \"posts\" WHERE (((posts.user_id) = (users_0.id)) AND " ++
          "((users.id) = '5' :: int)) LIMIT 20") ∧
      ∀ c1, renderBaseSelect sampleEnv ⟨[]⟩ 10 sampleChild sampleCtx = some c1 →
        ∃ c2 t post,
          renderExp sampleEnv ⟨[]⟩ 10 sampleChild.Ti sampleExp false
            (whereOpen sampleEnv sampleChild sampleCtx) = some c2 ∧
          c2.w = (whereOpen sampleEnv sampleChild sampleCtx).w ++ t ∧
          c1.w = c2.w ++ ")".toList ++ post :=
  ⟨by decide,
    (renderBaseSelect_where sampleEnv ⟨[]⟩ 10 sampleChild sampleExp sampleCtx rfl
      (by decide)).2.2⟩

set_option maxRecDepth 100000 in
/-- C3 as stated fails for the Recursive kind: the recursive selection `replies` has a
`Where.Exp`, and its base select is `SELECT id FROM (SELECT * FROM "__rcte_comments" OFFSET 1)
"comments" LIMIT 20`, with no WHERE clause. -/
theorem renderBaseSelect_recursive_no_where :
    sampleRecursive.Where.isSome = true ∧
      (renderBaseSelect sampleEnv ⟨[]⟩ 10 sampleRecursive sampleCtx).map
          (fun c => String.mk c.w) =
        some "SELECT id FROM (SELECT * FROM \"__rcte_comments\" OFFSET 1) \"comments\" LIMIT 20" ∧
      (renderBaseSelect sampleEnv ⟨[]⟩ 10 sampleRecursive sampleCtx).map
          (fun c => decide ("WHERE".toList <:+: c.w)) = some false := by
  refine ⟨by decide, by decide, by decide⟩

theorem parenDepth_append (a b : List Char) :
    ∀ k, parenDepth k (a ++ b) = (parenDepth k a).bind fun m => parenDepth m b := by
  induction a with
  | nil => intro k; simp [parenDepth]
  | cons ch a ih =>
    intro k
    simp only [List.cons_append, parenDepth]
    split
    · exact ih _
    · split
      · cases k with
        | zero => simp
        | succ k => exact ih _
      · exact ih _

theorem parenDepth_lift (t : List Char) (j : Nat) :
    ∀ k m, parenDepth k t = some m → parenDepth (k + j) t = some (m + j) := by
  induction t with
  | nil => intro k m h; simp [parenDepth] at h ⊢; omega
  | cons ch t ih =>
    intro k m h
    simp only [parenDepth] at h ⊢
    split
    · rename_i h1
      rw [if_pos h1] at h
      have := ih _ _ h
      rwa [Nat.add_right_comm] at this
    · rename_i h1
      rw [if_neg h1] at h
      split
      · rename_i h2
        rw [if_pos h2] at h
        cases k with
        | zero => simp at h
        | succ k =>
          simp only at h
          have := ih _ _ h
          rw [Nat.add_right_comm]
          exact this
      · rename_i h2
        rw [if_neg h2] at h
        exact ih _ _ h

theorem parenDepth_noParen (t : List Char) (h1 : '(' ∉ t) (h2 : ')' ∉ t) :
    ∀ k, parenDepth k t = some k := by
  induction t with
  | nil => intro k; rfl
  | cons ch t ih =>
    intro k
    have hc1 : ch ≠ '(' := fun h => h1 (by simp [h])
    have hc2 : ch ≠ ')' := fun h => h2 (by simp [h])
    simp only [parenDepth, hc1, hc2, if_false]
    exact ih (fun h => h1 (List.mem_cons_of_mem _ h)) (fun h => h2 (List.mem_cons_of_mem _ h)) k

theorem parenDepth_counts (t : List Char) :
    ∀ k m, parenDepth k t = some m →
      k + t.count '(' = m + t.count ')' ∧
        ∀ n, (t.take n).count ')' ≤ k + (t.take n).count '(' := by
  induction t with
  | nil =>
    intro k m h
    simp [parenDepth] at h
    simp [h]
  | cons ch t ih =>
    intro k m h
    simp only [parenDepth] at h
    by_cases h1 : ch = '('
    · rw [if_pos h1] at h
      obtain ⟨e1, e2⟩ := ih _ _ h
      subst h1
      refine ⟨by simp [List.count_cons]; omega, fun n => ?_⟩
      cases n with
      | zero => simp
      | succ n =>
        have := e2 n
        simp [List.count_cons]
        omega
    · rw [if_neg h1] at h
      by_cases h2 : ch = ')'
      · rw [if_pos h2] at h
        cases k with
        | zero => simp at h
        | succ k =>
          simp only at h
          obtain ⟨e1, e2⟩ := ih _ _ h
          subst h2
          refine ⟨by simp [List.count_cons]; omega, fun n => ?_⟩
          cases n with
          | zero => simp
          | succ n =>
            have := e2 n
            simp [List.count_cons]
            omega
      · rw [if_neg h2] at h
        obtain ⟨e1, e2⟩ := ih _ _ h
        have h1' : ¬ (ch == '(') = true := by simpa using h1
        have h2' : ¬ (ch == ')') = true := by simpa using h2
        refine ⟨by simp [List.count_cons, h1', h2']; omega, fun n => ?_⟩
        cases n with
        | zero => simp
        | succ n =>
          have := e2 n
          simp [List.count_cons, h1', h2']
          omega

theorem balanced_of_parenDepth (t : List Char) (h : parenDepth 0 t = some 0) : Balanced t := by
  obtain ⟨e1, e2⟩ := parenDepth_counts t 0 0 h
  exact ⟨by omega, fun n => by have := e2 n; omega⟩

theorem parenDepth_of_counts (t : List Char) :
    ∀ k, (∀ n, (t.take n).count ')' ≤ k + (t.take n).count '(') →
      parenDepth k t = some (k + t.count '(' - t.count ')') := by
  induction t with
  | nil => intro k _; simp [parenDepth]
  | cons ch t ih =>
    intro k h
    simp only [parenDepth]
    by_cases h1 : ch = '('
    · subst h1
      rw [if_pos rfl, ih (k + 1)]
      · simp [List.count_cons]
        omega
      · intro n
        have := h (n + 1)
        simp [List.count_cons] at this
        omega
    · rw [if_neg h1]
      by_cases h2 : ch = ')'
      · subst h2
        rw [if_pos rfl]
        cases k with
        | zero =>
          have := h 1
          simp [List.count_cons] at this
        | succ k =>
          simp only
          rw [ih k]
          · simp [List.count_cons]
            omega
          · intro n
            have := h (n + 1)
            simp [List.count_cons] at this
            omega
      · rw [if_neg h2]
        have h1' : ¬ (ch == '(') = true := by simpa using h1
        have h2' : ¬ (ch == ')') = true := by simpa using h2
        rw [ih k]
        · simp [List.count_cons, h1', h2']
        · intro n
          have := h (n + 1)
          simpa [List.count_cons, h1', h2'] using this

theorem parenDepth_of_balanced (t : List Char) (h : Balanced t) : parenDepth 0 t = some 0 := by
  rw [parenDepth_of_counts t 0 (fun n => by have := h.2 n; omega), h.1]
  simp

theorem Emits.trans {a b d : Nat} {c c1 c2 : Ctx} (h1 : Emits a b c c1) (h2 : Emits b d c1 c2) :
    Emits a d c c2 := by
  obtain ⟨t1, e1, d1⟩ := h1
  obtain ⟨t2, e2, d2⟩ := h2
  refine ⟨t1 ++ t2, by rw [e2, e1, List.append_assoc], ?_⟩
  rw [parenDepth_append, d1]
  exact d2

theorem Emits.lift {a b : Nat} {c c1 : Ctx} (h : Emits a b c c1) (j : Nat) :
    Emits (a + j) (b + j) c c1 := by
  obtain ⟨t, e, d⟩ := h
  exact ⟨t, e, parenDepth_lift t j a b d⟩

theorem Emits.neutral {c c1 : Ctx} (h : Emits 0 0 c c1) (a : Nat) : Emits a a c c1 := by
  have := h.lift a
  simpa using this

theorem emits_refl (a : Nat) (c : Ctx) : Emits a a c c :=
  ⟨[], by simp, rfl⟩

theorem emits_lit {c : Ctx} (s : String) (a b : Nat) (h : parenDepth a s.toList = some b) :
    Emits a b c (c.WriteString s) :=
  ⟨s.toList, rfl, h⟩

theorem emits_str {c : Ctx} (s : String) (h : NoParen s) (a : Nat) :
    Emits a a c (c.WriteString s) :=
  ⟨s.toList, rfl, parenDepth_noParen _ h.1 h.2 a⟩

theorem emits_run {c : Ctx} (f : Helper) (h : HelperBalanced f) (a : Nat) :
    Emits a a c (c.run f) :=
  Emits.neutral ⟨(f c.md).1.toList, rfl, parenDepth_of_balanced _ (h c.md)⟩ a

theorem emits_foldl {α : Type} (f : Ctx → α → Ctx) (xs : List α) (a : Nat)
    (hf : ∀ c x, x ∈ xs → Emits a a c (f c x)) : ∀ c, Emits a a c (xs.foldl f c) := by
  induction xs with
  | nil => intro c; exact emits_refl a c
  | cons x xs ih =>
    intro c
    exact (hf c x (List.mem_cons_self _ _)).trans
      (ih (fun c y hy => hf c y (List.mem_cons_of_mem _ hy)) _)

theorem digitChar_ne_paren :
    ∀ m, m < 10 → Nat.digitChar m ≠ '(' ∧ Nat.digitChar m ≠ ')' := by
  decide

theorem toDigitsCore_noParen (fuel : Nat) :
    ∀ (n : Nat) (ds : List Char), '(' ∉ ds → ')' ∉ ds →
      '(' ∉ Nat.toDigitsCore 10 fuel n ds ∧ ')' ∉ Nat.toDigitsCore 10 fuel n ds := by
  induction fuel with
  | zero => intro n ds h1 h2; exact ⟨h1, h2⟩
  | succ fuel ih =>
    intro n ds h1 h2
    have hd := digitChar_ne_paren (n % 10) (Nat.mod_lt _ (by decide))
    have g1 : '(' ∉ (n % 10).digitChar :: ds := by
      simp only [List.mem_cons, not_or]
      exact ⟨fun h => hd.1 h.symm, h1⟩
    have g2 : ')' ∉ (n % 10).digitChar :: ds := by
      simp only [List.mem_cons, not_or]
      exact ⟨fun h => hd.2 h.symm, h2⟩
    simp only [Nat.toDigitsCore]
    split
    · exact ⟨g1, g2⟩
    · exact ih _ _ g1 g2

theorem noParen_natString (n : Nat) : NoParen (toString n) := by
  have h := toDigitsCore_noParen (n + 1) n [] (by simp) (by simp)
  exact h

theorem emits_renderParam (p : Param) (c : Ctx) (a : Nat) : Emits a a c (renderParam p c) := by
  unfold renderParam
  dsimp only
  split
  · exact emits_lit "?" a a (parenDepth_noParen _ (by decide) (by decide) a)
  · exact (emits_lit "$" a a (parenDepth_noParen _ (by decide) (by decide) a)).trans
      (emits_str _ (noParen_natString _) a)

theorem emits_colWithTable (table col : String) (c : Ctx) (h1 : NoParen table)
    (h2 : NoParen col) (a : Nat) : Emits a a c (colWithTable table col c) := by
  unfold colWithTable
  exact ((emits_str _ h1 a).trans
    (emits_lit "." a a (parenDepth_noParen _ (by decide) (by decide) a))).trans (emits_str _ h2 a)

theorem emits_squoted (s : String) (c : Ctx) (h : NoParen s) (a : Nat) :
    Emits a a c (squoted s c) := by
  unfold squoted
  exact ((emits_lit "'" a a (parenDepth_noParen _ (by decide) (by decide) a)).trans
    (emits_str _ h a)).trans (emits_lit "'" a a (parenDepth_noParen _ (by decide) (by decide) a))

theorem emits_plain {c : Ctx} (s : String) (h1 : '(' ∉ s.toList) (h2 : ')' ∉ s.toList)
    (a : Nat) : Emits a a c (c.WriteString s) :=
  ⟨s.toList, rfl, parenDepth_noParen _ h1 h2 a⟩

theorem emits_renderList (ex : Exp) (c : Ctx) (hex : ex.NoParens) (a : Nat) :
    Emits a a c (renderList ex c) := by
  unfold renderList
  dsimp only
  refine ((emits_lit " (ARRAY[" a (a + 1) ?_).trans (emits_foldl _ _ (a + 1) ?_ _)).trans
    (emits_lit "])" (a + 1) a ?_)
  · have := parenDepth_lift " (ARRAY[".toList a 0 1 (by decide)
    simpa [Nat.add_comm] using this
  · intro c p hp
    have hv : NoParen p.2 := hex.2.2.2.2.1 _ (List.snd_mem_of_mem_enum hp)
    have hsep : Emits (a + 1) (a + 1) c (if p.1 ≠ 0 then c.WriteString ", " else c) := by
      split
      · exact emits_plain ", " (by decide) (by decide) _
      · exact emits_refl _ _
    refine hsep.trans ?_
    generalize (if p.1 ≠ 0 then c.WriteString ", " else c) = c1
    cases ex.ListType <;> dsimp only <;>
      first
        | exact emits_str _ hv _
        | exact ((emits_plain "'" (by decide) (by decide) _).trans (emits_str _ hv _)).trans
            (emits_plain "'" (by decide) (by decide) _)
        | exact emits_refl _ _
  · have := parenDepth_lift "])".toList a 1 0 (by decide)
    simpa [Nat.add_comm] using this

theorem emits_renderVal (env : Env) (ex : Exp) (vars : List (String × String)) (c : Ctx)
    (hex : ex.NoParens) (hvars : VarsNoParen vars)
    (hvar : VarsBalanced env vars) (a : Nat) :
    Emits a a c (renderVal env ex vars c) := by
  have hcast : ∀ c0 c1 : Ctx, Emits a a c0 c1 →
      Emits a a c0
        (if c1.md.ct ≠ "mysql" then (c1.WriteString " :: ").WriteString ex.Col.Typ else c1) := by
    intro c0 c1 h
    split
    · exact (h.trans (emits_plain " :: " (by decide) (by decide) a)).trans
        (emits_str _ hex.2.1 a)
    · exact h
  have h0 : Emits a a c (c.WriteString " ") := emits_plain " " (by decide) (by decide) a
  have hopen : ∀ c1 : Ctx, Emits a (a + 1) c1 (c1.WriteString "(") := fun c1 =>
    emits_lit "(" a (a + 1) (by
      have := parenDepth_lift "(".toList a 0 1 (by decide)
      simpa [Nat.add_comm] using this)
  have hclose : ∀ c1 : Ctx, Emits (a + 1) a c1 (c1.WriteString ")") := fun c1 =>
    emits_lit ")" (a + 1) a (by
      have := parenDepth_lift ")".toList a 1 0 (by decide)
      simpa [Nat.add_comm] using this)
  unfold renderVal
  dsimp only
  cases hty : ex.Typ <;> dsimp only
  case ValVar =>
    cases hl : vars.lookup ex.Val with
    | some val =>
      dsimp only
      by_cases hs : val.startsWith "sql:" = true
      · rw [if_pos hs]
        have h1 : Emits a a c (((c.WriteString " ").WriteString "(").run
            (env.renderVar (val.drop 4)) |>.WriteString ")") :=
          ((h0.trans (hopen _)).trans (emits_run _ (hvar _ _ hl hs) _)).trans (hclose _)
        split
        · exact h1
        · exact hcast _ _ h1
      · rw [if_neg hs]
        exact hcast _ _ (h0.trans (emits_squoted _ _ (hvars _ _ hl (by simpa using hs)) a))
    | none =>
      dsimp only
      split
      · refine ((((((h0.trans (emits_lit "(ARRAY(SELECT json_array_elements_text(" a (a + 3)
          ?_)).trans (emits_renderParam _ _ _)).trans (emits_lit "))" (a + 3) (a + 1) ?_)).trans
          (emits_plain " :: " (by decide) (by decide) _)).trans
          (emits_str _ hex.2.1 _)).trans (emits_lit "[])" (a + 1) a ?_))
        · have := parenDepth_lift "(ARRAY(SELECT json_array_elements_text(".toList a 0 3
            (by decide)
          simpa [Nat.add_comm] using this
        · have := parenDepth_lift "))".toList (a + 1) 2 0 (by decide)
          simpa [Nat.add_comm, Nat.add_assoc] using this
        · have := parenDepth_lift "[])".toList a 1 0 (by decide)
          simpa [Nat.add_comm] using this
      · exact hcast _ _ (h0.trans (emits_renderParam _ _ _))
  case ValRef => exact hcast _ _ (h0.trans (emits_colWithTable _ _ _ hex.2.2.1 hex.1 a))
  all_goals exact hcast _ _ (h0.trans (emits_squoted _ _ hex.2.2.2.1 a))

theorem emits_lit_at {c : Ctx} (s : String) (k m : Nat) (h : parenDepth k s.toList = some m)
    (a : Nat) : Emits (a + k) (a + m) c (c.WriteString s) := by
  refine ⟨s.toList, rfl, ?_⟩
  have := parenDepth_lift s.toList a k m h
  simpa [Nat.add_comm] using this

theorem emits_renderOpColumn (ti : DBTableInfo) (ex : Exp) (c : Ctx) (hti : NoParen ti.Name)
    (hex : ex.NoParens) (hne : ex.Col.Name ≠ "") (a : Nat) :
    Emits a (a + 1) c (renderOpColumn ti ex c) := by
  unfold renderOpColumn
  rw [if_pos hne]
  dsimp only
  refine ((emits_lit_at "((" 0 2 (by decide) a).trans ?_).trans
    (emits_lit_at ") " 2 1 (by decide) a)
  split
  · exact emits_colWithTable _ _ _ hex.2.2.1 hex.1 _
  · exact emits_colWithTable _ _ _ hti hex.1 _

theorem renderOpColumn_empty (ti : DBTableInfo) (ex : Exp) (c : Ctx) (h : ex.Col.Name = "") :
    renderOpColumn ti ex c = c := by
  unfold renderOpColumn
  simp [h]

theorem emits_renderOpValue (env : Env) (co : Compiler) (ex : Exp) (c : Ctx)
    (hex : ex.NoParens) (hvars : VarsNoParen co.vars)
    (hvar : VarsBalanced env co.vars) (a : Nat) :
    Emits (a + 1) a c (renderOpValue env co ex c) := by
  unfold renderOpValue
  dsimp only
  refine Emits.trans ?_ (emits_lit_at ")" 1 0 (by decide) a)
  split
  · exact emits_renderList ex c hex _
  · exact emits_renderVal env ex co.vars c hex hvars hvar _

theorem emits_renderOp (env : Env) (co : Compiler) (ti : DBTableInfo) (ex : Exp) (c : Ctx)
    (hti : NoParen ti.Name ∧ NoParen ti.TSVCol.Name) (hex : ex.NoParens) (hcol : ex.ColumnOK)
    (hvars : VarsNoParen co.vars) (hvar : VarsBalanced env co.vars) (a : Nat) :
    Emits a a c (renderOp env co ti ex c) := by
  have hval := fun c1 => emits_renderOpValue env co ex c1 hex hvars hvar a
  have hkw : ∀ (c1 : Ctx) (s : String), '(' ∉ s.toList → ')' ∉ s.toList →
      Emits (a + 1) a c1 (renderOpValue env co ex (c1.WriteString s)) := fun c1 s h1 h2 =>
    (emits_plain s h1 h2 (a + 1)).trans (hval _)
  unfold renderOp
  unfold Exp.ColumnOK at hcol
  cases hop : ex.Op <;> rw [hop] at hcol <;> dsimp only at hcol <;>
    simp only [reduceCtorEq, if_false, if_true]
  case OpNop => exact emits_refl a c
  case OpEqualsTrue =>
    rw [renderOpColumn_empty ti ex c hcol]
    exact ((emits_lit_at "((VALUES(true)) = " 0 1 (by decide) a).trans
      (emits_renderParam _ _ _)).trans (emits_lit_at ")" 1 0 (by decide) a)
  case OpNotEqualsTrue =>
    rw [renderOpColumn_empty ti ex c hcol]
    exact ((emits_lit_at "((VALUES(true)) != " 0 1 (by decide) a).trans
      (emits_renderParam _ _ _)).trans (emits_lit_at ")" 1 0 (by decide) a)
  case OpIsNull =>
    have h1 := emits_renderOpColumn ti ex c hti.1 hex hcol a
    split
    · exact h1.trans (emits_lit_at "IS NULL)" 1 0 (by decide) a)
    · exact h1.trans (emits_lit_at "IS NOT NULL)" 1 0 (by decide) a)
  case OpTsQuery =>
    rw [renderOpColumn_empty ti ex c hcol]
    split
    · exact emits_refl a c
    · refine ((((emits_lit_at "((" 0 2 (by decide) a).trans
        (emits_colWithTable _ _ _ hti.1 hti.2 _)).trans ?_).trans
        (emits_renderParam _ _ _)).trans (emits_lit_at "))" 2 0 (by decide) a)
      split
      · exact emits_lit_at ") @@ websearch_to_tsquery(" 2 2 (by decide) a
      · exact emits_lit_at ") @@ to_tsquery(" 2 2 (by decide) a
  all_goals
    have h1 := emits_renderOpColumn ti ex c hti.1 hex hcol a
    generalize renderOpColumn ti ex c = c1 at h1 ⊢
    first
      | with_reducible exact h1.trans (hval _)
      | with_reducible exact h1.trans (hkw _ _ (by decide) (by decide))

theorem emits_renderJoinTables (rel : DBRel) (c : Ctx) (hrel : RelNoParen rel) (a : Nat) :
    Emits a a c (renderJoinTables rel c) := by
  unfold renderJoinTables
  split
  · unfold renderJoin
    dsimp only
    refine ((((emits_plain " LEFT OUTER JOIN \"" (by decide) (by decide) a).trans
      (emits_str _ hrel.2.2.1 a)).trans (emits_lit_at "\" ON ((" 0 2 (by decide) a)).trans
      ?_).trans (emits_lit_at "))" 2 0 (by decide) a)
    split
    · exact ((emits_colWithTable _ _ _ hrel.1 hrel.2.1 _).trans
        (emits_lit_at ") = any (" 2 2 (by decide) a)).trans
        (emits_colWithTable _ _ _ hrel.2.2.1 hrel.2.2.2.1 _)
    · split
      · exact ((emits_colWithTable _ _ _ hrel.2.2.1 hrel.2.2.2.1 _).trans
          (emits_lit_at ") = any (" 2 2 (by decide) a)).trans
          (emits_colWithTable _ _ _ hrel.1 hrel.2.1 _)
      · exact ((emits_colWithTable _ _ _ hrel.2.2.1 hrel.2.2.2.1 _).trans
          (emits_lit_at ") = (" 2 2 (by decide) a)).trans
          (emits_colWithTable _ _ _ hrel.1 hrel.2.1 _)
  · exact emits_refl a c

theorem Exp.all_node {P : Exp → Prop} (e : Exp) (h : e.All P) : P e := by
  cases e
  exact h.1

theorem Exp.allList_mem {P : Exp → Prop} (cs : List Exp) (h : Exp.All.allList P cs) :
    ∀ c ∈ cs, c.All P := by
  induction cs with
  | nil => intro c hc; cases hc
  | cons x xs ih =>
    intro c hc
    rcases List.mem_cons.mp hc with rfl | hc
    · exact h.1
    · exact ih h.2 c hc

theorem Exp.all_children {P : Exp → Prop} (e : Exp) (h : e.All P) :
    ∀ c ∈ e.Children, c.All P := by
  cases e
  exact Exp.allList_mem _ h.2

theorem Exp.cost_eq (e : Exp) : e.cost = 3 + Exp.cost.costList e.Children := by
  cases e
  rfl

theorem interleaved_snoc (op : ExpOp) (xs : List Exp) (c : Exp) :
    interleaved op (xs ++ [c]) =
      interleaved op xs ++ (if xs.isEmpty then [] else [StackItem.op op]) ++
        [StackItem.exp c] := by
  induction xs with
  | nil => simp [interleaved]
  | cons x xs ih =>
    cases xs with
    | nil => simp [interleaved]
    | cons y ys =>
      have h := ih
      simp only [List.cons_append] at h
      simp only [List.cons_append, interleaved, List.append_eq]
      rw [h]
      simp

theorem pushChildren_take (op : ExpOp) (cs : List Exp) :
    ∀ n, n ≤ cs.length → ∀ st,
      pushChildren op cs n st = interleaved op (cs.take n) ++ st := by
  intro n
  induction n with
  | zero => intro _ st; simp [pushChildren, interleaved]
  | succ i ih =>
    intro hi st
    have hlt : i < cs.length := hi
    rw [pushChildren, List.getElem?_eq_getElem hlt]
    dsimp only
    rw [ih (Nat.le_of_lt hlt), List.take_succ, List.getElem?_eq_getElem hlt, Option.toList,
      interleaved_snoc]
    by_cases h0 : i = 0
    · subst h0
      simp
    · have hne : (List.take i cs).isEmpty = false := by
        cases hcs : cs with
        | nil => rw [hcs] at hlt; simp at hlt
        | cons x xs =>
          cases i with
          | zero => exact absurd rfl h0
          | succ j => simp
      have hpos : 0 < i := Nat.pos_of_ne_zero h0
      simp [hne, hpos]

theorem pushChildren_eq (op : ExpOp) (cs : List Exp) (st : List StackItem) :
    pushChildren op cs cs.length st = interleaved op cs ++ st := by
  rw [pushChildren_take op cs cs.length (Nat.le_refl _), List.take_length]

theorem stackCost_interleaved (op : ExpOp) (cs : List Exp) :
    stackCost (interleaved op cs) ≤ Exp.cost.costList cs := by
  induction cs with
  | nil => simp [interleaved, stackCost]
  | cons x xs ih =>
    cases xs with
    | nil => simp [interleaved, stackCost, itemCost, Exp.cost.costList]
    | cons y ys =>
      simp only [interleaved, stackCost, List.map_cons, List.sum_cons, itemCost,
        Exp.cost.costList] at ih ⊢
      omega

theorem stackDepth_interleaved (op : ExpOp) (cs : List Exp) (st : List StackItem) (k : Nat) :
    stackDepth k (interleaved op cs ++ st) = stackDepth k st := by
  induction cs with
  | nil => simp [interleaved]
  | cons x xs ih =>
    cases xs with
    | nil => simp [interleaved, stackDepth]
    | cons y ys =>
      simp only [interleaved, List.cons_append, stackDepth] at ih ⊢
      exact ih

theorem mem_interleaved (op : ExpOp) (cs : List Exp) (e : Exp)
    (h : StackItem.exp e ∈ interleaved op cs) : e ∈ cs := by
  induction cs with
  | nil => simp [interleaved] at h
  | cons x xs ih =>
    cases xs with
    | nil =>
      simp only [interleaved, List.mem_singleton, StackItem.exp.injEq] at h
      simp [h]
    | cons y ys =>
      simp only [interleaved, List.mem_cons, StackItem.exp.injEq, reduceCtorEq, false_or] at h ih
      rcases h with h | h
      · simp [h]
      · exact List.mem_cons_of_mem _ (List.mem_cons.mpr (ih h))

theorem emits_renderNestedHop (env : Env) (rexp : DBTableInfo → Exp → Bool → Ctx → Option Ctx)
    (ti : DBTableInfo) (ex : Exp) (i : Nat) (rel : DBRel) (c : Ctx) (hrel : RelNoParen rel)
    (hR : ∀ ti rel pid am, HelperBalanced (env.renderRel ti rel pid am))
    (hrexp : ∀ c a, ∃ c1, rexp rel.Left.Ti ex true c = some c1 ∧ Emits a a c c1) (a : Nat) :
    ∃ c1, renderNestedHop env rexp ti ex i rel c = some c1 ∧ Emits a (a + 1) c c1 := by
  unfold renderNestedHop
  dsimp only
  have hsep : Emits a a c (if i ≠ 0 then c.WriteString " AND " else c) := by
    split
    · exact emits_plain " AND " (by decide) (by decide) _
    · exact emits_refl _ _
  generalize (if i ≠ 0 then c.WriteString " AND " else c) = c0 at hsep
  have h1 : Emits a (a + 1) c (Ctx.run (Ctx.WriteString (renderJoinTables rel (Ctx.WriteString
      (Ctx.WriteString c0 "EXISTS (SELECT 1 FROM ") rel.Left.Col.Table)) " WHERE ")
      (env.renderRel ti rel (-1) none)) :=
    ((((hsep.trans (emits_lit_at "EXISTS (SELECT 1 FROM " 0 1 (by decide) a)).trans
      (emits_str _ hrel.1 _)).trans (emits_renderJoinTables _ _ hrel _)).trans
      (emits_plain " WHERE " (by decide) (by decide) _)).trans (emits_run _ (hR _ _ _ _) _)
  generalize (Ctx.run (Ctx.WriteString (renderJoinTables rel (Ctx.WriteString
      (Ctx.WriteString c0 "EXISTS (SELECT 1 FROM ") rel.Left.Col.Table)) " WHERE ")
      (env.renderRel ti rel (-1) none)) = c2 at h1
  split
  · obtain ⟨c3, e3, h3⟩ := hrexp (c2.WriteString " AND (") (a + 2)
    rw [e3]
    exact ⟨_, rfl, ((h1.trans (emits_lit_at " AND (" 1 2 (by decide) a)).trans h3).trans
      (emits_lit_at ")" 2 1 (by decide) a)⟩
  · exact ⟨_, rfl, h1⟩

theorem emits_renderNestedHops (env : Env) (rexp : DBTableInfo → Exp → Bool → Ctx → Option Ctx)
    (ti : DBTableInfo) (ex : Exp)
    (hR : ∀ ti rel pid am, HelperBalanced (env.renderRel ti rel pid am)) (l : List DBRel)
    (hl : ∀ rel ∈ l, RelNoParen rel ∧
      ∀ c a, ∃ c1, rexp rel.Left.Ti ex true c = some c1 ∧ Emits a a c c1) :
    ∀ (j : Nat) (c : Ctx) (a : Nat),
      ∃ c1, (l.enumFrom j).foldl (fun (oc : Option Ctx) p =>
          oc.bind fun c => renderNestedHop env rexp ti ex p.1 p.2 c) (some c) = some c1 ∧
        Emits a (a + l.length) c c1 := by
  induction l with
  | nil => intro j c a; exact ⟨c, rfl, emits_refl a c⟩
  | cons rel l ih =>
    intro j c a
    obtain ⟨hrel, hrexp⟩ := hl rel (List.mem_cons_self _ _)
    obtain ⟨c1, e1, h1⟩ := emits_renderNestedHop env rexp ti ex j rel c hrel hR hrexp a
    obtain ⟨c2, e2, h2⟩ := ih (fun r hr => hl r (List.mem_cons_of_mem _ hr)) (j + 1) c1 (a + 1)
    refine ⟨c2, ?_, ?_⟩
    · rw [List.enumFrom_cons, List.foldl_cons, Option.some_bind]
      dsimp only
      rw [e1]
      exact e2
    · have := h1.trans h2
      rw [List.length_cons]
      rwa [Nat.add_assoc, Nat.add_comm 1] at this

theorem emits_closers (xs : List Nat) :
    ∀ (c : Ctx) (a : Nat),
      Emits (a + xs.length) a c (xs.foldl (fun c _ => c.WriteString ")") c) := by
  induction xs with
  | nil => intro c a; exact emits_refl a c
  | cons x xs ih =>
    intro c a
    rw [List.foldl_cons, List.length_cons]
    exact (emits_lit_at ")" 1 0 (by decide) (a + xs.length)).trans (ih _ a)

theorem emits_renderNestedWhere (env : Env)
    (rexp : DBTableInfo → Exp → Bool → Ctx → Option Ctx) (ti : DBTableInfo) (ex : Exp)
    (c : Ctx) (hR : ∀ ti rel pid am, HelperBalanced (env.renderRel ti rel pid am))
    (hl : ∀ rel ∈ ex.Rels, RelNoParen rel ∧
      ∀ c a, ∃ c1, rexp rel.Left.Ti ex true c = some c1 ∧ Emits a a c c1) (a : Nat) :
    ∃ c1, renderNestedWhere env rexp ti ex c = some c1 ∧ Emits a a c c1 := by
  unfold renderNestedWhere
  dsimp only
  obtain ⟨c1, e1, h1⟩ := emits_renderNestedHops env rexp ti ex hR ex.Rels hl 0 c a
  rw [List.enum, e1, Option.map_some']
  refine ⟨_, rfl, h1.trans ?_⟩
  have := emits_closers (List.range ex.Rels.length) c1 a
  rwa [List.length_range] at this

theorem renderExpLoop_leaf (env : Env) (co : Compiler) (fuel : Nat) (ti : DBTableInfo)
    (skipNested : Bool) (val : Exp) (st : List StackItem) (c : Ctx)
    (h1 : val.Op ≠ .OpFalse) (h2 : val.Op ≠ .OpAnd) (h3 : val.Op ≠ .OpOr)
    (h4 : val.Op ≠ .OpNot) :
    renderExpLoop env co (fuel + 1) ti skipNested (.exp val :: st) c =
      if (!skipNested && val.Rels.length ≠ 0) = true then
        (renderNestedWhere env
          (fun ti ex skipNested c => renderExpLoop env co fuel ti skipNested [.exp ex] c)
          ti val c).bind fun c => renderExpLoop env co fuel ti skipNested st c
      else renderExpLoop env co fuel ti skipNested st (renderOp env co ti val c) := by
  simp only [renderExpLoop]

theorem stackCost_cons (x : StackItem) (st : List StackItem) :
    stackCost (x :: st) = itemCost x + stackCost st := by
  simp [stackCost]

theorem itemCost_rune (ch : Char) : itemCost (.rune ch) = 1 := rfl

theorem itemCost_op (o : ExpOp) : itemCost (.op o) = 1 := rfl

theorem itemCost_exp (e : Exp) : itemCost (.exp e) = e.cost := rfl

theorem renderExpLoop_balanced (env : Env) (co : Compiler) (hvars : VarsNoParen co.vars)
    (hvar : VarsBalanced env co.vars)
    (hR : ∀ ti rel pid am, HelperBalanced (env.renderRel ti rel pid am)) (fuel : Nat) :
    ∀ (ti : DBTableInfo) (skipNested : Bool) (st : List StackItem) (c : Ctx) (k m : Nat),
      NoParen ti.Name → NoParen ti.TSVCol.Name → StackOK st → stackCost st ≤ fuel →
      stackDepth k st = some m →
      ∃ c1, renderExpLoop env co fuel ti skipNested st c = some c1 ∧ Emits k m c c1 := by
  induction fuel with
  | zero =>
    intro ti sk st c k m _ _ hok hcost hd
    cases st with
    | nil =>
      simp only [stackDepth, Option.some.injEq] at hd
      subst hd
      exact ⟨c, by simp [renderExpLoop], emits_refl k c⟩
    | cons x st =>
      exfalso
      rw [stackCost_cons] at hcost
      cases x <;>
        simp only [itemCost_rune, itemCost_op, itemCost_exp, Exp.cost_eq] at hcost <;> omega
  | succ fuel ih =>
    intro ti sk st c k m ht1 ht2 hok hcost hd
    cases st with
    | nil =>
      simp only [stackDepth, Option.some.injEq] at hd
      subst hd
      exact ⟨c, by simp [renderExpLoop], emits_refl k c⟩
    | cons x st =>
      have hok' : StackOK st := fun e he => hok e (List.mem_cons_of_mem _ he)
      cases x with
      | rune ch =>
        have hcost' : stackCost st ≤ fuel := by
          rw [stackCost_cons, itemCost_rune] at hcost
          omega
        simp only [renderExpLoop]
        simp only [stackDepth] at hd
        by_cases h1 : ch = '('
        · rw [if_pos h1] at hd ⊢
          obtain ⟨c1, e1, g1⟩ := ih ti sk st (c.WriteString "(") (k + 1) m ht1 ht2 hok' hcost' hd
          exact ⟨c1, e1, (emits_lit_at "(" 0 1 (by decide) k).trans g1⟩
        · rw [if_neg h1] at hd ⊢
          by_cases h2 : ch = ')'
          · rw [if_pos h2] at hd ⊢
            cases k with
            | zero => simp at hd
            | succ k =>
              simp only at hd
              obtain ⟨c1, e1, g1⟩ := ih ti sk st (c.WriteString ")") k m ht1 ht2 hok' hcost' hd
              exact ⟨c1, e1, (emits_lit_at ")" 1 0 (by decide) k).trans g1⟩
          · rw [if_neg h2] at hd ⊢
            exact ih ti sk st c k m ht1 ht2 hok' hcost' hd
      | op o =>
        have hcost' : stackCost st ≤ fuel := by
          rw [stackCost_cons, itemCost_op] at hcost
          omega
        clear hok hcost
        simp only [renderExpLoop]
        simp only [stackDepth] at hd
        have hw : Emits k k c (match o with
            | .OpAnd => c.WriteString " AND "
            | .OpOr => c.WriteString " OR "
            | .OpNot => c.WriteString "NOT "
            | .OpFalse => c.WriteString "false"
            | _ => c) := by
          split <;> first
            | exact emits_plain _ (by decide) (by decide) k
            | exact emits_refl k c
        obtain ⟨c1, e1, g1⟩ := ih ti sk st _ k m ht1 ht2 hok' hcost' hd
        exact ⟨c1, e1, hw.trans g1⟩
      | exp val =>
        have hall : val.All Exp.NodeOK := hok val (List.mem_cons_self _ _)
        have hnode : val.NodeOK := Exp.all_node val hall
        have hch : ∀ ch ∈ val.Children, ch.All Exp.NodeOK := Exp.all_children val hall
        have hc0 : val.cost + stackCost st ≤ fuel + 1 := by
          rw [stackCost_cons, itemCost_exp] at hcost
          exact hcost
        rw [Exp.cost_eq] at hc0
        simp only [stackDepth] at hd
        have hcost' : stackCost st ≤ fuel := by omega
        by_cases hF : val.Op = .OpFalse
        · simp only [renderExpLoop, hF]
          refine ih ti sk _ c k m ht1 ht2 ?_ ?_ ?_
          · intro e he
            rcases List.mem_cons.mp he with h | h
            · cases h
            · exact hok' e h
          · rw [stackCost_cons, itemCost_op]
            omega
          · simpa [stackDepth] using hd
        by_cases hN : val.Op = .OpNot
        · unfold Exp.NodeOK at hnode
          rw [hN] at hnode
          dsimp only at hnode
          cases hcs : val.Children with
          | nil => exact absurd hcs hnode
          | cons child rest =>
            simp only [renderExpLoop, hN, hcs]
            rw [hcs] at hc0 hch
            refine ih ti sk _ c k m ht1 ht2 ?_ ?_ ?_
            · intro e he
              rcases List.mem_cons.mp he with h | h
              · cases h
              · rcases List.mem_cons.mp h with h | h
                · cases h
                  exact hch _ (List.mem_cons_self _ _)
                · exact hok' e h
            · rw [stackCost_cons, stackCost_cons, itemCost_op, itemCost_exp]
              simp only [Exp.cost.costList] at hc0
              omega
            · simpa [stackDepth] using hd
        by_cases hAO : val.Op = .OpAnd ∨ val.Op = .OpOr
        · have hstep : renderExpLoop env co (fuel + 1) ti sk (.exp val :: st) c =
              renderExpLoop env co fuel ti sk
                (.rune '(' :: (interleaved val.Op val.Children ++ .rune ')' :: st)) c := by
            rcases hAO with h | h <;> simp only [renderExpLoop, h, pushChildren_eq]
          rw [hstep]
          refine ih ti sk _ c k m ht1 ht2 ?_ ?_ ?_
          · intro e he
            rcases List.mem_cons.mp he with h | h
            · cases h
            · rcases List.mem_append.mp h with h | h
              · exact hch _ (mem_interleaved _ _ _ h)
              · rcases List.mem_cons.mp h with h | h
                · cases h
                · exact hok' e h
          · have h1 := stackCost_interleaved val.Op val.Children
            have h2 : stackCost (interleaved val.Op val.Children ++ .rune ')' :: st) =
                stackCost (interleaved val.Op val.Children) + (1 + stackCost st) := by
              simp [stackCost, itemCost_rune]
            rw [stackCost_cons, itemCost_rune, h2]
            omega
          · simp only [stackDepth, if_true, stackDepth_interleaved]
            simpa [stackDepth] using hd
        · have hA : val.Op ≠ .OpAnd := fun h => hAO (Or.inl h)
          have hO : val.Op ≠ .OpOr := fun h => hAO (Or.inr h)
          have hleaf : val.NoParens ∧ val.ColumnOK := by
            unfold Exp.NodeOK at hnode
            revert hnode
            cases hop : val.Op <;> simp_all
          rw [renderExpLoop_leaf env co fuel ti sk val st c hF hA hO hN]
          split
          · have hfuel : ∃ f, fuel = f + 1 := ⟨fuel - 1, by omega⟩
            obtain ⟨f, hf⟩ := hfuel
            obtain ⟨c1, e1, g1⟩ := emits_renderNestedWhere env
              (fun ti ex skipNested c => renderExpLoop env co fuel ti skipNested [.exp ex] c)
              ti val c hR (fun rel hrel => ⟨hleaf.1.2.2.2.2.2 rel hrel, fun c a => by
                subst hf
                dsimp only
                rw [renderExpLoop_leaf env co f _ true val [] c hF hA hO hN]
                simp only [Bool.not_true, Bool.false_and, Bool.false_eq_true, if_false,
                  renderExpLoop]
                exact ⟨_, rfl, emits_renderOp env co _ val c
                  ⟨(hleaf.1.2.2.2.2.2 rel hrel).2.2.2.2.1, (hleaf.1.2.2.2.2.2 rel hrel).2.2.2.2.2⟩
                  hleaf.1 hleaf.2 hvars hvar a⟩⟩) k
            rw [e1, Option.some_bind]
            obtain ⟨c2, e2, g2⟩ := ih ti sk st c1 k m ht1 ht2 hok' hcost' hd
            exact ⟨c2, e2, g1.trans g2⟩
          · obtain ⟨c2, e2, g2⟩ := ih ti sk st (renderOp env co ti val c) k m ht1 ht2 hok'
              hcost' hd
            exact ⟨c2, e2, (emits_renderOp env co ti val c ⟨ht1, ht2⟩ hleaf.1 hleaf.2 hvars
              hvar k).trans g2⟩

/-- C5 (amended): for a predicate tree in which every `Not` has a child and every leaf has
names, types and values without parentheses and a column name exactly when its operator does
not write its own opening parentheses, with balanced text from `renderRel` and `renderVar` and
no parentheses in the literal values of the variable map, `renderExp` returns whenever the fuel
covers the cost of the tree, and the text it appends has as many `(` as `)` and no prefix with
more `)` than `(`; the dialect is whatever the context carries. -/
theorem renderExp_balanced (env : Env) (co : Compiler) (fuel : Nat) (ti : DBTableInfo)
    (ex : Exp) (skipNested : Bool) (c : Ctx) (hvars : VarsNoParen co.vars)
    (hvar : VarsBalanced env co.vars)
    (hR : ∀ ti rel pid am, HelperBalanced (env.renderRel ti rel pid am))
    (hti : NoParen ti.Name ∧ NoParen ti.TSVCol.Name) (hex : ex.All Exp.NodeOK)
    (hfuel : ex.cost ≤ fuel) :
    ∃ c1 t, renderExp env co fuel ti ex skipNested c = some c1 ∧ c1.w = c.w ++ t ∧
      Balanced t := by
  obtain ⟨c1, e1, t, ht, hd⟩ := renderExpLoop_balanced env co hvars hvar hR fuel ti skipNested
    [.exp ex] c 0 0 hti.1 hti.2
    (fun e he => by
      rcases List.mem_cons.mp he with h | h
      · cases h
        exact hex
      · cases h)
    (by rw [stackCost_cons, itemCost_exp]; simpa [stackCost] using hfuel) rfl
  exact ⟨c1, t, e1, ht, balanced_of_parenDepth t hd⟩

/-- C5 (amended) at `id = $id AND NOT (id IN $ids)` on `users` in the PostgreSQL dialect. -/
theorem renderExp_balanced_witness :
    ∃ c1 t, renderExp sampleEnv ⟨[]⟩ 20 sampleTi sampleAnd false sampleCtx = some c1 ∧
      c1.w = sampleCtx.w ++ t ∧ Balanced t :=
  renderExp_balanced sampleEnv ⟨[]⟩ 20 sampleTi sampleAnd false sampleCtx
    (fun _ _ h => by simp at h) (fun _ _ h => by simp at h)
    (fun _ _ _ _ _ => balanced_of_parenDepth "((posts.user_id) = (users_0.id))".toList
      (by decide))
    ⟨⟨by decide, by decide⟩, ⟨by decide, by decide⟩⟩
    (by
      simp [sampleAnd, sampleCol, Exp.All, Exp.All.allList, Exp.NodeOK, Exp.NoParens,
        Exp.ColumnOK, Exp.Op, Exp.Col, Exp.Table, Exp.Val, Exp.ListVal, Exp.Rels, Exp.Children,
        NoParen])
    (by decide)

/-- C5 as stated fails: the leaf `= '5'` with an empty column name, whose names and values
contain no parenthesis, renders as `= '5' :: int)`, which closes a parenthesis it never
opened. -/
theorem renderExp_unbalanced :
    ∃ c1, renderExp sampleEnv ⟨[]⟩ 20 sampleTi sampleBareLeaf false sampleCtx = some c1 ∧
      c1.w = sampleCtx.w ++ "= '5' :: int)".toList ∧ ¬ Balanced "= '5' :: int)".toList := by
  refine ⟨_, rfl, by decide, fun h => ?_⟩
  have h1 := h.1
  revert h1
  decide

/-- C4 (amended): for a selection with `Singular = true`, `renderPluralSelect` writes nothing
(no `jsonb_agg` / `json_arrayagg` wrapper) and `renderSelectClose` writes `) AS __sr_<id>`
only; the walker of `CompileQuery`, which runs with `multi = true`, still closes the lateral
join of every non-union selection with `) AS __sj_<id> ON true`. -/
theorem singular_suppression (env : Env) (co : Compiler) (qc : QCode) (fuel : Nat)
    (st : List Int) (c : Ctx) (sel : Select) (hs : sel.Singular = true) :
    renderPluralSelect sel c = c ∧
      renderSelectClose sel c =
        { w := c.w ++ (") AS __sr_" ++ toString sel.ID).toList, md := c.md } ∧
      ∀ id, ¬ id < closeBlock → qc.selectAt (id - closeBlock) = some sel →
        sel.Typ ≠ .SelTypeUnion →
        renderQuery env co qc true (fuel + 1) (id :: st) c =
          renderQuery env co qc true fuel st
            { w := c.w ++ (") AS __sr_" ++ toString sel.ID ++ ") AS __sj_" ++
                toString sel.ID ++ " ON true").toList,
              md := c.md } := by
  have h2 : renderSelectClose sel c =
      { w := c.w ++ (") AS __sr_" ++ toString sel.ID).toList, md := c.md } := by
    simp [renderSelectClose, aliasWithID, int32String, Ctx.WriteString, hs]
  refine ⟨by simp [renderPluralSelect, hs], h2, fun id hid hsel hty => ?_⟩
  rw [renderQuery, if_neg hid, hsel]
  simp only [hty, ne_eq, not_false_eq_true, if_true, or_true, h2]
  congr 1
  simp [renderLateralJoinClose, aliasWithID, int32String, Ctx.WriteString]

/-- C4 (amended) at the singular root `users`: its close token `500` makes the walker write
`) AS __sr_0) AS __sj_0 ON true`. -/
theorem singular_suppression_witness :
    renderPluralSelect sampleSingular sampleCtx = sampleCtx ∧
      renderQuery sampleEnv ⟨[]⟩ sampleSingularQCode true (0 + 1) [500] sampleCtx =
        renderQuery sampleEnv ⟨[]⟩ sampleSingularQCode true 0 []
          { w := sampleCtx.w ++ (") AS __sr_" ++ toString sampleSingular.ID ++ ") AS __sj_" ++
              toString sampleSingular.ID ++ " ON true").toList,
            md := sampleCtx.md } :=
  ⟨(singular_suppression sampleEnv ⟨[]⟩ sampleSingularQCode 0 [] sampleCtx sampleSingular
      rfl).1,
    (singular_suppression sampleEnv ⟨[]⟩ sampleSingularQCode 0 [] sampleCtx sampleSingular
      rfl).2.2 500 (by decide) rfl (by decide)⟩

set_option maxRecDepth 100000 in
/-- C4 as stated fails: the SQL compiled for the singular root `users` has no `jsonb_agg`, but
it does carry the alias `__sj_0`, written by the lateral-join closer. -/
theorem CompileQuery_singular_has_alias :
    sampleSingular.Singular = true ∧
      (CompileQuery sampleEnv ⟨[]⟩ 10 sampleSingularQCode emptyCtx).map
          (fun c => String.mk c.w) =
        some ("SELECT jsonb_build_object('users', __sj_0.json) AS __root " ++
          "FROM (VALUES(true)) AS __root_x LEFT OUTER JOIN LATERAL (" ++
          "SELECT to_jsonb(__sr_0.*) AS json FROM (SELECT id FROM (" ++
          "SELECT id FROM \"users\" LIMIT 1) AS users_0) AS __sr_0) AS __sj_0 ON true") := by
  refine ⟨rfl, by decide⟩

/-- C6 (amended): for a selection with `Singular = true` and `NoLimit` unset, whatever `Limit`
and `LimitVar`, `renderLimit` writes ` LIMIT 1` and then the OFFSET clause, registering no
parameter for the limit. -/
theorem renderLimit_singular (sel : Select) (c : Ctx) (hs : sel.Singular = true)
    (hn : sel.Paging.NoLimit = false) :
    renderLimit sel c =
      offsetClause sel { w := c.w ++ " LIMIT 1".toList, md := c.md } := by
  simp [renderLimit, offsetClause, Ctx.WriteString, hs, hn]

/-- C6 (amended) at the singular root `users`: the clause is exactly ` LIMIT 1`. -/
theorem renderLimit_singular_witness :
    renderLimit sampleSingular sampleCtx =
      offsetClause sampleSingular { w := sampleCtx.w ++ " LIMIT 1".toList, md := sampleCtx.md } ∧
    (renderLimit sampleSingular sampleCtx).w = " LIMIT 1".toList :=
  ⟨renderLimit_singular sampleSingular sampleCtx rfl rfl, by decide⟩

/-- C6 as stated fails when `NoLimit` is set: the `NoLimit` case of the switch comes first, so
a singular selection with `NoLimit` gets no LIMIT clause at all. -/
theorem renderLimit_singular_noLimit :
    sampleSingularNoLimit.Singular = true ∧
      renderLimit sampleSingularNoLimit sampleCtx = sampleCtx := by
  decide

/-- C7: for a selection that is neither Singular nor NoLimit, `renderLimit` writes
` LIMIT LEAST(`, the marker `renderParam` gives `LimitVar` as a parameter of type `integer`
that is not an array, `, `, the literal `Limit` and `)` when `LimitVar` is set, and ` LIMIT `
with the literal `Limit`, leaving the metadata as it was, when `LimitVar` is empty; with
`NoLimit` it writes no LIMIT text. In each case the OFFSET clause follows. -/
theorem renderLimit_plural (sel : Select) (c : Ctx) :
    (sel.Paging.NoLimit = false → sel.Singular = false → sel.Paging.LimitVar ≠ "" →
      renderLimit sel c =
        offsetClause sel
          (((renderParam { Name := sel.Paging.LimitVar, Typ := "integer", IsArray := false }
            { w := c.w ++ " LIMIT LEAST(".toList, md := c.md }).WriteString
              (", " ++ toString sel.Paging.Limit ++ ")")))) ∧
    (sel.Paging.NoLimit = false → sel.Singular = false → sel.Paging.LimitVar = "" →
      renderLimit sel c =
        offsetClause sel
          { w := c.w ++ (" LIMIT " ++ toString sel.Paging.Limit).toList, md := c.md }) ∧
    (sel.Paging.NoLimit = true → renderLimit sel c = offsetClause sel c) := by
  refine ⟨fun hn hs hv => ?_, fun hn hs hv => ?_, fun hn => ?_⟩
  · simp [renderLimit, offsetClause, Ctx.WriteString, int32String, hs, hn, hv]
  · simp [renderLimit, offsetClause, Ctx.WriteString, int32String, hs, hn, hv]
  · simp [renderLimit, offsetClause, hn]

/-- C7 at a selection limited by the variable `lim` with literal limit 20, in PostgreSQL: the
clause is ` LIMIT LEAST($1, 20)` and `lim` is registered as a non-array `integer`. -/
theorem renderLimit_plural_witness :
    renderLimit sampleLimitVar sampleCtx =
        offsetClause sampleLimitVar
          (((renderParam { Name := "lim", Typ := "integer", IsArray := false }
            { w := sampleCtx.w ++ " LIMIT LEAST(".toList, md := sampleCtx.md }).WriteString
              (", " ++ toString sampleLimitVar.Paging.Limit ++ ")"))) ∧
      String.mk (renderLimit sampleLimitVar sampleCtx).w = " LIMIT LEAST($1, 20)" ∧
      (renderLimit sampleLimitVar sampleCtx).md.params =
        [{ Name := "lim", Typ := "integer", IsArray := false }] ∧
      String.mk (renderLimit sampleSel sampleCtx).w = " LIMIT 20" ∧
      (renderLimit sampleSel sampleCtx).md = sampleCtx.md :=
  ⟨(renderLimit_plural sampleLimitVar sampleCtx).1 rfl rfl (by decide), by decide, by decide,
    by decide, by decide⟩

/-- C8 at the entry `id` with `OrderDescNullsFirst`: `renderOrderBy` writes the direction
` DESC NULLLS FIRST`, with three `L`, where the claim has ` DESC NULLS FIRST`. -/
theorem renderOrderBy_descNullsFirst :
    String.mk (renderOrderBy sampleOrdered sampleCtx).w =
        " ORDER BY users.id DESC NULLLS FIRST" ∧
      String.mk (renderOrderBy sampleOrdered sampleCtx).w ≠
        " ORDER BY users.id DESC NULLS FIRST" := by
  decide

/-- C10 (amended): for an expression whose value type is `ValRef`, `renderVal` writes a blank
and the column reference `<Table>.<Col.Name>`, followed by ` :: <Col.Type>` unless the dialect
is `mysql`, and leaves the metadata as it was. -/
theorem renderVal_ref (env : Env) (vars : List (String × String)) (ex : Exp) (c : Ctx)
    (hty : ex.Typ = .ValRef) :
    renderVal env ex vars c =
      { w := c.w ++ (" " ++ ex.Table ++ "." ++ ex.Col.Name ++
          (if c.md.ct ≠ "mysql" then " :: " ++ ex.Col.Typ else "")).toList,
        md := c.md } := by
  unfold renderVal
  by_cases hct : c.md.ct = "mysql" <;>
    simp [hty, colWithTable, Ctx.WriteString, hct]

/-- C10 (amended) at `id = posts.author_id`: PostgreSQL gets ` posts.author_id :: int`, MySQL
gets ` posts.author_id`. -/
theorem renderVal_ref_witness :
    renderVal sampleEnv sampleRef [] sampleCtx =
        { w := sampleCtx.w ++ (" " ++ sampleRef.Table ++ "." ++ sampleRef.Col.Name ++
            (if sampleCtx.md.ct ≠ "mysql" then " :: " ++ sampleRef.Col.Typ else "")).toList,
          md := sampleCtx.md } ∧
      String.mk (renderVal sampleEnv sampleRef [] sampleCtx).w = " posts.author_id :: int" ∧
      String.mk (renderVal sampleEnv sampleRef []
        { sampleCtx with md := { sampleCtx.md with ct := "mysql" } }).w = " posts.author_id" :=
  ⟨renderVal_ref sampleEnv [] sampleRef sampleCtx rfl, by decide, by decide⟩

/-- C10 as stated fails in PostgreSQL: the right-hand side of `id = posts.author_id` is
` posts.author_id :: int`, a column reference with the cast ` :: int` after it. -/
theorem renderVal_ref_cast :
    sampleRef.Typ = .ValRef ∧
      String.mk (renderVal sampleEnv sampleRef [] sampleCtx).w = " posts.author_id :: int" := by
  decide

theorem castScan_append (a b : List Char) (q : CastState) :
    castScan q (a ++ b) = castScan (castScan q a) b := by
  simp [castScan, List.foldl_append]

theorem castScan_found (t : List Char) : castScan .found t = .found := by
  induction t with
  | nil => rfl
  | cons ch t ih => simpa [castScan, castStep] using ih

theorem castScan_cons (q : CastState) (ch : Char) (t : List Char) :
    castScan q (ch :: t) = castScan (castStep q ch) t := rfl

theorem castScan_complete (t : List Char) :
    ∀ q, " :: ".toList <:+: t → castScan q t = .found := by
  induction t with
  | nil =>
    intro q h
    have := List.IsInfix.length_le h
    simp at this
  | cons ch t ih =>
    intro q h
    rcases List.infix_cons_iff.mp h with h | h
    · obtain ⟨r, hr⟩ := h
      have h1 : ch :: t = ' ' :: ':' :: ':' :: ' ' :: r := by
        rw [← hr]; rfl
      rw [h1]
      cases q <;> simp [castScan_cons, castStep, castScan_found]
    · rw [castScan_cons]
      exact ih _ h

theorem castScan_sound (t : List Char) :
    ∀ q, castScan q t = .found → " :: ".toList <:+: q.read ++ t := by
  induction t with
  | nil =>
    intro q h
    simp only [castScan, List.foldl_nil] at h
    subst h
    exact ⟨[], [], by simp [CastState.read]⟩
  | cons ch t ih =>
    intro q h
    rw [castScan_cons] at h
    have h2 := ih _ h
    have key : ∀ q' : CastState, q'.read <:+ q.read ++ [ch] →
        " :: ".toList <:+: q'.read ++ t → " :: ".toList <:+: q.read ++ ch :: t := by
      intro q' hsuf hin
      obtain ⟨u, hu⟩ := hsuf
      obtain ⟨x, y, hxy⟩ := hin
      refine ⟨u ++ x, y, ?_⟩
      have : q.read ++ ch :: t = (q.read ++ [ch]) ++ t := by simp
      rw [this, ← hu]
      simp only [List.append_assoc] at hxy ⊢
      rw [hxy]
    have hfound : q = .found → " :: ".toList <:+: q.read ++ ch :: t := by
      intro hq
      subst hq
      exact ⟨[], ch :: t, by simp [CastState.read]⟩
    by_cases h1 : ch = ' '
    · subst h1
      cases q with
      | found => exact hfound rfl
      | s3 => exact ⟨[], t, by simp [CastState.read]⟩
      | _ =>
        refine key .s1 ?_ (by simpa [castStep] using h2)
        simp [CastState.read, List.suffix_iff_eq_append]
    · by_cases h3 : ch = ':'
      · subst h3
        cases q with
        | found => exact hfound rfl
        | s1 =>
          refine key .s2 ?_ (by simpa [castStep] using h2)
          simp [CastState.read]
        | s2 =>
          refine key .s3 ?_ (by simpa [castStep] using h2)
          simp [CastState.read]
        | _ =>
          refine key .s0 ?_ (by simpa [castStep] using h2)
          simp [CastState.read]
      · cases q with
        | found => exact hfound rfl
        | _ =>
          refine key .s0 ?_ (by simpa [castStep, h1, h3] using h2)
          simp [CastState.read]

theorem lands_refl (q : CastState) (c : Ctx) : Lands q q c c :=
  ⟨[], by simp, rfl, rfl⟩

theorem Lands.chain {q q1 q2 : CastState} {c c1 c2 : Ctx} (h1 : Lands q q1 c c1)
    (h2 : Lands q1 q2 c1 c2) : Lands q q2 c c2 := by
  obtain ⟨t1, e1, s1, m1⟩ := h1
  obtain ⟨t2, e2, s2, m2⟩ := h2
  exact ⟨t1 ++ t2, by rw [e2, e1, List.append_assoc], by rw [castScan_append, s1, s2],
    by rw [m2, m1]⟩

theorem Lands.alive {q q1 : CastState} {c c1 : Ctx} (h : Lands q q1 c c1)
    (hq : q1 ≠ .found) : Alive q c c1 := by
  obtain ⟨t, e, s, m⟩ := h
  exact ⟨t, e, by rw [s]; exact hq, m⟩

theorem Lands.then_alive {q q1 : CastState} {c c1 c2 : Ctx} (h1 : Lands q q1 c c1)
    (h2 : Alive q1 c1 c2) : Alive q c c2 := by
  obtain ⟨t1, e1, s1, m1⟩ := h1
  obtain ⟨t2, e2, s2, m2⟩ := h2
  exact ⟨t1 ++ t2, by rw [e2, e1, List.append_assoc], by rw [castScan_append, s1]; exact s2,
    by rw [m2, m1]⟩

theorem lands_lit {c : Ctx} (lit : String) (q r : CastState)
    (h : castScan q lit.toList = r) : Lands q r c (c.WriteString lit) :=
  ⟨lit.toList, rfl, h, rfl⟩

theorem Alive.lit {q : CastState} {c c1 : Ctx} (h : Alive q c c1) (lit : String)
    (r : CastState) (hr : Resets lit.toList r) : Lands q r c (c1.WriteString lit) := by
  obtain ⟨t, e, s, m⟩ := h
  refine ⟨t ++ lit.toList, by simp [Ctx.WriteString, e], ?_, m⟩
  rw [castScan_append]
  cases hq : castScan q t with
  | found => exact absurd hq s
  | s0 => exact hr.1
  | s1 => exact hr.2.1
  | s2 => exact hr.2.2.1
  | s3 => exact hr.2.2.2

theorem noCast_scan (s : String) (h : NoCast s) :
    castScan .s0 s.toList ≠ .found ∧ castScan .s1 s.toList ≠ .found := by
  constructor
  · intro hf
    have := castScan_sound _ _ hf
    simp only [CastState.read, List.nil_append] at this
    exact h (this.trans (List.infix_cons (List.infix_refl _)))
  · intro hf
    exact h (castScan_sound _ _ hf)

theorem alive_str {c : Ctx} (s : String) (hs : NoCast s) (q : CastState)
    (hq : q = .s0 ∨ q = .s1) : Alive q c (c.WriteString s) := by
  refine ⟨s.toList, rfl, ?_, rfl⟩
  rcases hq with h | h <;> subst h
  · exact (noCast_scan s hs).1
  · exact (noCast_scan s hs).2

theorem lands_renderParam_mysql {q : CastState} {c c1 : Ctx} (p : Param) (h : Alive q c c1)
    (hct : c.md.ct = "mysql") : Lands q .s0 c (renderParam p c1) := by
  have hm : c1.md.ct = "mysql" := by
    obtain ⟨_, _, _, m⟩ := h
    rw [m, hct]
  have he : renderParam p c1 = (Ctx.mk c1.w (renderParam p c1).md).WriteString "?" ∧
      (renderParam p c1).md.ct = c1.md.ct := by
    unfold renderParam
    cases hl : c1.md.pindex.lookup p.Name <;> simp [hm, Ctx.WriteString]
  obtain ⟨t, e, s, m⟩ := h
  have h1 : Alive q c (Ctx.mk c1.w (renderParam p c1).md) := ⟨t, e, s, by rw [← m]; exact he.2⟩
  rw [he.1]
  exact h1.lit "?" .s0 (by decide)

theorem alive_colWithTable {q q0 : CastState} {c c1 : Ctx} (table col : String)
    (h : Lands q q0 c c1) (hq : q0 = .s0 ∨ q0 = .s1) (h1 : NoCast table) (h2 : NoCast col) :
    Alive q c (colWithTable table col c1) := by
  unfold colWithTable
  exact ((h.then_alive (alive_str table h1 q0 hq)).lit "." .s0 (by decide)).then_alive
    (alive_str col h2 .s0 (Or.inl rfl))

theorem lands_squoted {q : CastState} {c c1 : Ctx} (s : String) (h : Alive q c c1)
    (hs : NoCast s) : Lands q .s0 c (squoted s c1) := by
  unfold squoted
  exact (((h.lit "'" .s0 (by decide)).then_alive (alive_str s hs .s0 (Or.inl rfl))).lit "'"
    .s0 (by decide))

theorem alive_foldl_enumFrom {α : Type} {q : CastState} {c : Ctx} (f : Ctx → Nat × α → Ctx)
    (l : List α) (hf : ∀ c1 p, p.2 ∈ l → p.1 ≠ 0 → Alive q c c1 → Alive q c (f c1 p)) :
    ∀ (k : Nat) (c1 : Ctx), 0 < k → Alive q c c1 →
      Alive q c ((l.enumFrom k).foldl f c1) := by
  induction l with
  | nil => intro k c1 _ h; exact h
  | cons x xs ih =>
    intro k c1 hk h
    rw [List.enumFrom_cons, List.foldl_cons]
    exact ih (fun c2 p hp hp0 h2 => hf c2 p (List.mem_cons_of_mem _ hp) hp0 h2) (k + 1) _
      (Nat.succ_pos k) (hf c1 (k, x) (List.mem_cons_self _ _) (Nat.pos_iff_ne_zero.mp hk) h)

theorem lands_renderList {q q0 : CastState} {c c1 : Ctx} (ex : Exp) (h : Lands q q0 c c1)
    (hq : q0 = .s0 ∨ q0 = .s1) (hex : ex.NoCasts) : Lands q .s0 c (renderList ex c1) := by
  have hopen : Lands q .s0 c (c1.WriteString " (ARRAY[") := by
    rcases hq with h0 | h0 <;> subst h0
    · exact h.chain (lands_lit _ _ _ (by decide))
    · exact h.chain (lands_lit _ _ _ (by decide))
  have hitem : ∀ (c2 : Ctx) (q2 : CastState) (v : String), v ∈ ex.ListVal →
      Lands q q2 c c2 → (q2 = .s0 ∨ q2 = .s1) →
      Alive q c (match ex.ListType with
        | .ValBool => c2.WriteString v
        | .ValNum => c2.WriteString v
        | .ValStr => ((c2.WriteString "'").WriteString v).WriteString "'"
        | _ => c2) := by
    intro c2 q2 v hv h2 hq2
    have hnf : q2 ≠ .found := by rcases hq2 with h0 | h0 <;> subst h0 <;> decide
    cases ex.ListType <;> dsimp only <;>
      first
        | exact h2.then_alive (alive_str v (hex.2.2.2 v hv) q2 hq2)
        | exact (lands_squoted v (h2.alive hnf) (hex.2.2.2 v hv)).alive (by decide)
        | exact h2.alive hnf
  unfold renderList
  dsimp only
  generalize c1.WriteString " (ARRAY[" = c2 at hopen
  refine Alive.lit ?_ "])" .s0 (by decide)
  cases hl : ex.ListVal with
  | nil => exact hopen.alive (by decide)
  | cons x xs =>
    rw [List.enum, List.enumFrom_cons, List.foldl_cons]
    refine alive_foldl_enumFrom _ xs (fun c3 p hp hp0 h3 => ?_) (0 + 1) _ (Nat.succ_pos 0) ?_
    · simp only [hp0, ne_eq, not_false_eq_true, if_true]
      exact hitem _ .s1 p.2 (by rw [hl]; exact List.mem_cons_of_mem _ hp)
        (h3.lit ", " .s1 (by decide)) (Or.inr rfl)
    · simp only [ne_eq, not_true_eq_false, if_false]
      exact hitem _ .s0 x (by rw [hl]; exact List.mem_cons_self _ _) hopen (Or.inl rfl)

theorem alive_renderVal_mysql {q q0 : CastState} {c c1 : Ctx} (env : Env) (ex : Exp)
    (vars : List (String × String)) (h : Lands q q0 c c1) (hq : q0 = .s0 ∨ q0 = .s1)
    (hct : c.md.ct = "mysql") (hex : ex.NoCasts) (hvars : VarsNoCast env vars)
    (hexc : ¬ ex.IsArrayParam vars) : Alive q c (renderVal env ex vars c1) := by
  have hm : ∀ c2, Alive q c c2 → c2.md.ct = "mysql" := by
    intro c2 h2
    obtain ⟨_, _, _, m⟩ := h2
    rw [m, hct]
  have hcast : ∀ c2 : Ctx, Alive q c c2 →
      Alive q c
        (if c2.md.ct ≠ "mysql" then (c2.WriteString " :: ").WriteString ex.Col.Typ else c2) := by
    intro c2 h2
    rw [if_neg (by simp [hm c2 h2])]
    exact h2
  have h0 : Lands q .s1 c (c1.WriteString " ") := by
    rcases hq with h1 | h1 <;> subst h1
    · exact h.chain (lands_lit _ _ _ (by decide))
    · exact h.chain (lands_lit _ _ _ (by decide))
  unfold renderVal
  dsimp only
  generalize c1.WriteString " " = c2 at h0
  cases hty : ex.Typ <;> dsimp only
  case ValVar =>
    cases hl : vars.lookup ex.Val with
    | some val =>
      dsimp only
      obtain ⟨hlit, hsql⟩ := hvars _ _ hl
      by_cases hs : val.startsWith "sql:" = true
      · rw [if_pos hs]
        have h1 : Lands q .s0 c (c2.WriteString "(") := h0.chain (lands_lit _ _ _ (by decide))
        have h2 : Alive q c ((c2.WriteString "(").run (env.renderVar (val.drop 4))) := by
          refine h1.then_alive ⟨_, rfl, ?_, (hsql hs _).2⟩
          intro hf
          exact (hsql hs _).1 (by simpa [CastState.read] using castScan_sound _ _ hf)
        have h3 := (h2.lit ")" .s0 (by decide)).alive (by decide)
        split
        · exact h3
        · exact hcast _ h3
      · rw [if_neg hs]
        exact hcast _ ((lands_squoted val (h0.alive (by decide))
          (hlit (by simpa using hs))).alive (by decide))
    | none =>
      dsimp only
      split
      · rename_i hop
        exact absurd ⟨hty, hl, hop⟩ hexc
      · exact hcast _ ((lands_renderParam_mysql _ (h0.alive (by decide)) hct).alive (by decide))
  case ValRef => exact hcast _ (alive_colWithTable _ _ h0 (Or.inr rfl) hex.2.1 hex.1)
  all_goals
    exact hcast _ ((lands_squoted ex.Val (h0.alive (by decide)) hex.2.2.1).alive (by decide))

theorem lands_renderOpColumn (ti : DBTableInfo) (ex : Exp) (c : Ctx) (hti : NoCast ti.Name)
    (hex : ex.NoCasts) :
    ∃ q0, (q0 = .s0 ∨ q0 = .s1) ∧ Lands .s0 q0 c (renderOpColumn ti ex c) := by
  unfold renderOpColumn
  by_cases hne : ex.Col.Name = ""
  · exact ⟨.s0, Or.inl rfl, by simpa [hne] using lands_refl .s0 c⟩
  · rw [if_pos hne]
    dsimp only
    have h1 : Lands .s0 .s0 c (c.WriteString "((") := lands_lit _ _ _ (by decide)
    refine ⟨.s1, Or.inr rfl, Alive.lit ?_ ") " .s1 (by decide)⟩
    split
    · exact alive_colWithTable _ _ h1 (Or.inl rfl) hex.2.1 hex.1
    · exact alive_colWithTable _ _ h1 (Or.inl rfl) hti hex.1

theorem lands_renderOpValue_mysql {q q0 : CastState} {c c1 : Ctx} (env : Env)
    (co : Compiler) (ex : Exp) (h : Lands q q0 c c1) (hq : q0 = .s0 ∨ q0 = .s1)
    (hct : c.md.ct = "mysql") (hex : ex.NoCasts) (hvars : VarsNoCast env co.vars)
    (hexc : ¬ ex.IsArrayParam co.vars) : Lands q .s0 c (renderOpValue env co ex c1) := by
  unfold renderOpValue
  dsimp only
  refine Alive.lit ?_ ")" .s0 (by decide)
  split
  · exact (lands_renderList ex h hq hex).alive (by decide)
  · exact alive_renderVal_mysql env ex co.vars h hq hct hex hvars hexc

theorem alive_renderOp_mysql (env : Env) (co : Compiler) (ti : DBTableInfo) (ex : Exp)
    (c : Ctx) (hct : c.md.ct = "mysql") (hti : NoCast ti.Name) (hex : ex.NoCasts)
    (hvars : VarsNoCast env co.vars) (hexc : ¬ ex.IsArrayParam co.vars) :
    Alive .s0 c (renderOp env co ti ex c) := by
  obtain ⟨q0, hq0, hcol⟩ := lands_renderOpColumn ti ex c hti hex
  have hnf : q0 ≠ .found := by rcases hq0 with h | h <;> subst h <;> decide
  have hal : Alive .s0 c (renderOpColumn ti ex c) := hcol.alive hnf
  have hm : (renderOpColumn ti ex c).md.ct = "mysql" := by
    obtain ⟨_, _, _, m⟩ := hcol
    rw [m, hct]
  have hval : ∀ (c1 : Ctx) (q1 : CastState), Lands .s0 q1 c c1 → (q1 = .s0 ∨ q1 = .s1) →
      Alive .s0 c (renderOpValue env co ex c1) := fun c1 q1 h1 hq1 =>
    (lands_renderOpValue_mysql env co ex h1 hq1 hct hex hvars hexc).alive (by decide)
  unfold renderOp
  generalize renderOpColumn ti ex c = c1 at hcol hal hm
  cases hop : ex.Op <;> simp only [reduceCtorEq, if_false, if_true]
  case OpNop => exact (lands_refl .s0 c).alive (by decide)
  case OpEqualsTrue =>
    exact ((lands_renderParam_mysql _ ((hal.lit "((VALUES(true)) = " .s1 (by decide)).alive
      (by decide)) hct).alive (by decide)).lit ")" .s0 (by decide) |>.alive (by decide)
  case OpNotEqualsTrue =>
    exact ((lands_renderParam_mysql _ ((hal.lit "((VALUES(true)) != " .s1 (by decide)).alive
      (by decide)) hct).alive (by decide)).lit ")" .s0 (by decide) |>.alive (by decide)
  case OpIsNull =>
    split
    · exact (hal.lit "IS NULL)" .s0 (by decide)).alive (by decide)
    · exact (hal.lit "IS NOT NULL)" .s0 (by decide)).alive (by decide)
  case OpTsQuery =>
    rw [if_pos hm]
    exact hal
  all_goals
    first
      | with_reducible exact hval _ _ hcol hq0
      | with_reducible exact hval _ .s0 (hal.lit _ .s0 (by decide)) (Or.inl rfl)

/-- C9 (amended): in the `mysql` dialect, for every scalar-operator expression other than
`In`/`NotIn` on a variable that is not in the variable map, whose table name, column name and
values have no ` :: ` even after a blank, and with a variable map that brings none, the text
`renderOp` appends contains no ` :: `. -/
theorem renderOp_mysql_no_cast (env : Env) (co : Compiler) (ti : DBTableInfo) (ex : Exp)
    (c : Ctx) (hct : c.md.ct = "mysql") (hti : NoCast ti.Name) (hex : ex.NoCasts)
    (hvars : VarsNoCast env co.vars) (hexc : ¬ ex.IsArrayParam co.vars) :
    ∃ t, (renderOp env co ti ex c).w = c.w ++ t ∧ ¬ (" :: ".toList <:+: t) := by
  obtain ⟨t, e, s, _⟩ := alive_renderOp_mysql env co ti ex c hct hti hex hvars hexc
  exact ⟨t, e, fun h => s (castScan_complete t .s0 h)⟩

/-- C9 (amended) at `id = '5'` on `users` in the MySQL dialect: the text is
`((users.id) = '5')`. -/
theorem renderOp_mysql_no_cast_witness :
    (∃ t, (renderOp sampleEnv ⟨[]⟩ sampleTi sampleExp sampleMysqlCtx).w =
        sampleMysqlCtx.w ++ t ∧ ¬ (" :: ".toList <:+: t)) ∧
      String.mk (renderOp sampleEnv ⟨[]⟩ sampleTi sampleExp sampleMysqlCtx).w =
        "((users.id) = '5')" :=
  ⟨renderOp_mysql_no_cast sampleEnv ⟨[]⟩ sampleTi sampleExp sampleMysqlCtx rfl
      (by unfold NoCast; decide)
      ⟨by unfold NoCast; decide, by unfold NoCast; decide, by unfold NoCast; decide,
        fun v hv => by simp [sampleExp, Exp.ListVal] at hv⟩
      (fun _ _ h => by simp at h)
      (fun h => by simp [Exp.IsArrayParam, sampleExp, Exp.Typ] at h),
    by decide⟩

/-- C9 as stated fails for `In` on a variable that is not in the variable map: in the MySQL
dialect `id IN $ids` renders as `((users.id) = ANY (ARRAY(SELECT
json_array_elements_text(?)) :: int[]))`, which contains the cast ` :: `. -/
theorem renderOp_mysql_array_cast :
    String.mk (renderOp sampleEnv ⟨[]⟩ sampleTi sampleIn sampleMysqlCtx).w =
        "((users.id) = ANY (ARRAY(SELECT json_array_elements_text(?)) :: int[]))" ∧
      " :: ".toList <:+: (renderOp sampleEnv ⟨[]⟩ sampleTi sampleIn sampleMysqlCtx).w := by
  refine ⟨by decide, ?_⟩
  exact ⟨"((users.id) = ANY (ARRAY(SELECT json_array_elements_text(?))".toList, "int[]))".toList,
    by decide⟩

theorem renderParam_fresh (p : Param) (c : Ctx) (h : c.md.pindex.lookup p.Name = none) :
    renderParam p c =
      { w := c.w ++ (if c.md.ct = "mysql" then "?"
          else "$" ++ toString (c.md.params.length + 1)).toList,
        md := c.md.register p } := by
  unfold renderParam
  by_cases hct : c.md.ct = "mysql" <;>
    simp [h, hct, Ctx.WriteString, Metadata.register]

theorem renderParam_seen (p : Param) (c : Ctx) (i : Nat)
    (h : c.md.pindex.lookup p.Name = some i) :
    renderParam p c =
      { w := c.w ++ (if c.md.ct = "mysql" then "?" else "$" ++ toString i).toList,
        md := c.md } := by
  unfold renderParam
  by_cases hct : c.md.ct = "mysql" <;>
    simp [h, hct, Ctx.WriteString]

/-- C11 (amended): for an `In`/`NotIn` expression whose value is a variable that is not in
the variable map, `renderVal` writes a blank, `(ARRAY(SELECT json_array_elements_text(`, the
marker `renderParam` gives the variable as a parameter of the column type with
`IsArray = true`, and `)) :: <col-type>[])`: the array cast stands inside the outer
parentheses, and nothing follows it. -/
theorem renderVal_array_param (env : Env) (vars : List (String × String)) (ex : Exp)
    (c : Ctx) (hty : ex.Typ = .ValVar) (hl : vars.lookup ex.Val = none)
    (hop : ex.Op = .OpIn ∨ ex.Op = .OpNotIn) :
    renderVal env ex vars c =
      (renderParam { Name := ex.Val, Typ := ex.Col.Typ, IsArray := true }
        (c.WriteString " (ARRAY(SELECT json_array_elements_text(")).WriteString
        (")) :: " ++ ex.Col.Typ ++ "[])") := by
  unfold renderVal
  simp [hty, hl, hop, Ctx.WriteString]

/-- C11 (amended) at `id IN $ids` with column type `int` and no parameter registered yet, in
PostgreSQL: the right-hand side is ` (ARRAY(SELECT json_array_elements_text($1)) :: int[])`
and `ids` is registered as an `int` array. -/
theorem renderVal_array_param_witness :
    renderVal sampleEnv sampleIn [] sampleCtx =
        (renderParam { Name := sampleIn.Val, Typ := sampleIn.Col.Typ, IsArray := true }
          (sampleCtx.WriteString " (ARRAY(SELECT json_array_elements_text(")).WriteString
          (")) :: " ++ sampleIn.Col.Typ ++ "[])") ∧
      String.mk (renderVal sampleEnv sampleIn [] sampleCtx).w =
        " (ARRAY(SELECT json_array_elements_text($1)) :: int[])" ∧
      (renderVal sampleEnv sampleIn [] sampleCtx).md.params =
        [{ Name := "ids", Typ := "int", IsArray := true }] :=
  ⟨renderVal_array_param sampleEnv [] sampleIn sampleCtx rfl rfl (Or.inl rfl), by decide,
    by decide⟩

/-- C11 as stated fails on the exact text: for `id IN $ids` (scenario S4) the code closes two
parentheses before the cast and one after it, so the right-hand side is not
`(ARRAY(SELECT json_array_elements_text($1))) :: int[]`. -/
theorem renderVal_array_param_text :
    String.mk (renderVal sampleEnv sampleIn [] sampleCtx).w ≠
        " (ARRAY(SELECT json_array_elements_text($1))) :: int[]" ∧
      ¬ ("(ARRAY(SELECT json_array_elements_text($1))) :: int[]".toList <:+:
        (renderVal sampleEnv sampleIn [] sampleCtx).w) := by
  decide

/-- C12: for a `ValVar` expression whose variable is in the variable map with a value that
does not start with `sql:`, `renderVal` writes the value as a single-quoted literal (with the
dialect's cast) and leaves the metadata unchanged; when the variable is not in the map there
is one call of `renderParam`, for the parameter named after the variable, with the column's
type and `IsArray` set exactly when the operator is `In` or `NotIn`: on its first sighting
that parameter is appended to the registry, on a later one the metadata is unchanged. -/
theorem renderVal_var (env : Env) (vars : List (String × String)) (ex : Exp) (c : Ctx)
    (hty : ex.Typ = .ValVar) :
    (∀ val, vars.lookup ex.Val = some val → val.startsWith "sql:" = false →
      renderVal env ex vars c =
        { w := c.w ++ (" '" ++ val ++ "'" ++
            (if c.md.ct ≠ "mysql" then " :: " ++ ex.Col.Typ else "")).toList,
          md := c.md }) ∧
    (vars.lookup ex.Val = none →
      (renderVal env ex vars c).md =
          (renderParam { Name := ex.Val, Typ := ex.Col.Typ, IsArray := ex.isArrayOp } c).md ∧
        (c.md.pindex.lookup ex.Val = none →
          (renderVal env ex vars c).md =
            c.md.register { Name := ex.Val, Typ := ex.Col.Typ, IsArray := ex.isArrayOp }) ∧
        (∀ i, c.md.pindex.lookup ex.Val = some i → (renderVal env ex vars c).md = c.md)) := by
  have hmd : ∀ (p : Param) (c1 : Ctx), c1.md = c.md → (renderParam p c1).md = (renderParam p c).md := by
    intro p c1 h1
    unfold renderParam
    by_cases hct : c.md.ct = "mysql" <;>
      cases hl : c.md.pindex.lookup p.Name <;> simp [h1, hl, hct, Ctx.WriteString]
  refine ⟨fun val hl hs => ?_, fun hl => ?_⟩
  · unfold renderVal
    by_cases hct : c.md.ct = "mysql" <;>
      simp [hty, hl, hs, squoted, Ctx.WriteString, hct]
  · have key : (renderVal env ex vars c).md =
        (renderParam { Name := ex.Val, Typ := ex.Col.Typ, IsArray := ex.isArrayOp } c).md := by
      unfold renderVal
      by_cases hop : ex.Op = .OpIn ∨ ex.Op = .OpNotIn
      · have hb : ex.isArrayOp = true := by simp [Exp.isArrayOp, hop]
        simp only [hty, hl, hop, if_true, hb, Ctx.WriteString]
        exact hmd _ _ rfl
      · have hb : ex.isArrayOp = false := by simp [Exp.isArrayOp, hop]
        simp only [hty, hl, hop, if_false, hb]
        split
        · simp only [Ctx.WriteString]
          exact hmd _ _ rfl
        · exact hmd _ _ rfl
    refine ⟨key, fun hf => ?_, fun i hi => ?_⟩
    · rw [key, renderParam_fresh _ _ hf]
    · rw [key, renderParam_seen _ _ i hi]

/-- C12 at `id = $id`: with `id` mapped to `42` the text is ` '42' :: int` and nothing is
registered; with an empty map `id` is registered as a non-array `int`. -/
theorem renderVal_var_witness :
    renderVal sampleEnv sampleVarExp sampleVars sampleCtx =
        { w := sampleCtx.w ++ (" '" ++ "42" ++ "'" ++
            (if sampleCtx.md.ct ≠ "mysql" then " :: " ++ sampleVarExp.Col.Typ else "")).toList,
          md := sampleCtx.md } ∧
      (renderVal sampleEnv sampleVarExp [] sampleCtx).md =
        sampleCtx.md.register { Name := "id", Typ := "int", IsArray := false } ∧
      (renderVal sampleEnv sampleIn [] sampleCtx).md.params =
        [{ Name := "ids", Typ := "int", IsArray := true }] :=
  ⟨(renderVal_var sampleEnv sampleVars sampleVarExp sampleCtx rfl).1 "42" rfl (by decide),
    ((renderVal_var sampleEnv [] sampleVarExp sampleCtx rfl).2 rfl).2.1 rfl,
    by decide⟩

theorem foldl_texts {α : Type} (f : Ctx → α → Ctx) (g : α → List Char)
    (hf : ∀ c x, f c x = { w := c.w ++ g x, md := c.md }) (xs : List α) :
    ∀ c : Ctx, xs.foldl f c = { w := c.w ++ (xs.map g).flatten, md := c.md } := by
  induction xs with
  | nil => intro c; simp
  | cons x xs ih => intro c; rw [List.foldl_cons, hf, ih]; simp

theorem foldl_enumFrom_sep {α : Type} (f : Ctx → Nat × α → Ctx) (g : α → List Char)
    (sep : List Char)
    (hf : ∀ c p, f c p = { w := c.w ++ (if p.1 ≠ 0 then sep else []) ++ g p.2, md := c.md })
    (xs : List α) :
    ∀ (k : Nat) (c : Ctx), 0 < k →
      (xs.enumFrom k).foldl f c =
        { w := c.w ++ (xs.map fun x => sep ++ g x).flatten, md := c.md } := by
  induction xs with
  | nil => intro k c _; simp
  | cons x xs ih =>
    intro k c hk
    have hk0 : k ≠ 0 := Nat.pos_iff_ne_zero.mp hk
    rw [List.enumFrom_cons, List.foldl_cons, hf, ih (k + 1) _ (Nat.succ_pos k)]
    simp [hk0]

theorem foldl_enum_sep {α : Type} (f : Ctx → Nat × α → Ctx) (g : α → List Char)
    (sep : List Char)
    (hf : ∀ c p, f c p = { w := c.w ++ (if p.1 ≠ 0 then sep else []) ++ g p.2, md := c.md })
    (xs : List α) (c : Ctx) :
    xs.enum.foldl f c = { w := c.w ++ sep.intercalate (xs.map g), md := c.md } := by
  cases xs with
  | nil => simp [List.enum, List.intercalate]
  | cons x xs =>
    rw [List.enum, List.enumFrom_cons, List.foldl_cons, hf,
      foldl_enumFrom_sep f g sep hf xs (0 + 1) _ (Nat.succ_pos 0), List.map_cons,
      intercalate_cons_eq]
    simp [Function.comp_def]

theorem toString_natCast (i : Nat) : toString ((i : Nat) : Int) = toString i := rfl

theorem renderFrom_eq (sel : Select) (c : Ctx) :
    renderFrom sel c =
      { w := c.w ++ " FROM ".toList ++ fromText sel ++
          (if sel.Paging.Cursor then ", __cur".toList else []),
        md := c.md } := by
  have hloop : ∀ c1 : Ctx, sel.Ti.Columns.enum.foldl (fun c p =>
        let c := if p.1 ≠ 0 then c.WriteString ", " else c
        let c := c.WriteString p.2.Name
        let c := c.WriteString " "
        c.WriteString p.2.Typ) c1 =
      { w := c1.w ++ ", ".toList.intercalate
          (sel.Ti.Columns.map fun col => (col.Name ++ " " ++ col.Typ).toList),
        md := c1.md } := by
    intro c1
    refine foldl_enum_sep _ _ _ (fun c2 p => ?_) _ c1
    by_cases hp : p.1 = 0 <;> simp [hp, Ctx.WriteString]
  unfold renderFrom
  cases hr : sel.Rel.Typ
  case RelEmbedded =>
    dsimp only
    rw [hloop]
    by_cases hc : sel.Paging.Cursor = true <;>
      simp [fromText, hr, hc, quoted, colWithTable, Ctx.WriteString]
  all_goals
    by_cases hc : sel.Paging.Cursor = true <;>
      simp [fromText, hr, hc, quoted, colWithTable, Ctx.WriteString]

theorem foldl_indexed (n : Nat) (f : Ctx → Nat → Ctx) (g : Nat → String)
    (hf : ∀ c i, f c i = { w := c.w ++ (g i).toList, md := c.md }) (c : Ctx) :
    (List.range n).foldl f c = { w := c.w ++ indexedText n g, md := c.md } := by
  rw [foldl_texts f (fun i => (g i).toList) hf]
  rfl

theorem selectAlias_eq (sel : Select) :
    (fun c1 : Ctx => aliasWithID sel.Table sel.ID (c1.WriteString ")")) = selectAlias sel := by
  funext c1
  simp [aliasWithID, int32String, selectAlias, Ctx.WriteString]

theorem renderPluralSelect_cursor (sel : Select) (c : Ctx) (hcur : sel.Paging.Cursor = true)
    (hs : sel.Singular = false) :
    renderPluralSelect sel c =
      { w := c.w ++
          ((if c.md.ct = "mysql" then "SELECT coalesce(json_arrayagg(__sj_"
            else "SELECT coalesce(jsonb_agg(__sj_") ++ toString sel.ID ++
            ".json), '[]') as json, CONCAT_WS(','").toList ++
          indexedText sel.OrderBy.length (fun i => ", max(__cur_" ++ toString i ++ ")") ++
          ") as __cursor FROM (".toList,
        md := c.md } := by
  have hloop := fun c1 => foldl_indexed sel.OrderBy.length
    (fun c i =>
      let c := c.WriteString ", max(__cur_"
      let c := int32String (i : Nat) c
      c.WriteString ")")
    (fun i => ", max(__cur_" ++ toString i ++ ")")
    (fun c i => by simp [Ctx.WriteString, int32String, toString_natCast]) c1
  unfold renderPluralSelect
  simp only [hs, hcur, Bool.false_eq_true, if_false, if_true]
  rw [hloop]
  by_cases hct : c.md.ct = "mysql" <;> simp [hct, Ctx.WriteString, int32String]

theorem renderPluralSelect_plain (sel : Select) (c : Ctx) (hcur : sel.Paging.Cursor = false)
    (hs : sel.Singular = false) :
    renderPluralSelect sel c =
      { w := c.w ++
          ((if c.md.ct = "mysql" then "SELECT coalesce(json_arrayagg(__sj_"
            else "SELECT coalesce(jsonb_agg(__sj_") ++ toString sel.ID ++
            ".json), '[]') as json FROM (").toList,
        md := c.md } := by
  unfold renderPluralSelect
  by_cases hct : c.md.ct = "mysql" <;> simp [hs, hcur, hct, Ctx.WriteString, int32String]

theorem renderSelect_cursor (env : Env) (co : Compiler) (fuel : Nat) (sel : Select) (c : Ctx)
    (hcur : sel.Paging.Cursor = true) (hct : c.md.ct ≠ "mysql") :
    renderSelect env co fuel sel c =
      (renderBaseSelect env co fuel sel (cursorSelectOpen env sel c)).map (selectAlias sel) := by
  have hloop1 := fun c1 => foldl_indexed sel.OrderBy.length
    (fun c i =>
      let c := c.WriteString "- '__cur_"
      let c := int32String (i : Nat) c
      c.WriteString "' ")
    (fun i => "- '__cur_" ++ toString i ++ "' ")
    (fun c i => by simp [Ctx.WriteString, int32String, toString_natCast]) c1
  have hloop2 := fun c1 => foldl_indexed sel.OrderBy.length
    (fun c i =>
      let c := c.WriteString ", __cur_"
      let c := int32String (i : Nat) c
      c.WriteString " ")
    (fun i => ", __cur_" ++ toString i ++ " ")
    (fun c i => by simp [Ctx.WriteString, int32String, toString_natCast]) c1
  have hloop3 := fun c1 => foldl_texts
    (fun c (p : Nat × OrderBy) =>
      let c := c.WriteString ", LAST_VALUE("
      let c := c.WriteString (env.colWithTableID sel.Table sel.ID p.2.Col.Name)
      let c := c.WriteString ") OVER() AS __cur_"
      int32String (p.1 : Nat) c)
    (fun p => (", LAST_VALUE(" ++ env.colWithTableID sel.Table sel.ID p.2.Col.Name ++
      ") OVER() AS __cur_" ++ toString p.1).toList)
    (fun c p => by simp [Ctx.WriteString, int32String, toString_natCast]) sel.OrderBy.enum c1
  unfold renderSelect
  simp only [hct, hcur, if_false, if_true]
  rw [hloop1, hloop2, hloop3, selectAlias_eq]
  refine congrArg (fun x => (renderBaseSelect env co fuel sel x).map (selectAlias sel)) ?_
  simp [cursorSelectOpen, Ctx.WriteString, Ctx.run, int32String]

theorem renderSelect_plain (env : Env) (co : Compiler) (fuel : Nat) (sel : Select) (c : Ctx)
    (hcur : sel.Paging.Cursor = false) (hct : c.md.ct ≠ "mysql") :
    renderSelect env co fuel sel c =
      (renderBaseSelect env co fuel sel (plainSelectOpen env sel c)).map (selectAlias sel) := by
  unfold renderSelect
  simp only [hct, hcur, Bool.false_eq_true, if_false]
  rw [selectAlias_eq]
  refine congrArg (fun x => (renderBaseSelect env co fuel sel x).map (selectAlias sel)) ?_
  simp [plainSelectOpen, Ctx.WriteString, Ctx.run, int32String]

theorem renderCursorCTE_plain (sel : Select) (c : Ctx) (hcur : sel.Paging.Cursor = false) :
    renderCursorCTE sel c = c := by
  simp [renderCursorCTE, hcur]

theorem renderFrom_plain (sel : Select) (c : Ctx) (hcur : sel.Paging.Cursor = false) :
    renderFrom sel c = { w := c.w ++ " FROM ".toList ++ fromText sel, md := c.md } := by
  rw [renderFrom_eq]
  simp [hcur]

theorem registryOK_zero (md : Metadata) (hp : md.params = []) (hi : md.pindex = []) :
    md.RegistryOK := by
  refine ⟨?_, ?_, ?_⟩
  · simp [Metadata.names, hp]
  · intro name _
    simp [hi]
  · intro i p h
    simp [hp] at h

theorem registryOK_mem_names {md : Metadata} (h : md.RegistryOK) {name : String}
    {i : Nat} (hl : md.pindex.lookup name = some i) : name ∈ md.names := by
  by_contra hn
  rw [h.2.1 name hn] at hl
  exact Option.noConfusion hl

theorem registryOK_lookup_of_mem {md : Metadata} (h : md.RegistryOK) {name : String}
    (hn : name ∈ md.names) :
    ∃ i p, md.params[i]? = some p ∧ p.Name = name ∧ md.pindex.lookup name = some (i + 1) := by
  unfold Metadata.names at hn
  obtain ⟨p, hp, rfl⟩ := List.mem_map.1 hn
  obtain ⟨i, hi⟩ := List.getElem?_of_mem hp
  exact ⟨i, p, hi, rfl, h.2.2 i p hi⟩

theorem registryOK_register {md : Metadata} (h : md.RegistryOK) (p : Param)
    (hl : md.pindex.lookup p.Name = none) : (md.register p).RegistryOK := by
  have hn : p.Name ∉ md.names := by
    intro hn
    obtain ⟨i, q, _, _, hq⟩ := registryOK_lookup_of_mem h hn
    rw [hl] at hq
    exact Option.noConfusion hq
  refine ⟨?_, ?_, ?_⟩
  · have : (md.register p).names = md.names ++ [p.Name] := by
      simp [Metadata.register, Metadata.names]
    rw [this]
    refine List.Nodup.append h.1 (List.nodup_singleton _) ?_
    intro x hx hx2
    rw [List.mem_singleton] at hx2
    exact hn (hx2 ▸ hx)
  · intro name hname
    have hname2 : name ∉ md.names ∧ name ≠ p.Name := by
      simpa [Metadata.register, Metadata.names] using hname
    simp only [Metadata.register, List.lookup_append, h.2.1 name hname2.1, Option.none_or]
    have hb : (name == p.Name) = false := by simpa using hname2.2
    simp [List.lookup, hb]
  · intro i q hq
    simp only [Metadata.register] at hq ⊢
    rw [List.lookup_append]
    by_cases hi : i < md.params.length
    · rw [List.getElem?_append_left hi] at hq
      rw [h.2.2 i q hq]
      rfl
    · have hi2 : md.params.length ≤ i := Nat.le_of_not_lt hi
      rw [List.getElem?_append_right hi2] at hq
      have hi3 : i - md.params.length = 0 := by
        by_contra h0
        obtain ⟨k, hk⟩ := Nat.exists_eq_succ_of_ne_zero h0
        rw [hk] at hq
        simp at hq
      rw [hi3] at hq
      have hqp : p = q := by simpa using hq
      subst hqp
      have hi4 : i = md.params.length := by omega
      rw [hl, hi4]
      simp [List.lookup]

theorem renderParam_md (p : Param) (c : Ctx) :
    (renderParam p c).md =
      if (c.md.pindex.lookup p.Name).isSome then c.md else c.md.register p := by
  cases h : c.md.pindex.lookup p.Name with
  | none => rw [renderParam_fresh p c h]; rfl
  | some i => rw [renderParam_seen p c i h]; rfl

theorem registryOK_renderParam {c : Ctx} (h : c.md.RegistryOK) (p : Param) :
    (renderParam p c).md.RegistryOK := by
  rw [renderParam_md]
  cases hl : c.md.pindex.lookup p.Name with
  | none => exact registryOK_register h p hl
  | some i => exact h

theorem renderParam_params (p : Param) (c : Ctx) (h : c.md.RegistryOK) :
    (renderParam p c).md.params =
      c.md.params ++ [p].filter fun q => decide (q.Name ∉ c.md.names) := by
  rw [renderParam_md]
  cases hl : c.md.pindex.lookup p.Name with
  | none =>
    have hn : p.Name ∉ c.md.names := by
      intro hn
      obtain ⟨i, q, _, _, hq⟩ := registryOK_lookup_of_mem h hn
      rw [hl] at hq
      exact Option.noConfusion hq
    simp [Metadata.register, hn]
  | some i =>
    have hn : p.Name ∈ c.md.names := registryOK_mem_names h hl
    simp [hn]

theorem renderParams_cons (p : Param) (ps : List Param) (c : Ctx) :
    renderParams (p :: ps) c = renderParams ps (renderParam p c) := rfl

theorem renderParams_registryOK (ps : List Param) :
    ∀ c : Ctx, c.md.RegistryOK → (renderParams ps c).md.RegistryOK := by
  induction ps with
  | nil => intro c h; exact h
  | cons p ps ih =>
    intro c h
    rw [renderParams_cons]
    exact ih _ (registryOK_renderParam h p)

theorem renderParams_params (ps : List Param) :
    ∀ c : Ctx, c.md.RegistryOK →
      (renderParams ps c).md.params =
        c.md.params ++ (firstSightings ps).filter fun q => decide (q.Name ∉ c.md.names) := by
  induction ps with
  | nil => intro c _; simp [renderParams, firstSightings]
  | cons p ps ih =>
    intro c h
    rw [renderParams_cons, ih _ (registryOK_renderParam h p), renderParam_params p c h]
    have hnames : (renderParam p c).md.names =
        c.md.names ++ ([p].filter fun q => decide (q.Name ∉ c.md.names)).map fun q => q.Name := by
      show (renderParam p c).md.params.map (fun q => q.Name) = _
      rw [renderParam_params p c h, List.map_append]
      rfl
    rw [hnames, firstSightings]
    by_cases hn : p.Name ∈ c.md.names
    · have h1 : ([p].filter fun q => decide (q.Name ∉ c.md.names)) = [] := by simp [hn]
      rw [h1, List.filter_cons]
      simp only [hn, not_true_eq_false, decide_False, Bool.false_eq_true, if_false,
        List.map_nil, List.append_nil, List.filter_filter]
      congr 1
      apply List.filter_congr
      intro q _
      by_cases hq : q.Name ∈ c.md.names
      · simp [hq]
      · have : q.Name ≠ p.Name := fun e => hq (e ▸ hn)
        simp [hq, this]
    · have h1 : ([p].filter fun q => decide (q.Name ∉ c.md.names)) = [p] := by simp [hn]
      rw [h1, List.filter_cons]
      simp only [hn, not_false_eq_true, decide_True, if_true, List.map_cons, List.map_nil,
        List.filter_filter, List.append_assoc, List.singleton_append]
      congr 2
      apply List.filter_congr
      intro q _
      by_cases hq : q.Name ∈ c.md.names <;> by_cases hq2 : q.Name = p.Name <;> simp [hq, hq2]

theorem filter_true_eq {α : Type} (xs : List α) : (xs.filter fun _ => true) = xs := by
  induction xs with
  | nil => rfl
  | cons x xs ih => simp

/-- C14: a sequence `ps` of `renderParam` calls keeps the registry invariant (no name twice in
`params`; `pindex` maps exactly the registered names, each to the 1-based position of its
entry); the entries present before stay where they are and the new ones are the first
sightings of the names not yet registered, in order of first appearance (from an empty registry
`params` is exactly the first sightings of `ps`); every index is at least 1 and belongs to one
name only; a further sighting of a registered name changes nothing in the metadata. -/
theorem renderParams_registry (ps : List Param) (c : Ctx) (h : c.md.RegistryOK) :
    (renderParams ps c).md.RegistryOK ∧
      (renderParams ps c).md.params =
        c.md.params ++ (firstSightings ps).filter (fun q => decide (q.Name ∉ c.md.names)) ∧
      (c.md.params = [] → (renderParams ps c).md.params = firstSightings ps) ∧
      (∀ name i, (renderParams ps c).md.pindex.lookup name = some i →
        1 ≤ i ∧ ∃ p, (renderParams ps c).md.params[i - 1]? = some p ∧ p.Name = name) ∧
      (∀ name name2 i, (renderParams ps c).md.pindex.lookup name = some i →
        (renderParams ps c).md.pindex.lookup name2 = some i → name = name2) ∧
      (∀ p, p.Name ∈ (renderParams ps c).md.names →
        (renderParam p (renderParams ps c)).md = (renderParams ps c).md) := by
  have hok := renderParams_registryOK ps c h
  have hidx : ∀ name i, (renderParams ps c).md.pindex.lookup name = some i →
      1 ≤ i ∧ ∃ p, (renderParams ps c).md.params[i - 1]? = some p ∧ p.Name = name := by
    intro name i hl
    obtain ⟨j, p, hj, hp, hl2⟩ := registryOK_lookup_of_mem hok (registryOK_mem_names hok hl)
    rw [hl] at hl2
    have hi : i = j + 1 := Option.some.inj hl2
    subst hi
    exact ⟨Nat.succ_le_succ (Nat.zero_le j), p, by simpa using hj, hp⟩
  refine ⟨hok, renderParams_params ps c h, ?_, hidx, ?_, ?_⟩
  · intro hp
    rw [renderParams_params ps c h]
    simp [Metadata.names, hp]
  · intro name name2 i h1 h2
    obtain ⟨_, p, hp, hpn⟩ := hidx name i h1
    obtain ⟨_, q, hq, hqn⟩ := hidx name2 i h2
    rw [hp] at hq
    have : p = q := Option.some.inj hq
    rw [← hpn, ← hqn, this]
  · intro p hp
    obtain ⟨i, q, _, _, hl⟩ := registryOK_lookup_of_mem hok hp
    rw [renderParam_md, hl]
    rfl

/-- C14 at three sightings of two names, from the empty registry: two entries, `ids` first with
the type of its first sighting, indexes 1 and 2. -/
theorem renderParams_registry_witness :
    emptyCtx.md.RegistryOK ∧
      (renderParams sampleParams emptyCtx).md.params =
        [{ Name := "ids", Typ := "int", IsArray := true },
          { Name := "limit", Typ := "integer", IsArray := false }] ∧
      (renderParams sampleParams emptyCtx).md.pindex = [("ids", 1), ("limit", 2)] ∧
      (renderParams sampleParams emptyCtx).md.params = firstSightings sampleParams :=
  ⟨registryOK_zero _ rfl rfl, by decide, by decide,
    (renderParams_registry sampleParams emptyCtx (registryOK_zero _ rfl rfl)).2.2.1 rfl⟩

theorem lookup_filter_ne {α : Type} (k k2 : String) (h : k2 ≠ k) :
    ∀ m : List (String × α), (m.filter fun e => e.1 != k).lookup k2 = m.lookup k2 := by
  intro m
  induction m with
  | nil => rfl
  | cons e m ih =>
    obtain ⟨a, b⟩ := e
    by_cases ha : a = k
    · subst ha
      have hb : (k2 == a) = false := by simpa using h
      simp [List.filter_cons, List.lookup_cons, hb, ih]
    · have hb : (a != k) = true := by simpa using ha
      rw [List.filter_cons]
      simp only [hb, if_true, List.lookup_cons, ih]

theorem lookup_mapSet {α : Type} (m : List (String × α)) (k : String) (v : α) (k2 : String) :
    (qcode.mapSet m k v).lookup k2 = if k2 = k then some v else m.lookup k2 := by
  unfold qcode.mapSet
  by_cases h : k2 = k
  · subst h
    simp [List.lookup_cons]
  · have hb : (k2 == k) = false := by simpa using h
    rw [List.lookup_cons]
    simp only [hb, h, if_false]
    exact lookup_filter_ne k k2 h m

theorem lookup_mapSet_two {α : Type} (m : List (String × α)) (k1 k2 : String) (v : α) :
    (qcode.mapSet (qcode.mapSet m k1 v) k2 v).lookup k1 = some v ∧
      (qcode.mapSet (qcode.mapSet m k1 v) k2 v).lookup k2 = some v ∧
      ∀ k, k ≠ k1 → k ≠ k2 →
        (qcode.mapSet (qcode.mapSet m k1 v) k2 v).lookup k = m.lookup k := by
  refine ⟨?_, ?_, ?_⟩
  · rw [lookup_mapSet, lookup_mapSet]
    by_cases h : k1 = k2 <;> simp [h]
  · rw [lookup_mapSet]
    simp
  · intro k h1 h2
    rw [lookup_mapSet, lookup_mapSet]
    simp [h1, h2]

theorem AddRole_ok (env : qcode.Env) (co : qcode.Compiler) (role table : String)
    (trc : qcode.TRConfig) (ti : DBTableInfo) (rq ru rp rd : Option Exp × Bool)
    (h0 : env.GetTableInfo table "" = .ok ti)
    (h1 : env.compileFilter ti trc.Query.Filters = .ok rq)
    (h2 : env.compileFilter ti trc.Update.Filters = .ok ru)
    (h3 : env.compileFilter ti trc.Upsert.Filters = .ok rp)
    (h4 : env.compileFilter ti trc.Delete.Filters = .ok rd) :
    ∃ trv : qcode.trval,
      qcode.AddRole env co role table trc =
        ({ co with
            tr := qcode.mapSet (qcode.mapSet co.tr (role ++ env.Singularize table) trv)
              (role ++ env.Pluralize table) trv }, none) ∧
      trv.role = role ∧
      trv.filter .QTQuery = rq ∧
      trv.filter .QTInsert = (none, false) ∧
      trv.filter .QTUpdate = (ru.1, rp.2) ∧
      trv.filter .QTUpsert = (rp.1, false) ∧
      trv.filter .QTDelete = rd := by
  simp only [qcode.AddRole, h0, h1, h2, h3, h4]
  exact ⟨_, rfl, rfl, rfl, rfl, rfl, rfl, rfl⟩

/-- C15: for each of the five operation types that `columnAllowed` switches on, the result is
true exactly when the name is in that operation's column set of the trval or the set is empty;
a QCode whose SType is none of the five (Subscription, Mutation) has no column set and gets
false. -/
theorem columnAllowed_iff (trv : qcode.trval) (qt : QCode) (name : String) :
    (qt.SType = .QTQuery →
      (trv.columnAllowed qt name = true ↔ name ∈ trv.query.cols ∨ trv.query.cols = [])) ∧
    (qt.SType = .QTInsert →
      (trv.columnAllowed qt name = true ↔ name ∈ trv.insert.cols ∨ trv.insert.cols = [])) ∧
    (qt.SType = .QTUpdate →
      (trv.columnAllowed qt name = true ↔ name ∈ trv.update.cols ∨ trv.update.cols = [])) ∧
    (qt.SType = .QTUpsert →
      (trv.columnAllowed qt name = true ↔ name ∈ trv.upsert.cols ∨ trv.upsert.cols = [])) ∧
    (qt.SType = .QTDelete →
      (trv.columnAllowed qt name = true ↔ name ∈ trv.delete.cols ∨ trv.delete.cols = [])) ∧
    (qt.SType = .QTSubscription ∨ qt.SType = .QTMutation →
      trv.columnAllowed qt name = false) := by
  refine ⟨?_, ?_, ?_, ?_, ?_, ?_⟩
  · intro h
    simp [qcode.trval.columnAllowed, h, List.length_eq_zero]
  · intro h
    simp [qcode.trval.columnAllowed, h, List.length_eq_zero]
  · intro h
    simp [qcode.trval.columnAllowed, h, List.length_eq_zero]
  · intro h
    simp [qcode.trval.columnAllowed, h, List.length_eq_zero]
  · intro h
    simp [qcode.trval.columnAllowed, h, List.length_eq_zero]
  · intro h
    rcases h with h | h <;> simp [qcode.trval.columnAllowed, h]

/-- C15 at a trval with query columns `id`, `name` and no insert columns: a query may read
`id` and not `email`, an insert may write any column. -/
theorem columnAllowed_iff_witness :
    (sampleTrv.columnAllowed sampleQCode "id" = true ↔
        "id" ∈ sampleTrv.query.cols ∨ sampleTrv.query.cols = []) ∧
      sampleTrv.columnAllowed sampleQCode "id" = true ∧
      sampleTrv.columnAllowed sampleQCode "email" = false ∧
      sampleTrv.columnAllowed { sampleQCode with SType := .QTInsert } "email" = true :=
  ⟨(columnAllowed_iff sampleTrv sampleQCode "id").1 rfl, by decide, by decide, by decide⟩

theorem getRole_hit (co : qcode.Compiler) (role field : String) (tr : qcode.trval)
    (h : co.tr.lookup (role ++ field) = some tr) : qcode.getRole co role field = tr := by
  simp [qcode.getRole, h]

/-- C16: `getRole` returns the trval stored under the key `role ++ field` when there is one; on
a miss with a role other than `anon` it returns the zero trval with only the role set; on a
miss with the role `anon` it returns the configured default trval with the role `anon`. -/
theorem getRole_lookup (co : qcode.Compiler) (role field : String) :
    (∀ tr, co.tr.lookup (role ++ field) = some tr → qcode.getRole co role field = tr) ∧
    (co.tr.lookup (role ++ field) = none → role ≠ "anon" →
      qcode.getRole co role field = { qcode.trval.zero with role := role }) ∧
    (co.tr.lookup (role ++ field) = none → role = "anon" →
      qcode.getRole co role field = { co.c.defTrv with role := "anon" }) := by
  refine ⟨?_, ?_, ?_⟩
  · intro tr h
    simp [qcode.getRole, h]
  · intro h hr
    simp [qcode.getRole, h, hr]
  · intro h hr
    subst hr
    simp [qcode.getRole, h]

/-- C16 at the sample compiler after `AddRole("user", "users", ..)`: the stored trval comes
back for `user` + `users`, a miss for `admin` gives the empty trval of `admin`, a miss for
`anon` gives the default trval (limit 20). -/
theorem getRole_lookup_witness :
    (qcode.getRole sampleCoUser "user" "users").role = "user" ∧
      (qcode.getRole sampleCoUser "user" "users").query.limit = 10 ∧
      qcode.getRole sampleCoUser "admin" "users" = { qcode.trval.zero with role := "admin" } ∧
      qcode.getRole sampleCoUser "anon" "users" = { sampleDefTrv with role := "anon" } :=
  ⟨by decide, by decide,
    (getRole_lookup sampleCoUser "admin" "users").2.1 rfl (by decide),
    (getRole_lookup sampleCoUser "anon" "users").2.2 rfl rfl⟩

/-- C17: `AddRole` returns an error exactly when the table lookup fails or one of the query,
update, upsert and delete filters does not compile, and then the compiler, with its role table,
is the one given; when it succeeds, one trval is stored under both `role ++ singular(table)`
and `role ++ plural(table)`, every other key reads as before and the configuration is
untouched. -/
theorem AddRole_atomic (env : qcode.Env) (co : qcode.Compiler) (role table : String)
    (trc : qcode.TRConfig) :
    (∀ err, (qcode.AddRole env co role table trc).2 = some err →
      (qcode.AddRole env co role table trc).1 = co) ∧
    ((qcode.AddRole env co role table trc).2 = none →
      (qcode.AddRole env co role table trc).1.c = co.c ∧
      ∃ trv,
        (qcode.AddRole env co role table trc).1.tr.lookup (role ++ env.Singularize table) =
          some trv ∧
        (qcode.AddRole env co role table trc).1.tr.lookup (role ++ env.Pluralize table) =
          some trv ∧
        ∀ k, k ≠ role ++ env.Singularize table → k ≠ role ++ env.Pluralize table →
          (qcode.AddRole env co role table trc).1.tr.lookup k = co.tr.lookup k) ∧
    ((qcode.AddRole env co role table trc).2 = none ↔
      ∃ ti, env.GetTableInfo table "" = .ok ti ∧
        (∃ r, env.compileFilter ti trc.Query.Filters = .ok r) ∧
        (∃ r, env.compileFilter ti trc.Update.Filters = .ok r) ∧
        (∃ r, env.compileFilter ti trc.Upsert.Filters = .ok r) ∧
        (∃ r, env.compileFilter ti trc.Delete.Filters = .ok r)) := by
  cases h0 : env.GetTableInfo table "" with
  | error e => simp [qcode.AddRole, h0]
  | ok ti =>
    cases h1 : env.compileFilter ti trc.Query.Filters with
    | error e => simp [qcode.AddRole, h0, h1]
    | ok rq =>
      cases h2 : env.compileFilter ti trc.Update.Filters with
      | error e => simp [qcode.AddRole, h0, h1, h2]
      | ok ru =>
        cases h3 : env.compileFilter ti trc.Upsert.Filters with
        | error e => simp [qcode.AddRole, h0, h1, h2, h3]
        | ok rp =>
          cases h4 : env.compileFilter ti trc.Delete.Filters with
          | error e => simp [qcode.AddRole, h0, h1, h2, h3, h4]
          | ok rd =>
            obtain ⟨trv, heq, _⟩ := AddRole_ok env co role table trc ti rq ru rp rd h0 h1 h2 h3 h4
            rw [heq]
            refine ⟨fun err h => ?_, fun _ => ⟨rfl, trv, lookup_mapSet_two co.tr _ _ trv⟩, ?_⟩
            · simp at h
            · exact ⟨fun _ => ⟨ti, rfl, ⟨rq, h1⟩, ⟨ru, h2⟩, ⟨rp, h3⟩, ⟨rd, h4⟩⟩, fun _ => rfl⟩

/-- C17 at the sample compiler: a delete filter that does not compile leaves the compiler as it
was, and the good configuration stores one trval under `userusers` and `useruser`. -/
theorem AddRole_atomic_witness :
    (qcode.AddRole sampleQEnv sampleCoUser "admin" "users" sampleBadTrc).2 = some "bad filter" ∧
      (qcode.AddRole sampleQEnv sampleCoUser "admin" "users" sampleBadTrc).1 = sampleCoUser ∧
      (qcode.AddRole sampleQEnv sampleCo "user" "users" sampleTrc).2 = none ∧
      (sampleCoUser.tr.map fun e => e.1) = ["userusers", "useruser"] :=
  ⟨by decide,
    (AddRole_atomic sampleQEnv sampleCoUser "admin" "users" sampleBadTrc).1 "bad filter"
      (by decide),
    by decide, by decide⟩

/-- C18: after a successful `AddRole(role, table, trc)` the trval read back with `getRole`
gives for Query and Delete the pair that `compileFilter` produced from that operation's
filters and for Insert `(nil, false)`; for Update it gives the update expression with the
non-unique flag compiled from the UPSERT filters, and for Upsert the upsert expression with
the flag `false`, whatever flag the upsert filters compiled to. -/
theorem AddRole_filters (env : qcode.Env) (co : qcode.Compiler) (role table : String)
    (trc : qcode.TRConfig) (ti : DBTableInfo) (rq ru rp rd : Option Exp × Bool)
    (h0 : env.GetTableInfo table "" = .ok ti)
    (h1 : env.compileFilter ti trc.Query.Filters = .ok rq)
    (h2 : env.compileFilter ti trc.Update.Filters = .ok ru)
    (h3 : env.compileFilter ti trc.Upsert.Filters = .ok rp)
    (h4 : env.compileFilter ti trc.Delete.Filters = .ok rd) :
    (qcode.AddRole env co role table trc).2 = none ∧
      (qcode.getRole (qcode.AddRole env co role table trc).1 role
        (env.Singularize table)).filter .QTQuery = rq ∧
      (qcode.getRole (qcode.AddRole env co role table trc).1 role
        (env.Singularize table)).filter .QTInsert = (none, false) ∧
      (qcode.getRole (qcode.AddRole env co role table trc).1 role
        (env.Singularize table)).filter .QTDelete = rd ∧
      (qcode.getRole (qcode.AddRole env co role table trc).1 role
        (env.Singularize table)).filter .QTUpdate = (ru.1, rp.2) ∧
      (qcode.getRole (qcode.AddRole env co role table trc).1 role
        (env.Singularize table)).filter .QTUpsert = (rp.1, false) ∧
      qcode.getRole (qcode.AddRole env co role table trc).1 role (env.Pluralize table) =
        qcode.getRole (qcode.AddRole env co role table trc).1 role (env.Singularize table) := by
  obtain ⟨trv, heq, _, hq, hi, hu, hp, hd⟩ :=
    AddRole_ok env co role table trc ti rq ru rp rd h0 h1 h2 h3 h4
  have hl := lookup_mapSet_two co.tr (role ++ env.Singularize table)
    (role ++ env.Pluralize table) trv
  have hs : qcode.getRole (qcode.AddRole env co role table trc).1 role
      (env.Singularize table) = trv := by
    rw [heq]
    exact getRole_hit _ role (env.Singularize table) trv hl.1
  have hpl : qcode.getRole (qcode.AddRole env co role table trc).1 role
      (env.Pluralize table) = trv := by
    rw [heq]
    exact getRole_hit _ role (env.Pluralize table) trv hl.2.1
  rw [hs, hpl, heq]
  exact ⟨rfl, hq, hi, hd, hu, hp, rfl⟩

/-- C18 at the sample configuration, whose upsert filter compiles to a non-unique filter and
whose update filter to a unique one: the stored upsert flag is `false` and the stored update
flag is `true`. -/
theorem AddRole_filters_witness :
    (sampleQEnv.compileFilter sampleTi sampleTrc.Upsert.Filters).toOption.map (fun r => r.2) =
        some true ∧
      (sampleQEnv.compileFilter sampleTi sampleTrc.Update.Filters).toOption.map (fun r => r.2) =
        some false ∧
      ((qcode.getRole sampleCoUser "user" "user").filter .QTUpsert).2 = false ∧
      ((qcode.getRole sampleCoUser "user" "user").filter .QTUpdate).2 = true :=
  ⟨by decide, by decide,
    congrArg Prod.snd (AddRole_filters sampleQEnv sampleCo "user" "users" sampleTrc sampleTi
      _ _ _ _ rfl rfl rfl rfl rfl).2.2.2.2.2.1,
    congrArg Prod.snd (AddRole_filters sampleQEnv sampleCo "user" "users" sampleTrc sampleTi
      _ _ _ _ rfl rfl rfl rfl rfl).2.2.2.2.1⟩

theorem foldl_bind_none {α β : Type} (f : β → α → Option β) (l : List α) :
    l.foldl (fun (oc : Option β) p => oc.bind fun c => f c p) none = none := by
  induction l with
  | nil => rfl
  | cons x l ih => simpa using ih

theorem foldl_bind_mono {α β : Type} (f1 f2 : β → α → Option β) (l : List α)
    (h : ∀ c p r, p ∈ l → f1 c p = some r → f2 c p = some r) :
    ∀ (oc : Option β) (r : β),
      l.foldl (fun (oc : Option β) p => oc.bind fun c => f1 c p) oc = some r →
      l.foldl (fun (oc : Option β) p => oc.bind fun c => f2 c p) oc = some r := by
  induction l with
  | nil => intro oc r hr; exact hr
  | cons x l ih =>
    intro oc r hr
    rw [List.foldl_cons] at hr ⊢
    cases oc with
    | none =>
      rw [Option.none_bind, foldl_bind_none] at hr
      exact Option.noConfusion hr
    | some c =>
      rw [Option.some_bind] at hr ⊢
      cases h1 : f1 c x with
      | none =>
        rw [h1, foldl_bind_none] at hr
        exact Option.noConfusion hr
      | some c2 =>
        rw [h c x c2 (List.mem_cons_self _ _) h1]
        rw [h1] at hr
        exact ih (fun c p r hp => h c p r (List.mem_cons_of_mem _ hp)) _ _ hr

theorem renderNestedHop_mono (env : Env)
    (rexp1 rexp2 : DBTableInfo → Exp → Bool → Ctx → Option Ctx)
    (h : ∀ ti ex sk c r, rexp1 ti ex sk c = some r → rexp2 ti ex sk c = some r)
    (ti : DBTableInfo) (ex : Exp) (i : Nat) (rel : DBRel) (c r : Ctx)
    (hr : renderNestedHop env rexp1 ti ex i rel c = some r) :
    renderNestedHop env rexp2 ti ex i rel c = some r := by
  unfold renderNestedHop at hr ⊢
  dsimp only at hr ⊢
  split at hr
  · rename_i hi
    rw [if_pos hi]
    obtain ⟨c2, hc2, rfl⟩ := Option.map_eq_some'.1 hr
    rw [h _ _ _ _ _ hc2]
    rfl
  · rename_i hi
    rw [if_neg hi]
    exact hr

theorem renderNestedWhere_mono (env : Env)
    (rexp1 rexp2 : DBTableInfo → Exp → Bool → Ctx → Option Ctx)
    (h : ∀ ti ex sk c r, rexp1 ti ex sk c = some r → rexp2 ti ex sk c = some r)
    (ti : DBTableInfo) (ex : Exp) (c r : Ctx)
    (hr : renderNestedWhere env rexp1 ti ex c = some r) :
    renderNestedWhere env rexp2 ti ex c = some r := by
  unfold renderNestedWhere at hr ⊢
  dsimp only at hr ⊢
  obtain ⟨c2, hc2, rfl⟩ := Option.map_eq_some'.1 hr
  rw [foldl_bind_mono (fun c p => renderNestedHop env rexp1 ti ex p.1 p.2 c)
    (fun c p => renderNestedHop env rexp2 ti ex p.1 p.2 c) ex.Rels.enum
    (fun c p r _ hp => renderNestedHop_mono env rexp1 rexp2 h ti ex p.1 p.2 c r hp) _ _ hc2]
  rfl

theorem renderExpLoop_succ (env : Env) (co : Compiler) (fuel : Nat) :
    ∀ (ti : DBTableInfo) (sk : Bool) (st : List StackItem) (c r : Ctx),
      renderExpLoop env co fuel ti sk st c = some r →
      renderExpLoop env co (fuel + 1) ti sk st c = some r := by
  induction fuel with
  | zero =>
    intro ti sk st c r h
    cases st with
    | nil => simpa [renderExpLoop] using h
    | cons x st => simp [renderExpLoop] at h
  | succ fuel ih =>
    intro ti sk st c r h
    cases st with
    | nil => simpa [renderExpLoop] using h
    | cons x st =>
      cases x with
      | rune val =>
        simp only [renderExpLoop] at h ⊢
        exact ih _ _ _ _ _ h
      | op val =>
        simp only [renderExpLoop] at h ⊢
        exact ih _ _ _ _ _ h
      | exp val =>
        by_cases h1 : val.Op = .OpFalse
        · simp only [renderExpLoop, h1] at h ⊢
          exact ih _ _ _ _ _ h
        by_cases h2 : val.Op = .OpAnd
        · simp only [renderExpLoop, h2] at h ⊢
          exact ih _ _ _ _ _ h
        by_cases h3 : val.Op = .OpOr
        · simp only [renderExpLoop, h3] at h ⊢
          exact ih _ _ _ _ _ h
        by_cases h4 : val.Op = .OpNot
        · simp only [renderExpLoop, h4] at h ⊢
          cases hc : val.Children with
          | nil => simp [hc] at h
          | cons child rest =>
            simp only [hc] at h ⊢
            exact ih _ _ _ _ _ h
        rw [renderExpLoop_leaf env co (fuel + 1) ti sk val st c h1 h2 h3 h4]
        rw [renderExpLoop_leaf env co fuel ti sk val st c h1 h2 h3 h4] at h
        split at h
        · rename_i hn
          rw [if_pos hn]
          obtain ⟨c2, hc2, hc3⟩ := Option.bind_eq_some.1 h
          rw [renderNestedWhere_mono env _
            (fun ti ex skipNested c => renderExpLoop env co (fuel + 1) ti skipNested [.exp ex] c)
            (fun ti ex sk c r hr => ih ti sk [.exp ex] c r hr) ti val c c2 hc2]
          rw [Option.some_bind]
          exact ih _ _ _ _ _ hc3
        · rename_i hn
          rw [if_neg hn]
          exact ih _ _ _ _ _ h

theorem renderExpLoop_mono (env : Env) (co : Compiler) (fuel fuel2 : Nat) (hf : fuel ≤ fuel2)
    (ti : DBTableInfo) (sk : Bool) (st : List StackItem) (c r : Ctx)
    (h : renderExpLoop env co fuel ti sk st c = some r) :
    renderExpLoop env co fuel2 ti sk st c = some r := by
  induction hf with
  | refl => exact h
  | step _ ih => exact renderExpLoop_succ env co _ ti sk st c r ih

theorem foldl_bind_total {α β : Type} (f : β → α → Option β) (l : List α)
    (h : ∀ c p, p ∈ l → ∃ r, f c p = some r) :
    ∀ c : β, ∃ r, l.foldl (fun (oc : Option β) p => oc.bind fun c => f c p) (some c) = some r := by
  induction l with
  | nil => intro c; exact ⟨c, rfl⟩
  | cons x l ih =>
    intro c
    obtain ⟨c2, hc2⟩ := h c x (List.mem_cons_self _ _)
    rw [List.foldl_cons, Option.some_bind, hc2]
    exact ih (fun c p hp => h c p (List.mem_cons_of_mem _ hp)) c2

theorem renderNestedWhere_total (env : Env)
    (rexp : DBTableInfo → Exp → Bool → Ctx → Option Ctx) (ti : DBTableInfo) (ex : Exp)
    (h : ∀ ti2 c, ∃ r, rexp ti2 ex true c = some r) (c : Ctx) :
    ∃ r, renderNestedWhere env rexp ti ex c = some r := by
  unfold renderNestedWhere
  dsimp only
  obtain ⟨c2, hc2⟩ := foldl_bind_total (fun c p => renderNestedHop env rexp ti ex p.1 p.2 c)
    ex.Rels.enum (fun c p _ => by
      unfold renderNestedHop
      dsimp only
      split
      · obtain ⟨r, hr⟩ := h p.2.Left.Ti
          ((((((if p.1 ≠ 0 then c.WriteString " AND " else c).WriteString
            "EXISTS (SELECT 1 FROM ").WriteString p.2.Left.Col.Table |> renderJoinTables p.2
            ).WriteString " WHERE ").run (env.renderRel ti p.2 (-1) none)).WriteString " AND (")
        exact ⟨_, by rw [hr]; rfl⟩
      · exact ⟨_, rfl⟩) c
  rw [hc2]
  exact ⟨_, rfl⟩

theorem renderExpLoop_total (env : Env) (co : Compiler) (fuel : Nat) :
    ∀ (ti : DBTableInfo) (sk : Bool) (st : List StackItem) (c : Ctx),
      StackRenders st → stackCost st ≤ fuel →
      ∃ r, renderExpLoop env co fuel ti sk st c = some r := by
  induction fuel with
  | zero =>
    intro ti sk st c _ hcost
    cases st with
    | nil => exact ⟨c, by simp [renderExpLoop]⟩
    | cons x st =>
      exfalso
      rw [stackCost_cons] at hcost
      cases x <;>
        simp only [itemCost_rune, itemCost_op, itemCost_exp, Exp.cost_eq] at hcost <;> omega
  | succ fuel ih =>
    intro ti sk st c hok hcost
    cases st with
    | nil => exact ⟨c, by simp [renderExpLoop]⟩
    | cons x st =>
      have hok2 : StackRenders st := fun e he => hok e (List.mem_cons_of_mem _ he)
      cases x with
      | rune ch =>
        have hcost2 : stackCost st ≤ fuel := by
          rw [stackCost_cons, itemCost_rune] at hcost
          omega
        simp only [renderExpLoop]
        exact ih ti sk st _ hok2 hcost2
      | op o =>
        have hcost2 : stackCost st ≤ fuel := by
          rw [stackCost_cons, itemCost_op] at hcost
          omega
        simp only [renderExpLoop]
        exact ih ti sk st _ hok2 hcost2
      | exp val =>
        have hall : val.All Exp.HasOperand := hok val (List.mem_cons_self _ _)
        have hnode : val.HasOperand := Exp.all_node val hall
        have hch : ∀ ch ∈ val.Children, ch.All Exp.HasOperand := Exp.all_children val hall
        have hc0 : val.cost + stackCost st ≤ fuel + 1 := by
          rw [stackCost_cons, itemCost_exp] at hcost
          exact hcost
        rw [Exp.cost_eq] at hc0
        have hcost2 : stackCost st ≤ fuel := by omega
        by_cases hF : val.Op = .OpFalse
        · simp only [renderExpLoop, hF]
          refine ih ti sk _ c ?_ ?_
          · intro e he
            rcases List.mem_cons.mp he with h | h
            · cases h
            · exact hok2 e h
          · rw [stackCost_cons, itemCost_op]
            omega
        by_cases hN : val.Op = .OpNot
        · cases hcs : val.Children with
          | nil => exact absurd hcs (hnode hN)
          | cons child rest =>
            simp only [renderExpLoop, hN, hcs]
            rw [hcs] at hc0 hch
            refine ih ti sk _ c ?_ ?_
            · intro e he
              rcases List.mem_cons.mp he with h | h
              · cases h
              · rcases List.mem_cons.mp h with h | h
                · cases h
                  exact hch _ (List.mem_cons_self _ _)
                · exact hok2 e h
            · rw [stackCost_cons, stackCost_cons, itemCost_op, itemCost_exp]
              simp only [Exp.cost.costList] at hc0
              omega
        by_cases hAO : val.Op = .OpAnd ∨ val.Op = .OpOr
        · have hstep : renderExpLoop env co (fuel + 1) ti sk (.exp val :: st) c =
              renderExpLoop env co fuel ti sk
                (.rune '(' :: (interleaved val.Op val.Children ++ .rune ')' :: st)) c := by
            rcases hAO with h | h <;> simp only [renderExpLoop, h, pushChildren_eq]
          rw [hstep]
          refine ih ti sk _ c ?_ ?_
          · intro e he
            rcases List.mem_cons.mp he with h | h
            · cases h
            · rcases List.mem_append.mp h with h | h
              · exact hch _ (mem_interleaved _ _ _ h)
              · rcases List.mem_cons.mp h with h | h
                · cases h
                · exact hok2 e h
          · have h1 := stackCost_interleaved val.Op val.Children
            have h2 : stackCost (interleaved val.Op val.Children ++ .rune ')' :: st) =
                stackCost (interleaved val.Op val.Children) + (1 + stackCost st) := by
              simp [stackCost, itemCost_rune]
            rw [stackCost_cons, itemCost_rune, h2]
            omega
        · have hA : val.Op ≠ .OpAnd := fun h => hAO (Or.inl h)
          have hO : val.Op ≠ .OpOr := fun h => hAO (Or.inr h)
          rw [renderExpLoop_leaf env co fuel ti sk val st c hF hA hO hN]
          split
          · have hfuel : ∃ f, fuel = f + 1 := ⟨fuel - 1, by omega⟩
            obtain ⟨f, hf⟩ := hfuel
            obtain ⟨c1, e1⟩ := renderNestedWhere_total env
              (fun ti ex skipNested c => renderExpLoop env co fuel ti skipNested [.exp ex] c)
              ti val (fun ti2 c => by
                subst hf
                dsimp only
                rw [renderExpLoop_leaf env co f _ true val [] c hF hA hO hN]
                simp only [Bool.not_true, Bool.false_and, Bool.false_eq_true, if_false,
                  renderExpLoop]
                exact ⟨_, rfl⟩) c
            rw [e1, Option.some_bind]
            exact ih ti sk st c1 hok2 hcost2
          · exact ih ti sk st _ hok2 hcost2

theorem renderExp_total (env : Env) (co : Compiler) (fuel : Nat) (ti : DBTableInfo) (ex : Exp)
    (sk : Bool) (c : Ctx) (hex : ex.All Exp.HasOperand) (hf : ex.cost ≤ fuel) :
    ∃ r, renderExp env co fuel ti ex sk c = some r := by
  unfold renderExp
  refine renderExpLoop_total env co fuel ti sk [.exp ex] c ?_ ?_
  · intro e he
    rcases List.mem_cons.mp he with h | h
    · cases h
      exact hex
    · cases h
  · rw [stackCost_cons, itemCost_exp]
    simpa [stackCost] using hf

theorem renderWhere_mono (env : Env) (co : Compiler) (fuel fuel2 : Nat) (hf : fuel ≤ fuel2)
    (sel : Select) (c r : Ctx) (h : renderWhere env co fuel sel c = some r) :
    renderWhere env co fuel2 sel c = some r := by
  unfold renderWhere at h ⊢
  dsimp only at h ⊢
  split at h
  · rename_i hc
    rw [if_pos hc]
    exact h
  · rename_i hc
    rw [if_neg hc]
    cases hw : sel.Where with
    | none =>
      rw [hw] at h
      exact h
    | some ex =>
      rw [hw] at h
      dsimp only at h ⊢
      obtain ⟨c2, hc2, rfl⟩ := Option.map_eq_some'.1 h
      unfold renderExp at hc2 ⊢
      rw [renderExpLoop_mono env co fuel fuel2 hf _ _ _ _ _ hc2]
      rfl

theorem renderWhere_total (env : Env) (co : Compiler) (fuel : Nat) (sel : Select) (c : Ctx)
    (h : ∀ ex, sel.Where = some ex → ex.All Exp.HasOperand ∧ ex.cost ≤ fuel) :
    ∃ r, renderWhere env co fuel sel c = some r := by
  unfold renderWhere
  dsimp only
  split
  · exact ⟨_, rfl⟩
  · cases hw : sel.Where with
    | none => exact ⟨_, rfl⟩
    | some ex =>
      dsimp only
      obtain ⟨r, hr⟩ := renderExp_total env co fuel sel.Ti ex false
        (if sel.Rel.Typ ≠ .RelNone then
          ((c.WriteString " WHERE (").run (env.renderRel sel.Ti sel.Rel
            (if sel.Typ = .SelTypeMember then sel.UParentID else sel.ParentID)
            (some sel.ArgMap))).WriteString " AND "
        else (c.WriteString " WHERE (").run (env.renderRel sel.Ti sel.Rel
            (if sel.Typ = .SelTypeMember then sel.UParentID else sel.ParentID)
            (some sel.ArgMap)))
        (h ex hw).1 (h ex hw).2
      exact ⟨_, by rw [hr]; rfl⟩

theorem renderBaseSelect_mono (env : Env) (co : Compiler) (fuel fuel2 : Nat) (hf : fuel ≤ fuel2)
    (sel : Select) (c r : Ctx) (h : renderBaseSelect env co fuel sel c = some r) :
    renderBaseSelect env co fuel2 sel c = some r := by
  unfold renderBaseSelect at h ⊢
  dsimp only at h ⊢
  obtain ⟨c2, hc2, rfl⟩ := Option.map_eq_some'.1 h
  split at hc2
  · rename_i hc
    rw [if_pos hc, renderWhere_mono env co fuel fuel2 hf sel _ _ hc2]
    rfl
  · rename_i hc
    rw [if_neg hc, hc2]
    rfl

theorem renderBaseSelect_total (env : Env) (co : Compiler) (fuel : Nat) (sel : Select) (c : Ctx)
    (h : ∀ ex, sel.Where = some ex → ex.All Exp.HasOperand ∧ ex.cost ≤ fuel) :
    ∃ r, renderBaseSelect env co fuel sel c = some r := by
  unfold renderBaseSelect
  dsimp only
  split
  · obtain ⟨r, hr⟩ := renderWhere_total env co fuel sel
      (renderJoinTables sel.Rel (renderFrom sel
        (Ctx.run (renderDistinctOn sel ((renderCursorCTE sel c).WriteString "SELECT "))
          (env.renderBaseColumns sel)))) h
    exact ⟨_, by rw [hr]; rfl⟩
  · exact ⟨_, rfl⟩

theorem renderSelect_mono (env : Env) (co : Compiler) (fuel fuel2 : Nat) (hf : fuel ≤ fuel2)
    (sel : Select) (c r : Ctx) (h : renderSelect env co fuel sel c = some r) :
    renderSelect env co fuel2 sel c = some r := by
  unfold renderSelect at h ⊢
  dsimp only at h ⊢
  obtain ⟨c2, hc2, rfl⟩ := Option.map_eq_some'.1 h
  rw [renderBaseSelect_mono env co fuel fuel2 hf sel _ _ hc2]
  rfl

theorem renderSelect_total (env : Env) (co : Compiler) (fuel : Nat) (sel : Select) (c : Ctx)
    (h : ∀ ex, sel.Where = some ex → ex.All Exp.HasOperand ∧ ex.cost ≤ fuel) :
    ∃ r, renderSelect env co fuel sel c = some r := by
  unfold renderSelect
  dsimp only
  generalize (Ctx.WriteString _ " FROM (") = c2
  obtain ⟨r, hr⟩ := renderBaseSelect_total env co fuel sel c2 h
  exact ⟨_, by rw [hr]; rfl⟩

theorem wrap32_close (id : Int) (h0 : 0 ≤ id) (h1 : id < closeBlock) :
    wrap32 (id + closeBlock) = id + closeBlock := by
  unfold wrap32 closeBlock at *
  omega

theorem selectAt_nonneg (qc : QCode) (id : Int) (sel : Select)
    (h : qc.selectAt id = some sel) : 0 ≤ id := by
  unfold QCode.selectAt at h
  by_contra hn
  rw [if_pos (by omega)] at h
  exact Option.noConfusion h

theorem renderQuery_open (env : Env) (co : Compiler) (qc : QCode) (multi : Bool) (fuel : Nat)
    (id : Int) (st : List Int) (c : Ctx) (sel : Select) (hid : id < closeBlock)
    (hsel : qc.selectAt id = some sel) :
    renderQuery env co qc multi (fuel + 1) (id :: st) c =
      (openSel env co qc multi fuel sel c).bind fun c =>
        (pushChildSelects qc sel.Children st).bind fun st =>
          renderQuery env co qc multi fuel st c := by
  simp only [renderQuery, hid, if_true, hsel, openSel]

theorem renderQuery_close (env : Env) (co : Compiler) (qc : QCode) (multi : Bool) (fuel : Nat)
    (id : Int) (st : List Int) (c : Ctx) (sel : Select) (hid : ¬ id < closeBlock)
    (hsel : qc.selectAt (id - closeBlock) = some sel) :
    renderQuery env co qc multi (fuel + 1) (id :: st) c =
      renderQuery env co qc multi fuel st (closeSel multi sel c) := by
  simp only [renderQuery, hid, if_false, hsel, closeSel]

theorem tokens_append (xs ys : List Int) : tokens (xs ++ ys) = tokens xs ++ tokens ys := by
  simp [tokens, List.flatMap]

theorem tokens_cons (i : Int) (ids : List Int) :
    tokens (i :: ids) = i :: wrap32 (i + closeBlock) :: tokens ids := by
  simp [tokens, List.flatMap]

theorem pushChildSelects_eq (qc : QCode) (cs : List Int) :
    ∀ st, pushChildSelects qc cs st =
      (renderedChildren qc cs).map fun ids => tokens ids.reverse ++ st := by
  induction cs with
  | nil => intro st; simp [pushChildSelects, renderedChildren, tokens]
  | cons cid rest ih =>
    intro st
    unfold pushChildSelects renderedChildren
    cases hc : qc.selectAt cid with
    | none => rfl
    | some child =>
      dsimp only
      by_cases hs : child.SkipRender ≠ .SkipTypeNone
      · rw [if_pos hs, ih, Option.map_map]
        congr 1
        funext ids
        simp [hs]
      · rw [if_neg hs, ih, Option.map_map]
        congr 1
        funext ids
        simp [hs, tokens_append, tokens_cons, tokens]

theorem openSel_mono (env : Env) (co : Compiler) (qc : QCode) (multi : Bool) (fuel fuel2 : Nat)
    (hf : fuel ≤ fuel2) (sel : Select) (c r : Ctx)
    (h : openSel env co qc multi fuel sel c = some r) :
    openSel env co qc multi fuel2 sel c = some r := by
  unfold openSel at h ⊢
  split at h
  · rename_i hu
    rw [if_pos hu]
    dsimp only at h ⊢
    obtain ⟨c2, hc2, hc3⟩ := Option.bind_eq_some.1 h
    rw [hc2, Option.some_bind]
    exact renderSelect_mono env co fuel fuel2 hf sel _ _ hc3
  · rename_i hu
    rw [if_neg hu]
    exact h

theorem block_succ (env : Env) (co : Compiler) (qc : QCode) (multi : Bool) (F d : Nat)
    (id : Int) (c : Ctx) (sel : Select) (hsel : qc.selectAt id = some sel) :
    block env co qc multi F (d + 1) id c =
      (openSel env co qc multi F sel c).bind fun c =>
        (renderedChildren qc sel.Children).bind fun ids =>
          (blocks env co qc multi F d ids.reverse c).map (closeSel multi sel) := by
  simp only [block, blockWith, hsel, blocks]

theorem blocks_cons (env : Env) (co : Compiler) (qc : QCode) (multi : Bool) (F d : Nat)
    (i : Int) (ids : List Int) (c : Ctx) :
    blocks env co qc multi F d (i :: ids) c =
      (block env co qc multi F d i c).bind (blocks env co qc multi F d ids) := by
  unfold blocks
  rw [List.foldl_cons, Option.some_bind]
  cases block env co qc multi F d i c with
  | none => rw [foldl_bind_none]; rfl
  | some c2 => rfl

theorem blocks_append (env : Env) (co : Compiler) (qc : QCode) (multi : Bool) (F d : Nat)
    (xs ys : List Int) :
    ∀ c, blocks env co qc multi F d (xs ++ ys) c =
      (blocks env co qc multi F d xs c).bind (blocks env co qc multi F d ys) := by
  induction xs with
  | nil => intro c; rfl
  | cons x xs ih =>
    intro c
    rw [List.cons_append, blocks_cons, blocks_cons]
    cases block env co qc multi F d x c with
    | none => rfl
    | some c2 => exact ih c2

/-- The walk of the tokens of `ids` is the sequence of their blocks, when the walk of one
selection at depth `d` is its block. -/
theorem renderQuery_blocks (env : Env) (co : Compiler) (qc : QCode) (multi : Bool) (F d : Nat)
    (hd : ∀ id c c2, block env co qc multi F d id c = some c2 →
      ∃ n, ∀ fuel, F ≤ fuel → ∀ st,
        renderQuery env co qc multi (fuel + n) (id :: wrap32 (id + closeBlock) :: st) c =
          renderQuery env co qc multi fuel st c2)
    (ids : List Int) :
    ∀ c c2, blocks env co qc multi F d ids c = some c2 →
      ∃ n, ∀ fuel, F ≤ fuel → ∀ st,
        renderQuery env co qc multi (fuel + n) (tokens ids ++ st) c =
          renderQuery env co qc multi fuel st c2 := by
  induction ids with
  | nil =>
    intro c c2 h
    have hc : c = c2 := Option.some.inj h
    subst hc
    exact ⟨0, fun fuel _ st => rfl⟩
  | cons i ids ih =>
    intro c c2 h
    rw [blocks_cons] at h
    obtain ⟨cm, hcm, hrest⟩ := Option.bind_eq_some.1 h
    obtain ⟨n1, hn1⟩ := hd i c cm hcm
    obtain ⟨n2, hn2⟩ := ih cm c2 hrest
    refine ⟨n2 + n1, fun fuel hf st => ?_⟩
    rw [tokens_cons, List.cons_append, List.cons_append, ← Nat.add_assoc,
      hn1 (fuel + n2) (Nat.le_trans hf (Nat.le_add_right _ _)), hn2 fuel hf]

/-- The walk of the two tokens of a selection is its block: with `n` iterations more than any
fuel that covers `F`, the loop is where it would be on the rest of the stack after the block. -/
theorem renderQuery_block_step (env : Env) (co : Compiler) (qc : QCode) (multi : Bool)
    (F : Nat) (hids : qc.IdsOK) (d : Nat) :
    ∀ id c c2, block env co qc multi F d id c = some c2 →
      ∃ n, ∀ fuel, F ≤ fuel → ∀ st,
        renderQuery env co qc multi (fuel + n) (id :: wrap32 (id + closeBlock) :: st) c =
          renderQuery env co qc multi fuel st c2 := by
  induction d with
  | zero =>
    intro id c c2 h
    simp [block, blockWith] at h
  | succ d ih =>
    intro id c c2 h
    cases hsel : qc.selectAt id with
    | none => simp [block, blockWith, hsel] at h
    | some sel =>
      rw [block_succ env co qc multi F d id c sel hsel] at h
      obtain ⟨c1, hc1, h⟩ := Option.bind_eq_some.1 h
      obtain ⟨ids, hids2, h⟩ := Option.bind_eq_some.1 h
      obtain ⟨c3, hc3, hc4⟩ := Option.map_eq_some'.1 h
      obtain ⟨n, hn⟩ := renderQuery_blocks env co qc multi F d ih ids.reverse c1 c3 hc3
      have h0 : 0 ≤ id := selectAt_nonneg qc id sel hsel
      have h1 : id < closeBlock := (hids id sel hsel).2
      have hw : wrap32 (id + closeBlock) = id + closeBlock := wrap32_close id h0 h1
      have hnc : ¬ id + closeBlock < closeBlock := by omega
      have hsub : id + closeBlock - closeBlock = id := by omega
      refine ⟨n + 2, fun fuel hf st => ?_⟩
      rw [show fuel + (n + 2) = (fuel + 1 + n) + 1 by omega,
        renderQuery_open env co qc multi _ id _ c sel h1 hsel,
        openSel_mono env co qc multi F _ (by omega) sel c c1 hc1, Option.some_bind,
        pushChildSelects_eq, hids2, Option.map_some', Option.some_bind,
        hn (fuel + 1) (by omega), hw,
        renderQuery_close env co qc multi fuel (id + closeBlock) st c3 sel hnc
          (by rw [hsub]; exact hsel), hc4]

theorem openSel_total (env : Env) (co : Compiler) (qc : QCode) (multi : Bool) (F : Nat)
    (sel : Select) (c : Ctx) (h : SelectRenders qc F sel) :
    ∃ r, openSel env co qc multi F sel c = some r := by
  unfold openSel
  split
  · dsimp only
    generalize (if sel.Rel.Typ ≠ .RelNone ∨ multi = true then renderLateralJoin c else c) = c1
    have hr : ∃ c2, (if sel.Rel.Typ = .RelRecursive then renderRecursiveCTE env qc sel c1
        else some c1) = some c2 := by
      split
      · rename_i hrec
        obtain ⟨psel, hp⟩ := Option.isSome_iff_exists.1 (h.1 hrec)
        unfold renderRecursiveCTE renderRecursiveBaseSelect
        dsimp only
        rw [hp]
        exact ⟨_, rfl⟩
      · exact ⟨_, rfl⟩
    obtain ⟨c2, hc2⟩ := hr
    rw [hc2, Option.some_bind]
    exact renderSelect_total env co F sel _ h.2
  · exact ⟨_, rfl⟩

theorem renderedChildren_total (qc : QCode) (cs : List Int)
    (h : ∀ cid ∈ cs, (qc.selectAt cid).isSome = true) :
    ∃ ids, renderedChildren qc cs = some ids ∧
      ∀ i ∈ ids, ∃ cid ∈ cs, ∃ child, qc.selectAt cid = some child ∧ child.ID = i := by
  induction cs with
  | nil => exact ⟨[], rfl, fun i hi => by cases hi⟩
  | cons cid rest ih =>
    obtain ⟨ids, hids, hmem⟩ := ih (fun x hx => h x (List.mem_cons_of_mem _ hx))
    obtain ⟨child, hc⟩ := Option.isSome_iff_exists.1 (h cid (List.mem_cons_self _ _))
    unfold renderedChildren
    rw [hc, hids]
    refine ⟨_, rfl, fun i hi => ?_⟩
    dsimp only at hi
    by_cases hs : child.SkipRender ≠ .SkipTypeNone
    · rw [if_pos hs] at hi
      obtain ⟨x, hx, ch, hch⟩ := hmem i hi
      exact ⟨x, List.mem_cons_of_mem _ hx, ch, hch⟩
    · rw [if_neg hs] at hi
      rcases List.mem_cons.1 hi with rfl | hi
      · exact ⟨cid, List.mem_cons_self _ _, child, hc, rfl⟩
      · obtain ⟨x, hx, ch, hch⟩ := hmem i hi
        exact ⟨x, List.mem_cons_of_mem _ hx, ch, hch⟩

/-- The recursive definition is defined at every depth above the rank of the selection. -/
theorem block_total (env : Env) (co : Compiler) (qc : QCode) (multi : Bool) (F : Nat)
    (rank : Int → Nat) (hids : qc.IdsOK) (hdesc : qc.ChildrenDescend rank)
    (hsel : ∀ id sel, qc.selectAt id = some sel → SelectRenders qc F sel) (d : Nat) :
    ∀ id sel, qc.selectAt id = some sel → rank id < d →
      ∀ c, ∃ c2, block env co qc multi F d id c = some c2 := by
  induction d with
  | zero => intro id sel _ hr; exact absurd hr (Nat.not_lt_zero _)
  | succ d ih =>
    intro id sel hs hr c
    rw [block_succ env co qc multi F d id c sel hs]
    obtain ⟨c1, hc1⟩ := openSel_total env co qc multi F sel c (hsel id sel hs)
    obtain ⟨ids, hids2, hmem⟩ := renderedChildren_total qc sel.Children
      (fun cid hcid => (hdesc id sel hs cid hcid).1)
    rw [hc1, Option.some_bind, hids2, Option.some_bind]
    obtain ⟨c3, hc3⟩ := foldl_bind_total
      (fun c cid => block env co qc multi F d cid c) ids.reverse
      (fun c i hi => by
        obtain ⟨cid, hcid, child, hch, hci⟩ := hmem i (List.mem_reverse.1 hi)
        have hi2 : i = cid := by rw [← hci]; exact (hids cid child hch).1
        subst hi2
        have hlt : rank i < rank id := (hdesc id sel hs i hcid).2
        exact ih i child hch (by omega) c) c1
    unfold blocks
    rw [hc3]
    exact ⟨_, rfl⟩

/-- C19 (amended): for a QCode with `Selects[i].ID = i`, every id below 500, well-founded
Children lists, a selection for the parent of every Recursive selection and filter expressions
that `renderExp` can render within `F`, the walk of the two tokens `id`, `id + 500` of a
selection returns for every fuel from some `N` on, and the context it returns is the one the
recursive definition `block` gives: `open(s)`, then the blocks of the children with
`SkipRender = None` in the REVERSE of the order of the Children list, then `close(s)`. -/
theorem renderQuery_block (env : Env) (co : Compiler) (qc : QCode) (multi : Bool) (F : Nat)
    (rank : Int → Nat) (hids : qc.IdsOK) (hdesc : qc.ChildrenDescend rank)
    (hsel : ∀ id sel, qc.selectAt id = some sel → SelectRenders qc F sel)
    (id : Int) (sel : Select) (hs : qc.selectAt id = some sel) (c : Ctx) :
    ∃ c2, block env co qc multi F (rank id + 1) id c = some c2 ∧
      ∃ N, ∀ fuel, N ≤ fuel →
        renderQuery env co qc multi fuel [id, wrap32 (id + closeBlock)] c = some c2 := by
  obtain ⟨c2, hc2⟩ := block_total env co qc multi F rank hids hdesc hsel (rank id + 1) id sel hs
    (Nat.lt_succ_self _) c
  obtain ⟨n, hn⟩ := renderQuery_block_step env co qc multi F hids (rank id + 1) id c c2 hc2
  refine ⟨c2, hc2, F + n, fun fuel hf => ?_⟩
  obtain ⟨k, rfl⟩ : ∃ k, fuel = (F + k) + n := ⟨fuel - (F + n), by omega⟩
  rw [hn (F + k) (Nat.le_add_right _ _) []]
  cases F + k <;> rfl

theorem grows_block (env : Env) (co : Compiler) (qc : QCode) (multi : Bool) (F d : Nat)
    (hids : qc.IdsOK) (id : Int) (c c2 : Ctx)
    (h : block env co qc multi F d id c = some c2) : Grows c.w c2 := by
  obtain ⟨n, hn⟩ := renderQuery_block_step env co qc multi F hids d id c c2 h
  have h1 := hn F (Nat.le_refl _) []
  have h2 : renderQuery env co qc multi F [] c2 = some c2 := by cases F <;> rfl
  rw [h2] at h1
  exact ogrows_renderQuery env co qc multi (F + n) _ c (grows_self c) c2 h1

theorem grows_blocks (env : Env) (co : Compiler) (qc : QCode) (multi : Bool) (F d : Nat)
    (hids : qc.IdsOK) (ids : List Int) (c c2 : Ctx)
    (h : blocks env co qc multi F d ids c = some c2) : Grows c.w c2 := by
  obtain ⟨n, hn⟩ := renderQuery_blocks env co qc multi F d
    (renderQuery_block_step env co qc multi F hids d) ids c c2 h
  have h1 := hn F (Nat.le_refl _) []
  have h2 : renderQuery env co qc multi F [] c2 = some c2 := by cases F <;> rfl
  rw [h2] at h1
  exact ogrows_renderQuery env co qc multi (F + n) _ c (grows_self c) c2 h1

theorem sampleTree_selectAt (id : Int) (sel : Select)
    (h : sampleTree.selectAt id = some sel) :
    (id = 0 ∧ sel = { sampleSel with Children := [1, 2] }) ∨
      (id = 1 ∧ sel = samplePosts) ∨ (id = 2 ∧ sel = sampleTags) := by
  have h0 : 0 ≤ id := selectAt_nonneg _ id sel h
  obtain ⟨n, rfl⟩ := Int.eq_ofNat_of_zero_le h0
  unfold QCode.selectAt at h
  rw [if_neg (by omega)] at h
  simp only [Int.toNat_ofNat, sampleTree] at h
  match n, h with
  | 0, h => exact Or.inl ⟨rfl, (Option.some.inj h).symm⟩
  | 1, h => exact Or.inr (Or.inl ⟨rfl, (Option.some.inj h).symm⟩)
  | 2, h => exact Or.inr (Or.inr ⟨rfl, (Option.some.inj h).symm⟩)
  | n + 3, h => simp at h

theorem sampleTree_idsOK : sampleTree.IdsOK := by
  intro id sel h
  rcases sampleTree_selectAt id sel h with ⟨rfl, rfl⟩ | ⟨rfl, rfl⟩ | ⟨rfl, rfl⟩ <;>
    exact ⟨rfl, by decide⟩

theorem sampleTree_descend : sampleTree.ChildrenDescend sampleRank := by
  intro id sel h cid hcid
  rcases sampleTree_selectAt id sel h with ⟨rfl, rfl⟩ | ⟨rfl, rfl⟩ | ⟨rfl, rfl⟩
  · have hc : cid = 1 ∨ cid = 2 := by simpa using hcid
    rcases hc with rfl | rfl <;> exact ⟨rfl, by decide⟩
  · simp [samplePosts, sampleSel] at hcid
  · simp [sampleTags, sampleSel] at hcid

theorem sampleTree_renders (id : Int) (sel : Select) (h : sampleTree.selectAt id = some sel) :
    SelectRenders sampleTree 0 sel := by
  rcases sampleTree_selectAt id sel h with ⟨rfl, rfl⟩ | ⟨rfl, rfl⟩ | ⟨rfl, rfl⟩ <;>
    exact ⟨fun hr => by simp [samplePosts, sampleTags, sampleSel, sampleRel] at hr,
      fun ex hw => by simp [samplePosts, sampleTags, sampleSel] at hw⟩

set_option maxRecDepth 100000 in
/-- C19 at the root `users` with the children `posts` and `tags`: the hypotheses hold, and the
walk of the tokens `0`, `500` returns the block of the root for every fuel from some `N` on; at
fuel 10 it is the SQL in which the block of `tags` precedes the block of `posts`. -/
theorem renderQuery_block_witness :
    sampleTree.IdsOK ∧ sampleTree.ChildrenDescend sampleRank ∧
      (∃ c2, block sampleEnv ⟨[]⟩ sampleTree true 0 (sampleRank 0 + 1) 0 sampleCtx = some c2 ∧
        ∃ N, ∀ fuel, N ≤ fuel →
          renderQuery sampleEnv ⟨[]⟩ sampleTree true fuel [0, wrap32 (0 + closeBlock)] sampleCtx =
            some c2) ∧
      renderQuery sampleEnv ⟨[]⟩ sampleTree true 10 [0, 500] sampleCtx =
        block sampleEnv ⟨[]⟩ sampleTree true 0 2 0 sampleCtx :=
  ⟨sampleTree_idsOK, sampleTree_descend,
    renderQuery_block sampleEnv ⟨[]⟩ sampleTree true 0 sampleRank sampleTree_idsOK
      sampleTree_descend sampleTree_renders 0 _ rfl sampleCtx,
    by decide⟩

set_option maxRecDepth 100000 in
/-- C19 as stated fails at the root `users` with the children `posts` and `tags`: the
recursive definition with the blocks of the children in the order of the Children list is
defined, and for every fuel from some `N` on the walk returns a context that differs from
it. -/
theorem renderQuery_not_specBlock :
    (specBlock sampleEnv ⟨[]⟩ sampleTree true 0 2 0 sampleCtx).isSome = true ∧
      ∃ N, ∀ fuel, N ≤ fuel →
        renderQuery sampleEnv ⟨[]⟩ sampleTree true fuel [0, 500] sampleCtx ≠
          specBlock sampleEnv ⟨[]⟩ sampleTree true 0 2 0 sampleCtx := by
  refine ⟨by decide, ?_⟩
  have hne : block sampleEnv ⟨[]⟩ sampleTree true 0 2 0 sampleCtx ≠
      specBlock sampleEnv ⟨[]⟩ sampleTree true 0 2 0 sampleCtx := by decide
  obtain ⟨c2, hc2⟩ := Option.isSome_iff_exists.1
    (show (block sampleEnv ⟨[]⟩ sampleTree true 0 2 0 sampleCtx).isSome = true by decide)
  obtain ⟨n, hn⟩ := renderQuery_block_step sampleEnv ⟨[]⟩ sampleTree true 0 sampleTree_idsOK
    2 0 sampleCtx c2 hc2
  refine ⟨n, fun fuel hf => ?_⟩
  obtain ⟨k, rfl⟩ : ∃ k, fuel = k + n := ⟨fuel - n, by omega⟩
  have hw : wrap32 (0 + closeBlock) = 500 := by decide
  rw [hw] at hn
  have h2 : renderQuery sampleEnv ⟨[]⟩ sampleTree true k [] c2 = some c2 := by cases k <;> rfl
  rw [hn k (Nat.zero_le _) [], h2, ← hc2]
  exact hne

/-- C20 (amended): when the rendered children of a selection are `l1 ++ a :: l2 ++ b :: l3` in
the order of its Children list (`a` declared before `b`), the walk of the selection, which
returns for every fuel from some `N` on, emits the block of `b` BEFORE the block of `a`: after
the opening of the parent and the blocks of `l3` reversed comes the block of `b` (from the
context `u` to `cb`), then the blocks of `l2` reversed, then the block of `a` (from `v` to
`ca`), then the blocks of `l1` reversed and the closing of the parent; the buffer only grows
from `u` to `cb` to `v` to `ca`, and the metadata is handed on in the same order. -/
theorem children_emit_reversed (env : Env) (co : Compiler) (qc : QCode) (multi : Bool)
    (F d : Nat) (hids : qc.IdsOK) (id : Int) (sel : Select) (hs : qc.selectAt id = some sel)
    (l1 l2 l3 : List Int) (a b : Int)
    (hch : renderedChildren qc sel.Children = some (l1 ++ (a :: (l2 ++ (b :: l3)))))
    (c : Ctx) (hb : (block env co qc multi F (d + 1) id c).isSome = true) :
    ∃ c2 u cb v ca,
      (∃ N, ∀ fuel, N ≤ fuel →
        renderQuery env co qc multi fuel [id, wrap32 (id + closeBlock)] c = some c2) ∧
      (openSel env co qc multi F sel c).bind (blocks env co qc multi F d l3.reverse) = some u ∧
      block env co qc multi F d b u = some cb ∧
      blocks env co qc multi F d l2.reverse cb = some v ∧
      block env co qc multi F d a v = some ca ∧
      (blocks env co qc multi F d l1.reverse ca).map (closeSel multi sel) = some c2 ∧
      Grows u.w cb ∧ Grows cb.w v ∧ Grows v.w ca := by
  obtain ⟨c2, hc2⟩ := Option.isSome_iff_exists.1 hb
  obtain ⟨n, hn⟩ := renderQuery_block_step env co qc multi F hids (d + 1) id c c2 hc2
  have hN : ∃ N, ∀ fuel, N ≤ fuel →
      renderQuery env co qc multi fuel [id, wrap32 (id + closeBlock)] c = some c2 := by
    refine ⟨F + n, fun fuel hf => ?_⟩
    obtain ⟨k, rfl⟩ : ∃ k, fuel = (F + k) + n := ⟨fuel - (F + n), by omega⟩
    rw [hn (F + k) (Nat.le_add_right _ _) []]
    cases F + k <;> rfl
  rw [block_succ env co qc multi F d id c sel hs, hch] at hc2
  obtain ⟨c1, hc1, h⟩ := Option.bind_eq_some.1 hc2
  rw [Option.some_bind] at h
  obtain ⟨c3, hc3, hc4⟩ := Option.map_eq_some'.1 h
  have hrev : (l1 ++ (a :: (l2 ++ (b :: l3)))).reverse =
      l3.reverse ++ (b :: (l2.reverse ++ (a :: l1.reverse))) := by simp
  rw [hrev, blocks_append] at hc3
  obtain ⟨u, hu, h⟩ := Option.bind_eq_some.1 hc3
  rw [blocks_cons] at h
  obtain ⟨cb, hcb, h⟩ := Option.bind_eq_some.1 h
  rw [blocks_append] at h
  obtain ⟨v, hv, h⟩ := Option.bind_eq_some.1 h
  rw [blocks_cons] at h
  obtain ⟨ca, hca, h⟩ := Option.bind_eq_some.1 h
  refine ⟨c2, u, cb, v, ca, hN, ?_, hcb, hv, hca, ?_,
    grows_block env co qc multi F d hids b u cb hcb,
    grows_blocks env co qc multi F d hids _ cb v hv,
    grows_block env co qc multi F d hids a v ca hca⟩
  · rw [hc1, Option.some_bind, hu]
  · rw [h, Option.map_some', hc4]

set_option maxRecDepth 100000 in
/-- C20 at the root `users` with the children `posts` (id 1) and `tags` (id 2), declared in
that order: the block of `tags` starts right after the opening of the parent and the block of
`posts` starts where the block of `tags` ends. -/
theorem children_emit_reversed_witness :
    renderedChildren sampleTree [1, 2] = some [1, 2] ∧
      ∃ c2 u cb v ca,
        (∃ N, ∀ fuel, N ≤ fuel →
          renderQuery sampleEnv ⟨[]⟩ sampleTree true fuel [0, wrap32 (0 + closeBlock)] sampleCtx =
            some c2) ∧
        (openSel sampleEnv ⟨[]⟩ sampleTree true 0 { sampleSel with Children := [1, 2] }
          sampleCtx).bind (blocks sampleEnv ⟨[]⟩ sampleTree true 0 1 [].reverse) = some u ∧
        block sampleEnv ⟨[]⟩ sampleTree true 0 1 2 u = some cb ∧
        blocks sampleEnv ⟨[]⟩ sampleTree true 0 1 [].reverse cb = some v ∧
        block sampleEnv ⟨[]⟩ sampleTree true 0 1 1 v = some ca ∧
        (blocks sampleEnv ⟨[]⟩ sampleTree true 0 1 [].reverse ca).map
          (closeSel true { sampleSel with Children := [1, 2] }) = some c2 ∧
        Grows u.w cb ∧ Grows cb.w v ∧ Grows v.w ca :=
  ⟨by decide,
    children_emit_reversed sampleEnv ⟨[]⟩ sampleTree true 0 1 sampleTree_idsOK 0
      { sampleSel with Children := [1, 2] } rfl [] [] [] 1 2 (by decide) sampleCtx (by decide)⟩

set_option maxRecDepth 100000 in
/-- C20 as stated fails at the root `users` with the children `posts` and `tags`, declared in
that order and limited by the variables `l1` and `l2`: in the SQL the lateral join of `tags`
(`__sj_2`) stands before the lateral join of `posts` (`__sj_1`), and the parameters are
registered in the order `l2`, `l1`. -/
theorem renderQuery_tags_before_posts :
    (renderQuery sampleEnv ⟨[]⟩ sampleTree true 10 [0, 500] sampleCtx).map
        (fun c => (String.mk c.w, c.md.params.map fun p => p.Name)) =
      some (" LEFT OUTER JOIN LATERAL (SELECT coalesce(jsonb_agg(__sj_0.json), '[]') as json " ++
        "FROM (SELECT to_jsonb(__sr_0.*) AS json FROM (SELECT id FROM (SELECT id FROM \"users\" " ++
        "LIMIT 20) AS users_0 LEFT OUTER JOIN LATERAL (SELECT coalesce(jsonb_agg(__sj_2.json), " ++
        "'[]') as json FROM (SELECT to_jsonb(__sr_2.*) AS json FROM (SELECT id FROM (SELECT id " ++
        "FROM \"tags\" WHERE (((posts.user_id) = (users_0.id))) LIMIT LEAST($1, 20)) AS tags_2) " ++
        "AS __sr_2) AS __sj_2) AS __sj_2 ON true LEFT OUTER JOIN LATERAL (SELECT " ++
        "coalesce(jsonb_agg(__sj_1.json), '[]') as json FROM (SELECT to_jsonb(__sr_1.*) AS json " ++
        "FROM (SELECT id FROM (SELECT id FROM \"posts\" WHERE (((posts.user_id) = " ++
        "(users_0.id))) LIMIT LEAST($2, 20)) AS posts_1) AS __sr_1) AS __sj_1) AS __sj_1 ON " ++
        "true) AS __sr_0) AS __sj_0) AS __sj_0 ON true", ["l2", "l1"]) := by
  decide

theorem writeString_empty (c : Ctx) : c.WriteString "" = c := by
  simp [Ctx.WriteString]

theorem renderExpRec_false (env : Env) (co : Compiler) (ti : DBTableInfo) (sk : Bool)
    (e : Exp) (c : Ctx) (h : e.Op = .OpFalse) :
    renderExpRec env co ti sk e c = some (c.WriteString "false") := by
  cases e with
  | mk op col t ty v lt lv rels cs =>
    simp only [Exp.Op] at h
    subst h
    simp only [renderExpRec]

theorem renderExpRec_andOr (env : Env) (co : Compiler) (ti : DBTableInfo) (sk : Bool)
    (e : Exp) (c : Ctx) (h : e.Op = .OpAnd ∨ e.Op = .OpOr) :
    renderExpRec env co ti sk e c =
      (renderExpRec.recList env co ti sk (opText e.Op) true e.Children
        (c.WriteString "(")).map fun c => c.WriteString ")" := by
  cases e with
  | mk op col t ty v lt lv rels cs =>
    simp only [Exp.Op] at h
    rcases h with h | h <;> subst h <;> simp only [renderExpRec, Exp.Op, Exp.Children, opText]

theorem renderExpRec_not (env : Env) (co : Compiler) (ti : DBTableInfo) (sk : Bool)
    (e : Exp) (c : Ctx) (h : e.Op = .OpNot) :
    renderExpRec env co ti sk e c =
      renderExpRec.recFirst env co ti sk e.Children (c.WriteString "NOT ") := by
  cases e with
  | mk op col t ty v lt lv rels cs =>
    simp only [Exp.Op] at h
    subst h
    simp only [renderExpRec, Exp.Children]

theorem renderExpRec_leaf (env : Env) (co : Compiler) (ti : DBTableInfo) (sk : Bool)
    (e : Exp) (c : Ctx) (h1 : e.Op ≠ .OpFalse) (h2 : e.Op ≠ .OpAnd) (h3 : e.Op ≠ .OpOr)
    (h4 : e.Op ≠ .OpNot) :
    renderExpRec env co ti sk e c =
      if (!sk && e.Rels.length ≠ 0) = true then
        renderNestedWhere env (fun ti2 ex2 _ c2 => some (renderOp env co ti2 ex2 c2)) ti e c
      else some (renderOp env co ti e c) := by
  cases e with
  | mk op col t ty v lt lv rels cs =>
    simp only [Exp.Op] at h1 h2 h3 h4
    cases op <;> first
      | exact absurd rfl h1
      | exact absurd rfl h2
      | exact absurd rfl h3
      | exact absurd rfl h4
      | simp only [renderExpRec, Exp.Rels]

theorem recList_false_cons (env : Env) (co : Compiler) (ti : DBTableInfo) (sk : Bool)
    (sep : String) (e : Exp) (es : List Exp) (c : Ctx) :
    renderExpRec.recList env co ti sk sep false (e :: es) c =
      renderExpRec.recList env co ti sk sep true (e :: es) (c.WriteString sep) := by
  simp [renderExpRec.recList]

theorem recStack_interleaved (env : Env) (co : Compiler) (ti : DBTableInfo) (sk : Bool)
    (op : ExpOp) (rest : List StackItem) (cs : List Exp) :
    ∀ c, recStack env co ti sk (interleaved op cs ++ rest) c =
      (renderExpRec.recList env co ti sk (opText op) true cs c).bind
        (recStack env co ti sk rest) := by
  induction cs with
  | nil => intro c; simp [interleaved, renderExpRec.recList]
  | cons x xs ih =>
    intro c
    cases xs with
    | nil =>
      simp only [interleaved, List.singleton_append, recStack, renderExpRec.recList, if_true]
      cases renderExpRec env co ti sk x c <;> rfl
    | cons y ys =>
      simp only [interleaved, List.cons_append, recStack]
      have h := ih
      simp only [List.cons_append] at h
      rw [renderExpRec.recList]
      simp only [if_true]
      cases renderExpRec env co ti sk x c with
      | none => rfl
      | some c2 =>
        simp only [Option.some_bind]
        rw [recList_false_cons]
        exact h _

theorem foldl_bind_congr {α β : Type} (f1 f2 : β → α → Option β) (l : List α)
    (h : ∀ c p, p ∈ l → f1 c p = f2 c p) (oc : Option β) :
    l.foldl (fun (oc : Option β) p => oc.bind fun c => f1 c p) oc =
      l.foldl (fun (oc : Option β) p => oc.bind fun c => f2 c p) oc := by
  induction l generalizing oc with
  | nil => rfl
  | cons x l ih =>
    rw [List.foldl_cons, List.foldl_cons]
    have hx : (oc.bind fun c => f1 c x) = oc.bind fun c => f2 c x := by
      cases oc with
      | none => rfl
      | some c => exact h c x (List.mem_cons_self _ _)
    rw [hx]
    exact ih (fun c p hp => h c p (List.mem_cons_of_mem _ hp)) _

theorem renderNestedWhere_congr (env : Env)
    (rexp1 rexp2 : DBTableInfo → Exp → Bool → Ctx → Option Ctx) (ti : DBTableInfo) (ex : Exp)
    (h : ∀ ti2 c, rexp1 ti2 ex true c = rexp2 ti2 ex true c) (c : Ctx) :
    renderNestedWhere env rexp1 ti ex c = renderNestedWhere env rexp2 ti ex c := by
  unfold renderNestedWhere
  dsimp only
  rw [foldl_bind_congr (fun c p => renderNestedHop env rexp1 ti ex p.1 p.2 c)
    (fun c p => renderNestedHop env rexp2 ti ex p.1 p.2 c) ex.Rels.enum
    (fun c p _ => by
      unfold renderNestedHop
      dsimp only
      rw [h])]

theorem renderExpLoop_skip_leaf (env : Env) (co : Compiler) (fuel : Nat) (ti : DBTableInfo)
    (val : Exp) (c : Ctx) (h1 : val.Op ≠ .OpFalse) (h2 : val.Op ≠ .OpAnd)
    (h3 : val.Op ≠ .OpOr) (h4 : val.Op ≠ .OpNot) :
    renderExpLoop env co (fuel + 1) ti true [.exp val] c = some (renderOp env co ti val c) := by
  rw [renderExpLoop_leaf env co fuel ti true val [] c h1 h2 h3 h4]
  simp only [Bool.not_true, Bool.false_and, Bool.false_eq_true, if_false, renderExpLoop]

/-- The loop of `renderExp` on a stack is the recursive renderer on that stack, once the fuel
covers the cost of the stack. -/
theorem renderExpLoop_eq_recStack (env : Env) (co : Compiler) (fuel : Nat) :
    ∀ (ti : DBTableInfo) (sk : Bool) (st : List StackItem) (c : Ctx),
      stackCost st ≤ fuel →
      renderExpLoop env co fuel ti sk st c = recStack env co ti sk st c := by
  induction fuel with
  | zero =>
    intro ti sk st c hcost
    cases st with
    | nil => simp [renderExpLoop, recStack]
    | cons x st =>
      exfalso
      rw [stackCost_cons] at hcost
      cases x <;>
        simp only [itemCost_rune, itemCost_op, itemCost_exp, Exp.cost_eq] at hcost <;> omega
  | succ fuel ih =>
    intro ti sk st c hcost
    cases st with
    | nil => simp [renderExpLoop, recStack]
    | cons x st =>
      cases x with
      | rune ch =>
        have hcost2 : stackCost st ≤ fuel := by
          rw [stackCost_cons, itemCost_rune] at hcost
          omega
        simp only [renderExpLoop, recStack]
        exact ih ti sk st _ hcost2
      | op o =>
        have hcost2 : stackCost st ≤ fuel := by
          rw [stackCost_cons, itemCost_op] at hcost
          omega
        simp only [renderExpLoop, recStack]
        rw [ih ti sk st _ hcost2]
        congr 1
        cases o <;> simp only [opText, writeString_empty]
      | exp val =>
        have hc0 : val.cost + stackCost st ≤ fuel + 1 := by
          rw [stackCost_cons, itemCost_exp] at hcost
          exact hcost
        rw [Exp.cost_eq] at hc0
        have hcost2 : stackCost st ≤ fuel := by omega
        by_cases hF : val.Op = .OpFalse
        · simp only [renderExpLoop, hF]
          rw [ih ti sk _ c (by rw [stackCost_cons, itemCost_op]; omega)]
          simp only [recStack, renderExpRec_false env co ti sk val c hF, Option.some_bind,
            opText]
        by_cases hN : val.Op = .OpNot
        · cases hcs : val.Children with
          | nil =>
            simp only [renderExpLoop, hN, hcs, recStack,
              renderExpRec_not env co ti sk val c hN, renderExpRec.recFirst, Option.none_bind]
          | cons child rest =>
            simp only [renderExpLoop, hN, hcs]
            rw [hcs] at hc0
            rw [ih ti sk _ c (by
              rw [stackCost_cons, stackCost_cons, itemCost_op, itemCost_exp]
              simp only [Exp.cost.costList] at hc0
              omega)]
            simp only [recStack, renderExpRec_not env co ti sk val c hN, hcs,
              renderExpRec.recFirst, opText]
        by_cases hAO : val.Op = .OpAnd ∨ val.Op = .OpOr
        · have hstep : renderExpLoop env co (fuel + 1) ti sk (.exp val :: st) c =
              renderExpLoop env co fuel ti sk
                (.rune '(' :: (interleaved val.Op val.Children ++ .rune ')' :: st)) c := by
            rcases hAO with h | h <;> simp only [renderExpLoop, h, pushChildren_eq]
          rw [hstep, ih ti sk _ c (by
            have h1 := stackCost_interleaved val.Op val.Children
            have h2 : stackCost (interleaved val.Op val.Children ++ .rune ')' :: st) =
                stackCost (interleaved val.Op val.Children) + (1 + stackCost st) := by
              simp [stackCost, itemCost_rune]
            rw [stackCost_cons, itemCost_rune, h2]
            omega)]
          simp only [recStack, if_true, recStack_interleaved,
            renderExpRec_andOr env co ti sk val c hAO]
          cases renderExpRec.recList env co ti sk (opText val.Op) true val.Children
              (c.WriteString "(") with
          | none => rfl
          | some c2 =>
            simp only [Option.some_bind, Option.map_some', recStack]
            rfl
        · have hA : val.Op ≠ .OpAnd := fun h => hAO (Or.inl h)
          have hO : val.Op ≠ .OpOr := fun h => hAO (Or.inr h)
          rw [renderExpLoop_leaf env co fuel ti sk val st c hF hA hO hN]
          simp only [recStack, renderExpRec_leaf env co ti sk val c hF hA hO hN]
          split
          · obtain ⟨f, hf⟩ : ∃ f, fuel = f + 1 := ⟨fuel - 1, by omega⟩
            rw [renderNestedWhere_congr env
              (fun ti ex skipNested c => renderExpLoop env co fuel ti skipNested [.exp ex] c)
              (fun ti2 ex2 _ c2 => some (renderOp env co ti2 ex2 c2)) ti val
              (fun ti2 c2 => by
                subst hf
                exact renderExpLoop_skip_leaf env co f ti2 val c2 hF hA hO hN) c]
            cases renderNestedWhere env (fun ti2 ex2 _ c2 => some (renderOp env co ti2 ex2 c2))
                ti val c with
            | none => rfl
            | some c2 =>
              simp only [Option.some_bind]
              exact ih ti sk st c2 hcost2
          · simp only [Option.some_bind]
            exact ih ti sk st _ hcost2

theorem renderExp_eq_renderExpRec (env : Env) (co : Compiler) (fuel : Nat) (ti : DBTableInfo)
    (ex : Exp) (sk : Bool) (c : Ctx) (hf : ex.cost ≤ fuel) :
    renderExp env co fuel ti ex sk c = renderExpRec env co ti sk ex c := by
  unfold renderExp
  rw [renderExpLoop_eq_recStack env co fuel ti sk [.exp ex] c (by
    rw [stackCost_cons, itemCost_exp]
    simpa [stackCost] using hf)]
  simp only [recStack]
  cases renderExpRec env co ti sk ex c <;> rfl

/-- C21: for every predicate tree and every fuel that covers its cost, the stack-based
`renderExp` returns what the recursive renderer `renderExpRec` returns (`(` children in source
order joined by ` AND `/` OR ` `)`, `NOT ` child, `false`, else `renderNestedWhere` or
`renderOp`), in buffer and in metadata; and it does return, with a context, when every `Not`
node of the tree has a child. -/
theorem renderExp_recursive (env : Env) (co : Compiler) (fuel : Nat) (ti : DBTableInfo)
    (ex : Exp) (sk : Bool) (c : Ctx) (hf : ex.cost ≤ fuel) :
    renderExp env co fuel ti ex sk c = renderExpRec env co ti sk ex c ∧
      (ex.All Exp.HasOperand → ∃ r, renderExp env co fuel ti ex sk c = some r) :=
  ⟨renderExp_eq_renderExpRec env co fuel ti ex sk c hf,
    fun hex => renderExp_total env co fuel ti ex sk c hex hf⟩

set_option maxRecDepth 100000 in
/-- C21 at `id = $id AND NOT (id IN $ids)` on `users` in the PostgreSQL dialect, with fuel
20: both renderers give `(((users.id) = $1 :: int) AND NOT ((users.id) = ANY
(ARRAY(SELECT json_array_elements_text($2)) :: int[])))`. -/
theorem renderExp_recursive_witness :
    sampleAnd.cost ≤ 20 ∧
      renderExp sampleEnv ⟨[]⟩ 20 sampleTi sampleAnd false sampleCtx =
        renderExpRec sampleEnv ⟨[]⟩ sampleTi false sampleAnd sampleCtx ∧
      (renderExpRec sampleEnv ⟨[]⟩ sampleTi false sampleAnd sampleCtx).map
          (fun c => String.mk c.w) =
        some ("(((users.id) = $1 :: int) AND NOT ((users.id) = ANY " ++
          "(ARRAY(SELECT json_array_elements_text($2)) :: int[])))") :=
  ⟨by decide,
    (renderExp_recursive sampleEnv ⟨[]⟩ 20 sampleTi sampleAnd false sampleCtx (by decide)).1,
    by decide⟩

/-- C22: `renderWhere` writes nothing when the selection has no relationship and no filter;
otherwise it writes ` WHERE (`, then the relationship predicate `renderRel(Ti, Rel, pid,
ArgMap)` with `pid` = `UParentID` for a Member selection and `ParentID` otherwise, then, when
there is a filter, ` AND ` if the relationship kind is not None and the filter rendered by
`renderExp` with nesting allowed, then `)`. The call of `renderRel` is made for the kind None
too; when it writes nothing there, as the specification says of `renderRel`, the filter stands
alone between the parentheses. -/
theorem renderWhere_composition (env : Env) (co : Compiler) (fuel : Nat) (sel : Select)
    (c : Ctx) :
    (sel.Rel.Typ = .RelNone → sel.Where = none → renderWhere env co fuel sel c = some c) ∧
    (sel.Rel.Typ ≠ .RelNone → sel.Where = none →
      renderWhere env co fuel sel c =
        some { w := c.w ++ " WHERE (".toList ++ (relText env sel c.md).toList ++ ")".toList,
               md := (env.renderRel sel.Ti sel.Rel (whereParent sel) (some sel.ArgMap)
                 c.md).2 }) ∧
    (∀ ex, sel.Where = some ex → sel.Rel.Typ ≠ .RelNone →
      renderWhere env co fuel sel c =
        (renderExp env co fuel sel.Ti ex false
          { w := c.w ++ " WHERE (".toList ++ (relText env sel c.md).toList ++ " AND ".toList,
            md := (env.renderRel sel.Ti sel.Rel (whereParent sel) (some sel.ArgMap)
              c.md).2 }).map fun c2 => c2.WriteString ")") ∧
    (∀ ex, sel.Where = some ex → sel.Rel.Typ = .RelNone →
      renderWhere env co fuel sel c =
        (renderExp env co fuel sel.Ti ex false
          { w := c.w ++ " WHERE (".toList ++ (relText env sel c.md).toList,
            md := (env.renderRel sel.Ti sel.Rel (whereParent sel) (some sel.ArgMap)
              c.md).2 }).map fun c2 => c2.WriteString ")") ∧
    (∀ ex, sel.Where = some ex → sel.Rel.Typ = .RelNone →
      env.renderRel sel.Ti sel.Rel (whereParent sel) (some sel.ArgMap) c.md = ("", c.md) →
      renderWhere env co fuel sel c =
        (renderExp env co fuel sel.Ti ex false (c.WriteString " WHERE (")).map
          fun c2 => c2.WriteString ")") ∧
    whereParent sel = (if sel.Typ = .SelTypeMember then sel.UParentID else sel.ParentID) := by
  refine ⟨?_, ?_, ?_, ?_, ?_, rfl⟩
  · intro hr hw
    simp [renderWhere, hr, hw]
  · intro hr hw
    simp [renderWhere, hr, hw, Ctx.WriteString, Ctx.run, relText, whereParent]
  · intro ex hw hr
    rw [renderWhere_some env co fuel sel ex c hw]
    simp [hr, relText]
  · intro ex hw hr
    rw [renderWhere_some env co fuel sel ex c hw]
    simp [hr, relText]
  · intro ex hw hr hrel
    rw [renderWhere_some env co fuel sel ex c hw]
    simp [hr, hrel, Ctx.WriteString]

set_option maxRecDepth 100000 in
/-- C22 at four selections in the PostgreSQL dialect: no relationship and no filter writes
nothing; a join without a filter writes the relationship predicate alone; a join with a filter
writes both with ` AND ` between; a filter without a relationship stands alone. -/
theorem renderWhere_composition_witness :
    renderWhere sampleRelEnv ⟨[]⟩ 10 sampleSel sampleCtx = some sampleCtx ∧
      (renderWhere sampleRelEnv ⟨[]⟩ 10 sampleJoined sampleCtx).map (fun c => String.mk c.w) =
        some " WHERE (((posts.user_id) = (users_0.id)))" ∧
      (renderWhere sampleRelEnv ⟨[]⟩ 10 sampleChild sampleCtx).map (fun c => String.mk c.w) =
        some " WHERE (((posts.user_id) = (users_0.id)) AND ((users.id) = '5' :: int))" ∧
      (renderWhere sampleRelEnv ⟨[]⟩ 10 sampleFiltered sampleCtx).map
          (fun c => String.mk c.w) = some " WHERE (((users.id) = '5' :: int))" ∧
      renderWhere sampleRelEnv ⟨[]⟩ 10 sampleFiltered sampleCtx =
        (renderExp sampleRelEnv ⟨[]⟩ 10 sampleTi sampleExp false
          (sampleCtx.WriteString " WHERE (")).map fun c2 => c2.WriteString ")" :=
  ⟨(renderWhere_composition sampleRelEnv ⟨[]⟩ 10 sampleSel sampleCtx).1 rfl rfl,
    by decide, by decide, by decide,
    (renderWhere_composition sampleRelEnv ⟨[]⟩ 10 sampleFiltered sampleCtx).2.2.2.2.1
      sampleExp rfl rfl rfl⟩

theorem foldl_bind_some {α β : Type} (f : β → α → Option β) (g : β → α → β) (l : List α)
    (h : ∀ c p, p ∈ l → f c p = some (g c p)) :
    ∀ c : β, l.foldl (fun (oc : Option β) p => oc.bind fun c => f c p) (some c) =
      some (l.foldl g c) := by
  induction l with
  | nil => intro c; rfl
  | cons x l ih =>
    intro c
    rw [List.foldl_cons, List.foldl_cons, Option.some_bind, h c x (List.mem_cons_self _ _)]
    exact ih (fun c p hp => h c p (List.mem_cons_of_mem _ hp)) _

theorem foldl_closers (n : Nat) :
    ∀ c : Ctx, (List.range n).foldl (fun c _ => c.WriteString ")") c =
      { w := c.w ++ List.replicate n ')', md := c.md } := by
  induction n with
  | zero => intro c; simp
  | succ n ih =>
    intro c
    rw [List.range_succ, List.foldl_append, ih]
    simp [Ctx.WriteString, List.replicate_succ']

theorem renderNestedHop_inner (env : Env)
    (rexp : DBTableInfo → Exp → Bool → Ctx → Option Ctx) (ti : DBTableInfo) (ex : Exp)
    (i : Nat) (rel : DBRel) (c : Ctx) (hi : i ≠ ex.Rels.length - 1) :
    renderNestedHop env rexp ti ex i rel c = some (hopOpen env ti i rel c) := by
  unfold renderNestedHop hopOpen
  dsimp only
  rw [if_neg hi]

theorem renderNestedHop_last (env : Env)
    (rexp : DBTableInfo → Exp → Bool → Ctx → Option Ctx) (ti : DBTableInfo) (ex : Exp)
    (i : Nat) (rel : DBRel) (c : Ctx) (hi : i = ex.Rels.length - 1) :
    renderNestedHop env rexp ti ex i rel c =
      (rexp rel.Left.Ti ex true ((hopOpen env ti i rel c).WriteString " AND (")).map
        fun c => c.WriteString ")" := by
  unfold renderNestedHop hopOpen
  dsimp only
  rw [if_pos hi]

theorem renderNestedWhere_eq (env : Env)
    (rexp : DBTableInfo → Exp → Bool → Ctx → Option Ctx) (ti : DBTableInfo) (ex : Exp)
    (init : List DBRel) (last : DBRel) (hrels : ex.Rels = init ++ [last]) (c : Ctx) :
    renderNestedWhere env rexp ti ex c =
      (rexp last.Left.Ti ex true ((hopsOpen env ti ex.Rels c).WriteString " AND (")).map
        fun c2 =>
          { w := c2.w ++ ")".toList ++ List.replicate ex.Rels.length ')', md := c2.md } := by
  have hlen : ex.Rels.length - 1 = init.length := by simp [hrels]
  unfold renderNestedWhere hopsOpen
  dsimp only
  rw [hrels, List.enum_append, List.foldl_append, List.foldl_append]
  rw [foldl_bind_some (fun c p => renderNestedHop env rexp ti ex p.1 p.2 c)
    (fun c p => hopOpen env ti p.1 p.2 c) init.enum (fun c p hp =>
      renderNestedHop_inner env rexp ti ex p.1 p.2 c (by
        have := List.fst_lt_of_mem_enum hp
        omega))]
  simp only [List.enumFrom_singleton, List.foldl_cons, List.foldl_nil, Option.some_bind]
  rw [renderNestedHop_last env rexp ti ex _ last _ hlen.symm, Option.map_map]
  congr 1
  funext c2
  simp only [Function.comp, foldl_closers]
  simp [Ctx.WriteString, ← hrels]

/-- C23: for an expression `ex` with a scalar operator and the hops `init ++ [last]`, and
fuel for one step of the loop, `renderNestedWhere` returns: it writes the opener of every hop
in order (`hopsOpen`: `EXISTS (SELECT 1 FROM <hop table>`, join tables, ` WHERE `, relationship
predicate, with ` AND ` before every hop but the first), then ` AND (`, then the operator
once, rendered by `renderOp` against the table of the last hop (the call back into `renderExp`
with nesting suppressed), then `)`, and then as many `)` as there are hops. -/
theorem renderNestedWhere_hops (env : Env) (co : Compiler) (fuel : Nat) (ti : DBTableInfo)
    (ex : Exp) (init : List DBRel) (last : DBRel) (c : Ctx)
    (h1 : ex.Op ≠ .OpFalse) (h2 : ex.Op ≠ .OpAnd) (h3 : ex.Op ≠ .OpOr) (h4 : ex.Op ≠ .OpNot)
    (hrels : ex.Rels = init ++ [last]) (hf : 0 < fuel) :
    renderNestedWhere env (fun ti2 ex2 sk c2 => renderExp env co fuel ti2 ex2 sk c2) ti ex c =
      some
        { w := (renderOp env co last.Left.Ti ex
              ((hopsOpen env ti ex.Rels c).WriteString " AND (")).w ++ ")".toList ++
            List.replicate ex.Rels.length ')',
          md := (renderOp env co last.Left.Ti ex
            ((hopsOpen env ti ex.Rels c).WriteString " AND (")).md } := by
  obtain ⟨f, rfl⟩ : ∃ f, fuel = f + 1 := ⟨fuel - 1, by omega⟩
  rw [renderNestedWhere_eq env _ ti ex init last hrels c]
  unfold renderExp
  rw [renderExpLoop_skip_leaf env co f last.Left.Ti ex _ h1 h2 h3 h4]
  rfl

set_option maxRecDepth 100000 in
/-- C23 at `id = '5'` over the hops `posts`, `comments`: two openers, the operator once
against `comments`, its `)` and two closing `)`; `renderExp` with nesting allowed writes the
same text for the node. -/
theorem renderNestedWhere_hops_witness :
    (renderNestedWhere sampleEnv
        (fun ti2 ex2 sk c2 => renderExp sampleEnv ⟨[]⟩ 5 ti2 ex2 sk c2) sampleTi sampleNested
        sampleCtx).map (fun c => String.mk c.w) =
      some ("EXISTS (SELECT 1 FROM posts WHERE ((posts.user_id) = (users_0.id)) AND " ++
        "EXISTS (SELECT 1 FROM comments WHERE ((posts.user_id) = (users_0.id)) AND " ++
        "(((comments.id) = '5' :: int))))") ∧
      renderNestedWhere sampleEnv
          (fun ti2 ex2 sk c2 => renderExp sampleEnv ⟨[]⟩ 5 ti2 ex2 sk c2) sampleTi sampleNested
          sampleCtx =
        some
          { w := (renderOp sampleEnv ⟨[]⟩ sampleHop2.Left.Ti sampleNested
                ((hopsOpen sampleEnv sampleTi sampleNested.Rels sampleCtx).WriteString
                  " AND (")).w ++ ")".toList ++ List.replicate sampleNested.Rels.length ')',
            md := (renderOp sampleEnv ⟨[]⟩ sampleHop2.Left.Ti sampleNested
              ((hopsOpen sampleEnv sampleTi sampleNested.Rels sampleCtx).WriteString
                " AND (")).md } ∧
      renderExp sampleEnv ⟨[]⟩ 5 sampleTi sampleNested false sampleCtx =
        renderNestedWhere sampleEnv
          (fun ti2 ex2 sk c2 => renderExp sampleEnv ⟨[]⟩ 5 ti2 ex2 sk c2) sampleTi sampleNested
          sampleCtx :=
  ⟨by decide,
    renderNestedWhere_hops sampleEnv ⟨[]⟩ 5 sampleTi sampleNested [sampleHop] sampleHop2
      sampleCtx (by decide) (by decide) (by decide) (by decide) rfl (by decide),
    by decide⟩

theorem AddRole_result (env : qcode.Env) (co : qcode.Compiler) (role table : String)
    (trc : qcode.TRConfig) :
    ((qcode.AddRole env co role table trc).2 ≠ none ∧
        (qcode.AddRole env co role table trc).1 = co) ∨
      ∃ trv : qcode.trval,
        qcode.AddRole env co role table trc =
          ({ co with
              tr := qcode.mapSet (qcode.mapSet co.tr (role ++ env.Singularize table) trv)
                (role ++ env.Pluralize table) trv }, none) ∧
        trv.role = role ∧
        trv.query.cols = qcode.makeSet env trc.Query.Columns ∧
        trv.insert.cols = qcode.makeSet env trc.Insert.Columns ∧
        trv.update.cols = qcode.makeSet env trc.Update.Columns ∧
        trv.upsert.cols = qcode.makeSet env trc.Upsert.Columns ∧
        trv.delete.cols = qcode.makeSet env trc.Delete.Columns := by
  cases h0 : env.GetTableInfo table "" with
  | error e => exact Or.inl (by simp [qcode.AddRole, h0])
  | ok ti =>
    cases h1 : env.compileFilter ti trc.Query.Filters with
    | error e => exact Or.inl (by simp [qcode.AddRole, h0, h1])
    | ok rq =>
      cases h2 : env.compileFilter ti trc.Update.Filters with
      | error e => exact Or.inl (by simp [qcode.AddRole, h0, h1, h2])
      | ok ru =>
        cases h3 : env.compileFilter ti trc.Upsert.Filters with
        | error e => exact Or.inl (by simp [qcode.AddRole, h0, h1, h2, h3])
        | ok rp =>
          cases h4 : env.compileFilter ti trc.Delete.Filters with
          | error e => exact Or.inl (by simp [qcode.AddRole, h0, h1, h2, h3, h4])
          | ok rd =>
            refine Or.inr ?_
            simp only [qcode.AddRole, h0, h1, h2, h3, h4]
            exact ⟨_, rfl, rfl, rfl, rfl, rfl, rfl, rfl⟩

theorem roleTableFrom_mono (env : qcode.Env)
    (calls calls2 : List (String × String × qcode.TRConfig)) (co : qcode.Compiler) (hsub : ∀ call ∈ calls, call ∈ calls2)
    (h : RoleTableFrom env calls co) : RoleTableFrom env calls2 co := by
  intro k trv hk
  obtain ⟨call, hc, hr⟩ := h k trv hk
  exact ⟨call, hsub call hc, hr⟩

theorem roleTableFrom_AddRole (env : qcode.Env) (done : List (String × String × qcode.TRConfig))
    (co : qcode.Compiler) (call : String × String × qcode.TRConfig)
    (h : RoleTableFrom env done co) :
    RoleTableFrom env (done ++ [call]) (qcode.AddRole env co call.1 call.2.1 call.2.2).1 := by
  rcases AddRole_result env co call.1 call.2.1 call.2.2 with ⟨_, hco⟩ | ⟨trv, heq, hrole, _⟩
  · rw [hco]
    exact roleTableFrom_mono env done _ co (fun x hx => List.mem_append_left _ hx) h
  · rw [heq]
    intro k trv2 hk
    dsimp only at hk
    rw [lookup_mapSet, lookup_mapSet] at hk
    by_cases h2 : k = call.1 ++ env.Pluralize call.2.1
    · rw [if_pos h2] at hk
      have : trv2 = trv := (Option.some.inj hk).symm
      subst this
      exact ⟨call, List.mem_append_right _ (List.mem_singleton_self _), hrole, Or.inr h2⟩
    · rw [if_neg h2] at hk
      by_cases h1 : k = call.1 ++ env.Singularize call.2.1
      · rw [if_pos h1] at hk
        have : trv2 = trv := (Option.some.inj hk).symm
        subst this
        exact ⟨call, List.mem_append_right _ (List.mem_singleton_self _), hrole, Or.inl h1⟩
      · rw [if_neg h1] at hk
        obtain ⟨c0, hc0, hr0⟩ := h k trv2 hk
        exact ⟨c0, List.mem_append_left _ hc0, hr0⟩

theorem roleTableFrom_addRoles (env : qcode.Env)
    (calls : List (String × String × qcode.TRConfig)) :
    ∀ (done : List (String × String × qcode.TRConfig)) (co : qcode.Compiler),
      RoleTableFrom env done co → RoleTableFrom env (done ++ calls) (addRoles env co calls) := by
  induction calls with
  | nil =>
    intro done co h
    simpa [addRoles] using h
  | cons call rest ih =>
    intro done co h
    have h2 := ih (done ++ [call]) _ (roleTableFrom_AddRole env done co call h)
    simpa [addRoles] using h2

theorem getRole_miss_role (co : qcode.Compiler) (role field : String)
    (h : co.tr.lookup (role ++ field) = none) : (qcode.getRole co role field).role = role := by
  by_cases hr : role = "anon"
  · subst hr
    simp [qcode.getRole, h]
  · simp [qcode.getRole, h, hr]

/-- C24 (amended): after any sequence of `AddRole` calls on a compiler with an empty role
table, `getRole(r, f)` returns a trval whose role is `r`, provided no call made for another
role wrote the key `r ++ f`, that is, `r ++ f` is not that other role followed by the singular
or the plural of the table of its call. -/
theorem getRole_isolated (env : qcode.Env) (co : qcode.Compiler)
    (calls : List (String × String × qcode.TRConfig)) (r f : String) (h0 : co.tr = [])
    (hkey : ∀ call ∈ calls, call.1 ≠ r →
      r ++ f ≠ call.1 ++ env.Singularize call.2.1 ∧ r ++ f ≠ call.1 ++ env.Pluralize call.2.1) :
    (qcode.getRole (addRoles env co calls) r f).role = r := by
  have hinv : RoleTableFrom env ([] ++ calls) (addRoles env co calls) :=
    roleTableFrom_addRoles env calls [] co (fun k trv hk => by simp [h0] at hk)
  rw [List.nil_append] at hinv
  cases hl : (addRoles env co calls).tr.lookup (r ++ f) with
  | none => exact getRole_miss_role _ r f hl
  | some trv =>
    rw [getRole_hit _ r f trv hl]
    obtain ⟨call, hc, hrole, hk⟩ := hinv (r ++ f) trv hl
    by_contra hne
    have hcr : call.1 ≠ r := fun e => hne (hrole.trans e)
    rcases hk with hk | hk
    · exact (hkey call hc hcr).1 hk
    · exact (hkey call hc hcr).2 hk

set_option maxRecDepth 100000 in
/-- C24 (amended) at the calls `AddRole("user", "users", ..)`, `AddRole("admin", "users", ..)`
on the sample compiler: the lookup of `user` + `users` gives a trval of the role `user`. -/
theorem getRole_isolated_witness :
    sampleCo.tr = [] ∧
      (qcode.getRole
        (addRoles sampleQEnv sampleCo
          [("user", "users", sampleTrc), ("admin", "users", sampleTrc)])
        "user" "users").role = "user" :=
  ⟨rfl,
    getRole_isolated sampleQEnv sampleCo
      [("user", "users", sampleTrc), ("admin", "users", sampleTrc)] "user" "users" rfl
      (by
        intro call hc hne
        simp only [List.mem_cons, List.mem_singleton, List.not_mem_nil, or_false] at hc
        rcases hc with rfl | rfl
        · exact absurd rfl hne
        · exact ⟨by decide, by decide⟩)⟩

set_option maxRecDepth 100000 in
/-- C24 as stated fails: after `AddRole("super", "users", ..)` and
`AddRole("superuser", "users", ..)` the lookup `getRole("superuser", "s")` reads the key
`superusers`, which the call for the role `super` wrote as `super` + `users`, and returns a
trval whose role is `super`. -/
theorem getRole_other_role :
    (qcode.AddRole sampleQEnv sampleCo "super" "users" sampleTrc).2 = none ∧
      (qcode.AddRole sampleQEnv
        (qcode.AddRole sampleQEnv sampleCo "super" "users" sampleTrc).1
        "superuser" "users" sampleTrc).2 = none ∧
      (qcode.getRole
        (addRoles sampleQEnv sampleCo
          [("super", "users", sampleTrc), ("superuser", "users", sampleTrc)])
        "superuser" "s").role = "super" := by
  decide

theorem mem_makeSet_fold (env : qcode.Env) (x : String) (l : List String) :
    ∀ acc : List String, (x ∈ acc ∨ ∃ n ∈ l, env.ToLower n = x) →
      x ∈ l.foldl (fun m s => if env.ToLower s ∈ m then m else m ++ [env.ToLower s]) acc := by
  induction l with
  | nil =>
    intro acc h
    rcases h with h | ⟨n, hn, _⟩
    · exact h
    · cases hn
  | cons s l ih =>
    intro acc h
    rw [List.foldl_cons]
    apply ih
    rcases h with h | ⟨n, hn, hx⟩
    · left
      by_cases hs : env.ToLower s ∈ acc
      · rw [if_pos hs]; exact h
      · rw [if_neg hs]; exact List.mem_append_left _ h
    · rcases List.mem_cons.1 hn with rfl | hn
      · left
        by_cases hs : env.ToLower n ∈ acc
        · rw [if_pos hs, ← hx]; exact hs
        · rw [if_neg hs, ← hx]; exact List.mem_append_right _ (List.mem_singleton_self _)
      · exact Or.inr ⟨n, hn, hx⟩

theorem mem_makeSet (env : qcode.Env) (l : List String) (n : String) (h : n ∈ l) :
    env.ToLower n ∈ qcode.makeSet env l :=
  mem_makeSet_fold env (env.ToLower n) l [] (Or.inr ⟨n, h, rfl⟩)

theorem getRole_AddRole (env : qcode.Env) (co : qcode.Compiler) (role table : String)
    (trc : qcode.TRConfig) (hok : (qcode.AddRole env co role table trc).2 = none)
    (field : String) (hf : field = env.Singularize table ∨ field = env.Pluralize table) :
    ∃ trv : qcode.trval,
      qcode.getRole (qcode.AddRole env co role table trc).1 role field = trv ∧
      trv.query.cols = qcode.makeSet env trc.Query.Columns ∧
      trv.insert.cols = qcode.makeSet env trc.Insert.Columns ∧
      trv.update.cols = qcode.makeSet env trc.Update.Columns ∧
      trv.upsert.cols = qcode.makeSet env trc.Upsert.Columns ∧
      trv.delete.cols = qcode.makeSet env trc.Delete.Columns := by
  rcases AddRole_result env co role table trc with ⟨hne, _⟩ | ⟨trv, heq, _, hcols⟩
  · exact absurd hok hne
  · refine ⟨trv, ?_, hcols⟩
    rw [heq]
    have hl := lookup_mapSet_two co.tr (role ++ env.Singularize table)
      (role ++ env.Pluralize table) trv
    rcases hf with rfl | rfl
    · exact getRole_hit _ role _ trv hl.1
    · exact getRole_hit _ role _ trv hl.2.1

/-- C25 (amended): after a successful `AddRole(role, table, trc)`, for the trval that
`getRole` returns for `role` and the singular or the plural of `table`, for each of the five
operations and every name `n` in that operation's Columns, `columnAllowed` returns true for
the lower-cased name `ToLower(n)`; so it does for `n` itself when `n` is in lower case. -/
theorem columnAllowed_listed (env : qcode.Env) (co : qcode.Compiler) (role table : String)
    (trc : qcode.TRConfig) (hok : (qcode.AddRole env co role table trc).2 = none)
    (field : String) (hf : field = env.Singularize table ∨ field = env.Pluralize table)
    (qt : QCode) (n : String) :
    (qt.SType = .QTQuery → n ∈ trc.Query.Columns →
      (qcode.getRole (qcode.AddRole env co role table trc).1 role field).columnAllowed qt
        (env.ToLower n) = true) ∧
    (qt.SType = .QTInsert → n ∈ trc.Insert.Columns →
      (qcode.getRole (qcode.AddRole env co role table trc).1 role field).columnAllowed qt
        (env.ToLower n) = true) ∧
    (qt.SType = .QTUpdate → n ∈ trc.Update.Columns →
      (qcode.getRole (qcode.AddRole env co role table trc).1 role field).columnAllowed qt
        (env.ToLower n) = true) ∧
    (qt.SType = .QTUpsert → n ∈ trc.Upsert.Columns →
      (qcode.getRole (qcode.AddRole env co role table trc).1 role field).columnAllowed qt
        (env.ToLower n) = true) ∧
    (qt.SType = .QTDelete → n ∈ trc.Delete.Columns →
      (qcode.getRole (qcode.AddRole env co role table trc).1 role field).columnAllowed qt
        (env.ToLower n) = true) ∧
    (env.ToLower n = n → qt.SType = .QTQuery → n ∈ trc.Query.Columns →
      (qcode.getRole (qcode.AddRole env co role table trc).1 role field).columnAllowed qt n =
        true) := by
  obtain ⟨trv, ht, hq, hi, hu, hp, hd⟩ := getRole_AddRole env co role table trc hok field hf
  rw [ht]
  refine ⟨?_, ?_, ?_, ?_, ?_, ?_⟩
  · intro hs hn
    simp [qcode.trval.columnAllowed, hs, hq, mem_makeSet env _ n hn]
  · intro hs hn
    simp [qcode.trval.columnAllowed, hs, hi, mem_makeSet env _ n hn]
  · intro hs hn
    simp [qcode.trval.columnAllowed, hs, hu, mem_makeSet env _ n hn]
  · intro hs hn
    simp [qcode.trval.columnAllowed, hs, hp, mem_makeSet env _ n hn]
  · intro hs hn
    simp [qcode.trval.columnAllowed, hs, hd, mem_makeSet env _ n hn]
  · intro hl hs hn
    have hm := mem_makeSet env _ n hn
    rw [hl] at hm
    simp [qcode.trval.columnAllowed, hs, hq, hm]

set_option maxRecDepth 100000 in
/-- C25 (amended) at the sample configuration, whose query columns are `ID`, `name`: the
lower-cased `id` and the lower-case `name` are allowed for a query. -/
theorem columnAllowed_listed_witness :
    (qcode.AddRole sampleQEnv sampleCo "user" "users" sampleTrc).2 = none ∧
      "ID" ∈ sampleTrc.Query.Columns ∧
      (qcode.getRole (qcode.AddRole sampleQEnv sampleCo "user" "users" sampleTrc).1 "user"
        "users").columnAllowed sampleQCode (sampleQEnv.ToLower "ID") = true ∧
      (qcode.getRole sampleCoUser "user" "users").columnAllowed sampleQCode "id" = true ∧
      (qcode.getRole sampleCoUser "user" "users").columnAllowed sampleQCode "name" = true :=
  ⟨by decide, by decide,
    (columnAllowed_listed sampleQEnv sampleCo "user" "users" sampleTrc (by decide) "users"
      (Or.inr (by decide)) sampleQCode "ID").1 rfl (by decide),
    by decide, by decide⟩

set_option maxRecDepth 100000 in
/-- C25 as stated fails: the sample configuration lists the query column `ID`, `AddRole`
succeeds, and `columnAllowed` returns false for `ID` on a query, because `makeSet` stored
`id`. -/
theorem columnAllowed_upper_case :
    (qcode.AddRole sampleQEnv sampleCo "user" "users" sampleTrc).2 = none ∧
      sampleTrc.Query.Columns ≠ [] ∧ "ID" ∈ sampleTrc.Query.Columns ∧
      (qcode.getRole sampleCoUser "user" "users").query.cols = ["id", "name"] ∧
      (qcode.getRole sampleCoUser "user" "users").columnAllowed sampleQCode "ID" = false := by
  decide

theorem curScan_append (a b : List Char) (q : CurState) :
    curScan q (a ++ b) = curScan (curScan q a) b := by
  simp [curScan, List.foldl_append]

theorem curScan_found (t : List Char) : curScan .found t = .found := by
  induction t with
  | nil => rfl
  | cons ch t ih => simpa [curScan, curStep] using ih

theorem curScan_cons (q : CurState) (ch : Char) (t : List Char) :
    curScan q (ch :: t) = curScan (curStep q ch) t := rfl

theorem curScan_complete (t : List Char) :
    ∀ q, "__cur".toList <:+: t → curScan q t = .found := by
  induction t with
  | nil =>
    intro q h
    have := List.IsInfix.length_le h
    simp at this
  | cons ch t ih =>
    intro q h
    rcases List.infix_cons_iff.mp h with h | h
    · obtain ⟨r, hr⟩ := h
      have h1 : ch :: t = '_' :: '_' :: 'c' :: 'u' :: 'r' :: r := by
        rw [← hr]; rfl
      rw [h1]
      cases q <;> simp [curScan_cons, curStep, curScan_found]
    · rw [curScan_cons]
      exact ih _ h

theorem curScan_sound (t : List Char) :
    ∀ q, curScan q t = .found → "__cur".toList <:+: q.read ++ t := by
  induction t with
  | nil =>
    intro q h
    simp only [curScan, List.foldl_nil] at h
    subst h
    exact ⟨[], [], by simp [CurState.read]⟩
  | cons ch t ih =>
    intro q h
    rw [curScan_cons] at h
    have h2 := ih _ h
    have key : ∀ q2 : CurState, q2.read <:+ q.read ++ [ch] →
        "__cur".toList <:+: q2.read ++ t → "__cur".toList <:+: q.read ++ ch :: t := by
      intro q2 hsuf hin
      obtain ⟨u, hu⟩ := hsuf
      obtain ⟨x, y, hxy⟩ := hin
      refine ⟨u ++ x, y, ?_⟩
      have : q.read ++ ch :: t = (q.read ++ [ch]) ++ t := by simp
      rw [this, ← hu]
      simp only [List.append_assoc] at hxy ⊢
      rw [hxy]
    have hfound : q = .found → "__cur".toList <:+: q.read ++ ch :: t := by
      intro hq
      subst hq
      exact ⟨[], ch :: t, by simp [CurState.read]⟩
    by_cases h1 : ch = '_'
    · subst h1
      cases q with
      | found => exact hfound rfl
      | c0 =>
        refine key .c1 ?_ (by simpa [curStep] using h2)
        simp [CurState.read]
      | c1 =>
        refine key .c2 ?_ (by simpa [curStep] using h2)
        simp [CurState.read]
      | c2 =>
        refine key .c2 ?_ (by simpa [curStep] using h2)
        exact ⟨['_'], by simp [CurState.read]⟩
      | c3 =>
        refine key .c1 ?_ (by simpa [curStep] using h2)
        exact ⟨['_', '_', 'c'], by simp [CurState.read]⟩
      | c4 =>
        refine key .c1 ?_ (by simpa [curStep] using h2)
        exact ⟨['_', '_', 'c', 'u'], by simp [CurState.read]⟩
    · cases q with
      | found => exact hfound rfl
      | c0 =>
        refine key .c0 ?_ (by simpa [curStep, h1] using h2)
        simp [CurState.read]
      | c1 =>
        refine key .c0 ?_ (by simpa [curStep, h1] using h2)
        simp [CurState.read]
      | c2 =>
        by_cases hc : ch = 'c'
        · subst hc
          refine key .c3 ?_ (by simpa [curStep] using h2)
          simp [CurState.read]
        · refine key .c0 ?_ (by simpa [curStep, h1, hc] using h2)
          simp [CurState.read]
      | c3 =>
        by_cases hc : ch = 'u'
        · subst hc
          refine key .c4 ?_ (by simpa [curStep] using h2)
          simp [CurState.read]
        · refine key .c0 ?_ (by simpa [curStep, h1, hc] using h2)
          simp [CurState.read]
      | c4 =>
        by_cases hc : ch = 'r'
        · subst hc
          exact ⟨[], t, by simp [CurState.read]⟩
        · refine key .c0 ?_ (by simpa [curStep, h1, hc] using h2)
          simp [CurState.read]

theorem noCur_scan (s : String) (h : NoCur s) : curScan .c0 s.toList ≠ .found := by
  intro hf
  have := curScan_sound _ _ hf
  simp only [CurState.read, List.nil_append] at this
  exact h this

theorem goes_refl (a : Bool) (c : Ctx) : Goes a a c c :=
  ⟨[], by simp, fun q hq ha => ⟨hq, ha⟩⟩

theorem goes_self (a : Bool) (c : Ctx) : Goes a false c c :=
  ⟨[], by simp, fun q hq _ => ⟨hq, fun h => Bool.noConfusion h⟩⟩

theorem Goes.seq {a b d : Bool} {c c1 c2 : Ctx} (h1 : Goes a b c c1) (h2 : Goes b d c1 c2) :
    Goes a d c c2 := by
  obtain ⟨t1, e1, s1⟩ := h1
  obtain ⟨t2, e2, s2⟩ := h2
  refine ⟨t1 ++ t2, by rw [e2, e1, List.append_assoc], fun q hq ha => ?_⟩
  rw [curScan_append]
  exact s2 _ (s1 q hq ha).1 (s1 q hq ha).2

theorem Goes.start {b : Bool} {c c1 : Ctx} (h : Goes false b c c1) (a : Bool) :
    Goes a b c c1 := by
  obtain ⟨t, e, s⟩ := h
  exact ⟨t, e, fun q hq _ => s q hq (fun h => Bool.noConfusion h)⟩

theorem Goes.finish {a : Bool} {c c1 : Ctx} (h : Goes a true c c1) (b : Bool) :
    Goes a b c c1 := by
  obtain ⟨t, e, s⟩ := h
  exact ⟨t, e, fun q hq ha => ⟨(s q hq ha).1, fun _ => (s q hq ha).2 rfl⟩⟩

theorem goes_text (c : Ctx) (t : List Char) (h : CurResets t) (a b : Bool) :
    Goes a b c { w := c.w ++ t, md := c.md } := by
  refine ⟨t, rfl, fun q hq _ => ?_⟩
  have hq0 : curScan q t = .c0 := by
    cases q with
    | found => exact absurd rfl hq
    | c0 => exact h.1
    | c1 => exact h.2.1
    | c2 => exact h.2.2.1
    | c3 => exact h.2.2.2.1
    | c4 => exact h.2.2.2.2
  rw [hq0]
  exact ⟨by decide, fun _ => rfl⟩

theorem goes_reset {c : Ctx} (lit : String) (h : CurResets lit.toList) (a b : Bool) :
    Goes a b c (c.WriteString lit) :=
  goes_text c lit.toList h a b

theorem goes_keep {c : Ctx} (lit : String) (h : CurKeeps lit.toList) (a : Bool) :
    Goes a false c (c.WriteString lit) := by
  refine ⟨lit.toList, rfl, fun q hq _ => ⟨?_, fun h => Bool.noConfusion h⟩⟩
  cases q with
  | found => exact absurd rfl hq
  | c0 => exact h.1
  | c1 => exact h.2.1
  | c2 => exact h.2.2.1
  | c3 => exact h.2.2.2.1
  | c4 => exact h.2.2.2.2

theorem goes_str {c : Ctx} (s : String) (h : NoCur s) : Goes true false c (c.WriteString s) :=
  ⟨s.toList, rfl, fun q _ ha => ⟨by rw [ha rfl]; exact noCur_scan s h,
    fun h => Bool.noConfusion h⟩⟩

theorem goes_run {c : Ctx} (f : Helper) (h : ∀ md, NoCur (f md).1) :
    Goes true false c (c.run f) :=
  ⟨(f c.md).1.toList, by simp [Ctx.run], fun q _ ha =>
    ⟨by rw [ha rfl]; exact noCur_scan _ (h c.md), fun h => Bool.noConfusion h⟩⟩

theorem goes_foldl {α : Type} (f : Ctx → α → Ctx) (xs : List α) (a : Bool)
    (hf : ∀ c x, x ∈ xs → Goes a a c (f c x)) : ∀ c, Goes a a c (xs.foldl f c) := by
  induction xs with
  | nil => intro c; exact goes_refl a c
  | cons x xs ih =>
    intro c
    exact (hf c x (List.mem_cons_self _ _)).seq
      (ih (fun c y hy => hf c y (List.mem_cons_of_mem _ hy)) _)

theorem noCur_of_goes {a b : Bool} {c c1 : Ctx} (h : Goes a b c c1) :
    ∃ t, c1.w = c.w ++ t ∧ ¬ ("__cur".toList <:+: t) := by
  obtain ⟨t, e, s⟩ := h
  refine ⟨t, e, fun hin => ?_⟩
  exact (s .c0 (by decide) (fun _ => rfl)).1 (curScan_complete t .c0 hin)

theorem Goes.relax {a b : Bool} {c c1 : Ctx} (h : Goes a b c c1) : Goes a false c c1 := by
  obtain ⟨t, e, s⟩ := h
  exact ⟨t, e, fun q hq ha => ⟨(s q hq ha).1, fun h => Bool.noConfusion h⟩⟩

theorem Goes.reset {a b : Bool} {c c1 : Ctx} (h : Goes a b c c1) (lit : String)
    (hr : CurResets lit.toList) (d : Bool) : Goes a d c (c1.WriteString lit) :=
  h.seq (goes_reset lit hr b d)

theorem Goes.keep {a b : Bool} {c c1 : Ctx} (h : Goes a b c c1) (lit : String)
    (hr : CurKeeps lit.toList) : Goes a false c (c1.WriteString lit) :=
  h.seq (goes_keep lit hr b)

theorem Goes.str {a : Bool} {c c1 : Ctx} (h : Goes a true c c1) (s : String) (hs : NoCur s) :
    Goes a false c (c1.WriteString s) :=
  h.seq (goes_str s hs)

theorem Goes.run {a : Bool} {c c1 : Ctx} (h : Goes a true c c1) (f : Helper)
    (hf : ∀ md, NoCur (f md).1) : Goes a false c (c1.run f) :=
  h.seq (goes_run f hf)

theorem Goes.foldl {α : Type} {a : Bool} {c c1 : Ctx} (h : Goes a false c c1)
    (f : Ctx → α → Ctx) (xs : List α)
    (hf : ∀ c2 x, x ∈ xs → Goes a false c c2 → Goes a false c (f c2 x)) :
    Goes a false c (xs.foldl f c1) := by
  induction xs generalizing c1 with
  | nil => exact h
  | cons x xs ih =>
    exact ih (hf c1 x (List.mem_cons_self _ _) h)
      (fun c2 y hy => hf c2 y (List.mem_cons_of_mem _ hy))

theorem digitChar_plain :
    ∀ m, m < 10 → Nat.digitChar m ≠ '_' ∧ Nat.digitChar m ≠ 'c' ∧ Nat.digitChar m ≠ 'u' ∧
      Nat.digitChar m ≠ 'r' := by
  decide

theorem curStep_plain (q : CurState) (ch : Char) (hq : q ≠ .found) (h1 : ch ≠ '_')
    (h2 : ch ≠ 'c') (h3 : ch ≠ 'u') (h4 : ch ≠ 'r') : curStep q ch = .c0 := by
  cases q <;> simp_all [curStep]

theorem curScan_plain (t : List Char)
    (h : ∀ ch ∈ t, ch ≠ '_' ∧ ch ≠ 'c' ∧ ch ≠ 'u' ∧ ch ≠ 'r') :
    ∀ q, q ≠ .found → curScan q t ≠ .found := by
  induction t with
  | nil => intro q hq; exact hq
  | cons ch t ih =>
    intro q hq
    rw [curScan_cons]
    have hc := h ch (List.mem_cons_self _ _)
    rw [curStep_plain q ch hq hc.1 hc.2.1 hc.2.2.1 hc.2.2.2]
    exact ih (fun x hx => h x (List.mem_cons_of_mem _ hx)) _ (by decide)

theorem toDigitsCore_plain (fuel : Nat) :
    ∀ (n : Nat) (ds : List Char),
      (∀ ch ∈ ds, ch ≠ '_' ∧ ch ≠ 'c' ∧ ch ≠ 'u' ∧ ch ≠ 'r') →
      ∀ ch ∈ Nat.toDigitsCore 10 fuel n ds, ch ≠ '_' ∧ ch ≠ 'c' ∧ ch ≠ 'u' ∧ ch ≠ 'r' := by
  induction fuel with
  | zero => intro n ds h; exact h
  | succ fuel ih =>
    intro n ds h
    have hd := digitChar_plain (n % 10) (Nat.mod_lt _ (by decide))
    have g : ∀ ch ∈ (n % 10).digitChar :: ds, ch ≠ '_' ∧ ch ≠ 'c' ∧ ch ≠ 'u' ∧ ch ≠ 'r' := by
      intro ch hch
      rcases List.mem_cons.1 hch with rfl | hch
      · exact hd
      · exact h ch hch
    simp only [Nat.toDigitsCore]
    split
    · exact g
    · exact ih _ _ g

theorem natString_plain (n : Nat) :
    ∀ ch ∈ (toString n).toList, ch ≠ '_' ∧ ch ≠ 'c' ∧ ch ≠ 'u' ∧ ch ≠ 'r' :=
  toDigitsCore_plain (n + 1) n [] (fun ch h => by cases h)

theorem intString_plain (v : Int) :
    ∀ ch ∈ (toString v).toList, ch ≠ '_' ∧ ch ≠ 'c' ∧ ch ≠ 'u' ∧ ch ≠ 'r' := by
  cases v with
  | ofNat n => exact natString_plain n
  | negSucc n =>
    intro ch hch
    have hs : (toString (Int.negSucc n)).toList = '-' :: (toString (n + 1)).toList := rfl
    rw [hs] at hch
    rcases List.mem_cons.1 hch with rfl | hch
    · decide
    · exact natString_plain (n + 1) ch hch

theorem Goes.plain {a b : Bool} {c c1 : Ctx} (h : Goes a b c c1) (s : String)
    (hs : ∀ ch ∈ s.toList, ch ≠ '_' ∧ ch ≠ 'c' ∧ ch ≠ 'u' ∧ ch ≠ 'r') :
    Goes a false c (c1.WriteString s) := by
  refine h.seq ⟨s.toList, rfl, fun q hq _ => ⟨curScan_plain _ hs q hq, fun h => ?_⟩⟩
  exact Bool.noConfusion h

theorem Goes.then_int32String {a b : Bool} {c c1 : Ctx} (h : Goes a b c c1) (v : Int) :
    Goes a false c (int32String v c1) := by
  unfold int32String
  exact h.plain _ (intString_plain v)

theorem Goes.then_renderParam {a b : Bool} {c c1 : Ctx} (h : Goes a b c c1) (p : Param) :
    Goes a false c (renderParam p c1) := by
  have hmd : ∀ md : Metadata, Goes a b c { c1 with md := md } := by
    intro md
    obtain ⟨t, e, s⟩ := h
    exact ⟨t, e, s⟩
  unfold renderParam
  dsimp only
  split
  · exact (hmd _).keep "?" (by decide)
  · exact ((hmd _).reset "$" (by decide) false).plain _ (natString_plain _)

theorem Goes.then_colWithTable {a : Bool} {c c1 : Ctx} (h : Goes a true c c1) (t col : String)
    (ht : NoCur t) (hc : NoCur col) : Goes a false c (colWithTable t col c1) := by
  unfold colWithTable
  exact ((h.str t ht).reset "." (by decide) true).str col hc

theorem Goes.then_quoted {a b : Bool} {c c1 : Ctx} (h : Goes a b c c1) (s : String) (hs : NoCur s)
    (d : Bool) : Goes a d c (quoted s c1) := by
  unfold quoted
  exact ((h.reset "\"" (by decide) true).str s hs).reset "\"" (by decide) d

theorem Goes.then_squoted {a b : Bool} {c c1 : Ctx} (h : Goes a b c c1) (s : String) (hs : NoCur s)
    (d : Bool) : Goes a d c (squoted s c1) := by
  unfold squoted
  exact ((h.reset "'" (by decide) true).str s hs).reset "'" (by decide) d

theorem Goes.then_aliasWithID {a b : Bool} {c c1 : Ctx} (h : Goes a b c c1) (name : String)
    (id : Int) (hn : NoCur name) : Goes a false c (aliasWithID name id c1) := by
  unfold aliasWithID
  exact (((h.reset " AS " (by decide) true).str name hn).keep "_" (by decide)).then_int32String id

theorem foldl_bind_invariant {α β : Type} (f : β → α → Option β) (l : List α) (I : β → Prop)
    (hf : ∀ c p, p ∈ l → I c → ∀ r, f c p = some r → I r) :
    ∀ oc : Option β, (∀ c, oc = some c → I c) →
      ∀ r, l.foldl (fun (oc : Option β) p => oc.bind fun c => f c p) oc = some r → I r := by
  induction l with
  | nil => intro oc h r hr; exact h r hr
  | cons x l ih =>
    intro oc h r hr
    rw [List.foldl_cons] at hr
    refine ih (fun c p hp => hf c p (List.mem_cons_of_mem _ hp)) _ ?_ r hr
    intro c2 hc2
    obtain ⟨c0, h0, h1⟩ := Option.bind_eq_some.1 hc2
    exact hf c0 x (List.mem_cons_self _ _) (h c0 h0) c2 h1

theorem closers_invariant (I : Ctx → Prop) (hw : ∀ c, I c → I (c.WriteString ")"))
    (n : Nat) : ∀ c, I c → I ((List.range n).foldl (fun c _ => c.WriteString ")") c) := by
  induction n with
  | zero => intro c h; exact h
  | succ n ih =>
    intro c h
    rw [List.range_succ, List.foldl_append]
    exact hw _ (ih c h)

theorem renderNestedWhere_invariant (env : Env)
    (rexp : DBTableInfo → Exp → Bool → Ctx → Option Ctx) (I : Ctx → Prop) (ti : DBTableInfo)
    (ex : Exp) (hw : ∀ c (s : String), s = ")" ∨ s = " AND (" → I c → I (c.WriteString s))
    (hhop : ∀ i rel c, rel ∈ ex.Rels → I c → I (hopOpen env ti i rel c))
    (hr : ∀ rel ∈ ex.Rels, ∀ c r, I c → rexp rel.Left.Ti ex true c = some r → I r)
    (c : Ctx) (h : I c) : ∀ r, renderNestedWhere env rexp ti ex c = some r → I r := by
  intro r hres
  unfold renderNestedWhere at hres
  dsimp only at hres
  obtain ⟨c2, hc2, rfl⟩ := Option.map_eq_some'.1 hres
  refine closers_invariant I (fun c hc => hw c ")" (Or.inl rfl) hc) _ _ ?_
  refine foldl_bind_invariant (fun c p => renderNestedHop env rexp ti ex p.1 p.2 c) ex.Rels.enum
    I ?_ (some c) (fun c1 h1 => by cases h1; exact h) c2 hc2
  intro c1 p hp h1 r1 hr1
  dsimp only at hr1
  have hmem := List.snd_mem_of_mem_enum hp
  by_cases hi : p.1 = ex.Rels.length - 1
  · rw [renderNestedHop_last env rexp ti ex _ _ _ hi] at hr1
    obtain ⟨c3, hc3, rfl⟩ := Option.map_eq_some'.1 hr1
    exact hw _ ")" (Or.inl rfl)
      (hr p.2 hmem _ c3 (hw _ " AND (" (Or.inr rfl) (hhop p.1 p.2 c1 hmem h1)) hc3)
  · rw [renderNestedHop_inner env rexp ti ex _ _ _ hi] at hr1
    cases hr1
    exact hhop p.1 p.2 c1 hmem h1

theorem renderExpLoop_invariant (env : Env) (co : Compiler) (I : Ctx → Prop)
    (T : DBTableInfo → Prop) (P : Exp → Prop)
    (hw : ∀ c (s : String),
      s = "(" ∨ s = ")" ∨ s = " AND " ∨ s = " OR " ∨ s = "NOT " ∨ s = "false" ∨ s = " AND (" →
      I c → I (c.WriteString s))
    (hop : ∀ ti ex c, T ti → P ex → I c → I (renderOp env co ti ex c))
    (hhop : ∀ ti ex i rel c, P ex → rel ∈ ex.Rels → I c →
      I (hopOpen env ti i rel c) ∧ T rel.Left.Ti)
    (fuel : Nat) :
    ∀ (ti : DBTableInfo) (sk : Bool) (st : List StackItem) (c : Ctx), T ti →
      (∀ e, StackItem.exp e ∈ st → e.All P) → I c →
      ∀ r, renderExpLoop env co fuel ti sk st c = some r → I r := by
  induction fuel with
  | zero =>
    intro ti sk st c _ _ h r hr
    cases st with
    | nil =>
      simp only [renderExpLoop, Option.some.injEq] at hr
      exact hr ▸ h
    | cons x st => simp [renderExpLoop] at hr
  | succ fuel ih =>
    intro ti sk st c hti hst h r hr
    cases st with
    | nil =>
      simp only [renderExpLoop, Option.some.injEq] at hr
      exact hr ▸ h
    | cons x st =>
      have hst2 : ∀ e, StackItem.exp e ∈ st → e.All P :=
        fun e he => hst e (List.mem_cons_of_mem _ he)
      cases x with
      | rune val =>
        simp only [renderExpLoop] at hr
        refine ih ti sk st _ hti hst2 ?_ r hr
        split
        · exact hw _ _ (Or.inl rfl) h
        · split
          · exact hw _ _ (Or.inr (Or.inl rfl)) h
          · exact h
      | op val =>
        simp only [renderExpLoop] at hr
        refine ih ti sk st _ hti hst2 ?_ r hr
        split
        · exact hw _ _ (Or.inr (Or.inr (Or.inl rfl))) h
        · exact hw _ _ (Or.inr (Or.inr (Or.inr (Or.inl rfl)))) h
        · exact hw _ _ (Or.inr (Or.inr (Or.inr (Or.inr (Or.inl rfl))))) h
        · exact hw _ _ (Or.inr (Or.inr (Or.inr (Or.inr (Or.inr (Or.inl rfl)))))) h
        · exact h
      | exp val =>
        have hall : val.All P := hst val (List.mem_cons_self _ _)
        have hnode : P val := Exp.all_node val hall
        have hch : ∀ ch ∈ val.Children, ch.All P := Exp.all_children val hall
        by_cases h1 : val.Op = .OpFalse
        · simp only [renderExpLoop, h1] at hr
          refine ih ti sk _ c hti ?_ h r hr
          intro e he
          rcases List.mem_cons.mp he with h0 | h0
          · cases h0
          · exact hst2 e h0
        by_cases h4 : val.Op = .OpNot
        · cases hcs : val.Children with
          | nil => simp [renderExpLoop, h4, hcs] at hr
          | cons child rest =>
            simp only [renderExpLoop, h4, hcs] at hr
            refine ih ti sk _ c hti ?_ h r hr
            intro e he
            rcases List.mem_cons.mp he with h0 | h0
            · cases h0
            · rcases List.mem_cons.mp h0 with h0 | h0
              · cases h0
                exact hch _ (by rw [hcs]; exact List.mem_cons_self _ _)
              · exact hst2 e h0
        by_cases hAO : val.Op = .OpAnd ∨ val.Op = .OpOr
        · have hstep : renderExpLoop env co (fuel + 1) ti sk (.exp val :: st) c =
              renderExpLoop env co fuel ti sk
                (.rune '(' :: (interleaved val.Op val.Children ++ .rune ')' :: st)) c := by
            rcases hAO with h0 | h0 <;> simp only [renderExpLoop, h0, pushChildren_eq]
          rw [hstep] at hr
          refine ih ti sk _ c hti ?_ h r hr
          intro e he
          rcases List.mem_cons.mp he with h0 | h0
          · cases h0
          · rcases List.mem_append.mp h0 with h0 | h0
            · exact hch _ (mem_interleaved _ _ _ h0)
            · rcases List.mem_cons.mp h0 with h0 | h0
              · cases h0
              · exact hst2 e h0
        · have hA : val.Op ≠ .OpAnd := fun h0 => hAO (Or.inl h0)
          have hO : val.Op ≠ .OpOr := fun h0 => hAO (Or.inr h0)
          rw [renderExpLoop_leaf env co fuel ti sk val st c h1 hA hO h4] at hr
          split at hr
          · obtain ⟨c2, hc2, hc3⟩ := Option.bind_eq_some.1 hr
            refine ih ti sk st c2 hti hst2 ?_ r hc3
            refine renderNestedWhere_invariant env _ I ti val
              (fun c s hs => hw c s (by rcases hs with h0 | h0 <;> simp [h0]))
              (fun i rel c hrel hc => (hhop ti val i rel c hnode hrel hc).1) ?_ c h c2 hc2
            intro rel hrel c3 r3 hc3 hr3
            refine ih rel.Left.Ti true [.exp val] c3 (hhop ti val 0 rel c hnode hrel h).2 ?_ hc3
              r3 hr3
            intro e he
            rcases List.mem_cons.mp he with h0 | h0
            · cases h0
              exact hall
            · cases h0
          · exact ih ti sk st _ hti hst2 (hop ti val c hti hnode h) r hr

theorem Goes.sep {a b : Bool} {c c1 : Ctx} (h : Goes a b c c1) (i : Nat)
    (hb : i = 0 → b = true) :
    Goes a true c (if i ≠ 0 then c1.WriteString ", " else c1) := by
  by_cases hi : i = 0
  · rw [if_neg (by simpa using hi)]
    have := hb hi
    subst this
    exact h
  · rw [if_pos hi]
    exact h.reset ", " (by decide) true

theorem Goes.foldl_enumFrom {α : Type} {a : Bool} {c : Ctx} (f : Ctx → Nat × α → Ctx)
    (l : List α)
    (hf : ∀ c2 p b, p.2 ∈ l → (p.1 = 0 → b = true) → Goes a b c c2 →
      Goes a false c (f c2 p)) :
    ∀ (k : Nat) (b : Bool) (c1 : Ctx), (k = 0 → b = true) → Goes a b c c1 →
      Goes a false c ((l.enumFrom k).foldl f c1) := by
  induction l with
  | nil => intro k b c1 _ h; exact h.relax
  | cons x xs ih =>
    intro k b c1 hk h
    rw [List.enumFrom_cons, List.foldl_cons]
    exact ih (fun c2 p b2 hp hp0 h2 => hf c2 p b2 (List.mem_cons_of_mem _ hp) hp0 h2) (k + 1)
      false _ (fun h0 => absurd h0 (Nat.succ_ne_zero k))
      (hf c1 (k, x) b (List.mem_cons_self _ _) hk h)

theorem Goes.foldl_enum {α : Type} {a : Bool} {c c1 : Ctx} (h : Goes a true c c1)
    (f : Ctx → Nat × α → Ctx) (l : List α)
    (hf : ∀ c2 p b, p.2 ∈ l → (p.1 = 0 → b = true) → Goes a b c c2 →
      Goes a false c (f c2 p)) :
    Goes a false c (l.enum.foldl f c1) :=
  Goes.foldl_enumFrom f l hf 0 true c1 (fun _ => rfl) h

theorem Goes.then_renderLimit {a b : Bool} {c c1 : Ctx} (h : Goes a b c c1) (sel : Select) :
    Goes a false c (renderLimit sel c1) := by
  have h1 : Goes a false c
      (if sel.Paging.NoLimit then c1
      else if sel.Singular then c1.WriteString " LIMIT 1"
      else if sel.Paging.LimitVar ≠ "" then
        (int32String sel.Paging.Limit
          ((renderParam { Name := sel.Paging.LimitVar, Typ := "integer", IsArray := false }
            (c1.WriteString " LIMIT LEAST(")).WriteString ", ")).WriteString ")"
      else int32String sel.Paging.Limit (c1.WriteString " LIMIT ")) := by
    split
    · exact h.relax
    · split
      · exact h.reset _ (by decide) _
      · split
        · exact ((((h.reset " LIMIT LEAST(" (by decide) false).then_renderParam _).reset ", "
            (by decide) false).then_int32String _).reset ")" (by decide) false
        · exact (h.reset " LIMIT " (by decide) false).then_int32String _
  unfold renderLimit
  dsimp only
  split
  · exact (h1.reset " OFFSET " (by decide) false).then_renderParam _
  · split
    · exact (h1.reset " OFFSET " (by decide) false).then_int32String _
    · exact h1

theorem Goes.then_renderGroupBy {a b : Bool} {c c1 : Ctx} (h : Goes a b c c1) (sel : Select)
    (ht : NoCur sel.Table) (hc : ∀ col ∈ sel.Cols, NoCur col.Col.Name) :
    Goes a false c (renderGroupBy sel c1) := by
  unfold renderGroupBy
  split
  · exact h.relax
  · refine Goes.foldl_enum (h.reset " GROUP BY " (by decide) true) _ _ ?_
    intro c2 p b hp hb h2
    exact (h2.sep p.1 hb).then_colWithTable _ _ ht (hc _ hp)

theorem Goes.then_renderOrderBy {a b : Bool} {c c1 : Ctx} (h : Goes a b c c1) (sel : Select)
    (ht : NoCur sel.Table) (hc : ∀ ob ∈ sel.OrderBy, NoCur ob.Col.Name) :
    Goes a false c (renderOrderBy sel c1) := by
  unfold renderOrderBy
  split
  · exact h.relax
  · refine Goes.foldl_enum (h.reset " ORDER BY " (by decide) true) _ _ ?_
    intro c2 p b hp hb h2
    have h3 := (h2.sep p.1 hb).then_colWithTable _ _ ht (hc _ hp)
    dsimp only
    split <;> exact h3.reset _ (by decide) _

theorem Goes.then_renderDistinctOn {a : Bool} {c c1 : Ctx} (h : Goes a true c c1) (sel : Select)
    (ht : NoCur sel.Table) (hc : ∀ col ∈ sel.DistinctOn, NoCur col.Name) :
    Goes a true c (renderDistinctOn sel c1) := by
  unfold renderDistinctOn
  split
  · exact h
  · dsimp only
    refine Goes.reset (b := false) ?_ ") " (by decide) true
    refine Goes.foldl_enum (h.reset "DISTINCT ON (" (by decide) true) _ _ ?_
    intro c2 p b hp hb h2
    exact (h2.sep p.1 hb).then_colWithTable _ _ ht (hc _ hp)

theorem Goes.then_renderJoin {a b : Bool} {c c1 : Ctx} (h : Goes a b c c1) (rel : DBRel)
    (hr : RelNoCur rel) : Goes a true c (renderJoin rel c1) := by
  obtain ⟨h1, h2, h3, h4, _, _, _, _⟩ := hr
  have h0 := ((h.reset " LEFT OUTER JOIN \"" (by decide) true).str _ h3).reset "\" ON (("
    (by decide) true
  unfold renderJoin
  dsimp only
  refine Goes.reset (b := false) ?_ "))" (by decide) true
  split
  · exact ((h0.then_colWithTable _ _ h1 h2).reset ") = any (" (by decide) true).then_colWithTable _ _ h3 h4
  · split
    · exact ((h0.then_colWithTable _ _ h3 h4).reset ") = any (" (by decide) true).then_colWithTable _ _ h1 h2
    · exact ((h0.then_colWithTable _ _ h3 h4).reset ") = (" (by decide) true).then_colWithTable _ _ h1 h2

theorem Goes.then_renderJoinTables {a b : Bool} {c c1 : Ctx} (h : Goes a b c c1) (rel : DBRel)
    (hr : RelNoCur rel) : Goes a false c (renderJoinTables rel c1) := by
  unfold renderJoinTables
  split
  · exact (h.then_renderJoin rel hr).relax
  · exact h.relax

theorem Goes.then_renderFrom {a b : Bool} {c c1 : Ctx} (h : Goes a b c c1) (sel : Select)
    (hcur : sel.Paging.Cursor = false) (hs : sel.NoCurs) :
    Goes a true c (renderFrom sel c1) := by
  obtain ⟨ht, ⟨hl, _, _, _, hv, hrc, _, _⟩, _, hty, _, hcols, _⟩ := hs
  have h0 := h.reset " FROM " (by decide) true
  unfold renderFrom
  simp only [hcur, Bool.false_eq_true, if_false]
  split
  · refine Goes.reset (b := false) ?_ ")" (by decide) true
    refine Goes.foldl_enum ?_ _ _ ?_
    · exact ((((((h0.reset "\"" (by decide) true).str _ hl).reset "\", " (by decide) true).str _
        hty).reset "_to_recordset(" (by decide) true).then_colWithTable _ _ hl hrc).reset ") AS "
        (by decide) true |>.then_quoted _ ht false |>.reset "(" (by decide) true
    · intro c2 p b hp hb h2
      exact (((h2.sep p.1 hb).str _ (hcols _ hp).1).reset " " (by decide) true).str _
        (hcols _ hp).2
  · exact (((h0.reset "(SELECT * FROM " (by decide) true).then_quoted _ hv false).reset " OFFSET 1) "
      (by decide) true).then_quoted _ ht true
  · exact h0.then_quoted _ ht true

theorem Goes.then_renderList {a b : Bool} {c c1 : Ctx} (h : Goes a b c c1) (ex : Exp)
    (hex : ex.NoCurs) : Goes a true c (renderList ex c1) := by
  unfold renderList
  dsimp only
  refine Goes.reset (b := false) ?_ "])" (by decide) true
  refine Goes.foldl_enum (h.reset " (ARRAY[" (by decide) true) _ _ ?_
  intro c2 p b2 hp hb h2
  have h3 := h2.sep p.1 hb
  have hv := hex.2.2.2.2.1 _ hp
  split
  · exact h3.str _ hv
  · exact h3.str _ hv
  · exact ((h3.reset "'" (by decide) true).str _ hv).reset "'" (by decide) false
  · exact h3.relax

theorem Goes.then_cast {a b : Bool} {c c1 : Ctx} (h : Goes a b c c1) (ty : String)
    (hty : NoCur ty) :
    Goes a false c
      (if c1.md.ct ≠ "mysql" then (c1.WriteString " :: ").WriteString ty else c1) := by
  split
  · exact (h.reset " :: " (by decide) true).str _ hty
  · exact h.relax

theorem Goes.then_renderVal {a b : Bool} {c c1 : Ctx} (h : Goes a b c c1) (env : Env)
    (ex : Exp) (vars : List (String × String)) (hex : ex.NoCurs) (hvars : VarsNoCur env vars) :
    Goes a false c (renderVal env ex vars c1) := by
  obtain ⟨hcn, hct, htb, hval, _, _⟩ := hex
  have h0 := h.reset " " (by decide) true
  unfold renderVal
  dsimp only
  generalize c1.WriteString " " = c2 at h0
  cases hty : ex.Typ <;> dsimp only
  case ValVar =>
    cases hl : vars.lookup ex.Val with
    | some val =>
      dsimp only
      obtain ⟨hlit, hsql⟩ := hvars _ _ hl
      by_cases hs : val.startsWith "sql:" = true
      · rw [if_pos hs]
        have h3 := ((h0.reset "(" (by decide) true).run _ (hsql hs)).reset ")" (by decide) false
        split
        · exact h3
        · exact h3.then_cast _ hct
      · rw [if_neg hs]
        exact (h0.then_squoted val (hlit (by simpa using hs)) false).then_cast _ hct
    | none =>
      dsimp only
      split
      · exact (((((h0.reset "(ARRAY(SELECT json_array_elements_text(" (by decide)
          false).then_renderParam _).reset "))" (by decide) false).reset " :: " (by decide)
          true).str _ hct).reset "[])" (by decide) false
      · exact (h0.then_renderParam _).then_cast _ hct
  case ValRef => exact (h0.then_colWithTable _ _ htb hcn).then_cast _ hct
  all_goals exact (h0.then_squoted ex.Val hval false).then_cast _ hct

theorem Goes.then_renderOpColumn {a b : Bool} {c c1 : Ctx} (h : Goes a b c c1)
    (ti : DBTableInfo) (ex : Exp) (hti : NoCur ti.Name) (hex : ex.NoCurs) :
    Goes a b c (renderOpColumn ti ex c1) := by
  unfold renderOpColumn
  split
  · dsimp only
    refine Goes.reset (b := false) ?_ ") " (by decide) b
    split
    · exact (h.reset "((" (by decide) true).then_colWithTable _ _ hex.2.2.1 hex.1
    · exact (h.reset "((" (by decide) true).then_colWithTable _ _ hti hex.1
  · exact h

theorem Goes.then_renderOpValue {a b : Bool} {c c1 : Ctx} (h : Goes a b c c1) (env : Env)
    (co : Compiler) (ex : Exp) (hex : ex.NoCurs) (hvars : VarsNoCur env co.vars) :
    Goes a true c (renderOpValue env co ex c1) := by
  unfold renderOpValue
  dsimp only
  refine Goes.reset (b := false) ?_ ")" (by decide) true
  split
  · exact (h.then_renderList ex hex).relax
  · exact h.then_renderVal env ex co.vars hex hvars

theorem Goes.then_renderOp {a b : Bool} {c c1 : Ctx} (h : Goes a b c c1) (env : Env)
    (co : Compiler) (ti : DBTableInfo) (ex : Exp) (hti : NoCur ti.Name)
    (htsv : NoCur ti.TSVCol.Name) (hex : ex.NoCurs) (hvars : VarsNoCur env co.vars) :
    Goes a false c (renderOp env co ti ex c1) := by
  have hcol := h.then_renderOpColumn ti ex hti hex
  have hval : ∀ (c2 : Ctx) (b2 : Bool), Goes a b2 c c2 →
      Goes a false c (renderOpValue env co ex c2) := fun c2 b2 h2 =>
    (h2.then_renderOpValue env co ex hex hvars).relax
  unfold renderOp
  generalize renderOpColumn ti ex c1 = c2 at hcol
  cases hop : ex.Op <;> simp only [reduceCtorEq, if_false, if_true]
  case OpNop => exact h.relax
  case OpEqualsTrue =>
    exact ((hcol.reset "((VALUES(true)) = " (by decide) false).then_renderParam _).reset ")"
      (by decide) false
  case OpNotEqualsTrue =>
    exact ((hcol.reset "((VALUES(true)) != " (by decide) false).then_renderParam _).reset ")"
      (by decide) false
  case OpIsNull =>
    split
    · exact hcol.reset "IS NULL)" (by decide) false
    · exact hcol.reset "IS NOT NULL)" (by decide) false
  case OpTsQuery =>
    split
    · exact hcol.relax
    · refine Goes.reset (b := false) ?_ "))" (by decide) false
      refine Goes.then_renderParam (b := true) ?_ _
      have h3 := (hcol.reset "((" (by decide) true).then_colWithTable _ _ hti htsv
      split
      · exact h3.reset _ (by decide) true
      · exact h3.reset _ (by decide) true
  all_goals
    first
      | with_reducible exact hval _ _ hcol
      | with_reducible exact hval _ _ (hcol.reset _ (by decide) false)

theorem Goes.then_hopOpen {a b : Bool} {c c1 : Ctx} (h : Goes a b c c1) (env : Env)
    (ti : DBTableInfo) (i : Nat) (rel : DBRel) (henv : env.NoCurs) (hrel : RelNoCur rel) :
    Goes a false c (hopOpen env ti i rel c1) := by
  have h0 : Goes a false c (if i ≠ 0 then c1.WriteString " AND " else c1) := by
    split
    · exact h.reset _ (by decide) _
    · exact h.relax
  unfold hopOpen
  dsimp only
  exact ((((h0.reset "EXISTS (SELECT 1 FROM " (by decide) true).str _ hrel.1).then_renderJoinTables
    rel hrel).reset " WHERE " (by decide) true).run _ (henv.1 _ _ _ _)

theorem goes_renderExpLoop {a : Bool} {c : Ctx} (env : Env) (co : Compiler) (fuel : Nat)
    (henv : env.NoCurs) (hvars : VarsNoCur env co.vars) (ti : DBTableInfo) (sk : Bool)
    (st : List StackItem) (c1 : Ctx) (hti : NoCur ti.Name ∧ NoCur ti.TSVCol.Name)
    (hst : ∀ e, StackItem.exp e ∈ st → e.All Exp.NoCurs) (h : Goes a false c c1) :
    OGoes a false c (renderExpLoop env co fuel ti sk st c1) := by
  intro r hr
  refine renderExpLoop_invariant env co (fun c2 => Goes a false c c2)
    (fun ti => NoCur ti.Name ∧ NoCur ti.TSVCol.Name) Exp.NoCurs ?_ ?_ ?_ fuel ti sk st c1 hti hst
    h r hr
  · intro c2 s hs h2
    rcases hs with h0 | h0 | h0 | h0 | h0 | h0 | h0 <;> subst h0 <;>
      exact h2.reset _ (by decide) _
  · intro ti2 ex c2 ht hex h2
    exact h2.then_renderOp env co ti2 ex ht.1 ht.2 hex hvars
  · intro ti2 ex i rel c2 hex hrel h2
    have hr := hex.2.2.2.2.2 rel hrel
    exact ⟨h2.then_hopOpen env ti2 i rel henv hr, hr.2.2.2.2.2.2.1, hr.2.2.2.2.2.2.2⟩

theorem goes_renderWhere {a b : Bool} {c c1 : Ctx} (h : Goes a b c c1) (env : Env)
    (co : Compiler) (fuel : Nat) (sel : Select) (henv : env.NoCurs)
    (hvars : VarsNoCur env co.vars) (hs : sel.NoCurs) :
    OGoes a false c (renderWhere env co fuel sel c1) := by
  intro r hr
  unfold renderWhere at hr
  split at hr
  · cases hr
    exact h.relax
  · dsimp only at hr
    obtain ⟨c2, hc2, rfl⟩ := Option.map_eq_some'.1 hr
    refine Goes.reset (b := false) ?_ ")" (by decide) false
    have h0 := (h.reset " WHERE (" (by decide) true).run _
      (henv.1 sel.Ti sel.Rel (if sel.Typ = .SelTypeMember then sel.UParentID else sel.ParentID)
        (some sel.ArgMap))
    cases hw : sel.Where with
    | none =>
      rw [hw] at hc2
      cases hc2
      exact h0
    | some ex =>
      rw [hw] at hc2
      dsimp only at hc2
      unfold renderExp at hc2
      refine goes_renderExpLoop env co fuel henv hvars sel.Ti false [.exp ex] _
        ⟨hs.2.2.1, hs.2.2.2.2.1⟩ ?_ ?_ c2 hc2
      · intro e he
        rcases List.mem_cons.mp he with h1 | h1
        · cases h1
          exact hs.2.2.2.2.2.2.2.2.2 ex hw
        · cases h1
      · split
        · exact h0.reset _ (by decide) _
        · exact h0

theorem goes_renderBaseSelect {a : Bool} {c c1 : Ctx} (h : Goes a true c c1) (env : Env)
    (co : Compiler) (fuel : Nat) (sel : Select) (hcur : sel.Paging.Cursor = false)
    (henv : env.NoCurs) (hvars : VarsNoCur env co.vars) (hs : sel.NoCurs) :
    OGoes a false c (renderBaseSelect env co fuel sel c1) := by
  intro r hr
  unfold renderBaseSelect at hr
  dsimp only at hr
  obtain ⟨c2, hc2, rfl⟩ := Option.map_eq_some'.1 hr
  have hcte : renderCursorCTE sel c1 = c1 := by simp [renderCursorCTE, hcur]
  rw [hcte] at hc2
  have h0 := ((((h.reset "SELECT " (by decide) true).then_renderDistinctOn sel hs.1
    hs.2.2.2.2.2.2.2.2.1).run _ (henv.2.2.1 sel)).then_renderFrom sel hcur
    hs).then_renderJoinTables sel.Rel hs.2.1
  have h2 : Goes a false c c2 := by
    split at hc2
    · exact goes_renderWhere h0 env co fuel sel henv hvars hs c2 hc2
    · cases hc2
      exact h0
  exact ((h2.then_renderGroupBy sel hs.1 hs.2.2.2.2.2.2.1).then_renderOrderBy sel hs.1
    hs.2.2.2.2.2.2.2.1).then_renderLimit sel

theorem Goes.then_renderPluralSelect {a b : Bool} {c c1 : Ctx} (h : Goes a b c c1)
    (sel : Select) (hcur : sel.Paging.Cursor = false) :
    Goes a b c (renderPluralSelect sel c1) := by
  unfold renderPluralSelect
  split
  · exact h
  · simp only [hcur, Bool.false_eq_true, if_false]
    refine Goes.reset (b := false) ?_ " FROM (" (by decide) b
    refine Goes.reset (b := false) ?_ ".json), '[]') as json" (by decide) false
    refine Goes.then_int32String (b := false) ?_ _
    split
    · exact h.keep _ (by decide)
    · exact h.keep _ (by decide)

theorem goes_renderSelect {a b : Bool} {c c1 : Ctx} (h : Goes a b c c1) (env : Env)
    (co : Compiler) (fuel : Nat) (sel : Select) (hcur : sel.Paging.Cursor = false)
    (henv : env.NoCurs) (hvars : VarsNoCur env co.vars) (hs : sel.NoCurs) :
    OGoes a false c (renderSelect env co fuel sel c1) := by
  intro r hr
  unfold renderSelect at hr
  simp only [hcur, Bool.false_eq_true, if_false] at hr
  obtain ⟨c2, hc2, rfl⟩ := Option.map_eq_some'.1 hr
  refine Goes.then_aliasWithID (b := true) ?_ _ _ hs.1
  refine Goes.reset (b := false) ?_ ")" (by decide) true
  refine goes_renderBaseSelect ?_ env co fuel sel hcur henv hvars hs c2 hc2
  refine Goes.reset (b := false) ?_ " FROM (" (by decide) true
  refine Goes.run ?_ _ (henv.2.1 sel)
  refine Goes.reset (b := false) ?_ "FROM (SELECT " (by decide) true
  refine Goes.reset (b := false) ?_ "AS json " (by decide) false
  split
  · exact ((h.reset "SELECT json_object(" (by decide) true).run _ (henv.2.2.2 sel)).reset ") "
      (by decide) false
  · exact ((h.keep "SELECT to_jsonb(__sr_" (by decide)).then_int32String _).reset ".*) "
      (by decide) false

theorem spares_refl (name : String) (c : Ctx) : Spares name c c := rfl

theorem spares_of_md {name : String} {c c1 c2 : Ctx} (h : Spares name c c1)
    (hmd : c2.md = c1.md) : Spares name c c2 := by
  unfold Spares at h ⊢
  rw [hmd, h]

theorem spares_WriteString {name : String} {c c1 : Ctx} (s : String) (h : Spares name c c1) :
    Spares name c (c1.WriteString s) :=
  spares_of_md h rfl

theorem spares_run {name : String} {c c1 : Ctx} (f : Helper)
    (hf : ∀ md, (f md).2.registered name = md.registered name) (h : Spares name c c1) :
    Spares name c (c1.run f) := by
  unfold Spares at h ⊢
  rw [← h]
  exact hf c1.md

theorem spares_foldl {α : Type} {name : String} {c : Ctx} (f : Ctx → α → Ctx) (xs : List α)
    (c1 : Ctx) (hf : ∀ c2 x, Spares name c c2 → Spares name c (f c2 x))
    (h : Spares name c c1) : Spares name c (xs.foldl f c1) := by
  induction xs generalizing c1 with
  | nil => exact h
  | cons x xs ih => exact ih _ (hf c1 x h)

theorem spares_int32String {name : String} {c c1 : Ctx} (v : Int) (h : Spares name c c1) :
    Spares name c (int32String v c1) :=
  spares_of_md h rfl

theorem spares_colWithTable {name : String} {c c1 : Ctx} (t col : String)
    (h : Spares name c c1) : Spares name c (colWithTable t col c1) :=
  spares_of_md h rfl

theorem spares_quoted {name : String} {c c1 : Ctx} (s : String) (h : Spares name c c1) :
    Spares name c (quoted s c1) :=
  spares_of_md h rfl

theorem spares_squoted {name : String} {c c1 : Ctx} (s : String) (h : Spares name c c1) :
    Spares name c (squoted s c1) :=
  spares_of_md h rfl

theorem spares_aliasWithID {name : String} {c c1 : Ctx} (s : String) (id : Int)
    (h : Spares name c c1) : Spares name c (aliasWithID s id c1) :=
  spares_of_md h rfl

theorem spares_renderParam {name : String} {c c1 : Ctx} (p : Param) (hp : p.Name ≠ name)
    (h : Spares name c c1) : Spares name c (renderParam p c1) := by
  have hmd : (renderParam p c1).md.registered name = c1.md.registered name := by
    unfold renderParam
    cases hl : c1.md.pindex.lookup p.Name with
    | some id =>
      dsimp only
      split <;> rfl
    | none =>
      dsimp only
      have hreg : Metadata.registered
          { c1.md with
            params := c1.md.params ++ [p]
            pindex := c1.md.pindex ++ [(p.Name, (c1.md.params ++ [p]).length)] } name =
          c1.md.registered name := by
        simp [Metadata.registered, List.filter_append, hp]
      split
      · exact hreg
      · exact hreg
  unfold Spares at h ⊢
  rw [hmd, h]

theorem spares_renderLimit {name : String} {c c1 : Ctx} (sel : Select)
    (hl : sel.Paging.LimitVar ≠ name) (ho : sel.Paging.OffsetVar ≠ name)
    (h : Spares name c c1) : Spares name c (renderLimit sel c1) := by
  unfold renderLimit
  try dsimp only
  repeat (first
    | with_reducible assumption
    | with_reducible apply spares_WriteString
    | with_reducible apply spares_int32String
    | with_reducible apply spares_colWithTable
    | with_reducible apply spares_quoted
    | with_reducible apply spares_squoted
    | with_reducible apply spares_aliasWithID
    | with_reducible refine spares_renderParam _ hl ?_
    | with_reducible refine spares_renderParam _ ho ?_
    | with_reducible refine spares_foldl _ _ _ (fun _ _ _ => ?_) ?_
    | split)

theorem spares_renderGroupBy {name : String} {c c1 : Ctx} (sel : Select)
    (h : Spares name c c1) : Spares name c (renderGroupBy sel c1) := by
  unfold renderGroupBy
  try dsimp only
  repeat (first
    | with_reducible assumption
    | with_reducible apply spares_WriteString
    | with_reducible apply spares_int32String
    | with_reducible apply spares_colWithTable
    | with_reducible apply spares_quoted
    | with_reducible apply spares_squoted
    | with_reducible apply spares_aliasWithID
    | with_reducible refine spares_foldl _ _ _ (fun _ _ _ => ?_) ?_
    | split)

theorem spares_renderOrderBy {name : String} {c c1 : Ctx} (sel : Select)
    (h : Spares name c c1) : Spares name c (renderOrderBy sel c1) := by
  unfold renderOrderBy
  try dsimp only
  repeat (first
    | with_reducible assumption
    | with_reducible apply spares_WriteString
    | with_reducible apply spares_int32String
    | with_reducible apply spares_colWithTable
    | with_reducible apply spares_quoted
    | with_reducible apply spares_squoted
    | with_reducible apply spares_aliasWithID
    | with_reducible refine spares_foldl _ _ _ (fun _ _ _ => ?_) ?_
    | split)

theorem spares_renderDistinctOn {name : String} {c c1 : Ctx} (sel : Select)
    (h : Spares name c c1) : Spares name c (renderDistinctOn sel c1) := by
  unfold renderDistinctOn
  try dsimp only
  repeat (first
    | with_reducible assumption
    | with_reducible apply spares_WriteString
    | with_reducible apply spares_int32String
    | with_reducible apply spares_colWithTable
    | with_reducible apply spares_quoted
    | with_reducible apply spares_squoted
    | with_reducible apply spares_aliasWithID
    | with_reducible refine spares_foldl _ _ _ (fun _ _ _ => ?_) ?_
    | split)

theorem spares_renderJoin {name : String} {c c1 : Ctx} (rel : DBRel)
    (h : Spares name c c1) : Spares name c (renderJoin rel c1) := by
  unfold renderJoin
  try dsimp only
  repeat (first
    | with_reducible assumption
    | with_reducible apply spares_WriteString
    | with_reducible apply spares_int32String
    | with_reducible apply spares_colWithTable
    | with_reducible apply spares_quoted
    | with_reducible apply spares_squoted
    | with_reducible apply spares_aliasWithID
    | with_reducible refine spares_foldl _ _ _ (fun _ _ _ => ?_) ?_
    | split)

theorem spares_renderJoinTables {name : String} {c c1 : Ctx} (rel : DBRel)
    (h : Spares name c c1) : Spares name c (renderJoinTables rel c1) := by
  unfold renderJoinTables
  try dsimp only
  repeat (first
    | with_reducible assumption
    | with_reducible apply spares_WriteString
    | with_reducible apply spares_int32String
    | with_reducible apply spares_colWithTable
    | with_reducible apply spares_quoted
    | with_reducible apply spares_squoted
    | with_reducible apply spares_aliasWithID
    | with_reducible apply spares_renderJoin
    | with_reducible refine spares_foldl _ _ _ (fun _ _ _ => ?_) ?_
    | split)

theorem spares_renderFrom {name : String} {c c1 : Ctx} (sel : Select)
    (h : Spares name c c1) : Spares name c (renderFrom sel c1) := by
  unfold renderFrom
  try dsimp only
  repeat (first
    | with_reducible assumption
    | with_reducible apply spares_WriteString
    | with_reducible apply spares_int32String
    | with_reducible apply spares_colWithTable
    | with_reducible apply spares_quoted
    | with_reducible apply spares_squoted
    | with_reducible apply spares_aliasWithID
    | with_reducible refine spares_foldl _ _ _ (fun _ _ _ => ?_) ?_
    | split)

theorem spares_renderList {name : String} {c c1 : Ctx} (ex : Exp)
    (h : Spares name c c1) : Spares name c (renderList ex c1) := by
  unfold renderList
  try dsimp only
  repeat (first
    | with_reducible assumption
    | with_reducible apply spares_WriteString
    | with_reducible apply spares_int32String
    | with_reducible apply spares_colWithTable
    | with_reducible apply spares_quoted
    | with_reducible apply spares_squoted
    | with_reducible apply spares_aliasWithID
    | with_reducible refine spares_foldl _ _ _ (fun _ _ _ => ?_) ?_
    | split)

theorem spares_renderOpColumn {name : String} {c c1 : Ctx} (ti : DBTableInfo) (ex : Exp)
    (h : Spares name c c1) : Spares name c (renderOpColumn ti ex c1) := by
  unfold renderOpColumn
  try dsimp only
  repeat (first
    | with_reducible assumption
    | with_reducible apply spares_WriteString
    | with_reducible apply spares_int32String
    | with_reducible apply spares_colWithTable
    | with_reducible apply spares_quoted
    | with_reducible apply spares_squoted
    | with_reducible apply spares_aliasWithID
    | with_reducible refine spares_foldl _ _ _ (fun _ _ _ => ?_) ?_
    | split)

theorem spares_renderPluralSelect {name : String} {c c1 : Ctx} (sel : Select)
    (h : Spares name c c1) : Spares name c (renderPluralSelect sel c1) := by
  unfold renderPluralSelect
  try dsimp only
  repeat (first
    | with_reducible assumption
    | with_reducible apply spares_WriteString
    | with_reducible apply spares_int32String
    | with_reducible apply spares_colWithTable
    | with_reducible apply spares_quoted
    | with_reducible apply spares_squoted
    | with_reducible apply spares_aliasWithID
    | with_reducible refine spares_foldl _ _ _ (fun _ _ _ => ?_) ?_
    | split)

theorem spares_cast {name : String} {c c1 : Ctx} (ty : String) (h : Spares name c c1) :
    Spares name c
      (if c1.md.ct ≠ "mysql" then (c1.WriteString " :: ").WriteString ty else c1) := by
  split
  · exact spares_WriteString _ (spares_WriteString _ h)
  · exact h

theorem spares_renderVal {name : String} {c c1 : Ctx} (env : Env) (ex : Exp)
    (vars : List (String × String)) (henv : env.Spares name)
    (hex : ¬ ex.NamesParam vars name) (h : Spares name c c1) :
    Spares name c (renderVal env ex vars c1) := by
  have h0 := spares_WriteString " " h
  unfold renderVal
  dsimp only
  generalize c1.WriteString " " = c2 at h0
  cases hty : ex.Typ <;> dsimp only
  case ValVar =>
    cases hl : vars.lookup ex.Val with
    | some val =>
      dsimp only
      split
      · have h3 := spares_WriteString ")" (spares_run _ (henv.2.2.2.2 (val.drop 4))
          (spares_WriteString "(" h0))
        split
        · exact h3
        · exact spares_cast _ h3
      · exact spares_cast _ (spares_squoted _ h0)
    | none =>
      have hne : ex.Val ≠ name := fun hv => hex ⟨hv, Or.inl ⟨hty, hl⟩⟩
      dsimp only
      split
      · exact spares_WriteString _ (spares_WriteString _ (spares_WriteString _
          (spares_WriteString _ (spares_renderParam _ hne (spares_WriteString _ h0)))))
      · exact spares_cast _ (spares_renderParam _ hne h0)
  case ValRef => exact spares_cast _ (spares_colWithTable _ _ h0)
  all_goals exact spares_cast _ (spares_squoted _ h0)

theorem spares_renderOpValue {name : String} {c c1 : Ctx} (env : Env) (co : Compiler)
    (ex : Exp) (henv : env.Spares name) (hex : ¬ ex.NamesParam co.vars name)
    (h : Spares name c c1) : Spares name c (renderOpValue env co ex c1) := by
  unfold renderOpValue
  dsimp only
  refine spares_WriteString _ ?_
  split
  · exact spares_renderList _ h
  · exact spares_renderVal env ex co.vars henv hex h

theorem spares_renderOp {name : String} {c c1 : Ctx} (env : Env) (co : Compiler)
    (ti : DBTableInfo) (ex : Exp) (henv : env.Spares name)
    (hex : ¬ ex.NamesParam co.vars name) (h : Spares name c c1) :
    Spares name c (renderOp env co ti ex c1) := by
  have hcol := spares_renderOpColumn ti ex h
  have hval : ∀ c2 : Ctx, Spares name c c2 → Spares name c (renderOpValue env co ex c2) :=
    fun c2 h2 => spares_renderOpValue env co ex henv hex h2
  unfold renderOp
  generalize renderOpColumn ti ex c1 = c2 at hcol
  cases hop : ex.Op <;> simp only [reduceCtorEq, if_false, if_true]
  case OpNop => exact h
  case OpEqualsTrue =>
    have hne : ex.Val ≠ name := fun hv => hex ⟨hv, Or.inr (Or.inl hop)⟩
    exact spares_WriteString _ (spares_renderParam _ hne (spares_WriteString _ hcol))
  case OpNotEqualsTrue =>
    have hne : ex.Val ≠ name := fun hv => hex ⟨hv, Or.inr (Or.inr (Or.inl hop))⟩
    exact spares_WriteString _ (spares_renderParam _ hne (spares_WriteString _ hcol))
  case OpIsNull =>
    split
    · exact spares_WriteString _ hcol
    · exact spares_WriteString _ hcol
  case OpTsQuery =>
    have hne : ex.Val ≠ name := fun hv => hex ⟨hv, Or.inr (Or.inr (Or.inr hop))⟩
    split
    · exact hcol
    · refine spares_WriteString _ (spares_renderParam _ hne ?_)
      have h3 := spares_colWithTable ti.Name ti.TSVCol.Name (spares_WriteString "((" hcol)
      split
      · exact spares_WriteString _ h3
      · exact spares_WriteString _ h3
  all_goals
    first
      | with_reducible exact hval _ hcol
      | with_reducible exact hval _ (spares_WriteString _ hcol)

theorem spares_hopOpen {name : String} {c c1 : Ctx} (env : Env) (ti : DBTableInfo) (i : Nat)
    (rel : DBRel) (henv : env.Spares name) (h : Spares name c c1) :
    Spares name c (hopOpen env ti i rel c1) := by
  have h0 : Spares name c (if i ≠ 0 then c1.WriteString " AND " else c1) := by
    split
    · exact spares_WriteString _ h
    · exact h
  unfold hopOpen
  dsimp only
  exact spares_run _ (henv.1 _ _ _ _) (spares_WriteString _ (spares_renderJoinTables rel
    (spares_WriteString _ (spares_WriteString _ h0))))

theorem spares_renderExpLoop {name : String} {c : Ctx} (env : Env) (co : Compiler)
    (fuel : Nat) (henv : env.Spares name) (ti : DBTableInfo) (sk : Bool)
    (st : List StackItem) (c1 : Ctx)
    (hst : ∀ e, StackItem.exp e ∈ st → e.All fun e => ¬ e.NamesParam co.vars name)
    (h : Spares name c c1) :
    ∀ r, renderExpLoop env co fuel ti sk st c1 = some r → Spares name c r := by
  intro r hr
  refine renderExpLoop_invariant env co (fun c2 => Spares name c c2) (fun _ => True)
    (fun e => ¬ e.NamesParam co.vars name) ?_ ?_ ?_ fuel ti sk st c1 trivial hst h r hr
  · intro c2 s _ h2
    exact spares_WriteString _ h2
  · intro ti2 ex c2 _ hex h2
    exact spares_renderOp env co ti2 ex henv hex h2
  · intro ti2 ex i rel c2 _ _ h2
    exact ⟨spares_hopOpen env ti2 i rel henv h2, trivial⟩

theorem spares_renderWhere {name : String} {c c1 : Ctx} (env : Env) (co : Compiler)
    (fuel : Nat) (sel : Select) (henv : env.Spares name)
    (hs : sel.NamesNoParam co.vars name) (h : Spares name c c1) :
    ∀ r, renderWhere env co fuel sel c1 = some r → Spares name c r := by
  intro r hr
  unfold renderWhere at hr
  split at hr
  · cases hr
    exact h
  · dsimp only at hr
    obtain ⟨c2, hc2, rfl⟩ := Option.map_eq_some'.1 hr
    refine spares_WriteString _ ?_
    have h0 := spares_run _
      (henv.1 sel.Ti sel.Rel (if sel.Typ = .SelTypeMember then sel.UParentID else sel.ParentID)
        (some sel.ArgMap)) (spares_WriteString " WHERE (" h)
    cases hw : sel.Where with
    | none =>
      rw [hw] at hc2
      cases hc2
      exact h0
    | some ex =>
      rw [hw] at hc2
      dsimp only at hc2
      unfold renderExp at hc2
      refine spares_renderExpLoop env co fuel henv sel.Ti false [.exp ex] _ ?_ ?_ c2 hc2
      · intro e he
        rcases List.mem_cons.mp he with h1 | h1
        · cases h1
          exact hs.2.2 ex hw
        · cases h1
      · split
        · exact spares_WriteString _ h0
        · exact h0

theorem spares_renderBaseSelect {name : String} {c c1 : Ctx} (env : Env) (co : Compiler)
    (fuel : Nat) (sel : Select) (hcur : sel.Paging.Cursor = false) (henv : env.Spares name)
    (hs : sel.NamesNoParam co.vars name) (h : Spares name c c1) :
    ∀ r, renderBaseSelect env co fuel sel c1 = some r → Spares name c r := by
  intro r hr
  unfold renderBaseSelect at hr
  dsimp only at hr
  obtain ⟨c2, hc2, rfl⟩ := Option.map_eq_some'.1 hr
  have hcte : renderCursorCTE sel c1 = c1 := by simp [renderCursorCTE, hcur]
  rw [hcte] at hc2
  have h0 := spares_renderJoinTables sel.Rel (spares_renderFrom sel (spares_run _
    (henv.2.2.1 sel) (spares_renderDistinctOn sel (spares_WriteString "SELECT " h))))
  have h2 : Spares name c c2 := by
    split at hc2
    · exact spares_renderWhere env co fuel sel henv hs h0 c2 hc2
    · cases hc2
      exact h0
  exact spares_renderLimit sel hs.1 hs.2.1 (spares_renderOrderBy sel (spares_renderGroupBy sel h2))

theorem spares_renderSelect {name : String} {c c1 : Ctx} (env : Env) (co : Compiler)
    (fuel : Nat) (sel : Select) (hcur : sel.Paging.Cursor = false) (henv : env.Spares name)
    (hs : sel.NamesNoParam co.vars name) (h : Spares name c c1) :
    ∀ r, renderSelect env co fuel sel c1 = some r → Spares name c r := by
  intro r hr
  unfold renderSelect at hr
  simp only [hcur, Bool.false_eq_true, if_false] at hr
  obtain ⟨c2, hc2, rfl⟩ := Option.map_eq_some'.1 hr
  refine spares_aliasWithID _ _ (spares_WriteString _ ?_)
  refine spares_renderBaseSelect env co fuel sel hcur henv hs ?_ c2 hc2
  refine spares_WriteString _ (spares_run _ (henv.2.1 sel) (spares_WriteString _
    (spares_WriteString _ ?_)))
  split
  · exact spares_WriteString _ (spares_run _ (henv.2.2.2.1 sel) (spares_WriteString _ h))
  · exact spares_WriteString _ (spares_int32String _ (spares_WriteString _ h))

theorem emitsNoCur_of_goes {a b : Bool} {c c1 : Ctx} (h : Goes a b c c1) : EmitsNoCur c c1 :=
  noCur_of_goes h

theorem renderPluralSelect_singular (sel : Select) (c : Ctx) (hs : sel.Singular = true) :
    renderPluralSelect sel c = c := by
  simp [renderPluralSelect, hs]

theorem renderPluralSelect_md (sel : Select) (c : Ctx) :
    (renderPluralSelect sel c).md = c.md := by
  by_cases hs : sel.Singular = true
  · rw [renderPluralSelect_singular sel c hs]
  · by_cases hcur : sel.Paging.Cursor = true
    · rw [renderPluralSelect_cursor sel c hcur (by simpa using hs)]
    · rw [renderPluralSelect_plain sel c (by simpa using hcur) (by simpa using hs)]

theorem renderFrom_md (sel : Select) (c : Ctx) : (renderFrom sel c).md = c.md := by
  rw [renderFrom_eq]

theorem emitsNoCur_renderPluralSelect (sel : Select) (c : Ctx)
    (hcur : sel.Paging.Cursor = false) : EmitsNoCur c (renderPluralSelect sel c) :=
  emitsNoCur_of_goes ((goes_refl true c).then_renderPluralSelect sel hcur)

theorem emitsNoCur_renderFrom (sel : Select) (c : Ctx) (hcur : sel.Paging.Cursor = false)
    (hs : sel.NoCurs) : EmitsNoCur c (renderFrom sel c) :=
  emitsNoCur_of_goes ((goes_refl true c).then_renderFrom sel hcur hs)

theorem emitsNoCur_renderSelect (env : Env) (co : Compiler) (fuel : Nat) (sel : Select)
    (c : Ctx) (hcur : sel.Paging.Cursor = false) (hs : sel.NoCurs) (henv : env.NoCurs)
    (hvars : VarsNoCur env co.vars) :
    ∀ r, renderSelect env co fuel sel c = some r → EmitsNoCur c r := fun r hr =>
  emitsNoCur_of_goes (goes_renderSelect (goes_refl true c) env co fuel sel hcur henv hvars hs r hr)

/-- C13 (amended): a Singular selection has no plural wrapper: `renderPluralSelect` returns
its input. For a cursored selection with `n` order-by entries the plural wrapper of a
selection that is not Singular builds `__cursor` as `CONCAT_WS(','` followed by
`, max(__cur_i)` for `i = 0 .. n-1` in order, and in PostgreSQL `renderSelect` subtracts the
keys `'__cur_i'` from the per-row JSON, hands the columns `__cur_i` upwards and defines
`__cur_i` as `LAST_VALUE` of the i-th order-by column, all for `i = 0 .. n-1` in order. For a
selection without a cursor `renderCursorCTE` returns its input; `renderPluralSelect` and
`renderFrom` write the text shown and hand on the metadata they were given, the wrapper
without `__cur`, the FROM clause without `__cur` when the names of the selection have none;
`renderSelect` returns when the filter has an operand under every `Not` and the fuel covers
it, and whenever it returns, in either dialect, the text it appended has no `__cur` provided
the names, types and filter values of the selection, the variable map and the helper
renderers bring none, and the parameters registered under `cursor` are as before provided
neither the limit variable, the offset variable nor a filter node hands the name `cursor` to
`renderParam` and the helper renderers register none. -/
theorem cursor_isolation (env : Env) (co : Compiler) (fuel : Nat) (sel : Select) (c : Ctx) :
    (sel.Singular = true → renderPluralSelect sel c = c) ∧
    (sel.Paging.Cursor = true →
      (sel.Singular = false →
        renderPluralSelect sel c =
          { w := c.w ++
              ((if c.md.ct = "mysql" then "SELECT coalesce(json_arrayagg(__sj_"
                else "SELECT coalesce(jsonb_agg(__sj_") ++ toString sel.ID ++
                ".json), '[]') as json, CONCAT_WS(','").toList ++
              indexedText sel.OrderBy.length (fun i => ", max(__cur_" ++ toString i ++ ")") ++
              ") as __cursor FROM (".toList,
            md := c.md }) ∧
      (c.md.ct ≠ "mysql" →
        renderSelect env co fuel sel c =
          (renderBaseSelect env co fuel sel (cursorSelectOpen env sel c)).map
            (selectAlias sel))) ∧
    (sel.Paging.Cursor = false →
      renderCursorCTE sel c = c ∧
      (sel.Singular = false →
        renderPluralSelect sel c =
          { w := c.w ++
              ((if c.md.ct = "mysql" then "SELECT coalesce(json_arrayagg(__sj_"
                else "SELECT coalesce(jsonb_agg(__sj_") ++ toString sel.ID ++
                ".json), '[]') as json FROM (").toList,
            md := c.md }) ∧
      renderFrom sel c = { w := c.w ++ " FROM ".toList ++ fromText sel, md := c.md } ∧
      (c.md.ct ≠ "mysql" →
        renderSelect env co fuel sel c =
          (renderBaseSelect env co fuel sel (plainSelectOpen env sel c)).map
            (selectAlias sel)) ∧
      EmitsNoCur c (renderPluralSelect sel c) ∧
      (sel.NoCurs → EmitsNoCur c (renderFrom sel c)) ∧
      ((∀ ex, sel.Where = some ex → ex.All Exp.HasOperand ∧ ex.cost ≤ fuel) →
        ∃ r, renderSelect env co fuel sel c = some r) ∧
      (sel.NoCurs → env.NoCurs → VarsNoCur env co.vars →
        ∀ r, renderSelect env co fuel sel c = some r → EmitsNoCur c r) ∧
      (sel.NamesNoParam co.vars "cursor" → env.Spares "cursor" →
        ∀ r, renderSelect env co fuel sel c = some r → Spares "cursor" c r)) :=
  ⟨renderPluralSelect_singular sel c,
    fun hcur => ⟨renderPluralSelect_cursor sel c hcur, renderSelect_cursor env co fuel sel c hcur⟩,
    fun hcur => ⟨renderCursorCTE_plain sel c hcur, renderPluralSelect_plain sel c hcur,
      renderFrom_plain sel c hcur, renderSelect_plain env co fuel sel c hcur,
      emitsNoCur_renderPluralSelect sel c hcur, emitsNoCur_renderFrom sel c hcur,
      renderSelect_total env co fuel sel c,
      emitsNoCur_renderSelect env co fuel sel c hcur,
      fun hs henv => spares_renderSelect env co fuel sel hcur henv hs (spares_refl _ c)⟩⟩

theorem sampleFiltered_noCurs : sampleFiltered.NoCurs := by
  refine ⟨by unfold NoCur; decide, ⟨by unfold NoCur; decide, by unfold NoCur; decide,
    by unfold NoCur; decide, by unfold NoCur; decide, by unfold NoCur; decide,
    by unfold NoCur; decide, by unfold NoCur; decide, by unfold NoCur; decide⟩,
    by unfold NoCur; decide, by unfold NoCur; decide, by unfold NoCur; decide, ?_, ?_, ?_, ?_,
    ?_⟩
  · intro col hcol
    simp only [sampleFiltered, sampleSel, sampleTi, List.mem_singleton] at hcol
    subst hcol
    exact ⟨by unfold NoCur; decide, by unfold NoCur; decide⟩
  · intro col hcol
    simp only [sampleFiltered, sampleSel, List.mem_singleton] at hcol
    subst hcol
    unfold NoCur
    decide
  · intro ob hob
    simp [sampleFiltered, sampleSel] at hob
  · intro col hcol
    simp [sampleFiltered, sampleSel] at hcol
  · intro ex hex
    simp only [sampleFiltered, Option.some.injEq] at hex
    subst hex
    refine ⟨⟨by unfold NoCur; decide, by unfold NoCur; decide, by unfold NoCur; decide,
      by unfold NoCur; decide, ?_, ?_⟩, trivial⟩
    · intro v hv
      simp [Exp.ListVal] at hv
    · intro rel hrel
      simp [Exp.Rels] at hrel

theorem sampleRelEnv_noCurs : sampleRelEnv.NoCurs := by
  refine ⟨?_, ?_, ?_, ?_⟩
  · intro ti rel id args md
    simp only [sampleRelEnv]
    split <;> (unfold NoCur; dsimp only; decide)
  all_goals
    intro sel md
    unfold NoCur
    dsimp only [sampleRelEnv, sampleEnv]
    decide

theorem sampleRelEnv_spares (name : String) : sampleRelEnv.Spares name := by
  refine ⟨?_, fun _ _ => rfl, fun _ _ => rfl, fun _ _ => rfl, fun _ _ => rfl⟩
  intro ti rel id args md
  simp only [sampleRelEnv]
  split <;> rfl

theorem sampleFiltered_namesNoParam : sampleFiltered.NamesNoParam [] "cursor" := by
  refine ⟨by decide, by decide, ?_⟩
  intro ex hex
  simp only [sampleFiltered, Option.some.injEq] at hex
  subst hex
  refine ⟨?_, trivial⟩
  intro h
  exact absurd h.1 (by decide)

theorem sampleFiltered_renders :
    ∀ ex, sampleFiltered.Where = some ex → ex.All Exp.HasOperand ∧ ex.cost ≤ 10 := by
  intro ex hex
  simp only [sampleFiltered, Option.some.injEq] at hex
  subst hex
  refine ⟨⟨?_, trivial⟩, by decide⟩
  intro h
  exact absurd h (by decide)

set_option maxRecDepth 100000 in
/-- C13 (amended) at the cursored selection `users` ordered by `id`, in PostgreSQL: the
wrapper reads `... as json, CONCAT_WS(',', max(__cur_0)) as __cursor FROM (`, and there is
none when the selection is Singular; without the cursor the cursor CTE writes nothing, and
for `users` filtered by `id = '5'` `renderSelect` returns a text without `__cur` and
registers no parameter `cursor`. -/
theorem cursor_isolation_witness :
    String.mk (renderPluralSelect sampleCursored sampleCtx).w =
        "SELECT coalesce(jsonb_agg(__sj_0.json), '[]') as json, " ++
          "CONCAT_WS(',', max(__cur_0)) as __cursor FROM (" ∧
      renderSelect sampleEnv ⟨[]⟩ 10 sampleCursored sampleCtx =
        (renderBaseSelect sampleEnv ⟨[]⟩ 10 sampleCursored
          (cursorSelectOpen sampleEnv sampleCursored sampleCtx)).map
          (selectAlias sampleCursored) ∧
      (renderSelect sampleEnv ⟨[]⟩ 10 sampleCursored sampleCtx).map (fun c => String.mk c.w) =
        some ("SELECT to_jsonb(__sr_0.*) - '__cur_0' AS json , __cur_0 FROM (SELECT id, " ++
          "LAST_VALUE(users_0.id) OVER() AS __cur_0 FROM (WITH __cur AS (SELECT a[1] :: int " ++
          "as \"id\" FROM string_to_array($1, ',') as a) SELECT id FROM \"users\", __cur " ++
          "ORDER BY users.id ASC LIMIT 20) AS users_0") ∧
      renderCursorCTE sampleSel sampleCtx = sampleCtx ∧
      renderPluralSelect sampleSingularCursored sampleCtx = sampleCtx ∧
      (renderSelect sampleRelEnv ⟨[]⟩ 10 sampleFiltered sampleCtx).map (fun c => String.mk c.w) =
        some ("SELECT to_jsonb(__sr_0.*) AS json FROM (SELECT id FROM (SELECT id FROM " ++
          "\"users\" WHERE (((users.id) = '5' :: int)) LIMIT 20) AS users_0") ∧
      ∃ r, renderSelect sampleRelEnv ⟨[]⟩ 10 sampleFiltered sampleCtx = some r ∧
        EmitsNoCur sampleCtx r ∧ Spares "cursor" sampleCtx r :=
  ⟨by decide,
    ((cursor_isolation sampleEnv ⟨[]⟩ 10 sampleCursored sampleCtx).2.1 rfl).2 (by decide),
    by decide,
    ((cursor_isolation sampleEnv ⟨[]⟩ 10 sampleSel sampleCtx).2.2 rfl).1,
    (cursor_isolation sampleEnv ⟨[]⟩ 10 sampleSingularCursored sampleCtx).1 rfl,
    by decide,
    (((cursor_isolation sampleRelEnv ⟨[]⟩ 10 sampleFiltered sampleCtx).2.2
      rfl).2.2.2.2.2.2.1 sampleFiltered_renders).elim fun r hr =>
      ⟨r, hr,
        ((cursor_isolation sampleRelEnv ⟨[]⟩ 10 sampleFiltered sampleCtx).2.2
          rfl).2.2.2.2.2.2.2.1 sampleFiltered_noCurs sampleRelEnv_noCurs
          (fun _ _ h => by simp at h) r hr,
        ((cursor_isolation sampleRelEnv ⟨[]⟩ 10 sampleFiltered sampleCtx).2.2
          rfl).2.2.2.2.2.2.2.2 sampleFiltered_namesNoParam (sampleRelEnv_spares "cursor")
          r hr⟩⟩

set_option maxRecDepth 100000 in
/-- C13 as stated fails in three ways. A cursored selection that is Singular gets no outer
aggregate, so nothing builds `__cursor`, although the root entry of `CompileQuery` still
reads `__sj_0.__cursor`. A selection without a cursor whose filter is `id > $cursor` makes
`renderSelect` register a parameter called `cursor`. A selection without a cursor whose
filter is `id = '__cur_0'` makes `renderSelect` write text that contains `__cur`. -/
theorem cursor_not_isolated :
    (sampleSingularCursored.Paging.Cursor = true ∧
      renderPluralSelect sampleSingularCursored sampleCtx = sampleCtx ∧
      (CompileQuery sampleRelEnv ⟨[]⟩ 7 sampleSingularCursoredQCode emptyCtx).map
          (fun c => String.mk c.w) =
        some ("SELECT jsonb_build_object('users', __sj_0.json, 'users_cursor', " ++
          "__sj_0.__cursor) AS __root FROM (VALUES(true)) AS __root_x LEFT OUTER JOIN " ++
          "LATERAL (SELECT to_jsonb(__sr_0.*) - '__cur_0' AS json , __cur_0 FROM (SELECT id, " ++
          "LAST_VALUE(users_0.id) OVER() AS __cur_0 FROM (WITH __cur AS (SELECT a[1] :: int " ++
          "as \"id\" FROM string_to_array($1, ',') as a) SELECT id FROM \"users\", __cur " ++
          "ORDER BY users.id ASC LIMIT 1) AS users_0) AS __sr_0) AS __sj_0 ON true")) ∧
    (sampleCursorFiltered.Paging.Cursor = false ∧
      ∃ r, renderSelect sampleRelEnv ⟨[]⟩ 10 sampleCursorFiltered sampleCtx = some r ∧
        String.mk r.w =
          "SELECT to_jsonb(__sr_0.*) AS json FROM (SELECT id FROM (SELECT id FROM " ++
            "\"users\" WHERE (((users.id) > $1 :: int)) LIMIT 20) AS users_0" ∧
        r.md.params = [{ Name := "cursor", Typ := "int", IsArray := false }] ∧
        ¬ Spares "cursor" sampleCtx r) ∧
    (sampleCurValued.Paging.Cursor = false ∧
      ∃ r, renderSelect sampleRelEnv ⟨[]⟩ 10 sampleCurValued sampleCtx = some r ∧
        String.mk r.w =
          "SELECT to_jsonb(__sr_0.*) AS json FROM (SELECT id FROM (SELECT id FROM " ++
            "\"users\" WHERE (((users.id) = '__cur_0' :: int)) LIMIT 20) AS users_0" ∧
        ¬ EmitsNoCur sampleCtx r) := by
  refine ⟨⟨rfl, by decide, by decide⟩, ⟨rfl, ?_⟩, ⟨rfl, ?_⟩⟩
  · refine ⟨⟨("SELECT to_jsonb(__sr_0.*) AS json FROM (SELECT id FROM (SELECT id FROM " ++
        "\"users\" WHERE (((users.id) > $1 :: int)) LIMIT 20) AS users_0").toList,
      { ct := "postgres", poll := false,
        params := [{ Name := "cursor", Typ := "int", IsArray := false }],
        pindex := [("cursor", 1)] }⟩, by decide, by decide, rfl, ?_⟩
    unfold Spares
    decide
  · refine ⟨⟨("SELECT to_jsonb(__sr_0.*) AS json FROM (SELECT id FROM (SELECT id FROM " ++
        "\"users\" WHERE (((users.id) = '__cur_0' :: int)) LIMIT 20) AS users_0").toList,
      sampleCtx.md⟩, by decide, by decide, ?_⟩
    rintro ⟨t, ht, hn⟩
    have ht2 : t = ("SELECT to_jsonb(__sr_0.*) AS json FROM (SELECT id FROM (SELECT id FROM " ++
        "\"users\" WHERE (((users.id) = '__cur_0' :: int)) LIMIT 20) AS users_0").toList := by
      simpa [sampleCtx] using ht.symm
    subst ht2
    exact hn (by decide)

/-- For a Recursive selection `renderBaseSelect` does not call `renderWhere`: whatever
`Where.Exp` holds, it returns the text up to the join tables followed by GROUP BY, ORDER BY
and LIMIT. -/
theorem renderBaseSelect_recursive (env : Env) (co : Compiler) (fuel : Nat) (sel : Select)
    (c : Ctx) (hr : sel.Rel.Typ = .RelRecursive) :
    renderBaseSelect env co fuel sel c =
      some (renderLimit sel (renderOrderBy sel (renderGroupBy sel (beforeWhere env sel c)))) := by
  unfold renderBaseSelect beforeWhere
  simp [hr]

end GraphJin
